import Mathlib

/-!
# docopts: the docopt-language parser (`parser/docopt_language.go`, `parser/docopt_ast.go`)

A shallow embedding of the recursive-descent parser that turns a docopt token
stream into a syntax tree, and theorems about it.

* Go pointers to AST nodes are indices into an arena (`Heap`); `nil` is `none`.
* The parser is a state transformer over `DocoptParser`; a Go runtime panic
  (nil dereference, slice index out of range) is the result `Res.panic`, and a
  loop that has not finished within the given number of iterations is
  `Res.timeout`.  Both carry the state reached at that point.
* The tokenizer is an external collaborator: the parser is parametric in a
  `StateLexer` interface; `listLexer` is one concrete tokenizer over a list
  of tokens.
-/

namespace DocoptLanguage

/-! ## Tokens -/

/-- Terminal symbol kinds.  In the source they are runes looked up by name in
the tokenizer's symbol table at `ParserInit` (`NEWLINE = p.all_symbols["NEWLINE"]`,
and so on) plus the constant `lexer.EOF`; the table maps distinct names to
distinct runes, which is what an enumeration expresses.  `other` stands for
every lexer-state-specific kind the parser does not name. -/
inductive TokKind where
  | EOF
  | NEWLINE
  | SECTION
  | PROG_NAME
  | USAGE
  | SHORT
  | LONG
  | ARGUMENT
  | PUNCT
  | IDENT
  | LONG_BLANK
  | BLANK
  | DEFAULT
  | other (n : Nat)
  deriving DecidableEq, Repr

/-- A `lexer.Token`: its kind (`Type` in the source), its literal text and its position
in the input, which is what tells two tokens with the same text apart.  The name of the
lexer state that produced it is only ever printed in error messages and is left out. -/
structure Token where
  Typ : TokKind
  Value : String
  Pos : Nat
  deriving DecidableEq, Repr

/-! ## AST (`docopt_ast.go`) -/

/-- The node kinds (`DocoptNodeType`) used by the parser. -/
inductive DocoptNodeType where
  | Unmatched_node
  | NONE_node
  | Root
  | Prologue
  | Prologue_node
  | Usage_section
  | Usage
  | Usage_line
  | Prog_name
  | Usage_short_option
  | Usage_long_option
  | Usage_argument
  | Usage_punct
  | Usage_indent
  | Usage_optional_group
  | Usage_required_group
  | Group_alternative
  | Usage_Expr
  | Usage_command
  | Usage_unmatched_punct
  | Free_section
  | Section_name
  | Section_node
  | Options_section
  | Options_node
  | Option_line
  | Option_short
  | Option_long
  | Option_argument
  | Option_alternative_group
  | Option_description
  | Description_node
  deriving DecidableEq, Repr

/-- One AST node (`DocoptAst`).  `Children` and `Parent` are pointers, here
indices into the arena; `Repeat` is the ellipsis flag. -/
structure DocoptAst where
  Typ : DocoptNodeType
  Token : Option Token
  Children : List Nat
  Parent : Option Nat
  Repeat : Bool
  deriving DecidableEq, Repr

/-- The arena holding every allocated node; a node pointer is its index. -/
abbrev Heap := List DocoptAst

/-- Overwrite node `i` with `f` applied to it (nothing happens when `i` is not allocated). -/
def Heap.update (h : Heap) (i : Nat) (f : DocoptAst → DocoptAst) : Heap :=
  match h[i]? with
  | some n => h.set i (f n)
  | none => h

/-- Translation of `func (n *DocoptAst) AddNode(node_type, t) *DocoptAst`: allocate a
childless node whose parent is `n`, append it to the children of `n`, return it. -/
def AddNode (h : Heap) (n : Nat) (node_type : DocoptNodeType) (t : Option Token) : Heap × Nat :=
  let new_node : DocoptAst :=
    { Typ := node_type, Token := t, Children := [], Parent := some n, Repeat := false }
  let h1 := h ++ [new_node]
  (h1.update n (fun x => { x with Children := x.Children ++ [h.length] }), h.length)

/-- Set the parent pointer of every node listed in `cs` to `g`, left to right
(the loop `for _, c := range group.Children { c.Parent = group }`). -/
def setParents (h : Heap) (cs : List Nat) (g : Nat) : Heap :=
  cs.foldl (fun acc c => acc.update c (fun x => { x with Parent := some g })) h

/-- Modelled from the spec: `Replace_children_with_group` is called by the parser but its
body is not part of the available sources.  The specification describes it as: detach the
existing children of `node` (preserving order), create a new interior node of `groupKind`
as the sole new child of `node`, re-attach the detached children under that interior node,
and fix their parent back-references.  The new node carries no token. -/
def Replace_children_with_group (h : Heap) (n : Nat) (node_type : DocoptNodeType) : Heap × Nat :=
  match h[n]? with
  | none => (h, h.length)
  | some node =>
    let new_node : DocoptAst :=
      { Typ := node_type, Token := none, Children := node.Children, Parent := some n,
        Repeat := false }
    let h1 := h ++ [new_node]
    let h2 := setParents h1 node.Children h.length
    (h2.update n (fun x => { x with Children := [h.length] }), h.length)

/-! ## Errors and leaving reasons -/

/-- The error values built by the parser, one constructor per `fmt.Errorf` site; a
constructor carries the node kind its message formats (`p.current_node.Type`).
`lexical` wraps an error returned by the tokenizer. -/
inductive Err where
  | lexical (msg : String)
  | try_get_already_too_many
  | try_get_too_many
  | loop_parser_stoped (t : DocoptNodeType)
  | prologue_EOF
  | prologue_parser_stoped (t : DocoptNodeType)
  | usage_line_wrong_node (t : DocoptNodeType)
  | usage_line_PROG_NAME_distinct (prog_name : String) (tok : Token)
  | usage_line_USAGE (tok : Token)
  | usage_line_parser_stoped (t : DocoptNodeType)
  | usage_expr_current_node (t : DocoptNodeType)
  | usage_expr_unmatched_PUNC (tok : Token)
  | usage_expr_unmatched_token (tok : Token)
  | ellipsis_no_children (t : DocoptNodeType)
  | group_missing_closing (t : DocoptNodeType) (k : TokKind)
  | group_USAGE (t : DocoptNodeType)
  | group_two_NEWLINE (t : DocoptNodeType)
  | group_closing_bracket (t : DocoptNodeType)
  | group_closing_parenthese (t : DocoptNodeType)
  | group_parser_stoped (t : DocoptNodeType)
  | first_usage_no_PROG_NAME (tok : Token)
  | first_usage_expecting_PROG_NAME (k : TokKind)
  | first_usage_parser_stoped (t : DocoptNodeType)
  | free_section_usage (t : DocoptNodeType)
  | free_section_parser_stoped (t : DocoptNodeType)
  | options_parser_stoped (t : DocoptNodeType)
  | assign_not_ARGUMENT (t : DocoptNodeType)
  | assign_no_child
  | assign_wrong_node (t : DocoptNodeType)
  | alternative_no_name (t : DocoptNodeType)
  | alternative_unexpected (t : DocoptNodeType) (k : TokKind)
  | alternative_PUNC (t : DocoptNodeType)
  | alternative_parser_stoped (t : DocoptNodeType)
  | option_line_empty (t : DocoptNodeType) (k : TokKind)
  | option_line_PUNC (t : DocoptNodeType)
  | option_line_invalid (t : DocoptNodeType)
  | option_line_parser_stoped (t : DocoptNodeType)
  | description_parser_stoped (t : DocoptNodeType)
  deriving DecidableEq, Repr

/-- Translation of `type Reason struct { Value Reason_Value; Leaving bool }`. -/
structure Reason where
  Value : Int
  Leaving : Bool
  deriving DecidableEq, Repr

/-- `Reason_Error Reason_Value = -1`. -/
def Reason_Error : Int := -1
/-- `Reason_TWO_NEWLINE = 1 + iota`, the second constant of its block. -/
def Reason_TWO_NEWLINE : Int := 2
/-- Third constant of the block. -/
def Reason_PROG_NAME_sequence : Int := 3
/-- Fourth constant of the block. -/
def Reason_EOF_reached : Int := 4
/-- Fifth constant of the block. -/
def Reason_Continue : Int := 5

/-- `Error = Reason{Reason_Error, true}`. -/
def Reason.Error : Reason := ⟨Reason_Error, true⟩
/-- `TWO_NEWLINE = Reason{Reason_TWO_NEWLINE, true}`. -/
def Reason.TWO_NEWLINE : Reason := ⟨Reason_TWO_NEWLINE, true⟩
/-- `PROG_NAME_sequence = Reason{Reason_EOF_reached, true}` (as written in the source). -/
def Reason.PROG_NAME_sequence : Reason := ⟨Reason_EOF_reached, true⟩
/-- `EOF_reached = Reason{Reason_PROG_NAME_sequence, true}` (as written in the source). -/
def Reason.EOF_reached : Reason := ⟨Reason_PROG_NAME_sequence, true⟩
/-- `Continue = Reason{Reason_Continue, false}`. -/
def Reason.Continue : Reason := ⟨Reason_Continue, false⟩
/-- The zero value of `Reason`, what `var reason Reason` holds before any assignment. -/
def Reason.zero : Reason := ⟨0, false⟩

/-! ## The tokenizer interface and the parser state -/

/-- The operations the parser calls on the stateful tokenizer (`lexer_state.StateLexer`),
over an arbitrary tokenizer state `σ`. -/
structure StateLexer (σ : Type) where
  Next : σ → Except String Token × σ
  Discard : Nat → σ → σ
  Reject : Token → σ → σ
  ChangeState : String → σ → σ
  DynamicRuleUpdate : String → String → σ → σ
  State_name : σ → String

/-- The parser (`DocoptParser`).  `tokens` is the history list (its back is the last
element); `heap` is the arena `ast`, `current_node` and `options_node` point into.  The
two symbol maps are replaced by the enumeration `TokKind`. -/
structure DocoptParser (σ : Type) where
  s : σ
  Prog_name : String
  current_token : Option Token
  next_token : Option Token
  tokens : List (Option Token)
  Error_count : Nat
  max_error : Nat
  Errors : List Err
  heap : Heap
  ast : Option Nat
  current_node : Option Nat
  options_node : Option Nat
  lexer_state_changed : Bool
  run : Bool
  deriving DecidableEq

/-- Translation of the struct literal of `ParserInit`, over the initial tokenizer state. -/
def ParserInit {σ : Type} (states : σ) : DocoptParser σ :=
  { s := states, Prog_name := "", current_token := none, next_token := none, tokens := [],
    Error_count := 0, max_error := 10, Errors := [], heap := [], ast := none,
    current_node := none, options_node := none, lexer_state_changed := false, run := true }

/-- Result of running a parser routine. -/
inductive Res (σ α : Type) where
  | ok (a : α) (p : DocoptParser σ)
  | panic (p : DocoptParser σ)
  | timeout (p : DocoptParser σ)
  deriving DecidableEq

/-- A parser routine returning an `α`. -/
def M (σ α : Type) : Type := DocoptParser σ → Res σ α

instance (σ : Type) : Monad (M σ) where
  pure a := fun p => Res.ok a p
  bind m f := fun p =>
    match m p with
    | Res.ok a p1 => f a p1
    | Res.panic p1 => Res.panic p1
    | Res.timeout p1 => Res.timeout p1

section Routines
variable {σ : Type}

/-- Read the parser state. -/
def getP : M σ (DocoptParser σ) := fun p => Res.ok p p
/-- Replace the parser state by `f` of it. -/
def modifyP (f : DocoptParser σ → DocoptParser σ) : M σ Unit := fun p => Res.ok () (f p)
/-- A Go runtime panic. -/
def panicM {α : Type} : M σ α := fun p => Res.panic p
/-- The iteration budget is used up. -/
def timeoutM {α : Type} : M σ α := fun p => Res.timeout p

/-- Dereference a pointer that may be nil. -/
def deref {α : Type} : Option α → M σ α
  | some a => pure a
  | none => panicM

/-- Read the node a pointer designates. -/
def readNode (n : Option Nat) : M σ DocoptAst := do
  let i ← deref n
  let p ← getP
  deref p.heap[i]?

/-- The call `n.AddNode(node_type, t)` on the arena of the parser. -/
def addNode (n : Option Nat) (node_type : DocoptNodeType) (t : Option Token) : M σ Nat := do
  let _ ← readNode n
  let i ← deref n
  let p ← getP
  let r := AddNode p.heap i node_type t
  modifyP (fun q => { q with heap := r.1 })
  pure r.2

/-- Assign `p.current_node`. -/
def setCurrentNode (n : Option Nat) : M σ Unit :=
  modifyP (fun q => { q with current_node := n })

/-- An `if c { ... }` statement without `else`. -/
def whenM (c : Prop) [Decidable c] (m : M σ Unit) : M σ Unit :=
  if c then m else pure ()

/-! ## Token cursor -/

/-- The destination of `try_get_NextToken` (`&p.current_token` or `&p.next_token`). -/
inductive Slot where
  | current
  | next
  deriving DecidableEq, Repr

/-- Store a token through the destination pointer. -/
def DocoptParser.store (p : DocoptParser σ) (slot : Slot) (t : Token) : DocoptParser σ :=
  match slot with
  | Slot.current => { p with current_token := some t }
  | Slot.next => { p with next_token := some t }

/-- Translation of `AddError` on the state: append to `Errors`, count it. -/
def DocoptParser.AddError (p : DocoptParser σ) (e : Err) : DocoptParser σ :=
  { p with Errors := p.Errors ++ [e], Error_count := p.Error_count + 1 }

/-- Translation of `AddError`: record the error and return it. -/
def AddError (e : Err) : M σ Err := fun p => Res.ok e (p.AddError e)

/-- Translation of `FatalError`: after printing the collected errors, `p.run = false`. -/
def FatalError : M σ Unit := modifyP (fun q => { q with run := false })

/-- Body of `try_get_NextToken`.  The first argument bounds the recursion; the routine
calls itself only after `Error_count` grew while still below `max_error`, so
`max_error - Error_count` calls are enough and the bound is never what stops it. -/
def try_get_NextToken_aux (L : StateLexer σ) (slot : Slot) :
    Nat → DocoptParser σ → Option Err × DocoptParser σ
  | 0, p => (some Err.try_get_already_too_many, p)
  | k + 1, p =>
    if p.Error_count ≥ p.max_error then
      (some Err.try_get_already_too_many, p)
    else
      match L.Next p.s with
      | (Except.ok t, s1) => (none, ({ p with s := s1 }).store slot t)
      | (Except.error e, s1) =>
        let p1 := ({ p with s := s1 }).AddError (Err.lexical e)
        if p1.Error_count ≥ p1.max_error then
          (some Err.try_get_too_many, p1)
        else
          try_get_NextToken_aux L slot k { p1 with s := L.Discard 1 p1.s }

/-- Translation of `try_get_NextToken`. -/
def try_get_NextToken (L : StateLexer σ) (slot : Slot) : M σ (Option Err) := fun p =>
  let r := try_get_NextToken_aux L slot (p.max_error - p.Error_count) p
  Res.ok r.1 r.2

/-- The call `p.tokens.Remove(p.tokens.Back())`; on an empty list `Back()` is nil and
`Remove` dereferences it. -/
def removeBack : M σ Unit := do
  let p ← getP
  if p.tokens.isEmpty then panicM
  else modifyP (fun q => { q with tokens := q.tokens.dropLast })

/-- First statement of `NextToken`:
`if p.next_token != nil && p.lexer_state_changed { ... }`. -/
def NextToken_relex (L : StateLexer σ) : M σ Unit := do
  let p ← getP
  if p.next_token ≠ none ∧ p.lexer_state_changed = true then do
    let nt ← deref p.next_token
    modifyP (fun q =>
      { q with s := L.Reject nt q.s, lexer_state_changed := false, next_token := none })
    removeBack
  else pure ()

/-- Second statement of `NextToken`:
`if p.next_token != nil { p.current_token = p.next_token } else { try_get_NextToken }`. -/
def NextToken_current (L : StateLexer σ) : M σ Unit := do
  let p ← getP
  if p.next_token ≠ none then
    modifyP (fun q => { q with current_token := q.next_token })
  else do
    let _ ← try_get_NextToken L Slot.current
    pure ()

/-- Translation of `NextToken`. -/
def NextToken (L : StateLexer σ) : M σ Unit := do
  NextToken_relex L
  NextToken_current L
  let _ ← try_get_NextToken L Slot.next
  let p ← getP
  whenM (p.Error_count ≥ p.max_error) FatalError
  modifyP (fun q => { q with tokens := q.tokens ++ [q.current_token] })

/-- Translation of `reject_current_token`; the tokenizer's `Reject` reads the token it is
given, so a nil `current_token` is a nil dereference. -/
def reject_current_token (L : StateLexer σ) : M σ Unit := do
  let p ← getP
  let t ← deref p.current_token
  modifyP (fun q => { q with s := L.Reject t q.s, next_token := none, current_token := none })
  removeBack

/-- Translation of `Change_lexer_state` (its callers drop the error of `ChangeState`). -/
def Change_lexer_state (L : StateLexer σ) (new_state : String) : M σ Unit :=
  modifyP (fun q => { q with lexer_state_changed := true, s := L.ChangeState new_state q.s })

/-- The `&DocoptAst{Type: node_type, Token: token}` of `CreateNode`: a node without
parent. -/
def rootNode (node_type : DocoptNodeType) (token : Option Token) : DocoptAst :=
  { Typ := node_type, Token := token, Children := [], Parent := none, Repeat := false }

/-- First statement of `CreateNode`: allocate the node, under `p.current_node` when there
is one, and make it the current node. -/
def CreateNode_alloc (node_type : DocoptNodeType) (token : Option Token) : M σ Unit := do
  let p ← getP
  if p.current_node = none then
    modifyP (fun q =>
      { q with heap := q.heap ++ [rootNode node_type token], current_node := some q.heap.length })
  else do
    let n ← addNode p.current_node node_type token
    setCurrentNode (some n)

/-- Translation of `CreateNode`. -/
def CreateNode (node_type : DocoptNodeType) (token : Option Token) : M σ Unit := do
  CreateNode_alloc node_type token
  let p ← getP
  whenM (p.ast = none) (modifyP (fun q => { q with ast := q.current_node }))

/-! ## Loops -/

/-- What one iteration of a `for p.run { ... }` loop does next: go on to the following
iteration with the loop's local variables `c`, or leave the loop (`break` or `return`)
with `b`. -/
inductive Ctl (γ β : Type) where
  | next (c : γ)
  | brk (b : β)

/-- The loop `for p.run { body }`, run for at most the given number of iterations with
local variables starting at `c`; `none` means the loop ended because `p.run` is false. -/
def forRun {γ β : Type} (body : γ → M σ (Ctl γ β)) : Nat → γ → M σ (Option β)
  | 0, _ => fun p => if p.run then Res.timeout p else Res.ok none p
  | k + 1, c => fun p =>
    if p.run then
      match body c p with
      | Res.ok (Ctl.next c1) p1 => forRun body k c1 p1
      | Res.ok (Ctl.brk b) p1 => Res.ok (some b) p1
      | Res.panic p1 => Res.panic p1
      | Res.timeout p1 => Res.timeout p1
    else Res.ok none p

/-- Translation of `Consumer_Definition`. -/
structure Consumer_Definition (σ : Type) where
  create_node : Bool
  toplevel : Option Nat
  toplevel_node : DocoptNodeType
  save_current_node : Bool
  reject_first_token : Bool
  consume_token : M σ (Reason × Option Err)

/-- One iteration of the loop of `Consume_loop`. -/
def Consume_loop_body (L : StateLexer σ) (c : Consumer_Definition σ) :
    M σ (Ctl Unit (Reason × Option Err)) := do
  NextToken L
  let r ← c.consume_token
  if r.2 ≠ none ∨ r.1.Leaving = true then pure (Ctl.brk r)
  else pure (Ctl.next ())

/-- The end of `Consume_loop`, after its loop: `r` holds the `reason` and `err` the loop
left with.  When the loop ended because `p.run` is false (`r = none`) the routine takes
its last branch, so the values of `reason` and `err` are only returned after a `break`. -/
def Consume_loop_finish (c : Consumer_Definition σ) (saved_current_node : Option Nat)
    (r : Option (Reason × Option Err)) : M σ (Reason × Option Err) := do
  let p ← getP
  if p.run = true then do
    whenM (c.save_current_node = true) (setCurrentNode saved_current_node)
    pure (r.getD (Reason.zero, none))
  else do
    let n ← readNode p.current_node
    pure (Reason.Error, some (Err.loop_parser_stoped n.Typ))

/-- Translation of `Consume_loop`.  (The write to `c.toplevel` is never read and is not
kept.) -/
def Consume_loop (L : StateLexer σ) (c : Consumer_Definition σ) (fuel : Nat) :
    M σ (Reason × Option Err) := do
  whenM (c.create_node = true) (do
    let p ← getP
    let _ ← addNode p.current_node c.toplevel_node none
    pure ())
  let p ← getP
  let saved_current_node : Option Nat := if c.save_current_node then p.current_node else none
  whenM (c.reject_first_token = true) (reject_current_token L)
  let r ← forRun (fun (_ : Unit) => Consume_loop_body L c) fuel ()
  Consume_loop_finish c saved_current_node r

/-! ## Usage grammar -/

/-- Translation of `ensure_node`. -/
def ensure_node (node_type : DocoptNodeType) : M σ Unit := do
  let p ← getP
  let n ← readNode p.current_node
  if n.Typ ≠ node_type then do
    let i ← addNode p.current_node node_type none
    setCurrentNode (some i)
  else pure ()

/-- Translation of `has_reach_EOF`: the result is the returned boolean and the value of
`*reason` afterwards. -/
def has_reach_EOF (reason : Reason) : M σ (Bool × Reason) := do
  let p ← getP
  let t ← deref p.current_token
  if t.Typ = TokKind.EOF then pure (true, Reason.EOF_reached) else pure (false, reason)

/-- Translation of `has_reach_two_NEWLINE`. -/
def has_reach_two_NEWLINE (L : StateLexer σ) (reason : Reason) (consume_newline : Bool) :
    M σ (Bool × Reason) := do
  let p ← getP
  let t ← deref p.current_token
  if t.Typ = TokKind.NEWLINE then do
    let nt ← deref p.next_token
    if nt.Typ = TokKind.NEWLINE then do
      whenM (consume_newline = true) (NextToken L)
      pure (true, Reason.TWO_NEWLINE)
    else pure (false, reason)
  else pure (false, reason)

/-- The token stored `k` elements before the back of the history list (`k = 1` is
`t.Prev()`, `k = 2` is `t.Prev().Prev()`); the stored pointer may be nil. -/
def DocoptParser.history (p : DocoptParser σ) (k : Nat) : Option Token :=
  (p.tokens.reverse[k]?).join

/-- Translation of `has_reach_PROG_NAME`. -/
def has_reach_PROG_NAME (reason : Reason) : M σ (Bool × Reason) := do
  let p ← getP
  if p.current_token ≠ none then do
    let t ← deref p.current_token
    if t.Typ = TokKind.PROG_NAME ∧ t.Value = p.Prog_name then
      if p.tokens.length > 3 then do
        let ta ← deref (p.history 2)
        if ta.Typ = TokKind.NEWLINE then do
          let tb ← deref (p.history 1)
          if tb.Typ = TokKind.LONG_BLANK then pure (true, Reason.PROG_NAME_sequence)
          else pure (false, reason)
        else pure (false, reason)
      else pure (false, reason)
    else pure (false, reason)
  else pure (false, reason)

/-- Translation of `Consume_ellipsis`. -/
def Consume_ellipsis : M σ (Option Err) := do
  let p ← getP
  let n ← readNode p.current_node
  if n.Children.length > 0 then do
    let last ← deref n.Children.getLast?
    modifyP (fun q => { q with heap := q.heap.update last (fun x => { x with Repeat := true }) })
    pure none
  else pure (some (Err.ellipsis_no_children n.Typ))

/-- Translation of `Consume_assign`. -/
def Consume_assign (argument : Option Token) : M σ (Option Err) := do
  let arg ← deref argument
  let p ← getP
  if arg.Typ ≠ TokKind.ARGUMENT then do
    let n ← readNode p.current_node
    pure (some (Err.assign_not_ARGUMENT n.Typ))
  else do
    let n ← readNode p.current_node
    if n.Children.length = 0 then pure (some Err.assign_no_child)
    else do
      let prev_child ← deref n.Children.getLast?
      let pc ← readNode (some prev_child)
      if pc.Typ = DocoptNodeType.Usage_long_option then do
        let _ ← addNode (some prev_child) DocoptNodeType.Usage_argument argument
        pure none
      else if pc.Typ = DocoptNodeType.Option_long ∨ pc.Typ = DocoptNodeType.Option_short then do
        let _ ← addNode (some prev_child) DocoptNodeType.Option_argument argument
        pure none
      else pure (some (Err.assign_wrong_node pc.Typ))

/-- The call `p.current_node.AddNode(n, p.current_token)`. -/
def addLeaf (n : DocoptNodeType) : M σ Unit := do
  let p ← getP
  let _ ← addNode p.current_node n p.current_token
  pure ()

/-- The call `p.current_node.AddNode(n, p.current_token)` that ends an iteration of a
loop. -/
def addLeafNext {β : Type} (n : DocoptNodeType) : M σ (Ctl Unit β) := do
  addLeaf n
  pure (Ctl.next ())

/-- A call whose error, when there is one, ends the loop (`if err = ...; err != nil
{ break }` followed by `continue`). -/
def breakOnError (m : M σ (Option Err)) : M σ (Ctl Unit (Option Err)) := do
  let e ← m
  if e ≠ none then pure (Ctl.brk e) else pure (Ctl.next ())

/-- The `|` case of `Consume_group`. -/
def Consume_group_alternative : M σ Unit := do
  let p ← getP
  let n ← readNode p.current_node
  if n.Typ ≠ DocoptNodeType.Group_alternative then do
    let i ← deref p.current_node
    modifyP (fun q =>
      { q with heap := (Replace_children_with_group q.heap i DocoptNodeType.Group_alternative).1,
               current_node :=
                 some (Replace_children_with_group q.heap i DocoptNodeType.Group_alternative).2 })
  else pure ()

/-- The `]` and `)` cases of `Consume_group`, `group_type` being the kind the bracket
closes and `err` the error of a bracket found in the wrong place. -/
def Consume_group_close (group_type : DocoptNodeType) (err : DocoptNodeType → Err) :
    M σ (Ctl Unit (Option Err)) := do
  let p ← getP
  let n ← readNode p.current_node
  whenM (n.Typ = DocoptNodeType.Group_alternative) (setCurrentNode n.Parent)
  let p1 ← getP
  let n1 ← readNode p1.current_node
  if n1.Typ = group_type then pure (Ctl.brk none)
  else do
    let par ← readNode n1.Parent
    if par.Typ = group_type then pure (Ctl.brk none)
    else pure (Ctl.brk (some (err n1.Typ)))

/-- The `=` case of the usage loops: `Consume_assign(p.next_token)`, then the assigned
`ARGUMENT` is consumed. -/
def Consume_group_assign (L : StateLexer σ) : M σ (Ctl Unit (Option Err)) := do
  let p ← getP
  let e ← Consume_assign p.next_token
  if e ≠ none then pure (Ctl.brk e)
  else do
    NextToken L
    pure (Ctl.next ())

/-- The `PUNCT` case of the loop of `Consume_group`. -/
def Consume_group_punct (L : StateLexer σ) (recurse : DocoptNodeType → M σ (Option Err))
    (tok : Token) : M σ (Ctl Unit (Option Err)) :=
  if tok.Value = "[" then breakOnError (recurse DocoptNodeType.Usage_optional_group)
  else if tok.Value = "(" then breakOnError (recurse DocoptNodeType.Usage_required_group)
  else if tok.Value = "|" then do
    Consume_group_alternative
    pure (Ctl.next ())
  else if tok.Value = "]" then
    Consume_group_close DocoptNodeType.Usage_optional_group Err.group_closing_bracket
  else if tok.Value = ")" then
    Consume_group_close DocoptNodeType.Usage_required_group Err.group_closing_parenthese
  else if tok.Value = "=" then Consume_group_assign L
  else if tok.Value = "..." then breakOnError Consume_ellipsis
  else addLeafNext DocoptNodeType.Usage_unmatched_punct

/-- The error of the loop of `Consume_group` that formats `p.current_node.Type`. -/
def groupError (err : DocoptNodeType → Err) : M σ (Ctl Unit (Option Err)) := do
  let p ← getP
  let n ← readNode p.current_node
  pure (Ctl.brk (some (err n.Typ)))

/-- What the loop of `Consume_group` does with the current token `tok`; `recurse` is
`p.Consume_group`. -/
def Consume_group_token (L : StateLexer σ) (recurse : DocoptNodeType → M σ (Option Err))
    (tok : Token) : M σ (Ctl Unit (Option Err)) :=
  if tok.Typ = TokKind.EOF ∨ tok.Typ = TokKind.PROG_NAME then
    groupError (fun t => Err.group_missing_closing t tok.Typ)
  else if tok.Typ = TokKind.USAGE then groupError Err.group_USAGE
  else if tok.Typ = TokKind.NEWLINE then do
    let p ← getP
    let nt ← deref p.next_token
    if nt.Typ = TokKind.NEWLINE then groupError Err.group_two_NEWLINE
    else pure (Ctl.next ())
  else if tok.Typ = TokKind.SHORT then addLeafNext DocoptNodeType.Usage_short_option
  else if tok.Typ = TokKind.LONG then addLeafNext DocoptNodeType.Usage_long_option
  else if tok.Typ = TokKind.ARGUMENT then addLeafNext DocoptNodeType.Usage_argument
  else if tok.Typ = TokKind.PUNCT then Consume_group_punct L recurse tok
  else if tok.Typ = TokKind.IDENT then addLeafNext DocoptNodeType.Usage_command
  else addLeafNext DocoptNodeType.Unmatched_node

/-- One iteration of the loop of `Consume_group`; `recurse` is `p.Consume_group`. -/
def Consume_group_body (L : StateLexer σ) (recurse : DocoptNodeType → M σ (Option Err)) :
    M σ (Ctl Unit (Option Err)) := do
  NextToken L
  let p ← getP
  let tok ← deref p.current_token
  Consume_group_token L recurse tok

/-- The end of `Consume_group`, after its loop: `r` is the `err` the loop left with
(`none` when the loop ended because `p.run` is false, `err` being nil then). -/
def Consume_group_finish (saved_current_node : Option Nat) (r : Option (Option Err)) :
    M σ (Option Err) := do
  let p1 ← getP
  if p1.run = true then do
    setCurrentNode saved_current_node
    pure (r.getD none)
  else do
    let n ← readNode p1.current_node
    pure (some (Err.group_parser_stoped n.Typ))

/-- Translation of `Consume_group`.  The first argument bounds both the nesting depth and
the number of iterations of each loop. -/
def Consume_group (L : StateLexer σ) : Nat → DocoptNodeType → M σ (Option Err)
  | 0, _ => timeoutM
  | fuel + 1, group_type => do
    let p ← getP
    let group ← addNode p.current_node group_type none
    let saved_current_node := p.current_node
    setCurrentNode (some group)
    let r ← forRun (fun (_ : Unit) => Consume_group_body L (Consume_group L fuel)) fuel ()
    Consume_group_finish saved_current_node r

/-- The `Group_alternative` node allocated by the top-level `|` restructuring. -/
def altGroup (tok : Option Token) (u : Nat) (cs : List Nat) : DocoptAst :=
  { Typ := DocoptNodeType.Group_alternative, Token := tok, Parent := some u, Children := cs,
    Repeat := false }

/-- The arena after the top-level `|` restructuring of the usage line `u`, whose children
are `c0 :: cs`: the group node is allocated with the children `cs`, their parent pointers
are set to it, the usage line keeps `c0` and the group, and a `Usage_Expr` is added to
the group. -/
def altHeap (h : Heap) (tok : Option Token) (u c0 : Nat) (cs : List Nat) : Heap :=
  (AddNode ((setParents (h ++ [altGroup tok u cs]) cs h.length).update u
      (fun x => { x with Children := [c0, h.length] })) h.length DocoptNodeType.Usage_Expr none).1

/-- The `|` case of `Consume_Usage_Expr` when the parent of the current node is a
`Usage_line`: everything after the first child moves under a new `Group_alternative`
(`parent.Children[1:]` and `parent.Children[0]` are out of range on an empty list). -/
def usage_line_alternative (parent : Nat) : M σ Unit := do
  let pn ← readNode (some parent)
  if pn.Children.length = 0 then panicM
  else do
    let c0 ← deref pn.Children.head?
    modifyP (fun q =>
      { q with heap := altHeap q.heap q.current_token parent c0 pn.Children.tail,
               current_node := some (q.heap.length + 1) })

/-- The `|` case of `Consume_Usage_Expr`. -/
def Consume_Usage_Expr_alternative : M σ (Reason × Option Err) := do
  let p ← getP
  let cn ← readNode p.current_node
  if cn.Typ ≠ DocoptNodeType.Usage_Expr then
    pure (Reason.Error, some (Err.usage_expr_current_node cn.Typ))
  else do
    let parent ← readNode cn.Parent
    if parent.Typ = DocoptNodeType.Usage_line then do
      let i ← deref cn.Parent
      usage_line_alternative i
      pure (Reason.Continue, none)
    else do
      let e ← addNode cn.Parent DocoptNodeType.Usage_Expr none
      setCurrentNode (some e)
      pure (Reason.Continue, none)

/-- The end of `Consume_Usage_Expr`: `p.ensure_node(Usage_Expr)`, the leaf is added, and
`reason, err` are returned as they are (`reason` was not assigned). -/
def Consume_Usage_Expr_leaf (reason : Reason) (n : DocoptNodeType) :
    M σ (Reason × Option Err) := do
  ensure_node DocoptNodeType.Usage_Expr
  addLeaf n
  pure (reason, none)

/-- The `[` and `(` cases of `Consume_Usage_Expr`. -/
def Consume_Usage_Expr_group (L : StateLexer σ) (fuel : Nat) (n : DocoptNodeType) :
    M σ (Reason × Option Err) := do
  ensure_node DocoptNodeType.Usage_Expr
  let e ← Consume_group L fuel n
  if e ≠ none then pure (Reason.Error, e)
  else do
    let p1 ← getP
    let cn ← readNode p1.current_node
    whenM (cn.Typ ≠ DocoptNodeType.Usage_Expr) FatalError
    pure (Reason.Continue, none)

/-- The `...` case of `Consume_Usage_Expr`. -/
def Consume_Usage_Expr_ellipsis : M σ (Reason × Option Err) := do
  ensure_node DocoptNodeType.Usage_Expr
  let e ← Consume_ellipsis
  if e ≠ none then pure (Reason.Error, e) else pure (Reason.Continue, none)

/-- The `=` case of `Consume_Usage_Expr`. -/
def Consume_Usage_Expr_assign (L : StateLexer σ) : M σ (Reason × Option Err) := do
  ensure_node DocoptNodeType.Usage_Expr
  let p1 ← getP
  let e ← Consume_assign p1.next_token
  if e ≠ none then pure (Reason.Error, e)
  else do
    NextToken L
    pure (Reason.Continue, none)

/-- The `switch p.current_token.Type` of `Consume_Usage_Expr`, `reason` being the value
of the variable `reason` at that point. -/
def Consume_Usage_Expr_token (L : StateLexer σ) (fuel : Nat) (reason : Reason) (tok : Token) :
    M σ (Reason × Option Err) :=
  if tok.Typ = TokKind.NEWLINE ∨ tok.Typ = TokKind.LONG_BLANK then pure (Reason.Continue, none)
  else if tok.Typ = TokKind.SHORT then
    Consume_Usage_Expr_leaf reason DocoptNodeType.Usage_short_option
  else if tok.Typ = TokKind.LONG then
    Consume_Usage_Expr_leaf reason DocoptNodeType.Usage_long_option
  else if tok.Typ = TokKind.ARGUMENT then
    Consume_Usage_Expr_leaf reason DocoptNodeType.Usage_argument
  else if tok.Typ = TokKind.PUNCT then
    if tok.Value = "[" then Consume_Usage_Expr_group L fuel DocoptNodeType.Usage_optional_group
    else if tok.Value = "(" then
      Consume_Usage_Expr_group L fuel DocoptNodeType.Usage_required_group
    else if tok.Value = "..." then Consume_Usage_Expr_ellipsis
    else if tok.Value = "=" then Consume_Usage_Expr_assign L
    else if tok.Value = "|" then Consume_Usage_Expr_alternative
    else pure (Reason.Error, some (Err.usage_expr_unmatched_PUNC tok))
  else if tok.Typ = TokKind.IDENT then Consume_Usage_Expr_leaf reason DocoptNodeType.Usage_command
  else do
    let e ← AddError (Err.usage_expr_unmatched_token tok)
    pure (Reason.Error, some e)

/-- Translation of `Consume_Usage_Expr`; the argument is the budget handed to
`Consume_group`. -/
def Consume_Usage_Expr (L : StateLexer σ) (fuel : Nat) : M σ (Reason × Option Err) := do
  let r1 ← has_reach_EOF Reason.zero
  if r1.1 = true then pure (r1.2, none)
  else do
    let r2 ← has_reach_two_NEWLINE L r1.2 true
    if r2.1 = true then pure (r2.2, none)
    else do
      let r3 ← has_reach_PROG_NAME r2.2
      if r3.1 = true then pure (r3.2, none)
      else do
        let p ← getP
        let tok ← deref p.current_token
        Consume_Usage_Expr_token L fuel r3.2 tok

/-! ## Sections -/

/-- One iteration of the loop of `Consume_Prologue`. -/
def Consume_Prologue_body (L : StateLexer σ) : M σ (Ctl Unit (Option Err)) := do
  NextToken L
  let p ← getP
  let tok ← deref p.current_token
  if tok.Typ = TokKind.USAGE then do
    let usage_node ← addNode p.ast DocoptNodeType.Usage_section none
    let _ ← addNode (some usage_node) DocoptNodeType.Usage p.current_token
    setCurrentNode (some usage_node)
    pure (Ctl.brk none)
  else do
    addLeaf DocoptNodeType.Prologue_node
    if tok.Typ = TokKind.EOF then pure (Ctl.brk (some Err.prologue_EOF))
    else pure (Ctl.next ())

/-- The end of a routine whose loop is left by `return`: the returned value, or, when the
loop ended because `p.run` is false, the error that formats `p.current_node.Type`. -/
def loopResult (r : Option (Option Err)) (err : DocoptNodeType → Err) : M σ (Option Err) := do
  if r ≠ none then pure (r.getD none)
  else do
    let p ← getP
    let n ← readNode p.current_node
    pure (some (err n.Typ))

/-- Translation of `Consume_Prologue`. -/
def Consume_Prologue (L : StateLexer σ) (fuel : Nat) : M σ (Option Err) := do
  CreateNode DocoptNodeType.Prologue none
  let r ← forRun (fun (_ : Unit) => Consume_Prologue_body L) fuel ()
  loopResult r Err.prologue_parser_stoped

/-- The `PROG_NAME` case of `Consume_First_Program_Usage`. -/
def Consume_First_Program_Usage_found (L : StateLexer σ) (tok : Token) :
    M σ (Ctl Unit (Option Err)) := do
  modifyP (fun q =>
    { q with Prog_name := tok.Value, s := L.DynamicRuleUpdate "PROG_NAME" tok.Value q.s })
  let p ← getP
  let usage_line ← addNode p.current_node DocoptNodeType.Usage_line none
  let _ ← addNode (some usage_line) DocoptNodeType.Prog_name p.current_token
  setCurrentNode (some usage_line)
  pure (Ctl.brk none)

/-- One iteration of the loop of `Consume_First_Program_Usage`. -/
def Consume_First_Program_Usage_body (L : StateLexer σ) : M σ (Ctl Unit (Option Err)) := do
  NextToken L
  let p ← getP
  let tok ← deref p.current_token
  if tok.Typ = TokKind.PROG_NAME then Consume_First_Program_Usage_found L tok
  else if tok.Typ = TokKind.BLANK then pure (Ctl.next ())
  else if tok.Typ = TokKind.NEWLINE then do
    let nt ← deref p.next_token
    if nt.Typ = TokKind.NEWLINE then
      if p.Prog_name = "" then pure (Ctl.brk (some (Err.first_usage_no_PROG_NAME tok)))
      else do
        NextToken L
        pure (Ctl.brk none)
    else pure (Ctl.next ())
  else pure (Ctl.brk (some (Err.first_usage_expecting_PROG_NAME tok.Typ)))

/-- Translation of `Consume_First_Program_Usage`. -/
def Consume_First_Program_Usage (L : StateLexer σ) (fuel : Nat) : M σ (Option Err) := do
  Change_lexer_state L "state_First_Program_Usage"
  let r ← forRun (fun (_ : Unit) => Consume_First_Program_Usage_body L) fuel ()
  loopResult r Err.first_usage_parser_stoped

/-- The `Consumer_Definition` built by `Consume_Usage_line`. -/
def consume_Expr (L : StateLexer σ) (fuel : Nat) : Consumer_Definition σ :=
  { create_node := false, toplevel := none, toplevel_node := DocoptNodeType.NONE_node,
    save_current_node := true, reject_first_token := true,
    consume_token := Consume_Usage_Expr L fuel }

/-- The `case PROG_NAME_sequence` of `Consume_Usage_line`: a new `Usage_line`. -/
def Consume_Usage_line_new (usage_section : Option Nat) : M σ (Ctl Unit (Option Err)) := do
  let usage_line ← addNode usage_section DocoptNodeType.Usage_line none
  let p1 ← getP
  let _ ← addNode (some usage_line) DocoptNodeType.Prog_name p1.current_token
  let e ← addNode (some usage_line) DocoptNodeType.Usage_Expr none
  setCurrentNode (some e)
  pure (Ctl.next ())

/-- The call of `Consume_loop` in `Consume_Usage_line` and the `switch reason` after it. -/
def Consume_Usage_line_expr (L : StateLexer σ) (fuel : Nat) (usage_section : Option Nat) :
    M σ (Ctl Unit (Option Err)) := do
  let r ← Consume_loop L (consume_Expr L fuel) fuel
  if r.2 ≠ none then pure (Ctl.brk r.2)
  else if r.1 = Reason.TWO_NEWLINE ∨ r.1 = Reason.EOF_reached then pure (Ctl.brk none)
  else if r.1 = Reason.PROG_NAME_sequence then Consume_Usage_line_new usage_section
  else do
    FatalError
    pure (Ctl.next ())

/-- What the loop of `Consume_Usage_line` does with the current token `tok` once it is
not `EOF`. -/
def Consume_Usage_line_token (L : StateLexer σ) (fuel : Nat) (usage_section : Option Nat)
    (tok : Token) : M σ (Ctl Unit (Option Err)) := do
  let p ← getP
  if tok.Typ = TokKind.PROG_NAME then
    if p.Prog_name ≠ tok.Value then
      pure (Ctl.brk (some (Err.usage_line_PROG_NAME_distinct p.Prog_name tok)))
    else pure (Ctl.next ())
  else if tok.Typ = TokKind.USAGE then pure (Ctl.brk (some (Err.usage_line_USAGE tok)))
  else Consume_Usage_line_expr L fuel usage_section

/-- One iteration of the loop of `Consume_Usage_line`. -/
def Consume_Usage_line_body (L : StateLexer σ) (fuel : Nat) (usage_section : Option Nat) :
    M σ (Ctl Unit (Option Err)) := do
  NextToken L
  let r ← has_reach_EOF Reason.zero
  if r.1 = true then pure (Ctl.brk none)
  else do
    let p ← getP
    let tok ← deref p.current_token
    Consume_Usage_line_token L fuel usage_section tok

/-- Translation of `Consume_Usage_line`. -/
def Consume_Usage_line (L : StateLexer σ) (fuel : Nat) : M σ (Option Err) := do
  Change_lexer_state L "state_Usage_Line"
  let p ← getP
  let cn ← readNode p.current_node
  let us ← readNode cn.Parent
  if us.Typ ≠ DocoptNodeType.Usage_section then
    pure (some (Err.usage_line_wrong_node us.Typ))
  else do
    let r ← forRun (fun (_ : Unit) => Consume_Usage_line_body L fuel cn.Parent) fuel ()
    loopResult r Err.usage_line_parser_stoped

/-- Translation of `Consume_Usage`. -/
def Consume_Usage (L : StateLexer σ) (fuel : Nat) : M σ (Option Err) := do
  let e ← Consume_First_Program_Usage L fuel
  if e ≠ none then pure e
  else do
    let e1 ← Consume_Usage_line L fuel
    if e1 ≠ none then pure e1 else pure none

/-- The test the loop of Go's `strings.EqualFold` makes on one rune of each string: the
runes are equal; or, once ordered, both are ASCII and are the two cases of a letter; or the
smaller one is ASCII and the larger one is reached from it by `unicode.SimpleFold`, whose
orbit of an ASCII rune holds, besides the two cases of a letter, the Kelvin sign U+212A for
`k` and the long s U+017F for `s`.  The orbits of two distinct runes outside ASCII are not
listed here (the result is false): the parser compares with the ASCII texts `options:` and
`usage:` only, so that in every comparison it makes one of the two runes is ASCII. -/
def rune_EqualFold (sr tr : Char) : Bool :=
  if tr = sr then true
  else
    let lo := if tr.toNat < sr.toNat then tr else sr
    let hi := if tr.toNat < sr.toNat then sr else tr
    if hi.toNat < 128 then
      decide (65 ≤ lo.toNat ∧ lo.toNat ≤ 90 ∧ hi.toNat = lo.toNat + 32)
    else if lo.toNat < 128 then
      decide (((lo = 'K' ∨ lo = 'k') ∧ hi.toNat = 8490) ∨
        ((lo = 'S' ∨ lo = 's') ∧ hi.toNat = 383))
    else false

/-- The loop of `strings.EqualFold` over the runes of the two strings: they have the same
number of runes and the runes at the same place pass `rune_EqualFold`. -/
def EqualFold_runes : List Char → List Char → Bool
  | [], [] => true
  | sr :: s, tr :: t => rune_EqualFold sr tr && EqualFold_runes s t
  | _, _ => false

/-- Go's `strings.EqualFold(s, t)`: equality under Unicode simple case folding, see
`rune_EqualFold`. -/
def EqualFold (s t : String) : Bool := EqualFold_runes s.data t.data

/-- The `SECTION` case of the loop of `Consume_Free_section`; `recurse` is
`p.Consume_Free_section`. -/
def Consume_Free_section_heading (recurse : M σ (Option Err)) (tok : Token) :
    M σ (Ctl Unit (Option Err)) :=
  if EqualFold tok.Value "options:" = true then pure (Ctl.brk none)
  else if EqualFold tok.Value "usage:" = true then
    groupError Err.free_section_usage
  else do
    let p ← getP
    let n ← readNode p.current_node
    if n.Children.length = 0 then addLeafNext DocoptNodeType.Section_name
    else do
      let e ← recurse
      pure (Ctl.brk e)

/-- One iteration of the loop of `Consume_Free_section`; `recurse` is
`p.Consume_Free_section`. -/
def Consume_Free_section_body (L : StateLexer σ) (recurse : M σ (Option Err)) :
    M σ (Ctl Unit (Option Err)) := do
  NextToken L
  let p ← getP
  let tok ← deref p.current_token
  if tok.Typ = TokKind.EOF then pure (Ctl.brk none)
  else if tok.Typ = TokKind.SECTION then Consume_Free_section_heading recurse tok
  else addLeafNext DocoptNodeType.Section_node

/-- Translation of `Consume_Free_section`.  The first argument bounds both the nesting of
sections and the number of iterations of each loop.  (Both branches of the first `if` of
the source end with the same `p.current_node = p.ast.AddNode(Free_section, nil)`, written
once here.) -/
def Consume_Free_section (L : StateLexer σ) : Nat → M σ (Option Err)
  | 0 => timeoutM
  | fuel + 1 => do
    let p ← getP
    whenM (L.State_name p.s ≠ "state_Free") (Change_lexer_state L "state_Free")
    let n ← addNode p.ast DocoptNodeType.Free_section none
    setCurrentNode (some n)
    let p1 ← getP
    let tok ← deref p1.current_token
    whenM (tok.Typ = TokKind.SECTION) (addLeaf DocoptNodeType.Section_name)
    let r ← forRun (fun (_ : Unit) => Consume_Free_section_body L (Consume_Free_section L fuel))
      fuel ()
    loopResult r Err.free_section_parser_stoped

/-! ## Options grammar -/

/-- Translation of `Consume_option_default`. -/
def Consume_option_default : M σ (Option Err) := pure none

/-- The call `description.AddNode(Description_node, p.current_token)` that ends an
iteration of the loop of `Consume_option_description`. -/
def collect_description (description : Nat) (current_line : Nat) :
    M σ (Ctl Nat (Option Err)) := do
  let p ← getP
  let _ ← addNode (some description) DocoptNodeType.Description_node p.current_token
  pure (Ctl.next current_line)

/-- One iteration of the loop of `Consume_option_description`, which carries
`current_line`. -/
def Consume_option_description_body (L : StateLexer σ) (description : Nat)
    (current_line : Nat) : M σ (Ctl Nat (Option Err)) := do
  NextToken L
  let p ← getP
  let tok ← deref p.current_token
  if tok.Typ = TokKind.NEWLINE then do
    let nt ← deref p.next_token
    if nt.Typ = TokKind.NEWLINE then do
      let _ ← addNode (some description) DocoptNodeType.Description_node p.current_token
      NextToken L
      pure (Ctl.brk none)
    else collect_description description (current_line + 1)
  else if tok.Typ = TokKind.EOF then pure (Ctl.brk none)
  else if tok.Typ = TokKind.LONG_BLANK then
    if current_line > 0 then do
      let nt ← deref p.next_token
      if nt.Typ = TokKind.SHORT ∨ nt.Typ = TokKind.LONG then do
        reject_current_token L
        pure (Ctl.brk none)
      else collect_description description current_line
    else collect_description description current_line
  else if tok.Typ = TokKind.DEFAULT then do
    let e ← Consume_option_default
    pure (Ctl.brk e)
  else collect_description description current_line

/-- Translation of `Consume_option_description`. -/
def Consume_option_description (L : StateLexer σ) (fuel : Nat) : M σ (Option Err) := do
  let p ← getP
  let description ← addNode p.current_node DocoptNodeType.Option_description none
  let r ← forRun (Consume_option_description_body L description) fuel 0
  loopResult r Err.description_parser_stoped

/-- First statement of `Consume_option_alternative`: the group is created on the first
call. -/
def Consume_option_alternative_start : M σ (Option Err) := do
  let p ← getP
  let cn ← readNode p.current_node
  if cn.Typ ≠ DocoptNodeType.Option_alternative_group then
    if cn.Children.length = 0 then pure (some (Err.alternative_no_name cn.Typ))
    else do
      let i ← deref p.current_node
      modifyP (fun q =>
        { q with
          heap := (Replace_children_with_group q.heap i
                    DocoptNodeType.Option_alternative_group).1,
          current_node := some (Replace_children_with_group q.heap i
                    DocoptNodeType.Option_alternative_group).2 })
      pure none
  else pure none

/-- One iteration of the loop of `Consume_option_alternative`. -/
def Consume_option_alternative_body (L : StateLexer σ) : M σ (Ctl Unit (Option Err)) := do
  NextToken L
  let p ← getP
  let tok ← deref p.current_token
  if tok.Typ = TokKind.EOF ∨ tok.Typ = TokKind.LONG_BLANK ∨ tok.Typ = TokKind.NEWLINE then do
    let n ← readNode p.current_node
    if n.Children.length ≤ 1 then
      pure (Ctl.brk (some (Err.alternative_unexpected n.Typ tok.Typ)))
    else pure (Ctl.brk none)
  else if tok.Typ = TokKind.SHORT then addLeafNext DocoptNodeType.Option_short
  else if tok.Typ = TokKind.LONG then addLeafNext DocoptNodeType.Option_long
  else if tok.Typ = TokKind.PUNCT then
    if tok.Value = "," then pure (Ctl.next ())
    else if tok.Value = "=" then Consume_group_assign L
    else groupError Err.alternative_PUNC
  else pure (Ctl.next ())

/-- Translation of `Consume_option_alternative`. -/
def Consume_option_alternative (L : StateLexer σ) (fuel : Nat) : M σ (Option Err) := do
  let e ← Consume_option_alternative_start
  if e ≠ none then pure e
  else do
    let r ← forRun (fun (_ : Unit) => Consume_option_alternative_body L) fuel ()
    loopResult r Err.alternative_parser_stoped

/-- The `=` case of `Consume_option_line`: the source declares a new `err` there
(`if err := p.Consume_assign(p.next_token); err != nil { break }`), so the error of
`Consume_assign` ends the loop without reaching the `err` that is returned. -/
def Consume_option_line_assign (L : StateLexer σ) : M σ (Ctl Unit (Option Err)) := do
  let p ← getP
  let e ← Consume_assign p.next_token
  if e ≠ none then pure (Ctl.brk none)
  else do
    NextToken L
    pure (Ctl.next ())

/-- The `EOF, NEWLINE` case of `Consume_option_line`. -/
def Consume_option_line_end (tok : Token) : M σ (Ctl Unit (Option Err)) := do
  let p ← getP
  let n ← readNode p.current_node
  if n.Children.length = 0 then pure (Ctl.brk (some (Err.option_line_empty n.Typ tok.Typ)))
  else pure (Ctl.brk none)

/-- One iteration of the loop of `Consume_option_line`. -/
def Consume_option_line_body (L : StateLexer σ) (fuel : Nat) : M σ (Ctl Unit (Option Err)) := do
  NextToken L
  let p ← getP
  let tok ← deref p.current_token
  if tok.Typ = TokKind.EOF ∨ tok.Typ = TokKind.NEWLINE then Consume_option_line_end tok
  else if tok.Typ = TokKind.LONG_BLANK then do
    let e ← Consume_option_description L fuel
    pure (Ctl.brk e)
  else if tok.Typ = TokKind.SHORT then addLeafNext DocoptNodeType.Option_short
  else if tok.Typ = TokKind.LONG then addLeafNext DocoptNodeType.Option_long
  else if tok.Typ = TokKind.ARGUMENT then breakOnError (Consume_assign p.current_token)
  else if tok.Typ = TokKind.PUNCT then
    if tok.Value = "," then pure (Ctl.next ())
    else if tok.Value = "=" then Consume_option_line_assign L
    else groupError Err.option_line_PUNC
  else groupError Err.option_line_invalid

/-- The end of `Consume_option_line`, after its loop. -/
def Consume_option_line_finish (saved_node : Option Nat) (r : Option (Option Err)) :
    M σ (Option Err) := do
  let p1 ← getP
  if p1.run = true then do
    setCurrentNode saved_node
    pure (r.getD none)
  else do
    let n ← readNode p1.current_node
    pure (some (Err.option_line_parser_stoped n.Typ))

/-- Translation of `Consume_option_line`. -/
def Consume_option_line (L : StateLexer σ) (fuel : Nat) : M σ (Option Err) := do
  let p ← getP
  let saved_node := p.current_node
  let option_line ← addNode p.current_node DocoptNodeType.Option_line none
  setCurrentNode (some option_line)
  let r ← forRun (fun (_ : Unit) => Consume_option_line_body L fuel) fuel ()
  Consume_option_line_finish saved_node r

/-- The `switch p.current_token.Type` of the loop of `Consume_Options`. -/
def Consume_Options_token (L : StateLexer σ) (fuel : Nat) (tok : Token) :
    M σ (Ctl Unit (Option Err)) :=
  if tok.Typ = TokKind.SECTION then pure (Ctl.brk none)
  else if tok.Typ = TokKind.LONG_BLANK then do
    let p ← getP
    let nt ← deref p.next_token
    if nt.Typ = TokKind.SHORT ∨ nt.Typ = TokKind.LONG then
      breakOnError (Consume_option_line L fuel)
    else pure (Ctl.next ())
  else if tok.Typ = TokKind.NEWLINE then pure (Ctl.next ())
  else addLeafNext DocoptNodeType.Options_node

/-- One iteration of the loop of `Consume_Options`. -/
def Consume_Options_body (L : StateLexer σ) (fuel : Nat) : M σ (Ctl Unit (Option Err)) := do
  NextToken L
  let p ← getP
  let tok ← deref p.current_token
  if tok.Typ = TokKind.EOF then pure (Ctl.brk none)
  else if tok.Typ = TokKind.NEWLINE then do
    let nt ← deref p.next_token
    if nt.Typ = TokKind.NEWLINE then do
      NextToken L
      pure (Ctl.brk none)
    else Consume_Options_token L fuel tok
  else Consume_Options_token L fuel tok

/-- Translation of `Consume_Options`. -/
def Consume_Options (L : StateLexer σ) (fuel : Nat) : M σ (Option Err) := do
  let p ← getP
  let section_node ← addNode p.ast DocoptNodeType.Options_section none
  modifyP (fun q => { q with options_node := some section_node })
  let tok ← deref p.current_token
  if tok.Typ ≠ TokKind.SECTION ∨ EqualFold tok.Value "options:" = false then pure none
  else do
    Change_lexer_state L "state_Options"
    let _ ← addNode (some section_node) DocoptNodeType.Section_name p.current_token
    setCurrentNode (some section_node)
    let r ← forRun (fun (_ : Unit) => Consume_Options_body L fuel) fuel ()
    loopResult r Err.options_parser_stoped

/-! ## Entry point -/

/-- One step of the loop of `Parse`: an error returned by the step bumps `Error_count`. -/
def parse_step (step : M σ (Option Err)) : M σ Unit := do
  let e ← step
  whenM (e ≠ none) (modifyP (fun q => { q with Error_count := q.Error_count + 1 }))

/-- Translation of `Parse`; it returns `p.ast`. -/
def Parse (L : StateLexer σ) (fuel : Nat) : M σ (Option Nat) := do
  CreateNode DocoptNodeType.Root none
  parse_step (Consume_Prologue L fuel)
  parse_step (Consume_Usage L fuel)
  parse_step (Consume_Free_section L fuel)
  parse_step (Consume_Options L fuel)
  parse_step (Consume_Free_section L fuel)
  let p ← getP
  pure p.ast

end Routines

/-! ## A tokenizer over a list of tokens -/

/-- One unit of input of `listLexer`: a token of some kind and text, or a piece of text no
rule matches. -/
inductive LexItem where
  | tok (k : TokKind) (v : String)
  | bad (msg : String)
  deriving DecidableEq, Repr

/-- State of `listLexer`: the name of the current lexer state, the whole input and the
position reached in it. -/
structure ListLexerState where
  State_name : String
  input : List LexItem
  pos : Nat
  deriving DecidableEq, Repr

/-- Modelled from the spec: the tokenizer is an external collaborator given by its
interface only.  `Next` pulls one token, stamped with its position (at the end of the
input, an `EOF` token); a lexical error does not consume anything; `Discard n` skips `n`
units of unrecognized input; `Reject` returns a token to the tokenizer unconsumed: the
input position goes back to where that token starts, so that it is emitted again;
`ChangeState` records the name of the new state; the rule update changes nothing in an
input that is already cut into tokens. -/
def listLexer : StateLexer ListLexerState :=
  { Next := fun s =>
      match s.input[s.pos]? with
      | none => (Except.ok ⟨TokKind.EOF, "", s.pos⟩, s)
      | some (LexItem.tok k v) => (Except.ok ⟨k, v, s.pos⟩, { s with pos := s.pos + 1 })
      | some (LexItem.bad msg) => (Except.error msg, s)
    Discard := fun n s => { s with pos := s.pos + n }
    Reject := fun t s => { s with pos := t.Pos }
    ChangeState := fun name s => { s with State_name := name }
    DynamicRuleUpdate := fun _ _ s => s
    State_name := fun s => s.State_name }

/-! ## Predicates used to state the theorems -/

section Predicates
variable {σ : Type}

/-- The token cursor moved, the tree did not. -/
def SameTree (p q : DocoptParser σ) : Prop :=
  q.heap = p.heap ∧ q.Prog_name = p.Prog_name ∧ q.current_node = p.current_node ∧ q.ast = p.ast

/-- Every state a run can end in satisfies a predicate: `Q` for a returned value, `I` for
the state at which the run panicked or ran out of iterations. -/
def Res.sat {α : Type} (r : Res σ α) (Q : α → DocoptParser σ → Prop)
    (I : DocoptParser σ → Prop) : Prop :=
  match r with
  | Res.ok a p => Q a p
  | Res.panic p => I p
  | Res.timeout p => I p

end Predicates

/-! ## Example states -/

/-- A node without the ellipsis flag. -/
def mkNode (k : DocoptNodeType) (t : Option Token) (cs : List Nat) (par : Option Nat) :
    DocoptAst :=
  { Typ := k, Token := t, Children := cs, Parent := par, Repeat := false }

/-- A parser over `listLexer` in the usage section of a program named `prog`. -/
def usageState (input : List LexItem) (pos : Nat) (h : Heap) (cur : Nat)
    (t0 t1 : Option Token) (history : List (Option Token)) : DocoptParser ListLexerState :=
  { s := { State_name := "state_Usage_Line", input := input, pos := pos }, Prog_name := "prog",
    current_token := t0, next_token := t1, tokens := history, Error_count := 0,
    max_error := 10, Errors := [], heap := h, ast := some 0, current_node := some cur,
    options_node := none, lexer_state_changed := false, run := true }

/-- The tree of `Usage: prog x` where `x` is one leaf of kind `k` carrying `t`: the usage
section 0, its usage line 1, the program name 2, the expression 3 and the leaf 4. -/
def lineHeap (k : DocoptNodeType) (t : Token) : Heap :=
  [mkNode DocoptNodeType.Usage_section none [1] none,
   mkNode DocoptNodeType.Usage_line none [2, 3] (some 0),
   mkNode DocoptNodeType.Prog_name (some ⟨TokKind.PROG_NAME, "prog", 0⟩) [] (some 1),
   mkNode DocoptNodeType.Usage_Expr none [4] (some 1),
   mkNode k (some t) [] (some 3)]

/-- The state after `prog a` when `|` has just become the current token. -/
def barState : DocoptParser ListLexerState :=
  usageState [LexItem.tok TokKind.PROG_NAME "prog", LexItem.tok TokKind.IDENT "a",
      LexItem.tok TokKind.PUNCT "|", LexItem.tok TokKind.IDENT "b"] 4
    (lineHeap DocoptNodeType.Usage_command ⟨TokKind.IDENT, "a", 1⟩) 3
    (some ⟨TokKind.PUNCT, "|", 2⟩) (some ⟨TokKind.IDENT, "b", 3⟩)
    [some ⟨TokKind.IDENT, "a", 1⟩, some ⟨TokKind.PUNCT, "|", 2⟩]

/-- The state after `prog FILE` when `...` has just become the current token. -/
def ellipsisState : DocoptParser ListLexerState :=
  usageState [LexItem.tok TokKind.PROG_NAME "prog", LexItem.tok TokKind.ARGUMENT "FILE",
      LexItem.tok TokKind.PUNCT "..."] 4
    (lineHeap DocoptNodeType.Usage_argument ⟨TokKind.ARGUMENT, "FILE", 1⟩) 3
    (some ⟨TokKind.PUNCT, "...", 2⟩) (some ⟨TokKind.EOF, "", 3⟩)
    [some ⟨TokKind.ARGUMENT, "FILE", 1⟩, some ⟨TokKind.PUNCT, "...", 2⟩]

/-- The state after `prog` when `...` has just become the current token: the current node
is the usage line, which holds the program name only. -/
def ellipsisFirstState : DocoptParser ListLexerState :=
  usageState [LexItem.tok TokKind.PROG_NAME "prog", LexItem.tok TokKind.PUNCT "..."] 3
    [mkNode DocoptNodeType.Usage_section none [1] none,
     mkNode DocoptNodeType.Usage_line none [2] (some 0),
     mkNode DocoptNodeType.Prog_name (some ⟨TokKind.PROG_NAME, "prog", 0⟩) [] (some 1)] 1
    (some ⟨TokKind.PUNCT, "...", 1⟩) (some ⟨TokKind.EOF, "", 2⟩)
    [some ⟨TokKind.PUNCT, "...", 1⟩]

/-- The state after `prog --opt` when `=` has just become the current token and `<x>` is
the lookahead. -/
def assignState : DocoptParser ListLexerState :=
  usageState [LexItem.tok TokKind.PROG_NAME "prog", LexItem.tok TokKind.LONG "--opt",
      LexItem.tok TokKind.PUNCT "=", LexItem.tok TokKind.ARGUMENT "<x>"] 4
    (lineHeap DocoptNodeType.Usage_long_option ⟨TokKind.LONG, "--opt", 1⟩) 3
    (some ⟨TokKind.PUNCT, "=", 2⟩) (some ⟨TokKind.ARGUMENT, "<x>", 3⟩)
    [some ⟨TokKind.LONG, "--opt", 1⟩, some ⟨TokKind.PUNCT, "=", 2⟩]

/-- The state after `prog cmd`, a newline and an indent, at the head of the loop of
`Consume_Usage_line`, the lookahead being the program name `other`. -/
def otherNameState : DocoptParser ListLexerState :=
  usageState [LexItem.tok TokKind.PROG_NAME "prog", LexItem.tok TokKind.IDENT "cmd",
      LexItem.tok TokKind.NEWLINE "\n", LexItem.tok TokKind.LONG_BLANK "  ",
      LexItem.tok TokKind.PROG_NAME "other", LexItem.tok TokKind.IDENT "cmd"] 5
    (lineHeap DocoptNodeType.Usage_command ⟨TokKind.IDENT, "cmd", 1⟩) 3
    (some ⟨TokKind.LONG_BLANK, "  ", 3⟩) (some ⟨TokKind.PROG_NAME, "other", 4⟩)
    [some ⟨TokKind.IDENT, "cmd", 1⟩, some ⟨TokKind.NEWLINE, "\n", 2⟩,
     some ⟨TokKind.LONG_BLANK, "  ", 3⟩]

/-- The state `otherNameState` after one `NextToken`. -/
def otherNameState1 : DocoptParser ListLexerState :=
  { otherNameState with
    s := { State_name := "state_Usage_Line", input := otherNameState.s.input, pos := 6 },
    current_token := some ⟨TokKind.PROG_NAME, "other", 4⟩,
    next_token := some ⟨TokKind.IDENT, "cmd", 5⟩,
    tokens := otherNameState.tokens ++ [some ⟨TokKind.PROG_NAME, "other", 4⟩] }

/-- A required group with the two leaves `a` and `b`, before it is restructured. -/
def groupHeap : Heap :=
  [mkNode DocoptNodeType.Usage_required_group none [1, 2] none,
   mkNode DocoptNodeType.Usage_command (some ⟨TokKind.IDENT, "a", 1⟩) [] (some 0),
   mkNode DocoptNodeType.Usage_command (some ⟨TokKind.IDENT, "b", 2⟩) [] (some 0)]

/-- The arena `groupHeap` after `Replace_children_with_group` on node 0. -/
def groupHeapAfter : Heap :=
  [mkNode DocoptNodeType.Usage_required_group none [3] none,
   mkNode DocoptNodeType.Usage_command (some ⟨TokKind.IDENT, "a", 1⟩) [] (some 3),
   mkNode DocoptNodeType.Usage_command (some ⟨TokKind.IDENT, "b", 2⟩) [] (some 3),
   mkNode DocoptNodeType.Group_alternative none [1, 2] (some 0)]

/-- The input `( a | b )`. -/
def inputAlt : List LexItem :=
  [LexItem.tok TokKind.PUNCT "(", LexItem.tok TokKind.IDENT "a", LexItem.tok TokKind.PUNCT "|",
   LexItem.tok TokKind.IDENT "b", LexItem.tok TokKind.PUNCT ")"]

/-- The state in which `Consume_Usage_Expr` calls `Consume_group` on `( a | b )`: the
current node is a `Usage_Expr`, `(` is the current token and `a` the lookahead. -/
def altState : DocoptParser ListLexerState :=
  usageState inputAlt 2 [mkNode DocoptNodeType.Usage_Expr none [] none] 0
    (some ⟨TokKind.PUNCT, "(", 0⟩) (some ⟨TokKind.IDENT, "a", 1⟩) [some ⟨TokKind.PUNCT, "(", 0⟩]

/-- The arena `Consume_group` builds from `altState`: the group 1 holds one
`Group_alternative` 3, which holds the two leaves directly. -/
def altHeapAfter : Heap :=
  [mkNode DocoptNodeType.Usage_Expr none [1] none,
   mkNode DocoptNodeType.Usage_required_group none [3] (some 0),
   mkNode DocoptNodeType.Usage_command (some ⟨TokKind.IDENT, "a", 1⟩) [] (some 3),
   mkNode DocoptNodeType.Group_alternative none [2, 4] (some 1),
   mkNode DocoptNodeType.Usage_command (some ⟨TokKind.IDENT, "b", 3⟩) [] (some 3)]

/-- The input `[ ( a ] ]`. -/
def inputMixed : List LexItem :=
  [LexItem.tok TokKind.PUNCT "[", LexItem.tok TokKind.PUNCT "(", LexItem.tok TokKind.IDENT "a",
   LexItem.tok TokKind.PUNCT "]", LexItem.tok TokKind.PUNCT "]"]

/-- The state in which the loop of `Consume_group(Usage_optional_group)` calls
`Consume_group(Usage_required_group)` on `[ ( a ] ]`: the current node is the optional
group 1, `(` is the current token and `a` the lookahead. -/
def mixedState : DocoptParser ListLexerState :=
  usageState inputMixed 3
    [mkNode DocoptNodeType.Usage_Expr none [1] none,
     mkNode DocoptNodeType.Usage_optional_group none [] (some 0)] 1
    (some ⟨TokKind.PUNCT, "(", 1⟩) (some ⟨TokKind.IDENT, "a", 2⟩)
    [some ⟨TokKind.PUNCT, "[", 0⟩, some ⟨TokKind.PUNCT, "(", 1⟩]

/-- The arena `Consume_group(Usage_required_group)` builds from `mixedState`. -/
def mixedHeapAfter : Heap :=
  [mkNode DocoptNodeType.Usage_Expr none [1] none,
   mkNode DocoptNodeType.Usage_optional_group none [2] (some 0),
   mkNode DocoptNodeType.Usage_required_group none [3] (some 1),
   mkNode DocoptNodeType.Usage_command (some ⟨TokKind.IDENT, "a", 2⟩) [] (some 2)]


/-- The state a run ended in. -/
def Res.state {σ α : Type} : Res σ α → DocoptParser σ
  | Res.ok _ p => p
  | Res.panic p => p
  | Res.timeout p => p

/-- For each `Usage_line` node of the arena, in order, the token value of its first child
when that child is a `Prog_name` node: what a reader of the tree sees as the program name
of the line. -/
def usageLineNames (h : Heap) : List (Option String) :=
  (h.filter (fun n => n.Typ = DocoptNodeType.Usage_line)).map (fun n =>
    (n.Children.head?.bind (fun c => h[c]?)).bind (fun cn =>
      if cn.Typ = DocoptNodeType.Prog_name then cn.Token.map (fun t => t.Value) else none))

/-- The tokens of a usage with two lines, `Usage:`, `prog cmd1` and `prog cmd2`. -/
def twoLines : List LexItem :=
  [LexItem.tok TokKind.USAGE "Usage:", LexItem.tok TokKind.NEWLINE "\n",
   LexItem.tok TokKind.BLANK "  ", LexItem.tok TokKind.PROG_NAME "prog",
   LexItem.tok TokKind.IDENT "cmd1", LexItem.tok TokKind.NEWLINE "\n",
   LexItem.tok TokKind.LONG_BLANK "  ", LexItem.tok TokKind.PROG_NAME "prog",
   LexItem.tok TokKind.IDENT "cmd2", LexItem.tok TokKind.NEWLINE "\n"]

/-- The tokens of `Usage: prog a | b`, a usage line with a top-level alternative. -/
def topAlternative : List LexItem :=
  [LexItem.tok TokKind.USAGE "Usage:", LexItem.tok TokKind.PROG_NAME "prog",
   LexItem.tok TokKind.IDENT "a", LexItem.tok TokKind.PUNCT "|",
   LexItem.tok TokKind.IDENT "b", LexItem.tok TokKind.NEWLINE "\n"]

/-- Whether a run returned (it neither stopped on a nil dereference or an index out of
range, nor was cut off). -/
def Res.returned {σ α : Type} : Res σ α → Bool
  | Res.ok _ _ => true
  | Res.panic _ => false
  | Res.timeout _ => false

/-- The run of `Parse` on `twoLines`. -/
def twoLinesRun : Res ListLexerState (Option Nat) :=
  Parse listLexer 12 (ParserInit ⟨"state_Prologue", twoLines, 0⟩)

/-- The run of `Parse` on `topAlternative`. -/
def topAlternativeRun : Res ListLexerState (Option Nat) :=
  Parse listLexer 12 (ParserInit ⟨"state_Prologue", topAlternative, 0⟩)
/-! ## Predicates on the tree -/

section TreePredicates
variable {σ : Type}

/-- The first child of the node `n` is a `Prog_name` node whose token has the value
`name`. -/
def goodLine (h : Heap) (name : String) (n : DocoptAst) : Prop :=
  ∃ (c : Nat) (rest : List Nat) (cn : DocoptAst) (tok : Token), n.Children = c :: rest ∧
    h[c]? = some cn ∧
    cn.Typ = DocoptNodeType.Prog_name ∧ cn.Token = some tok ∧ tok.Value = name

/-- Every `Usage_line` node of the tree has as first child a `Prog_name` node whose token
value is the parser's `Prog_name`. -/
def UsageLinesOK (p : DocoptParser σ) : Prop :=
  ∀ (i : Nat) (n : DocoptAst), p.heap[i]? = some n → n.Typ = DocoptNodeType.Usage_line →
    goodLine p.heap p.Prog_name n

/-- The tree has no `Usage_line` node. -/
def NoLine (p : DocoptParser σ) : Prop :=
  ∀ (i : Nat) (n : DocoptAst), p.heap[i]? = some n → n.Typ ≠ DocoptNodeType.Usage_line

/-- The arena `h1` keeps every node of `h` with its kind and token; a `Usage_line` node
that has a first child keeps it as first child. -/
def Ext (h h1 : Heap) : Prop :=
  ∀ (i : Nat) (n : DocoptAst), h[i]? = some n → ∃ n1 : DocoptAst, h1[i]? = some n1 ∧ n1.Typ = n.Typ ∧ n1.Token = n.Token ∧
    (n.Typ = DocoptNodeType.Usage_line → ∀ c rest, n.Children = c :: rest →
      ∃ rest1, n1.Children = c :: rest1)

/-- The arena `h1` extends `h` without adding a `Usage_line` node. -/
def GrowsN (h h1 : Heap) : Prop :=
  Ext h h1 ∧ ∀ (i : Nat) (n1 : DocoptAst), h[i]? = none → h1[i]? = some n1 →
    n1.Typ ≠ DocoptNodeType.Usage_line

/-- The arena `h1` extends `h` and each `Usage_line` node it adds starts with a
`Prog_name` child carrying `name`. -/
def Grows (name : String) (h h1 : Heap) : Prop :=
  Ext h h1 ∧ ∀ (i : Nat) (n1 : DocoptAst), h[i]? = none → h1[i]? = some n1 →
    n1.Typ = DocoptNodeType.Usage_line → goodLine h1 name n1

/-- From `p` to `q` the tree grew without a new `Usage_line` and `Prog_name` is the
same. -/
def Step (p q : DocoptParser σ) : Prop :=
  GrowsN p.heap q.heap ∧ q.Prog_name = p.Prog_name

/-- `Step`, and the current node is the same. -/
def StepC (p q : DocoptParser σ) : Prop :=
  Step p q ∧ q.current_node = p.current_node

/-- From `p` to `q` the tree grew, every new `Usage_line` starting with a `Prog_name`
child that carries `Prog_name`, and `Prog_name` is the same. -/
def StepL (p q : DocoptParser σ) : Prop :=
  Grows p.Prog_name p.heap q.heap ∧ q.Prog_name = p.Prog_name

/-- The current node is an allocated node that is not a `Usage_line`. -/
def CurNotLine (p : DocoptParser σ) : Prop :=
  ∃ (c : Nat) (n : DocoptAst), p.current_node = some c ∧ p.heap[c]? = some n ∧ n.Typ ≠ DocoptNodeType.Usage_line

/-- Every state a run of `m` can end in is related by `R` to the state it started from. -/
def Keeps {α : Type} (R : DocoptParser σ → DocoptParser σ → Prop) (m : M σ α) : Prop :=
  ∀ p, (m p).sat (fun _ q => R p q) (fun q => R p q)

/-- Every value `m` returns satisfies `S`. -/
def Returns {α : Type} (S : α → Prop) (m : M σ α) : Prop :=
  ∀ p, (m p).sat (fun a _ => S a) (fun _ => True)

/-- An iteration started with a current node that is not a `Usage_line` makes a `Step`,
and when the loop goes on the current node is again not a `Usage_line`. -/
def BodyOK {γ β : Type} (m : M σ (Ctl γ β)) : Prop :=
  ∀ p, CurNotLine p →
    (m p).sat (fun ctl q => Step p q ∧ ∀ c, ctl = Ctl.next c → CurNotLine q) (fun q => Step p q)

/-- What `Consume_group` guarantees: it makes a `Step`, and when it returns nil the
current node is the one it was called with. -/
def GroupSpec (m : M σ (Option Err)) : Prop :=
  ∀ p, (m p).sat (fun e q => Step p q ∧ (e = none → q.current_node = p.current_node))
    (fun q => Step p q)

/-- A returned reason `PROG_NAME_sequence` comes with a current token whose value is
`Prog_name`. -/
def SeqOK (r : Reason × Option Err) (q : DocoptParser σ) : Prop :=
  r.1 = Reason.PROG_NAME_sequence →
    ∃ t, q.current_token = some t ∧ t.Value = q.Prog_name

end TreePredicates

/-! ## Example states of the usage section -/

/-- The state after `prog` when `-h` has just become the current token: the current node
is the usage line, which holds the program name only. -/
def shortFirstState : DocoptParser ListLexerState :=
  usageState [LexItem.tok TokKind.PROG_NAME "prog", LexItem.tok TokKind.SHORT "-h"] 3
    [mkNode DocoptNodeType.Usage_section none [1] none,
     mkNode DocoptNodeType.Usage_line none [2] (some 0),
     mkNode DocoptNodeType.Prog_name (some ⟨TokKind.PROG_NAME, "prog", 0⟩) [] (some 1)] 1
    (some ⟨TokKind.SHORT, "-h", 1⟩) (some ⟨TokKind.EOF, "", 2⟩)
    [some ⟨TokKind.SHORT, "-h", 1⟩]

/-- The state after `prog a` when `FILE` has just become the current token: the current
node is the `Usage_Expr` of the line. -/
def argumentState : DocoptParser ListLexerState :=
  usageState [LexItem.tok TokKind.PROG_NAME "prog", LexItem.tok TokKind.IDENT "a",
      LexItem.tok TokKind.ARGUMENT "FILE"] 4
    (lineHeap DocoptNodeType.Usage_command ⟨TokKind.IDENT, "a", 1⟩) 3
    (some ⟨TokKind.ARGUMENT, "FILE", 2⟩) (some ⟨TokKind.EOF, "", 3⟩)
    [some ⟨TokKind.IDENT, "a", 1⟩, some ⟨TokKind.ARGUMENT, "FILE", 2⟩]

/-- The input `( , )`. -/
def inputComma : List LexItem :=
  [LexItem.tok TokKind.PUNCT "(", LexItem.tok TokKind.PUNCT ",", LexItem.tok TokKind.PUNCT ")"]

/-- The state in which `Consume_Usage_Expr` calls `Consume_group` on `( , )`: the current
node is a `Usage_Expr`, `(` is the current token and `,` the lookahead. -/
def commaState : DocoptParser ListLexerState :=
  usageState inputComma 2 [mkNode DocoptNodeType.Usage_Expr none [] none] 0
    (some ⟨TokKind.PUNCT, "(", 0⟩) (some ⟨TokKind.PUNCT, ",", 1⟩) [some ⟨TokKind.PUNCT, "(", 0⟩]

/-- The arena `Consume_group` builds from `commaState`. -/
def commaHeapAfter : Heap :=
  [mkNode DocoptNodeType.Usage_Expr none [1] none,
   mkNode DocoptNodeType.Usage_required_group none [2] (some 0),
   mkNode DocoptNodeType.Usage_unmatched_punct (some ⟨TokKind.PUNCT, ",", 1⟩) [] (some 1)]

/-- The state after `prog a` when `,` has just become the current token. -/
def commaTopState : DocoptParser ListLexerState :=
  usageState [LexItem.tok TokKind.PROG_NAME "prog", LexItem.tok TokKind.IDENT "a",
      LexItem.tok TokKind.PUNCT ","] 4
    (lineHeap DocoptNodeType.Usage_command ⟨TokKind.IDENT, "a", 1⟩) 3
    (some ⟨TokKind.PUNCT, ",", 2⟩) (some ⟨TokKind.EOF, "", 3⟩)
    [some ⟨TokKind.IDENT, "a", 1⟩, some ⟨TokKind.PUNCT, ",", 2⟩]

/-- The state `Consume_Usage_Expr` is called in on the `PROG_NAME` token of a second
usage line when the first line holds the program name only: the history is exactly
`NEWLINE`, `LONG_BLANK`, `prog`. -/
def threeTokenState : DocoptParser ListLexerState :=
  usageState [LexItem.tok TokKind.PROG_NAME "prog", LexItem.tok TokKind.NEWLINE "\n",
      LexItem.tok TokKind.LONG_BLANK "  ", LexItem.tok TokKind.PROG_NAME "prog",
      LexItem.tok TokKind.IDENT "cmd"] 5
    [mkNode DocoptNodeType.Usage_section none [1] none,
     mkNode DocoptNodeType.Usage_line none [2] (some 0),
     mkNode DocoptNodeType.Prog_name (some ⟨TokKind.PROG_NAME, "prog", 0⟩) [] (some 1)] 1
    (some ⟨TokKind.PROG_NAME, "prog", 3⟩) (some ⟨TokKind.IDENT, "cmd", 4⟩)
    [some ⟨TokKind.NEWLINE, "\n", 1⟩, some ⟨TokKind.LONG_BLANK, "  ", 2⟩,
     some ⟨TokKind.PROG_NAME, "prog", 3⟩]

/-- The state `threeTokenState` with one more, older, token in the history. -/
def fourTokenState : DocoptParser ListLexerState :=
  { threeTokenState with
    tokens := some ⟨TokKind.IDENT, "a", 0⟩ :: threeTokenState.tokens }

/-- The tokens of `Usage: prog`, then a second usage line `prog cmd`. -/
def nameOnlyLine : List LexItem :=
  [LexItem.tok TokKind.USAGE "Usage:", LexItem.tok TokKind.PROG_NAME "prog",
   LexItem.tok TokKind.NEWLINE "\n", LexItem.tok TokKind.LONG_BLANK "  ",
   LexItem.tok TokKind.PROG_NAME "prog", LexItem.tok TokKind.IDENT "cmd",
   LexItem.tok TokKind.NEWLINE "\n"]

/-- The run of `Parse` on `nameOnlyLine`. -/
def nameOnlyLineRun : Res ListLexerState (Option Nat) :=
  Parse listLexer 12 (ParserInit ⟨"state_Prologue", nameOnlyLine, 0⟩)

/-! ## Token streams -/

section Streams
variable {σ : Type}

/-- From `p`, `n` successive calls of `NextToken` return, each making current a token that
the loop of `Consume_First_Program_Usage` skips (a `BLANK`, or a `NEWLINE` whose lookahead
is a token that is not a `NEWLINE`) and leaving the parser running; `q` is the state
after the last of them. -/
def SkipsBlank (L : StateLexer σ) : Nat → DocoptParser σ → DocoptParser σ → Prop
  | 0, p, q => q = p
  | n + 1, p, q => ∃ (p1 : DocoptParser σ) (tok : Token),
      NextToken L p = Res.ok () p1 ∧ p1.run = true ∧ p1.current_token = some tok ∧
      (tok.Typ = TokKind.BLANK ∨
        (tok.Typ = TokKind.NEWLINE ∧ ∃ nt, p1.next_token = some nt ∧ nt.Typ ≠ TokKind.NEWLINE)) ∧
      SkipsBlank L n p1 q

end Streams

/-- A parser over `listLexer` at the call of `Consume_First_Program_Usage`: the `Usage:`
heading has been read, the current node is the usage section, no program name is
known yet. -/
def firstUsageState (input : List LexItem) : DocoptParser ListLexerState :=
  { s := { State_name := "state_Prologue", input := input, pos := 0 }, Prog_name := "",
    current_token := none, next_token := none, tokens := [], Error_count := 0,
    max_error := 10, Errors := [],
    heap := [mkNode DocoptNodeType.Root none [1] none,
             mkNode DocoptNodeType.Usage_section none [] (some 0)],
    ast := some 0, current_node := some 1, options_node := none,
    lexer_state_changed := false, run := true }

/-- The state `Consume_First_Program_Usage` starts its loop in, from `firstUsageState`. -/
def firstUsageStart (input : List LexItem) : DocoptParser ListLexerState :=
  { firstUsageState input with
    lexer_state_changed := true,
    s := listLexer.ChangeState "state_First_Program_Usage" (firstUsageState input).s }

/-- The state after `n` calls of `NextToken`. -/
def afterTokens {σ : Type} (L : StateLexer σ) : Nat → DocoptParser σ → DocoptParser σ
  | 0, p => p
  | n + 1, p => afterTokens L n (NextToken L p).state

/-- A blank, then two `NEWLINE` tokens before the program name. -/
def blankTwoNewlines : List LexItem :=
  [LexItem.tok TokKind.BLANK " ", LexItem.tok TokKind.NEWLINE "\n",
   LexItem.tok TokKind.NEWLINE "\n", LexItem.tok TokKind.PROG_NAME "prog"]

section Streams2
variable {σ : Type}

/-- The parser `p` with another tree: arena `h`, current node `c`. -/
def DocoptParser.withTree (p : DocoptParser σ) (h : Heap) (c : Option Nat) : DocoptParser σ :=
  { p with heap := h, current_node := c }

/-- Apply `f` to the state a run ended in. -/
def Res.mapState {α : Type} (f : DocoptParser σ → DocoptParser σ) : Res σ α → Res σ α
  | Res.ok a p => Res.ok a (f p)
  | Res.panic p => Res.panic (f p)
  | Res.timeout p => Res.timeout (f p)

/-- From `p`, successive calls of `NextToken` return, making current the tokens of the
list one after the other and leaving the parser running; `q` is the state after the last
of them. -/
def Feeds (L : StateLexer σ) : List Token → DocoptParser σ → DocoptParser σ → Prop
  | [], p, q => q = p
  | t :: ts, p, q => ∃ p1 : DocoptParser σ,
      NextToken L p = Res.ok () p1 ∧ p1.run = true ∧ p1.current_token = some t ∧
      Feeds L ts p1 q

end Streams2

/-- The arena after one leaf of kind `k` per token of the list was added, in order, to the
children of `parent` (successive calls `parent.AddNode(k, t)`). -/
def addLeaves (h : Heap) (parent : Nat) (k : DocoptNodeType) (ts : List Token) : Heap :=
  ts.foldl (fun acc t => (AddNode acc parent k (some t)).1) h

/-- A `SECTION` token whose text is `options:`, whatever the case of its letters. -/
def Token.isOptionsHeading (t : Token) : Prop :=
  t.Typ = TokKind.SECTION ∧ EqualFold t.Value "options:" = true

/-- The value a run returned, when it returned. -/
def Res.value? {σ α : Type} : Res σ α → Option α
  | Res.ok a _ => some a
  | Res.panic _ => none
  | Res.timeout _ => none

/-- A parser over `listLexer` at the call of `Consume_Prologue`: the arena holds the root,
which is the current node, and no token has been read. -/
def prologueState (input : List LexItem) : DocoptParser ListLexerState :=
  { s := { State_name := "state_Prologue", input := input, pos := 0 }, Prog_name := "",
    current_token := none, next_token := none, tokens := [], Error_count := 0,
    max_error := 10, Errors := [],
    heap := [mkNode DocoptNodeType.Root none [] none],
    ast := some 0, current_node := some 0, options_node := none,
    lexer_state_changed := false, run := true }

/-- Two words of leading text, then the `Usage:` heading. -/
def wordsThenUsage : List LexItem :=
  [LexItem.tok TokKind.IDENT "My", LexItem.tok TokKind.IDENT "tool",
   LexItem.tok TokKind.USAGE "Usage:"]

/-- One word of leading text and no `Usage:` heading. -/
def wordThenEnd : List LexItem :=
  [LexItem.tok TokKind.IDENT "My"]

/-- A parser over `listLexer` at the call of `Consume_Options` when the free section ended
on the end of the input: the current token is `EOF`, the root 0 holds the usage
section 1 and the free section 2, which is the current node. -/
def noOptionsState : DocoptParser ListLexerState :=
  { s := { State_name := "state_Free", input := [], pos := 0 }, Prog_name := "prog",
    current_token := some ⟨TokKind.EOF, "", 0⟩, next_token := some ⟨TokKind.EOF, "", 0⟩,
    tokens := [some ⟨TokKind.EOF, "", 0⟩], Error_count := 0, max_error := 10, Errors := [],
    heap := [mkNode DocoptNodeType.Root none [1, 2] none,
             mkNode DocoptNodeType.Usage_section none [] (some 0),
             mkNode DocoptNodeType.Free_section none [] (some 0)],
    ast := some 0, current_node := some 2, options_node := none,
    lexer_state_changed := false, run := true }

/-- A parser over `listLexer` at the call of `Consume_option_line`: the current node is
the options section 1, the current token is the indent of the line (the first unit of the
input) and the lookahead `t1` its first name (the second unit). -/
def optionLineState (input : List LexItem) (t1 : Token) : DocoptParser ListLexerState :=
  { s := { State_name := "state_Options", input := input, pos := 2 }, Prog_name := "prog",
    current_token := some ⟨TokKind.LONG_BLANK, "  ", 0⟩, next_token := some t1,
    tokens := [some ⟨TokKind.LONG_BLANK, "  ", 0⟩], Error_count := 0, max_error := 10,
    Errors := [],
    heap := [mkNode DocoptNodeType.Root none [1] none,
             mkNode DocoptNodeType.Options_section none [] (some 0)],
    ast := some 0, current_node := some 1, options_node := some 1,
    lexer_state_changed := false, run := true }

/-- The option line `  -h, --help  Show`, followed by two newlines. -/
def helpLine : List LexItem :=
  [LexItem.tok TokKind.LONG_BLANK "  ", LexItem.tok TokKind.SHORT "-h",
   LexItem.tok TokKind.PUNCT ",", LexItem.tok TokKind.LONG "--help",
   LexItem.tok TokKind.LONG_BLANK "  ", LexItem.tok TokKind.IDENT "Show",
   LexItem.tok TokKind.NEWLINE "\n", LexItem.tok TokKind.NEWLINE "\n"]

/-- The arena `Consume_option_line` builds from `helpLine`. -/
def helpLineHeapAfter : Heap :=
  [mkNode DocoptNodeType.Root none [1] none,
   mkNode DocoptNodeType.Options_section none [2] (some 0),
   mkNode DocoptNodeType.Option_line none [3, 4, 5] (some 1),
   mkNode DocoptNodeType.Option_short (some ⟨TokKind.SHORT, "-h", 1⟩) [] (some 2),
   mkNode DocoptNodeType.Option_long (some ⟨TokKind.LONG, "--help", 3⟩) [] (some 2),
   mkNode DocoptNodeType.Option_description none [6, 7] (some 2),
   mkNode DocoptNodeType.Description_node (some ⟨TokKind.IDENT, "Show", 5⟩) [] (some 5),
   mkNode DocoptNodeType.Description_node (some ⟨TokKind.NEWLINE, "\n", 6⟩) [] (some 5)]

/-- The option line `  -h = x`: the token after `=` is not an `ARGUMENT`. -/
def assignWordLine : List LexItem :=
  [LexItem.tok TokKind.LONG_BLANK "  ", LexItem.tok TokKind.SHORT "-h",
   LexItem.tok TokKind.PUNCT "=", LexItem.tok TokKind.IDENT "x", LexItem.tok TokKind.NEWLINE "\n"]

/-- The option line `  = <x>`: no option name precedes the `=`. -/
def assignFirstLine : List LexItem :=
  [LexItem.tok TokKind.LONG_BLANK "  ", LexItem.tok TokKind.PUNCT "=",
   LexItem.tok TokKind.ARGUMENT "<x>", LexItem.tok TokKind.NEWLINE "\n"]

/-- The option line `  <x>`: a bare argument that no option name precedes. -/
def argumentFirstLine : List LexItem :=
  [LexItem.tok TokKind.LONG_BLANK "  ", LexItem.tok TokKind.ARGUMENT "<x>",
   LexItem.tok TokKind.NEWLINE "\n"]

/-! ## The token cursor over a stream -/

section Cursor
variable {σ : Type}

end Cursor

/-! ## Parent/child consistency of the tree -/

/-- Parent/child consistency of the arena `h` whose root is `root`: every node listed in
the children of a node `x` is allocated and has `x` as parent, no node is listed twice in
the children of a node, and the root is allocated and has no parent. -/
structure TreeOK (h : Heap) (root : Option Nat) : Prop where
  parent : ∀ (x c : Nat) (n : DocoptAst), h[x]? = some n → c ∈ n.Children →
    ∃ cn : DocoptAst, h[c]? = some cn ∧ cn.Parent = some x
  nodup : ∀ (x : Nat) (n : DocoptAst), h[x]? = some n → n.Children.Nodup
  root : ∀ r : Nat, root = some r → ∃ rn : DocoptAst, h[r]? = some rn ∧ rn.Parent = none

section Built
variable {σ : Type}

/-- The tree of the parser is consistent, and there is no node as long as there is no
root. -/
def TreeInv (p : DocoptParser σ) : Prop :=
  TreeOK p.heap p.ast ∧ (p.ast = none → p.heap = [])

/-- The parser states whose tree is built, from no tree at all, by calls of `CreateNode`,
of `AddNode` and of the `|` case of `Consume_Usage_Expr` that returned; steps that leave
the arena and the root as they are (moving the current node, reading tokens) may come in
between. -/
inductive Built : DocoptParser σ → Prop where
  | empty (p : DocoptParser σ) : p.heap = [] → p.ast = none → Built p
  | frame (p q : DocoptParser σ) : Built p → q.heap = p.heap → q.ast = p.ast → Built q
  | createNode (p q : DocoptParser σ) (k : DocoptNodeType) (t : Option Token) :
      Built p → CreateNode k t p = Res.ok () q → Built q
  | addNode (p q : DocoptParser σ) (n : Option Nat) (k : DocoptNodeType) (t : Option Token)
      (i : Nat) : Built p → addNode n k t p = Res.ok i q → Built q
  | alternative (p q : DocoptParser σ) (r : Reason × Option Err) :
      Built p → Consume_Usage_Expr_alternative p = Res.ok r q → Built q

end Built

/-- The state `barState` with another arena, the current node being the root. -/
def treeState (h : Heap) : DocoptParser ListLexerState :=
  { barState with heap := h, current_node := some 0 }

/-- The tree of `prog a |` after the top-level `|` restructuring: the usage line 1 keeps
the program name 2 and holds the alternative group 5, which holds the expression 3 of `a`
and the new expression 6. -/
def barHeapAfter : Heap :=
  [mkNode DocoptNodeType.Usage_section none [1] none,
   mkNode DocoptNodeType.Usage_line none [2, 5] (some 0),
   mkNode DocoptNodeType.Prog_name (some ⟨TokKind.PROG_NAME, "prog", 0⟩) [] (some 1),
   mkNode DocoptNodeType.Usage_Expr none [4] (some 5),
   mkNode DocoptNodeType.Usage_command (some ⟨TokKind.IDENT, "a", 1⟩) [] (some 3),
   mkNode DocoptNodeType.Group_alternative (some ⟨TokKind.PUNCT, "|", 2⟩) [3, 6] (some 1),
   mkNode DocoptNodeType.Usage_Expr none [] (some 5)]

/-! ## Recording the calls made to the tokenizer -/

/-- One call of an operation of the tokenizer: `Next` with the token it returned or the
error it reported, `Discard`, `Reject`, `ChangeState`, `DynamicRuleUpdate`. -/
inductive LexCall where
  | next_ok (t : Token)
  | next_failed (msg : String)
  | discard (n : Nat)
  | reject (t : Token)
  | changeState (name : String)
  | dynamicRuleUpdate (rule value : String)
  deriving DecidableEq, Repr

/-- The tokenizer `L` with a log: it behaves as `L` on the first component of its state
and appends every call made to it to the second. -/
def traced {σ : Type} (L : StateLexer σ) : StateLexer (σ × List LexCall) :=
  { Next := fun s =>
      match L.Next s.1 with
      | (Except.ok t, s1) => (Except.ok t, (s1, s.2 ++ [LexCall.next_ok t]))
      | (Except.error e, s1) => (Except.error e, (s1, s.2 ++ [LexCall.next_failed e]))
    Discard := fun n s => (L.Discard n s.1, s.2 ++ [LexCall.discard n])
    Reject := fun t s => (L.Reject t s.1, s.2 ++ [LexCall.reject t])
    ChangeState := fun name s => (L.ChangeState name s.1, s.2 ++ [LexCall.changeState name])
    DynamicRuleUpdate := fun rule value s =>
      (L.DynamicRuleUpdate rule value s.1, s.2 ++ [LexCall.dynamicRuleUpdate rule value])
    State_name := fun s => L.State_name s.1 }

/-- The call is a call of `Next`. -/
def LexCall.isNext : LexCall → Bool
  | LexCall.next_ok _ => true
  | LexCall.next_failed _ => true
  | _ => false

/-- The errors reported by the failed calls of `Next` of a log, in order. -/
def failedMessages : List LexCall → List String
  | [] => []
  | LexCall.next_failed msg :: rest => msg :: failedMessages rest
  | _ :: rest => failedMessages rest

/-- The shape of the calls one `try_get_NextToken` makes when it is entered with `e` errors
counted: nothing when `e` has reached `max_error`; otherwise calls of `Next`, each failed
one followed by exactly one `Discard(1)` and then the next call, up to a call that
succeeds, or a failed call that brings the count to `max_error` and is followed by
nothing. -/
def isRetryTrace (max_error : Nat) : Nat → List LexCall → Bool
  | e, [] => decide (max_error ≤ e)
  | e, [LexCall.next_ok _] => decide (e < max_error)
  | e, [LexCall.next_failed _] => decide (e + 1 = max_error)
  | e, LexCall.next_failed _ :: LexCall.discard n :: rest =>
    decide (e + 1 < max_error) && decide (n = 1) && isRetryTrace max_error (e + 1) rest
  | _, _ => false

/-- The parser `p` over another tokenizer state. -/
def DocoptParser.withLexer {σ τ : Type} (p : DocoptParser σ) (s : τ) : DocoptParser τ :=
  { s := s, Prog_name := p.Prog_name, current_token := p.current_token,
    next_token := p.next_token, tokens := p.tokens, Error_count := p.Error_count,
    max_error := p.max_error, Errors := p.Errors, heap := p.heap, ast := p.ast,
    current_node := p.current_node, options_node := p.options_node,
    lexer_state_changed := p.lexer_state_changed, run := p.run }

/-! ## Stopping -/

section Stopping
variable {σ : Type}

/-- The quantity `cnt` of the tokenizer state can only be changed by `Next`: the other
operations of the tokenizer leave it as it is. -/
structure NextOnly (L : StateLexer σ) (cnt : σ → Nat) : Prop where
  discard : ∀ (n : Nat) (s : σ), cnt (L.Discard n s) = cnt s
  reject : ∀ (t : Token) (s : σ), cnt (L.Reject t s) = cnt s
  changeState : ∀ (name : String) (s : σ), cnt (L.ChangeState name s) = cnt s
  dynamicRuleUpdate : ∀ (rule value : String) (s : σ),
    cnt (L.DynamicRuleUpdate rule value s) = cnt s

/-- A parser that is stopped has reached the maximum number of errors. -/
def Safe (p : DocoptParser σ) : Prop :=
  p.run = false → p.max_error ≤ p.Error_count

/-- From `p` to `q` stopping is permanent: the maximum is the same, the error count did
not go down, a stopped parser is still stopped, one that was stopped only with the
maximum reached still is, and once the maximum is reached `cnt`, which only `Next` can
change, is the same. -/
def Permanent (cnt : σ → Nat) (p q : DocoptParser σ) : Prop :=
  q.max_error = p.max_error ∧ p.Error_count ≤ q.Error_count ∧
  (p.run = false → q.run = false) ∧ (Safe p → Safe q) ∧
  (p.max_error ≤ p.Error_count → cnt q.s = cnt p.s)

/-- The leaving reasons the switch of `Consume_Usage_line` handles. -/
def Reason.handled (r : Reason) : Prop :=
  r = Reason.TWO_NEWLINE ∨ r = Reason.EOF_reached ∨ r = Reason.PROG_NAME_sequence

/-- What `Consume_Usage_Expr` can return: an error, or `Continue`, or the zero reason, or
a reason the switch of `Consume_Usage_line` handles. -/
def ReturnOK (x : Reason × Option Err) : Prop :=
  x.2 ≠ none ∨ x.1 = Reason.Continue ∨ x.1 = Reason.zero ∨ x.1.handled

/-- What `Consume_loop` over `Consume_Usage_Expr` can return: an error, or a reason the
switch of `Consume_Usage_line` handles. -/
def LeaveOK (x : Reason × Option Err) : Prop :=
  x.2 ≠ none ∨ x.1.handled

end Stopping

/-- The number of calls of `Next` in a log. -/
def nextCalls (log : List LexCall) : Nat :=
  (log.filter LexCall.isNext).length

/-! ## Example states: lexical errors and a stopped parser -/

/-- Ten pieces of text no rule matches, then a word. -/
def tenBad : List LexItem :=
  List.replicate 10 (LexItem.bad "no match") ++ [LexItem.tok TokKind.IDENT "a"]

/-- The first call of `NextToken` on `tenBad`. -/
def tenBadRun : Res ListLexerState Unit :=
  NextToken listLexer (ParserInit ⟨"state_Prologue", tenBad, 0⟩)

/-- Two pieces of text no rule matches, then a word. -/
def twoBad : List LexItem :=
  [LexItem.bad "no match", LexItem.bad "no match", LexItem.tok TokKind.IDENT "a"]

/-- The initial parser over the recording `listLexer` on the given input. -/
def tracedInit (input : List LexItem) : DocoptParser (ListLexerState × List LexCall) :=
  ParserInit (⟨"state_Prologue", input, 0⟩, [])

/-- The state `argumentState` (after `prog a`, `FILE` current) with the parser stopped. -/
def stoppedUsageState : DocoptParser ListLexerState :=
  { argumentState with run := false, Error_count := 10 }

/-- The tokens of `Usage: prog a`. -/
def usageProgA : List LexItem :=
  [LexItem.tok TokKind.USAGE "Usage:", LexItem.tok TokKind.PROG_NAME "prog",
   LexItem.tok TokKind.IDENT "a"]

/-- The state `Consume_Prologue` returns in on `usageProgA`: `Usage:` is the current
token and the only entry of the history, `prog` is the lookahead. -/
def headingState : DocoptParser ListLexerState :=
  { s := { State_name := "state_Prologue", input := usageProgA, pos := 2 }, Prog_name := "",
    current_token := some ⟨TokKind.USAGE, "Usage:", 0⟩,
    next_token := some ⟨TokKind.PROG_NAME, "prog", 1⟩,
    tokens := [some ⟨TokKind.USAGE, "Usage:", 0⟩], Error_count := 0,
    max_error := 10, Errors := [],
    heap := [mkNode DocoptNodeType.Root none [1, 2] none,
             mkNode DocoptNodeType.Prologue none [] (some 0),
             mkNode DocoptNodeType.Usage_section none [3] (some 0),
             mkNode DocoptNodeType.Usage (some ⟨TokKind.USAGE, "Usage:", 0⟩) [] (some 2)],
    ast := some 0, current_node := some 2, options_node := none,
    lexer_state_changed := false, run := true }

/-! ## Example states: the options section -/

/-- A parser over `listLexer` at the call of `Consume_Options` on an `Options:` heading,
the first unit of the input; `t1` is the lookahead, the second unit.  The root 0 holds
the usage section 1 and the free section 2, which is the current node. -/
def optionsHeadingState (input : List LexItem) (t1 : Token) : DocoptParser ListLexerState :=
  { s := { State_name := "state_Free", input := input, pos := 2 }, Prog_name := "prog",
    current_token := some ⟨TokKind.SECTION, "Options:", 0⟩, next_token := some t1,
    tokens := [some ⟨TokKind.SECTION, "Options:", 0⟩], Error_count := 0, max_error := 10,
    Errors := [],
    heap := [mkNode DocoptNodeType.Root none [1, 2] none,
             mkNode DocoptNodeType.Usage_section none [] (some 0),
             mkNode DocoptNodeType.Free_section none [] (some 0)],
    ast := some 0, current_node := some 2, options_node := none,
    lexer_state_changed := false, run := true }

/-- The options section `Options:`, newline, `  -h  Show`, a blank line, `more`. -/
def blankLineThenWord : List LexItem :=
  [LexItem.tok TokKind.SECTION "Options:", LexItem.tok TokKind.NEWLINE "\n",
   LexItem.tok TokKind.LONG_BLANK "  ", LexItem.tok TokKind.SHORT "-h",
   LexItem.tok TokKind.LONG_BLANK "  ", LexItem.tok TokKind.IDENT "Show",
   LexItem.tok TokKind.NEWLINE "\n", LexItem.tok TokKind.NEWLINE "\n",
   LexItem.tok TokKind.IDENT "more"]

/-- The arena `Consume_Options` builds from `blankLineThenWord`: the options section 3
holds its name 4, the option line 5 and the later word 10. -/
def blankLineThenWordHeap : Heap :=
  [mkNode DocoptNodeType.Root none [1, 2, 3] none,
   mkNode DocoptNodeType.Usage_section none [] (some 0),
   mkNode DocoptNodeType.Free_section none [] (some 0),
   mkNode DocoptNodeType.Options_section none [4, 5, 10] (some 0),
   mkNode DocoptNodeType.Section_name (some ⟨TokKind.SECTION, "Options:", 0⟩) [] (some 3),
   mkNode DocoptNodeType.Option_line none [6, 7] (some 3),
   mkNode DocoptNodeType.Option_short (some ⟨TokKind.SHORT, "-h", 3⟩) [] (some 5),
   mkNode DocoptNodeType.Option_description none [8, 9] (some 5),
   mkNode DocoptNodeType.Description_node (some ⟨TokKind.IDENT, "Show", 5⟩) [] (some 7),
   mkNode DocoptNodeType.Description_node (some ⟨TokKind.NEWLINE, "\n", 6⟩) [] (some 7),
   mkNode DocoptNodeType.Options_node (some ⟨TokKind.IDENT, "more", 8⟩) [] (some 3)]

/-- A parser over `listLexer` at the call of `Consume_option_description`: the option line 2
holds the name `-h`, the first unit of the input; the current token is the blank after
it, the second unit, and `t1` the lookahead, the third unit. -/
def descriptionState (input : List LexItem) (t1 : Token) : DocoptParser ListLexerState :=
  { s := { State_name := "state_Options", input := input, pos := 3 }, Prog_name := "prog",
    current_token := some ⟨TokKind.LONG_BLANK, "  ", 1⟩, next_token := some t1,
    tokens := [some ⟨TokKind.SHORT, "-h", 0⟩, some ⟨TokKind.LONG_BLANK, "  ", 1⟩],
    Error_count := 0, max_error := 10, Errors := [],
    heap := [mkNode DocoptNodeType.Root none [1] none,
             mkNode DocoptNodeType.Options_section none [2] (some 0),
             mkNode DocoptNodeType.Option_line none [3] (some 1),
             mkNode DocoptNodeType.Option_short (some ⟨TokKind.SHORT, "-h", 0⟩) [] (some 2)],
    ast := some 0, current_node := some 2, options_node := some 1,
    lexer_state_changed := false, run := true }

/-- The option line `-h  Show`, a blank line, `more`. -/
def showBlankLine : List LexItem :=
  [LexItem.tok TokKind.SHORT "-h", LexItem.tok TokKind.LONG_BLANK "  ",
   LexItem.tok TokKind.IDENT "Show", LexItem.tok TokKind.NEWLINE "\n",
   LexItem.tok TokKind.NEWLINE "\n", LexItem.tok TokKind.IDENT "more"]

/-- The state in which the loop of `Consume_option_description` starts on `showBlankLine`:
the description 4 has been added to the option line. -/
def describedState : DocoptParser ListLexerState :=
  { descriptionState showBlankLine ⟨TokKind.IDENT, "Show", 2⟩ with
    heap := [mkNode DocoptNodeType.Root none [1] none,
             mkNode DocoptNodeType.Options_section none [2] (some 0),
             mkNode DocoptNodeType.Option_line none [3, 4] (some 1),
             mkNode DocoptNodeType.Option_short (some ⟨TokKind.SHORT, "-h", 0⟩) [] (some 2),
             mkNode DocoptNodeType.Option_description none [] (some 2)] }

/-- The option line `-h  a`, newline, `b  -x`: the blank before `-x` is in the middle of
the second line of the description. -/
def blankInsideLine : List LexItem :=
  [LexItem.tok TokKind.SHORT "-h", LexItem.tok TokKind.LONG_BLANK "  ",
   LexItem.tok TokKind.IDENT "a", LexItem.tok TokKind.NEWLINE "\n",
   LexItem.tok TokKind.IDENT "b", LexItem.tok TokKind.LONG_BLANK "  ",
   LexItem.tok TokKind.SHORT "-x", LexItem.tok TokKind.NEWLINE "\n"]

/-- The option line `-h  a  -x`, then a blank line: the same blank on the first line of
the description. -/
def blankFirstLine : List LexItem :=
  [LexItem.tok TokKind.SHORT "-h", LexItem.tok TokKind.LONG_BLANK "  ",
   LexItem.tok TokKind.IDENT "a", LexItem.tok TokKind.LONG_BLANK "  ",
   LexItem.tok TokKind.SHORT "-x", LexItem.tok TokKind.NEWLINE "\n",
   LexItem.tok TokKind.NEWLINE "\n"]

/-- The state `noOptionsState` (the free section ended on `EOF`) with the parser
stopped. -/
def stoppedState : DocoptParser ListLexerState :=
  { noOptionsState with run := false, Error_count := 10 }

/-- The state `optionsHeadingState` (the current token is an `Options:` heading) with the
parser stopped. -/
def stoppedHeadingState : DocoptParser ListLexerState :=
  { optionsHeadingState blankLineThenWord ⟨TokKind.NEWLINE, "\n", 1⟩ with
    run := false, Error_count := 10 }

/-- The run of `Parse` on `wordThenEnd`, a text without `Usage:` heading. -/
def noUsageRun : Res ListLexerState (Option Nat) :=
  Parse listLexer 12 (ParserInit ⟨"state_Prologue", wordThenEnd, 0⟩)

/-- The state after the first call of `NextToken` on `tenBad`, over the recording
tokenizer: ten errors are counted and the parser is stopped. -/
def tracedStopped : DocoptParser (ListLexerState × List LexCall) :=
  (NextToken (traced listLexer) (tracedInit tenBad)).state

/-! ## Example states: nested groups -/

/-- The input `[ a | ( b ) ]`. -/
def inputNested : List LexItem :=
  [LexItem.tok TokKind.PUNCT "[", LexItem.tok TokKind.IDENT "a", LexItem.tok TokKind.PUNCT "|",
   LexItem.tok TokKind.PUNCT "(", LexItem.tok TokKind.IDENT "b", LexItem.tok TokKind.PUNCT ")",
   LexItem.tok TokKind.PUNCT "]"]

/-- The state in which `Consume_Usage_Expr` reads the `[` of `[ a | ( b ) ]`: the current
node is the `Usage_Expr` 0. -/
def nestedState : DocoptParser ListLexerState :=
  usageState inputNested 2 [mkNode DocoptNodeType.Usage_Expr none [] none] 0
    (some ⟨TokKind.PUNCT, "[", 0⟩) (some ⟨TokKind.IDENT, "a", 1⟩) [some ⟨TokKind.PUNCT, "[", 0⟩]

/-- The input `[ a`, which ends before the group is closed. -/
def inputUnclosed : List LexItem :=
  [LexItem.tok TokKind.PUNCT "[", LexItem.tok TokKind.IDENT "a"]

/-- The state in which `Consume_Usage_Expr` reads the `[` of `[ a`. -/
def unclosedState : DocoptParser ListLexerState :=
  usageState inputUnclosed 2 [mkNode DocoptNodeType.Usage_Expr none [] none] 0
    (some ⟨TokKind.PUNCT, "[", 0⟩) (some ⟨TokKind.IDENT, "a", 1⟩) [some ⟨TokKind.PUNCT, "[", 0⟩]

/-- The state after `prog a` when `FILE` has just become the current token and a blank
line follows. -/
def twoNewlineState : DocoptParser ListLexerState :=
  usageState [LexItem.tok TokKind.PROG_NAME "prog", LexItem.tok TokKind.IDENT "a",
      LexItem.tok TokKind.ARGUMENT "FILE", LexItem.tok TokKind.NEWLINE "\n",
      LexItem.tok TokKind.NEWLINE "\n"] 4
    (lineHeap DocoptNodeType.Usage_command ⟨TokKind.IDENT, "a", 1⟩) 3
    (some ⟨TokKind.ARGUMENT, "FILE", 2⟩) (some ⟨TokKind.NEWLINE, "\n", 3⟩)
    [some ⟨TokKind.IDENT, "a", 1⟩, some ⟨TokKind.ARGUMENT, "FILE", 2⟩]

/-! ## Example runs: a tokenizer that fails -/

/-- The run of `Parse` on `tenBad`, ten pieces of text no rule matches. -/
def tenBadParse : Res ListLexerState (Option Nat) :=
  Parse listLexer 12 (ParserInit ⟨"state_Prologue", tenBad, 0⟩)

/-! ## Example states: headings under Unicode case folding -/

/-- The options section of `blankLineThenWord` under the heading `Optionſ:`, written with
the long s U+017F. -/
def longSOptions : List LexItem :=
  LexItem.tok TokKind.SECTION "Optionſ:" :: blankLineThenWord.tail

/-- The state `optionsHeadingState` when the heading read is `Optionſ:`. -/
def longSHeadingState : DocoptParser ListLexerState :=
  { optionsHeadingState longSOptions ⟨TokKind.NEWLINE, "\n", 1⟩ with
    current_token := some ⟨TokKind.SECTION, "Optionſ:", 0⟩,
    tokens := [some ⟨TokKind.SECTION, "Optionſ:", 0⟩] }

/-- The state `longSHeadingState` with the parser stopped. -/
def stoppedLongSState : DocoptParser ListLexerState :=
  { longSHeadingState with run := false, Error_count := 10 }

/-! ## The command line wrapper `docopts.go`: names and values for bash

Go strings are modelled by `String`, that is by valid UTF-8 text; a byte index that the
source takes is translated at the place where it is taken. -/

/-- The error values built in `docopts.go`, one constructor per `fmt.Errorf` site, with
the values its message formats. -/
inductive DocoptsErr where
  | mangling_not_supported (elem : String)
  | cannot_transform (elem v : String)
  | not_supported
  | identical_names (prev_key : String)
  deriving DecidableEq, Repr

/-- How a routine of `docopts.go` ends: it returns a value with a nil error, it returns
an error, or it panics. -/
inductive Out (α : Type) where
  | ok (a : α)
  | error (e : DocoptsErr)
  | panic
  deriving DecidableEq, Repr

/-- Sequencing of two routines: the second runs on the value the first returned. -/
def Out.andThen {α β : Type} (r : Out α) (f : α → Out β) : Out β :=
  match r with
  | Out.ok a => f a
  | Out.error e => Out.error e
  | Out.panic => Out.panic

/-- The call `strings.Replace(s, old, new, -1)` for a pattern `old` of one character:
every occurrence of `old` is replaced by `new`. -/
def strings_Replace (s : String) (old : Char) (new : String) : String :=
  String.mk (s.data.flatMap fun c => if c = old then new.data else [c])

/-- Translation of `Shellquote`: every `'` becomes the four characters `'\''`. -/
def Shellquote (s : String) : String :=
  strings_Replace s '\'' "'\\''"

/-- An ASCII letter, `[A-Za-z]`. -/
def isLetter (c : Char) : Bool :=
  (decide (65 ≤ c.toNat) && decide (c.toNat ≤ 90)) ||
    (decide (97 ≤ c.toNat) && decide (c.toNat ≤ 122))

/-- An ASCII letter, digit or underscore, `[0-9A-Za-z_]`. -/
def isWordChar (c : Char) : Bool :=
  isLetter c || (decide (48 ≤ c.toNat) && decide (c.toNat ≤ 57)) || decide (c = '_')

/-- Translation of `IsBashIdentifier`: the whole string matches
`^([A-Za-z]|[A-Za-z_][0-9A-Za-z_]+)$`. -/
def IsBashIdentifier (s : String) : Bool :=
  match s.data with
  | [] => false
  | [c] => isLetter c
  | c :: rest => (isLetter c || decide (c = '_')) && rest.all isWordChar

/-- The values a `docopt.Opts` map holds, by the cases of the type switch of `To_bash`;
`other` stands for a value of any other type. -/
inductive OptValue where
  | bool (b : Bool)
  | int (i : Int)
  | str (s : String)
  | strs (arr : List String)
  | nil
  | other
  deriving DecidableEq, Repr

/-- Translation of `To_bash`; `none` is the `panic` of the default case. -/
def To_bash (v : OptValue) : Option String :=
  match v with
  | OptValue.bool b => some (if b then "true" else "false")
  | OptValue.int i => some (toString i)
  | OptValue.str s => some ("'" ++ Shellquote s ++ "'")
  | OptValue.strs arr =>
    if arr.length = 0 then some "()"
    else some ("('" ++ "' '".intercalate (arr.map Shellquote) ++ "')")
  | OptValue.nil => some ""
  | OptValue.other => none

/-- Translation of `type Key_Generator int`. -/
abbrev Key_Generator : Type := Int

/-- Translation of `Mangled Key_Generator = iota + 1`. -/
def Mangled : Key_Generator := 1
/-- The second constant of the block. -/
def Verbatim : Key_Generator := 2
/-- The third constant of the block. -/
def Docopt_sh : Key_Generator := 3

/-- Translation of `type Docopts struct`. -/
structure Docopts where
  Global_prefix : String
  Key_output : Key_Generator
  Output_declare : Bool
  Exit_function : Bool
  deriving DecidableEq, Repr

/-- The call `Match("^<.*>$", elem)`: `elem` starts with `<`, ends with a later `>`, and
holds no newline in between (`.` does not match a newline). -/
def Match_angle (elem : String) : Bool :=
  match elem.data with
  | c :: rest =>
    decide (c = '<') && decide (rest.getLast? = some '>') &&
      rest.dropLast.all (fun x => decide (x ≠ '\n'))
  | [] => false

/-- The call `Match("^-[^-]$", elem)`: `-` followed by exactly one character other than
`-` (a negated class matches a newline). -/
def Match_short (elem : String) : Bool :=
  match elem.data with
  | [c1, c2] => decide (c1 = '-') && decide (c2 ≠ '-')
  | _ => false

/-- The call `Match("^--.+$", elem)`: `--` followed by one or more characters, none of
them a newline. -/
def Match_long (elem : String) : Bool :=
  match elem.data with
  | c1 :: c2 :: c3 :: rest =>
    decide (c1 = '-') && decide (c2 = '-') && (c3 :: rest).all (fun x => decide (x ≠ '\n'))
  | _ => false

/-- The first byte of the UTF-8 encoding of a character. -/
def utf8_first_byte (c : Char) : Nat :=
  if c.toNat < 128 then c.toNat
  else if c.toNat < 2048 then 192 + c.toNat / 64
  else if c.toNat < 65536 then 224 + c.toNat / 4096
  else 240 + c.toNat / 262144

/-- The expression `fmt.Sprintf("%c", elem[1])` where `elem` is `-` followed by the
character `c`: `elem[1]` is a byte, the first one of `c`, printed as the character of that
number. -/
def Sprintf_c_byte1 (c : Char) : String :=
  String.singleton (Char.ofNat (utf8_first_byte c))

/-- The format built by `key_fmt := "%s"` and, for a non-empty prefix,
`key_fmt = fmt.Sprintf("%s_%%s", d.Global_prefix)`: the prefix followed by `_%s`. -/
def Docopts.key_fmt (d : Docopts) : String :=
  if d.Global_prefix ≠ "" then d.Global_prefix ++ "_%s" else "%s"

/-! ### `fmt.Sprintf` with one string operand

`fmt.Sprintf(key_fmt, x)` is called with a format that holds `Global_prefix`.  The
definitions below follow `doPrintf` of package `fmt` for one operand, a string: the
literal text, the flags, an argument index `[n]`, width, precision and the verb of each
directive, the count of operands used, and the texts printed for a missing operand, a bad
index, a missing verb, a bad width or precision and an unused operand.  The text printed
for the operand under a directive is `x` itself for the plain `%s`; for any other
directive (other verbs, flags, width, precision) it is given by a parameter of type
`Rendering`, a function of the text of the directive and the operand. -/

/-- The text `fmt` prints for a string operand under a directive other than the plain
`%s`: a function of the characters of the directive after its `%`, verb included, and of
the operand. -/
abbrev Rendering : Type := List Char → String → List Char

/-- The function `tooLarge` of package `fmt`, on a number that is not negative. -/
def fmt_tooLarge (x : Nat) : Bool := decide (1000000 < x)

/-- The loop of `parsenum`: the number read so far, whether a digit was read, and the
text left; a number that grows too large ends the parse at the end of the text. -/
def fmt_parsenum_loop : Nat → Bool → List Char → Nat × Bool × List Char
  | num, isnum, [] => (num, isnum, [])
  | num, isnum, c :: rest =>
    if 48 ≤ c.toNat ∧ c.toNat ≤ 57 then
      if fmt_tooLarge num = true then (0, false, [])
      else fmt_parsenum_loop (num * 10 + (c.toNat - 48)) true rest
    else (num, isnum, c :: rest)

/-- The function `parsenum` of package `fmt` on the text from a position to its end. -/
def fmt_parsenum (l : List Char) : Nat × Bool × List Char :=
  fmt_parsenum_loop 0 false l

/-- The text before the first `]` and the text after it. -/
def fmt_split_bracket : List Char → Option (List Char × List Char)
  | [] => none
  | c :: rest =>
    if c = ']' then some ([], rest)
    else (fmt_split_bracket rest).map fun r => (c :: r.1, r.2)

/-- The function `parseArgNumber` of package `fmt` on a text `[` followed by `tail`: the
number between the brackets, the text after the closing bracket, and whether the brackets
hold a number and nothing else.  Without a closing bracket, or when the text is shorter
than three characters, only the `[` is passed. -/
def fmt_parseArgNumber (tail : List Char) : Nat × List Char × Bool :=
  if tail.length + 1 < 3 then (0, tail, false)
  else
    match fmt_split_bracket tail with
    | none => (0, tail, false)
    | some (content, after) =>
      if (fmt_parsenum content).2.1 = false ∨ (fmt_parsenum content).2.2 ≠ [] then
        (0, after, false)
      else ((fmt_parsenum content).1, after, true)

/-- The variables of `doPrintf` while a format is processed: the text printed so far, the
index of the next operand, the flags `reordered`, `goodArgNum` and `afterIndex`, and the
part of the format that is left. -/
structure FmtState where
  out : List Char
  argNum : Nat
  reordered : Bool
  goodArgNum : Bool
  afterIndex : Bool
  rest : List Char
  deriving DecidableEq, Repr

/-- The method `argNumber` of package `fmt` with one operand: at a `[`, an index `[1]`
selects the operand; any other bracket clears `goodArgNum`. -/
def FmtState.argNumber (s : FmtState) : FmtState :=
  match s.rest with
  | c :: tail =>
    if c = '[' then
      if (fmt_parseArgNumber tail).2.2 = true ∧ (fmt_parseArgNumber tail).1 = 1 then
        { s with argNum := 0, rest := (fmt_parseArgNumber tail).2.1, afterIndex := true,
                 reordered := true }
      else
        { s with rest := (fmt_parseArgNumber tail).2.1,
                 afterIndex := (fmt_parseArgNumber tail).2.2, reordered := true,
                 goodArgNum := false }
    else { s with afterIndex := false }
  | [] => { s with afterIndex := false }

/-- The function `intFromArg` of package `fmt` on a string operand: the operand, when
there is one left, is used up and is not an integer. -/
def fmt_intFromArg (argNum : Nat) : Nat :=
  if argNum < 1 then argNum + 1 else argNum

/-- The width of a directive: `*` takes the width from the operand, which is not an
integer, and prints `%!(BADWIDTH)`; otherwise a number is passed, and a number after an
index clears `goodArgNum`. -/
def FmtState.width (s : FmtState) : FmtState :=
  match s.rest with
  | c :: tail =>
    if c = '*' then
      { s with rest := tail, argNum := fmt_intFromArg s.argNum,
               out := s.out ++ "%!(BADWIDTH)".data, afterIndex := false }
    else
      { s with rest := (fmt_parsenum s.rest).2.2,
               goodArgNum :=
                 if s.afterIndex = true ∧ (fmt_parsenum s.rest).2.1 = true then false
                 else s.goodArgNum }
  | [] => s

/-- The number or `*` after the `.` of a precision. -/
def FmtState.precision_value (s : FmtState) : FmtState :=
  match s.rest with
  | c :: tail =>
    if c = '*' then
      { s with rest := tail, argNum := fmt_intFromArg s.argNum,
               out := s.out ++ "%!(BADPREC)".data, afterIndex := false }
    else { s with rest := (fmt_parsenum s.rest).2.2 }
  | [] => s

/-- The precision of a directive: after a `.`, an index, then `*` or a number. -/
def FmtState.precision (s : FmtState) : FmtState :=
  match s.rest with
  | c :: tail =>
    if c = '.' then
      ({ s with rest := tail,
                goodArgNum := if s.afterIndex = true then false else s.goodArgNum }
        ).argNumber.precision_value
    else s
  | [] => s

/-- The flags of a directive, `#`, `0`, `+`, `-` and space, are passed. -/
def fmt_skip_flags : List Char → List Char
  | [] => []
  | c :: rest =>
    if c = '#' ∨ c = '0' ∨ c = '+' ∨ c = '-' ∨ c = ' ' then fmt_skip_flags rest
    else c :: rest

/-- The call `p.printArg(x, verb)` under the directive whose text after `%` is
`directive`. -/
def fmt_printArg (R : Rendering) (directive : List Char) (x : String) : List Char :=
  if directive = ['s'] then x.data else R directive x

/-- The verb of a directive, read in `s.rest`; `l0` is the text of the format after the
`%` of the directive.  `%%` prints `%`; a bad index and a missing operand print their
notice; otherwise the operand is printed and used up.  `none`: the format ended without
a verb, `%!(NOVERB)` is printed and the loop is left. -/
def FmtState.verb (R : Rendering) (x : String) (l0 : List Char) (s : FmtState) :
    Option FmtState :=
  match s.rest with
  | [] => none
  | c :: tail =>
    if c = '%' then some { s with out := s.out ++ ['%'], rest := tail }
    else if s.goodArgNum = false then
      some { s with out := s.out ++ ("%!".data ++ c :: "(BADINDEX)".data), rest := tail }
    else if 1 ≤ s.argNum then
      some { s with out := s.out ++ ("%!".data ++ c :: "(MISSING)".data), rest := tail }
    else
      some { s with out := s.out ++ fmt_printArg R (l0.take (l0.length - tail.length)) x,
                    argNum := s.argNum + 1, rest := tail }

/-- The part of a directive between its flags and its verb: an index, the width, the
precision and, unless an index came just before, a second index. -/
def FmtState.before_verb (s : FmtState) : FmtState :=
  if s.argNumber.width.precision.afterIndex = true then s.argNumber.width.precision
  else s.argNumber.width.precision.argNumber

/-- The text `%!(NOVERB)` is printed when the format ends inside a directive. -/
def FmtState.noverb (s : FmtState) : FmtState :=
  { s with out := s.out ++ "%!(NOVERB)".data }

/-- One directive of the format, `l0` being the text after its `%`.  After the flags, a
lowercase ASCII letter is the verb at once when an operand is left; otherwise index,
width, precision and a second index are read before the verb.  The result is the state
after the directive and whether the loop goes on. -/
def fmt_directive (R : Rendering) (x : String) (l0 : List Char) (s : FmtState) :
    FmtState × Bool :=
  match fmt_skip_flags l0 with
  | c :: tail =>
    if 97 ≤ c.toNat ∧ c.toNat ≤ 122 ∧ s.argNum < 1 then
      ({ s with out := s.out ++ fmt_printArg R (l0.take (l0.length - tail.length)) x,
                argNum := s.argNum + 1, goodArgNum := true, rest := tail }, true)
    else
      match ({ s with goodArgNum := true, rest := c :: tail }).before_verb.verb R x l0 with
      | some s3 => (s3, true)
      | none => (({ s with goodArgNum := true, rest := c :: tail }).before_verb.noverb, false)
  | [] => (({ s with goodArgNum := true, rest := [] }).before_verb.noverb, false)

/-- The end of `doPrintf`: an operand that no directive used is reported, unless an index
was met. -/
def FmtState.finish (x : String) (s : FmtState) : List Char :=
  if s.reordered = false ∧ s.argNum < 1 then
    s.out ++ ("%!(EXTRA string=".data ++ x.data ++ [')'])
  else s.out

/-- The loop of `doPrintf`: the text up to the next `%` is copied, then one directive is
processed.  The first argument bounds the number of iterations; each one passes at least
one character, so that a bound larger than the length of the format is never reached
(`fmt_doPrintf_fuel`). -/
def fmt_doPrintf (R : Rendering) (x : String) : Nat → FmtState → List Char
  | 0, s => s.finish x
  | fuel + 1, s =>
    match s.rest.dropWhile (fun c => decide (c ≠ '%')) with
    | [] => ({ s with out := s.out ++ s.rest, rest := [] }).finish x
    | _ :: l0 =>
      match fmt_directive R x l0
          { s with out := s.out ++ s.rest.takeWhile (fun c => decide (c ≠ '%')) } with
      | (s1, true) => fmt_doPrintf R x fuel s1
      | (s1, false) => s1.finish x

/-- The call `fmt.Sprintf(format, x)` with one operand, the string `x`. -/
def Sprintf (R : Rendering) (format x : String) : String :=
  String.mk (fmt_doPrintf R x (format.data.length + 1)
    { out := [], argNum := 0, reordered := false, goodArgNum := true, afterIndex := false,
      rest := format.data })

/-- The call `fmt.Sprintf(key_fmt, x)`. -/
def Sprintf_key (R : Rendering) (key_fmt x : String) : String :=
  Sprintf R key_fmt x

/-- A text that is empty, or that ends with `_%s` after `n` characters or fewer. -/
def KeyTail (n : Nat) (r : List Char) : Prop :=
  r = [] ∨ ∃ b : List Char, r = b ++ ['_', '%', 's'] ∧ b.length ≤ n

/-- The `if ... else if ... else` of `Name_mangle` that strips `elem`: `elem[1 :
len(elem)-1]`, `fmt.Sprintf("%c", elem[1])`, `elem[2:]` or `elem`. -/
def Name_mangle_strip (elem : String) : String :=
  if Match_angle elem then String.mk (elem.data.drop 1).dropLast
  else if Match_short elem then
    match elem.data with
    | [_, c] => Sprintf_c_byte1 c
    | _ => ""
  else if Match_long elem then String.mk (elem.data.drop 2)
  else elem

/-- Translation of `Name_mangle`. -/
def Docopts.Name_mangle (d : Docopts) (R : Rendering) (elem : String) : Out String :=
  if d.Global_prefix = "" ∧ (elem = "-" ∨ elem = "--") then
    Out.error (DocoptsErr.mangling_not_supported elem)
  else
    if IsBashIdentifier
        (Sprintf_key R d.key_fmt (strings_Replace (Name_mangle_strip elem) '-' "_")) = false then
      Out.error (DocoptsErr.cannot_transform elem
        (Sprintf_key R d.key_fmt (strings_Replace (Name_mangle_strip elem) '-' "_")))
    else Out.ok (Sprintf_key R d.key_fmt (strings_Replace (Name_mangle_strip elem) '-' "_"))

/-- The call `re.ReplaceAllString(elem, "_")` for `^[^a-zA-Z_]|[^a-zA-Z0-9_]`, on the
characters from a position on: a first character that is not a letter or `_`, and any
character that is not a letter, digit or `_`, becomes `_`. -/
def underscore_chars : Bool → List Char → List Char
  | _, [] => []
  | true, c :: rest =>
    (if isLetter c || decide (c = '_') then c else '_') :: underscore_chars false rest
  | false, c :: rest => (if isWordChar c then c else '_') :: underscore_chars false rest

/-- Translation of `Replace_with_undercore`. -/
def Docopts.Replace_with_undercore (_d : Docopts) (elem : String) : Out String :=
  if elem = "-" ∨ elem = "--" then Out.error DocoptsErr.not_supported
  else Out.ok (String.mk (underscore_chars true elem.data))

/-- The order of `sort.Strings`, byte by byte; on UTF-8 text it is the order character by
character. -/
def chars_le : List Char → List Char → Bool
  | [], _ => true
  | _ :: _, [] => false
  | a :: s, b :: t => decide (a.toNat < b.toNat) || (decide (a.toNat = b.toNat) && chars_le s t)

/-- The order of `sort.Strings` on strings. -/
def string_le (a b : String) : Prop := chars_le a.data b.data = true

instance (a b : String) : Decidable (string_le a b) :=
  inferInstanceAs (Decidable (chars_le a.data b.data = true))

/-- Translation of `Sort_args_keys(args, nil)`: the keys of the map in increasing order.
The map is given by the list of its entries. -/
def Sort_args_keys (args : List (String × OptValue)) : List String :=
  (args.map Prod.fst).insertionSort string_le

/-- The expression `args[key]`: the value of the entry, nil when there is none. -/
def args_get (args : List (String × OptValue)) (key : String) : OptValue :=
  match args.find? (fun kv => decide (kv.1 = key)) with
  | some kv => kv.2
  | none => OptValue.nil

/-- The variables of `Print_bash_global` that live across the iterations of its loop;
`varmap` is given by the list of its entries, the latest first. -/
structure PrintState where
  new_name : String
  varmap : List (String × String)
  out_buf : String
  deriving DecidableEq, Repr

/-- The lookup `varmap[name]`. -/
def varmap_get (varmap : List (String × String)) (name : String) : Option String :=
  match varmap.find? (fun kv => decide (kv.1 = name)) with
  | some kv => some kv.2
  | none => none

/-- The `switch d.Key_output` of `Print_bash_global` for one key: the value of `new_name`
after it, or `none` for the `continue` of a skipped `--`. -/
def Docopts.Print_bash_global_switch (d : Docopts) (R : Rendering) (new_name key : String) :
    Out (Option String) :=
  if d.Key_output = Mangled then
    if key = "--" ∧ d.Global_prefix = "" then Out.ok none
    else (d.Name_mangle R key).andThen fun v => Out.ok (some v)
  else if d.Key_output = Verbatim then Out.ok (some key)
  else if d.Key_output = Docopt_sh then
    (d.Replace_with_undercore key).andThen fun v => Out.ok (some (Sprintf_key R d.key_fmt v))
  else Out.ok (some new_name)

/-- One iteration of the loop of `Print_bash_global`. -/
def Docopts.Print_bash_global_key (d : Docopts) (R : Rendering)
    (args : List (String × OptValue)) (st : PrintState) (key : String) : Out PrintState :=
  (d.Print_bash_global_switch R st.new_name key).andThen fun r =>
    match r with
    | none => Out.ok st
    | some new_name =>
      match varmap_get st.varmap new_name with
      | some prev_key => Out.error (DocoptsErr.identical_names prev_key)
      | none =>
        match To_bash (args_get args key) with
        | none => Out.panic
        | some b =>
          Out.ok { new_name := new_name, varmap := (new_name, key) :: st.varmap,
                   out_buf := st.out_buf ++ (new_name ++ "=" ++ b ++ "\n") }

/-- The loop of `Print_bash_global` over the sorted keys. -/
def Docopts.Print_bash_global_loop (d : Docopts) (R : Rendering)
    (args : List (String × OptValue)) : List String → PrintState → Out PrintState
  | [], st => Out.ok st
  | key :: rest, st =>
    (d.Print_bash_global_key R args st key).andThen fun st1 =>
      d.Print_bash_global_loop R args rest st1

/-- Translation of `Print_bash_global`: how it ends, and the text it has written to
`out`. -/
def Docopts.Print_bash_global (d : Docopts) (R : Rendering)
    (args : List (String × OptValue)) : Out Unit × String :=
  match d.Print_bash_global_loop R args (Sort_args_keys args) ⟨"", [], ""⟩ with
  | Out.ok st => (Out.ok (), st.out_buf)
  | Out.error e => (Out.error e, "")
  | Out.panic => (Out.panic, "")

/-! ## The words of the specification about names and quoting -/

/-- Decoding by the single-quoting rules of the shell: text inside `'...'` is literal,
`\'` outside quotes is a literal quote, adjacent pieces concatenate.  The flag tells
whether the position is inside quotes; `none`: the text is not made of such pieces. -/
def shell_decode : Bool → List Char → Option (List Char)
  | false, [] => some []
  | true, [] => none
  | true, c :: rest =>
    if c = '\'' then shell_decode false rest
    else (shell_decode true rest).map (fun r => c :: r)
  | false, [_] => none
  | false, c1 :: c2 :: rest =>
    if c1 = '\'' then shell_decode true (c2 :: rest)
    else if c1 = '\\' ∧ c2 = '\'' then (shell_decode false rest).map (fun r => '\'' :: r)
    else none

/-- The body of a name in the words of the specification: `elem` without its enclosing
`<` `>`, without its leading `-` when it is `-c` for one character `c` other than `-`,
without its leading `--` when it is `--name` for a non-empty name, or `elem` itself. -/
def mangle_body (elem : String) : String :=
  match elem.data with
  | c1 :: c2 :: rest =>
    if c1 = '<' ∧ (c2 :: rest).getLast? = some '>' then String.mk (c2 :: rest).dropLast
    else if c1 = '-' ∧ c2 ≠ '-' ∧ rest = [] then String.mk [c2]
    else if c1 = '-' ∧ c2 = '-' ∧ rest ≠ [] then String.mk rest
    else elem
  | _ => elem

/-- The name `v` in the words of the specification: the body with every `-` replaced by
`_`, after `Global_prefix` and `_` when the prefix is not empty. -/
def mangled_name (d : Docopts) (elem : String) : String :=
  (if d.Global_prefix ≠ "" then d.Global_prefix ++ "_" else "") ++
    String.mk ((mangle_body elem).data.map fun c => if c = '-' then '_' else c)

/-- A key that `Print_bash_global` skips: `--` in `Mangled` mode with an empty prefix. -/
def Docopts.skipped (d : Docopts) (key : String) : Bool :=
  decide (d.Key_output = Mangled ∧ key = "--" ∧ d.Global_prefix = "")

/-- The output variable name a key is given, by the mode `d.Key_output`. -/
def Docopts.output_name (d : Docopts) (R : Rendering) (key : String) : Out String :=
  if d.Key_output = Mangled then d.Name_mangle R key
  else if d.Key_output = Verbatim then Out.ok key
  else if d.Key_output = Docopt_sh then
    (d.Replace_with_undercore key).andThen fun v => Out.ok (Sprintf_key R d.key_fmt v)
  else Out.ok ""

/-- The line `name=value` of a key, with its newline. -/
def Docopts.output_line (d : Docopts) (R : Rendering) (args : List (String × OptValue))
    (key : String) : Option String :=
  match d.output_name R key, To_bash (args_get args key) with
  | Out.ok n, some b => some (n ++ "=" ++ b ++ "\n")
  | _, _ => none

/-! ## Example arguments -/

/-- A prefix `ARGS` in `Mangled` mode. -/
def prefixed : Docopts :=
  { Global_prefix := "ARGS", Key_output := Mangled, Output_declare := true,
    Exit_function := false }

/-- The settings `main` starts with: no prefix, `Mangled` mode. -/
def unprefixed : Docopts :=
  { Global_prefix := "", Key_output := Mangled, Output_declare := true,
    Exit_function := false }

/-- Parsed arguments: an option, a placeholder, the double dash and a repeated argument. -/
def sampleArgs : List (String × OptValue) :=
  [("--dry-run", OptValue.bool true), ("<file>", OptValue.str "it's"),
   ("--", OptValue.bool false), ("FILE", OptValue.strs ["a", "b c"])]

/-- Two keys that are mangled to the same name. -/
def clashArgs : List (String × OptValue) :=
  [("<file>", OptValue.str "x"), ("--file", OptValue.bool true), ("-a", OptValue.int 2)]

/-- The keys of `clashArgs`, the first of them with a value of a type `To_bash` does not
support. -/
def unsupportedArgs : List (String × OptValue) :=
  [("<file>", OptValue.str "x"), ("--file", OptValue.other), ("-a", OptValue.int 2)]

/-- A rendering for the examples: what `fmt` prints for a string under a verb that does not
apply to strings, as in `%d`: `%!d(string=x)`.  The examples use no other directive than
`%d` and the plain `%s`. -/
def badVerbRendering : Rendering := fun directive x =>
  "%!".data ++ directive.getLast?.toList ++ "(string=".data ++ x.data ++ [')']

/-- A prefix with the directive `%d` in `Mangled` mode. -/
def percentPrefixed : Docopts :=
  { Global_prefix := "a%d", Key_output := Mangled, Output_declare := true,
    Exit_function := false }

/-- The prefix `p%%` in the mode `Docopt_sh`. -/
def percentDocopt_sh : Docopts :=
  { Global_prefix := "p%%", Key_output := Docopt_sh, Output_declare := true,
    Exit_function := false }

/-! ## Theorems: the arena -/

theorem Heap.getElem?_update (h : Heap) (i j : Nat) (f : DocoptAst → DocoptAst) :
    (h.update i f)[j]? = if j = i then (h[j]?).map f else h[j]? := by
  unfold Heap.update
  cases hi : h[i]? with
  | none =>
    by_cases hji : j = i
    · subst hji; simp [hi]
    · simp [hji]
  | some n =>
    by_cases hji : j = i
    · subst hji
      have hlt : j < h.length := (List.getElem?_eq_some_iff.mp hi).1
      simp [hi, List.getElem?_set, hlt]
    · have : i ≠ j := fun e => hji e.symm
      simp [hji, List.getElem?_set, this]

@[simp] theorem Heap.length_update (h : Heap) (i : Nat) (f : DocoptAst → DocoptAst) :
    (h.update i f).length = h.length := by
  unfold Heap.update
  cases h[i]? <;> simp

theorem getElem?_setParents (cs : List Nat) (g : Nat) (h : Heap) (j : Nat) :
    (setParents h cs g)[j]? =
      if j ∈ cs then (h[j]?).map (fun x => { x with Parent := some g }) else h[j]? := by
  induction cs generalizing h with
  | nil => simp [setParents]
  | cons c cs ih =>
    have e : setParents h (c :: cs) g
        = setParents (h.update c (fun x => { x with Parent := some g })) cs g := rfl
    rw [e, ih, Heap.getElem?_update]
    by_cases hjc : j = c
    · subst hjc
      by_cases hj : j ∈ cs
      · cases h[j]? <;> simp [hj]
      · simp [hj]
    · by_cases hj : j ∈ cs
      · simp [hj, hjc]
      · simp [hj, hjc]

@[simp] theorem length_setParents (cs : List Nat) (g : Nat) (h : Heap) :
    (setParents h cs g).length = h.length := by
  induction cs generalizing h with
  | nil => rfl
  | cons c cs ih =>
    have e : setParents h (c :: cs) g
        = setParents (h.update c (fun x => { x with Parent := some g })) cs g := rfl
    rw [e, ih, Heap.length_update]

theorem getElem?_RCWG (h : Heap) (n : Nat) (g : DocoptNodeType) (node new_node : DocoptAst)
    (hn : h[n]? = some node)
    (hnew : new_node = { Typ := g, Token := none, Children := node.Children, Parent := some n,
                         Repeat := false }) (j : Nat) :
    (Replace_children_with_group h n g).1[j]? =
      if j = n then
        ((if j ∈ node.Children then
            ((h ++ [new_node])[j]?).map (fun x => { x with Parent := some h.length })
          else (h ++ [new_node])[j]?)).map (fun x => { x with Children := [h.length] })
      else if j ∈ node.Children then
        ((h ++ [new_node])[j]?).map (fun x => { x with Parent := some h.length })
      else (h ++ [new_node])[j]? := by
  subst hnew
  simp only [Replace_children_with_group, hn]
  rw [Heap.getElem?_update, getElem?_setParents]

theorem RCWG_snd (h : Heap) (n : Nat) (g : DocoptNodeType) :
    (Replace_children_with_group h n g).2 = h.length := by
  unfold Replace_children_with_group
  cases h[n]? <;> rfl

@[simp] theorem AddNode_snd (h : Heap) (n : Nat) (k : DocoptNodeType) (t : Option Token) :
    (AddNode h n k t).2 = h.length := rfl

@[simp] theorem length_AddNode (h : Heap) (n : Nat) (k : DocoptNodeType) (t : Option Token) :
    (AddNode h n k t).1.length = h.length + 1 := by
  simp [AddNode]

theorem getElem?_AddNode (h : Heap) (n : Nat) (k : DocoptNodeType) (t : Option Token) (j : Nat) :
    (AddNode h n k t).1[j]? =
      if j = n then
        ((h ++ [({ Typ := k, Token := t, Children := [], Parent := some n, Repeat := false }
                  : DocoptAst)])[j]?).map (fun x => { x with Children := x.Children ++ [h.length] })
      else (h ++ [({ Typ := k, Token := t, Children := [], Parent := some n, Repeat := false }
                  : DocoptAst)])[j]? := by
  simp only [AddNode]
  rw [Heap.getElem?_update]

/-- Nodes other than the parent and the new node are untouched by `AddNode`. -/
theorem getElem?_AddNode_of_ne (h : Heap) (n : Nat) (k : DocoptNodeType) (t : Option Token)
    (j : Nat) (hj : j < h.length) (hjn : j ≠ n) : (AddNode h n k t).1[j]? = h[j]? := by
  rw [getElem?_AddNode]
  simp [hjn, List.getElem?_append_left hj]

/-- The new node of `AddNode`. -/
theorem getElem?_AddNode_new (h : Heap) (n : Nat) (k : DocoptNodeType) (t : Option Token)
    (hn : n < h.length) :
    (AddNode h n k t).1[h.length]? =
      some { Typ := k, Token := t, Children := [], Parent := some n, Repeat := false } := by
  rw [getElem?_AddNode]
  have : h.length ≠ n := by omega
  simp [this]

/-- The parent after `AddNode`: one more child, at the end. -/
theorem getElem?_AddNode_parent (h : Heap) (n : Nat) (k : DocoptNodeType) (t : Option Token)
    (node : DocoptAst) (hn : h[n]? = some node) :
    (AddNode h n k t).1[n]? = some { node with Children := node.Children ++ [h.length] } := by
  have hlt : n < h.length := (List.getElem?_eq_some_iff.mp hn).1
  rw [getElem?_AddNode]
  simp [List.getElem?_append_left hlt, hn]

/-! ## Theorems: running routines -/

section
variable {σ : Type}

@[simp] theorem pure_apply {α : Type} (a : α) (p : DocoptParser σ) :
    (pure a : M σ α) p = Res.ok a p := rfl

@[simp] theorem bind_apply {α β : Type} (m : M σ α) (f : α → M σ β) (p : DocoptParser σ) :
    (m >>= f) p = match m p with
      | Res.ok a p1 => f a p1
      | Res.panic p1 => Res.panic p1
      | Res.timeout p1 => Res.timeout p1 := rfl

@[simp] theorem getP_apply (p : DocoptParser σ) : (getP : M σ _) p = Res.ok p p := rfl

@[simp] theorem modifyP_apply (f : DocoptParser σ → DocoptParser σ) (p : DocoptParser σ) :
    modifyP f p = Res.ok () (f p) := rfl

@[simp] theorem panicM_apply {α : Type} (p : DocoptParser σ) :
    (panicM : M σ α) p = Res.panic p := rfl

@[simp] theorem timeoutM_apply {α : Type} (p : DocoptParser σ) :
    (timeoutM : M σ α) p = Res.timeout p := rfl

@[simp] theorem deref_some {α : Type} (a : α) (p : DocoptParser σ) :
    (deref (some a) : M σ α) p = Res.ok a p := rfl

@[simp] theorem deref_none {α : Type} (p : DocoptParser σ) :
    (deref (none : Option α) : M σ α) p = Res.panic p := rfl

@[simp] theorem setCurrentNode_apply (n : Option Nat) (p : DocoptParser σ) :
    setCurrentNode n p = Res.ok () { p with current_node := n } := rfl

@[simp] theorem FatalError_apply (p : DocoptParser σ) :
    FatalError p = Res.ok () { p with run := false } := rfl

@[simp] theorem AddError_apply (e : Err) (p : DocoptParser σ) :
    AddError e p = Res.ok e (p.AddError e) := rfl

theorem readNode_ok (p : DocoptParser σ) (c : Nat) (n : DocoptAst) (hn : p.heap[c]? = some n) :
    readNode (some c) p = Res.ok n p := by
  simp [readNode, hn]

@[simp] theorem readNode_none (p : DocoptParser σ) : readNode none p = Res.panic p := by
  simp [readNode]

theorem readNode_invalid (p : DocoptParser σ) (c : Nat) (hn : p.heap[c]? = none) :
    readNode (some c) p = Res.panic p := by
  simp [readNode, hn]

theorem addNode_ok (p : DocoptParser σ) (c : Nat) (n : DocoptAst) (hn : p.heap[c]? = some n)
    (k : DocoptNodeType) (t : Option Token) :
    addNode (some c) k t p = Res.ok p.heap.length { p with heap := (AddNode p.heap c k t).1 } := by
  simp [addNode, readNode_ok p c n hn]

end

/-! ## Theorems: what a run can end in -/

section
variable {σ : Type}

theorem SameTree.sameTree_refl (p : DocoptParser σ) : SameTree p p := ⟨rfl, rfl, rfl, rfl⟩

theorem SameTree.sameTree_trans {p q r : DocoptParser σ} (h1 : SameTree p q) (h2 : SameTree q r) :
    SameTree p r :=
  ⟨h2.1.trans h1.1, h2.2.1.trans h1.2.1, h2.2.2.1.trans h1.2.2.1, h2.2.2.2.trans h1.2.2.2⟩

@[simp] theorem sat_ok {α : Type} (a : α) (p : DocoptParser σ) (Q : α → DocoptParser σ → Prop)
    (I : DocoptParser σ → Prop) : (Res.ok a p).sat Q I ↔ Q a p := Iff.rfl

@[simp] theorem sat_panic {α : Type} (p : DocoptParser σ) (Q : α → DocoptParser σ → Prop)
    (I : DocoptParser σ → Prop) : (Res.panic p : Res σ α).sat Q I ↔ I p := Iff.rfl

@[simp] theorem sat_timeout {α : Type} (p : DocoptParser σ) (Q : α → DocoptParser σ → Prop)
    (I : DocoptParser σ → Prop) : (Res.timeout p : Res σ α).sat Q I ↔ I p := Iff.rfl

theorem sat_bind {α β : Type} (m : M σ α) (f : α → M σ β) (p : DocoptParser σ)
    (Q : β → DocoptParser σ → Prop) (I : DocoptParser σ → Prop) :
    ((m >>= f) p).sat Q I ↔ (m p).sat (fun a p1 => (f a p1).sat Q I) I := by
  rw [bind_apply]
  cases m p <;> exact Iff.rfl

theorem sat_mono {α : Type} {r : Res σ α} {Q Q' : α → DocoptParser σ → Prop}
    {I I' : DocoptParser σ → Prop} (h : r.sat Q I) (hQ : ∀ a p, Q a p → Q' a p)
    (hI : ∀ p, I p → I' p) : r.sat Q' I' := by
  cases r with
  | ok a p => exact hQ a p h
  | panic p => exact hI p h
  | timeout p => exact hI p h

theorem sat_whenM (c : Prop) [Decidable c] (m : M σ Unit) (p : DocoptParser σ)
    (Q : Unit → DocoptParser σ → Prop) (I : DocoptParser σ → Prop) :
    (whenM c m p).sat Q I ↔ ((c → (m p).sat Q I) ∧ (¬ c → Q () p)) := by
  unfold whenM
  by_cases h : c <;> simp [h]

theorem sat_ite {α : Type} (c : Prop) [Decidable c] (m1 m2 : M σ α) (p : DocoptParser σ)
    (Q : α → DocoptParser σ → Prop) (I : DocoptParser σ → Prop) :
    ((if c then m1 else m2) p).sat Q I ↔ ((c → (m1 p).sat Q I) ∧ (¬ c → (m2 p).sat Q I)) := by
  by_cases h : c <;> simp [h]

theorem sat_deref {α : Type} (o : Option α) (p : DocoptParser σ)
    (Q : α → DocoptParser σ → Prop) (I : DocoptParser σ → Prop) :
    (deref o p).sat Q I ↔ ((∀ a, o = some a → Q a p) ∧ (o = none → I p)) := by
  cases o <;> simp

theorem sat_readNode (n : Option Nat) (p : DocoptParser σ)
    (Q : DocoptAst → DocoptParser σ → Prop) (I : DocoptParser σ → Prop) :
    (readNode n p).sat Q I ↔
      ((∀ i nd, n = some i → p.heap[i]? = some nd → Q nd p) ∧
       ((∀ i nd, n = some i → p.heap[i]? ≠ some nd) → I p)) := by
  cases n with
  | none => simp
  | some i =>
    cases h : p.heap[i]? with
    | none =>
      rw [readNode_invalid p i h, sat_panic]
      constructor
      · intro hI
        refine ⟨fun j nd hj hnd => ?_, fun _ => hI⟩
        cases hj
        rw [h] at hnd
        cases hnd
      · intro hh
        apply hh.2
        intro j nd hj
        cases hj
        rw [h]
        simp
    | some nd =>
      rw [readNode_ok p i nd h, sat_ok]
      constructor
      · intro hQ
        refine ⟨fun j nd' hj hnd => ?_, fun hh => absurd h (hh i nd rfl)⟩
        cases hj
        rw [h] at hnd
        cases hnd
        exact hQ
      · intro hh
        exact hh.1 i nd rfl h

theorem sat_addNode (n : Option Nat) (k : DocoptNodeType) (t : Option Token) (p : DocoptParser σ)
    (Q : Nat → DocoptParser σ → Prop) (I : DocoptParser σ → Prop) :
    (addNode n k t p).sat Q I ↔
      ((∀ i nd, n = some i → p.heap[i]? = some nd →
          Q p.heap.length { p with heap := (AddNode p.heap i k t).1 }) ∧
       ((∀ i nd, n = some i → p.heap[i]? ≠ some nd) → I p)) := by
  cases n with
  | none => simp [addNode]
  | some i =>
    cases h : p.heap[i]? with
    | none =>
      have e : addNode (some i) k t p = Res.panic p := by
        simp [addNode, readNode_invalid p i h]
      rw [e, sat_panic]
      constructor
      · intro hI
        refine ⟨fun j nd hj hnd => ?_, fun _ => hI⟩
        cases hj
        rw [h] at hnd
        cases hnd
      · intro hh
        apply hh.2
        intro j nd hj
        cases hj
        rw [h]
        simp
    | some nd =>
      rw [addNode_ok p i nd h, sat_ok]
      constructor
      · intro hQ
        refine ⟨fun j nd' hj _ => ?_, fun hh => absurd h (hh i nd rfl)⟩
        cases hj
        exact hQ
      · intro hh
        exact hh.1 i nd rfl h

theorem try_get_NextToken_aux_sameTree (L : StateLexer σ) (slot : Slot) (k : Nat)
    (p : DocoptParser σ) : SameTree p (try_get_NextToken_aux L slot k p).2 := by
  induction k generalizing p with
  | zero => exact SameTree.sameTree_refl p
  | succ k ih =>
    unfold try_get_NextToken_aux
    split
    · exact SameTree.sameTree_refl p
    · split
      · cases slot <;> exact ⟨rfl, rfl, rfl, rfl⟩
      · dsimp only
        split
        · exact ⟨rfl, rfl, rfl, rfl⟩
        · exact SameTree.sameTree_trans ⟨rfl, rfl, rfl, rfl⟩ (ih _)

theorem sat_try_get_NextToken (L : StateLexer σ) (slot : Slot) (p : DocoptParser σ)
    (Q : Option Err → DocoptParser σ → Prop) (I : DocoptParser σ → Prop)
    (h : ∀ e q, SameTree p q → Q e q) : (try_get_NextToken L slot p).sat Q I :=
  h _ _ (try_get_NextToken_aux_sameTree L slot _ p)

theorem sat_removeBack (p : DocoptParser σ) (Q : Unit → DocoptParser σ → Prop)
    (I : DocoptParser σ → Prop) (hQ : ∀ q, SameTree p q → Q () q) (hI : ∀ q, SameTree p q → I q) :
    (removeBack p).sat Q I := by
  unfold removeBack
  simp only [sat_bind, getP_apply, sat_ok, sat_ite, panicM_apply, sat_panic, modifyP_apply]
  exact ⟨fun _ => hI p (SameTree.sameTree_refl p), fun _ => hQ _ ⟨rfl, rfl, rfl, rfl⟩⟩

theorem sat_NextToken_relex (L : StateLexer σ) (p : DocoptParser σ)
    (Q : Unit → DocoptParser σ → Prop) (I : DocoptParser σ → Prop)
    (hQ : ∀ q, SameTree p q → Q () q) (hI : ∀ q, SameTree p q → I q) :
    (NextToken_relex L p).sat Q I := by
  unfold NextToken_relex
  simp only [sat_bind, getP_apply, sat_ok, sat_ite, sat_deref, modifyP_apply, pure_apply]
  refine ⟨fun _ => ⟨fun nt _ => ?_, fun _ => hI p (SameTree.sameTree_refl p)⟩,
    fun _ => hQ p (SameTree.sameTree_refl p)⟩
  apply sat_removeBack
  · intro q hq
    exact hQ q (SameTree.sameTree_trans ⟨rfl, rfl, rfl, rfl⟩ hq)
  · intro q hq
    exact hI q (SameTree.sameTree_trans ⟨rfl, rfl, rfl, rfl⟩ hq)

theorem sat_NextToken_current (L : StateLexer σ) (p : DocoptParser σ)
    (Q : Unit → DocoptParser σ → Prop) (I : DocoptParser σ → Prop)
    (hQ : ∀ q, SameTree p q → Q () q) :
    (NextToken_current L p).sat Q I := by
  unfold NextToken_current
  simp only [sat_bind, getP_apply, sat_ok, sat_ite, modifyP_apply, pure_apply]
  refine ⟨fun _ => hQ _ ⟨rfl, rfl, rfl, rfl⟩, fun _ => ?_⟩
  apply sat_try_get_NextToken
  intro e q hq
  exact hQ q hq

theorem sat_NextToken (L : StateLexer σ) (p : DocoptParser σ) (Q : Unit → DocoptParser σ → Prop)
    (I : DocoptParser σ → Prop) (hQ : ∀ q, SameTree p q → Q () q) (hI : ∀ q, SameTree p q → I q) :
    (NextToken L p).sat Q I := by
  unfold NextToken
  simp only [sat_bind]
  apply sat_NextToken_relex _ _ _ _ _ hI
  intro q1 h1
  apply sat_NextToken_current
  intro q2 h2
  apply sat_try_get_NextToken
  intro e q3 h3
  simp only [getP_apply, sat_ok, sat_whenM, FatalError_apply, modifyP_apply]
  exact ⟨fun _ => hQ _ ((h1.sameTree_trans h2).sameTree_trans (h3.sameTree_trans ⟨rfl, rfl, rfl, rfl⟩)),
    fun _ => hQ _ ((h1.sameTree_trans h2).sameTree_trans (h3.sameTree_trans ⟨rfl, rfl, rfl, rfl⟩))⟩

/-- `NextToken` leaves the tree, the program name and the current node as they are. -/
theorem NextToken_sameTree (L : StateLexer σ) (p q : DocoptParser σ)
    (h : NextToken L p = Res.ok () q) : SameTree p q := by
  have := sat_NextToken L p (fun _ q => SameTree p q) (fun _ => True) (fun q hq => hq)
    (fun _ _ => trivial)
  rw [h] at this
  exact this

end

/-! ## Theorems: restructuring, ellipsis, assignment -/

section
variable {σ : Type}

/-- C3 (`Replace_children_with_group`, modelled from the specification): on a node `n`
with children `c1..ck`, all allocated, the call returns a newly allocated node `k` of the
requested kind; afterwards `n` has the single child `k`, the children of `k` are exactly
`c1..ck` in the same order, the parent of `k` is `n` and the parent of every `ci` is `k`. -/
theorem Replace_children_with_group_spec (h : Heap) (n : Nat) (g : DocoptNodeType) (node : DocoptAst)
    (hn : h[n]? = some node) (hcs : ∀ c ∈ node.Children, c < h.length)
    (h' : Heap) (k : Nat) (hr : Replace_children_with_group h n g = (h', k)) :
    k = h.length ∧
    (∃ nnode, h'[n]? = some nnode ∧ nnode.Children = [k]) ∧
    (∃ gnode, h'[k]? = some gnode ∧
      gnode.Typ = g ∧ gnode.Children = node.Children ∧ gnode.Parent = some n) ∧
    ∀ c ∈ node.Children, ∃ cn, h'[c]? = some cn ∧ cn.Parent = some k := by
  have hnlt : n < h.length := (List.getElem?_eq_some_iff.mp hn).1
  have hne : h.length ≠ n := by omega
  have hnotin : h.length ∉ node.Children := fun hm => by have := hcs _ hm; omega
  have hk : k = h.length := by
    have := congrArg Prod.snd hr
    rw [RCWG_snd] at this
    exact this.symm
  have hh : h' = (Replace_children_with_group h n g).1 := (congrArg Prod.fst hr).symm
  subst hk
  subst hh
  refine ⟨rfl, ?_, ?_, ?_⟩
  · rw [getElem?_RCWG h n g node _ hn rfl]
    by_cases hm : n ∈ node.Children
    · simp [hm, List.getElem?_append_left hnlt, hn]
    · simp [hm, List.getElem?_append_left hnlt, hn]
  · rw [getElem?_RCWG h n g node _ hn rfl]
    simp [hne, hnotin]
  · intro c hc
    have hclt : c < h.length := hcs c hc
    obtain ⟨cnode, hcn⟩ : ∃ cnode, h[c]? = some cnode := ⟨h[c], List.getElem?_eq_getElem hclt⟩
    rw [getElem?_RCWG h n g node _ hn rfl]
    by_cases hcn' : c = n
    · subst hcn'
      simp [hc, List.getElem?_append_left hclt, hcn]
    · simp [hcn', hc, List.getElem?_append_left hclt, hcn]

/-- Witness of `Replace_children_with_group_spec`: the group `( a b )` restructured. -/
theorem Replace_children_with_group_spec_witness :
    3 = groupHeap.length ∧
    (∃ nnode, groupHeapAfter[0]? = some nnode ∧ nnode.Children = [3]) ∧
    (∃ gnode, groupHeapAfter[3]? = some gnode ∧
      gnode.Typ = DocoptNodeType.Group_alternative ∧
      gnode.Children = (mkNode DocoptNodeType.Usage_required_group none [1, 2] none).Children ∧
      gnode.Parent = some 0) ∧
    ∀ c ∈ (mkNode DocoptNodeType.Usage_required_group none [1, 2] none).Children,
      ∃ cn, groupHeapAfter[c]? = some cn ∧ cn.Parent = some 3 :=
  Replace_children_with_group_spec groupHeap 0 DocoptNodeType.Group_alternative
    (mkNode DocoptNodeType.Usage_required_group none [1, 2] none) (by decide) (by decide)
    groupHeapAfter 3 (by decide)

@[simp] theorem whenM_true (c : Prop) [Decidable c] (m : M σ Unit) (h : c) : whenM c m = m := by
  simp [whenM, h]

@[simp] theorem whenM_false (c : Prop) [Decidable c] (m : M σ Unit) (h : ¬ c) :
    whenM c m = pure () := by
  simp [whenM, h]

theorem Consume_ellipsis_ok (p : DocoptParser σ) (c : Nat) (n : DocoptAst) (last : Nat)
    (hc : p.current_node = some c) (hn : p.heap[c]? = some n)
    (hl : n.Children.getLast? = some last) :
    Consume_ellipsis p = Res.ok none
      { p with heap := p.heap.update last (fun x => { x with Repeat := true }) } := by
  have hpos : n.Children.length > 0 := by
    cases hch : n.Children with
    | nil => simp [hch] at hl
    | cons a l => simp
  simp [Consume_ellipsis, hc, readNode_ok p c n hn, hl, hpos]

theorem Consume_ellipsis_err (p : DocoptParser σ) (c : Nat) (n : DocoptAst)
    (hc : p.current_node = some c) (hn : p.heap[c]? = some n) (hl : n.Children = []) :
    Consume_ellipsis p = Res.ok (some (Err.ellipsis_no_children n.Typ)) p := by
  simp [Consume_ellipsis, hc, readNode_ok p c n hn, hl]

/-- C6: when the current node has at least one child, `Consume_ellipsis` returns nil and
the only change to the parser is in the arena, where the number of nodes is the same and
every node is as before except that the `Repeat` flag of the last child of the current
node is now true (children lists, the other flags and the current node are unchanged). -/
theorem Consume_ellipsis_sets_Repeat (p : DocoptParser σ) (c : Nat) (n : DocoptAst) (last : Nat)
    (hc : p.current_node = some c) (hn : p.heap[c]? = some n)
    (hl : n.Children.getLast? = some last) :
    ∃ h', Consume_ellipsis p = Res.ok none { p with heap := h' } ∧
      h'.length = p.heap.length ∧
      ∀ i, h'[i]? = (p.heap[i]?).map (fun x => if i = last then { x with Repeat := true } else x) := by
  refine ⟨p.heap.update last (fun x => { x with Repeat := true }),
    Consume_ellipsis_ok p c n last hc hn hl, by simp, ?_⟩
  intro i
  rw [Heap.getElem?_update]
  by_cases hi : i = last
  · simp [hi]
  · cases p.heap[i]? <;> simp [hi]

/-- C7: with a valid current node, `Consume_ellipsis` returns a non-nil error exactly when
the current node has no children, and then the parser state is unchanged; and a `...`
token met while the current node is the usage line (nothing but the program name read
so far) makes `Consume_Usage_Expr` return the `Error` reason with a non-nil error. -/
theorem Consume_ellipsis_error_iff (L : StateLexer σ) (fuel : Nat) (p : DocoptParser σ) (c : Nat) (n : DocoptAst)
    (hc : p.current_node = some c) (hn : p.heap[c]? = some n) :
    ((∃ e p', Consume_ellipsis p = Res.ok (some e) p') ↔ n.Children = []) ∧
    (∀ e p', Consume_ellipsis p = Res.ok (some e) p' → p' = p) ∧
    (∀ tok, p.current_token = some tok → tok.Typ = TokKind.PUNCT → tok.Value = "..." →
      n.Typ = DocoptNodeType.Usage_line →
      ∃ e p', Consume_Usage_Expr L fuel p = Res.ok (Reason.Error, some e) p') := by
  refine ⟨?_, ?_, ?_⟩
  · cases hl : n.Children.getLast? with
    | none =>
      have hnil : n.Children = [] := List.getLast?_eq_none_iff.mp hl
      simp [Consume_ellipsis_err p c n hc hn hnil, hnil]
    | some last =>
      have : n.Children ≠ [] := fun h => by simp [h] at hl
      simp [Consume_ellipsis_ok p c n last hc hn hl, this]
  · intro e p' h
    cases hl : n.Children.getLast? with
    | none =>
      have hnil : n.Children = [] := List.getLast?_eq_none_iff.mp hl
      rw [Consume_ellipsis_err p c n hc hn hnil] at h
      cases h
      rfl
    | some last =>
      rw [Consume_ellipsis_ok p c n last hc hn hl] at h
      cases h
  · intro tok ht hty hv hu
    have hclt : c < p.heap.length := (List.getElem?_eq_some_iff.mp hn).1
    have hnew := getElem?_AddNode_new p.heap c DocoptNodeType.Usage_Expr none hclt
    simp [Consume_Usage_Expr, has_reach_EOF, has_reach_two_NEWLINE, has_reach_PROG_NAME, ht, hty,
      hv, Consume_Usage_Expr_token, Consume_Usage_Expr_ellipsis, ensure_node, hc,
      readNode_ok p c n hn, hu, addNode_ok p c n hn]
    rw [Consume_ellipsis_err _ _ _ rfl hnew rfl]
    simp

/-- Witness of `Consume_ellipsis_sets_Repeat`: `prog FILE ...`. -/
theorem Consume_ellipsis_sets_Repeat_witness :
    ∃ h', Consume_ellipsis ellipsisState = Res.ok none { ellipsisState with heap := h' } ∧
      h'.length = ellipsisState.heap.length ∧
      ∀ i, h'[i]? = (ellipsisState.heap[i]?).map
        (fun x => if i = 4 then { x with Repeat := true } else x) :=
  Consume_ellipsis_sets_Repeat ellipsisState 3 (mkNode DocoptNodeType.Usage_Expr none [4] (some 1))
    4 (by decide) (by decide) (by decide)

/-- Witness of `Consume_ellipsis_error_iff`: `prog ...` is rejected. -/
theorem Consume_ellipsis_error_iff_witness :
    ∃ e p', Consume_Usage_Expr listLexer 3 ellipsisFirstState = Res.ok (Reason.Error, some e) p' :=
  (Consume_ellipsis_error_iff listLexer 3 ellipsisFirstState 1
    (mkNode DocoptNodeType.Usage_line none [2] (some 0)) (by decide) (by decide)).2.2
    ⟨TokKind.PUNCT, "...", 1⟩ (by decide) (by decide) (by decide) (by decide)

theorem ne_nil_of_getLast? {α : Type} (l : List α) (a : α) (h : l.getLast? = some a) :
    l ≠ [] := by
  cases l with
  | nil => simp at h
  | cons b t => simp

theorem Consume_assign_not_ARGUMENT (p : DocoptParser σ) (arg : Token) (c : Nat) (n : DocoptAst)
    (hc : p.current_node = some c) (hn : p.heap[c]? = some n) (ha : arg.Typ ≠ TokKind.ARGUMENT) :
    Consume_assign (some arg) p = Res.ok (some (Err.assign_not_ARGUMENT n.Typ)) p := by
  simp [Consume_assign, ha, hc, readNode_ok p c n hn]

theorem Consume_assign_no_child (p : DocoptParser σ) (arg : Token) (c : Nat) (n : DocoptAst)
    (hc : p.current_node = some c) (hn : p.heap[c]? = some n) (ha : arg.Typ = TokKind.ARGUMENT)
    (hl : n.Children = []) :
    Consume_assign (some arg) p = Res.ok (some Err.assign_no_child) p := by
  simp [Consume_assign, ha, hc, readNode_ok p c n hn, hl]

theorem Consume_assign_wrong_node (p : DocoptParser σ) (arg : Token) (c l : Nat) (n ln : DocoptAst)
    (hc : p.current_node = some c) (hn : p.heap[c]? = some n) (ha : arg.Typ = TokKind.ARGUMENT)
    (hl : n.Children.getLast? = some l) (hln : p.heap[l]? = some ln)
    (h1 : ln.Typ ≠ DocoptNodeType.Usage_long_option) (h2 : ln.Typ ≠ DocoptNodeType.Option_long)
    (h3 : ln.Typ ≠ DocoptNodeType.Option_short) :
    Consume_assign (some arg) p = Res.ok (some (Err.assign_wrong_node ln.Typ)) p := by
  have hne := ne_nil_of_getLast? _ _ hl
  simp [Consume_assign, ha, hc, readNode_ok p c n hn, hl, readNode_ok p l ln hln, hne, h1, h2, h3]

theorem Consume_assign_ok (p : DocoptParser σ) (arg : Token) (c l : Nat) (n ln : DocoptAst)
    (hc : p.current_node = some c) (hn : p.heap[c]? = some n) (ha : arg.Typ = TokKind.ARGUMENT)
    (hl : n.Children.getLast? = some l) (hln : p.heap[l]? = some ln)
    (hk : ln.Typ = DocoptNodeType.Usage_long_option ∨ ln.Typ = DocoptNodeType.Option_long ∨
      ln.Typ = DocoptNodeType.Option_short) :
    Consume_assign (some arg) p = Res.ok none
      { p with heap := (AddNode p.heap l
          (if ln.Typ = DocoptNodeType.Usage_long_option then DocoptNodeType.Usage_argument
           else DocoptNodeType.Option_argument) (some arg)).1 } := by
  have hne := ne_nil_of_getLast? _ _ hl
  rcases hk with h1 | h1 | h1 <;>
    simp [Consume_assign, ha, readNode_ok p c n hn, hl, readNode_ok p l ln hln, h1,
          addNode_ok p l ln hln, hc, hne]

/-- C8: with a non-nil argument token and a valid current node whose last child, if any,
is allocated, `Consume_assign` returns; its error is non-nil exactly when the argument is
not of kind `ARGUMENT`, or the current node has no children, or its last child is none
of `Usage_long_option`, `Option_long`, `Option_short`; and whenever the error is non-nil
the parser state, the arena included, is unchanged. -/
theorem Consume_assign_error_iff (p : DocoptParser σ) (arg : Token) (c : Nat) (n : DocoptAst)
    (hc : p.current_node = some c) (hn : p.heap[c]? = some n)
    (hvalid : ∀ l, n.Children.getLast? = some l → ∃ ln, p.heap[l]? = some ln) :
    ∃ r p', Consume_assign (some arg) p = Res.ok r p' ∧
      (r ≠ none ↔
        (arg.Typ ≠ TokKind.ARGUMENT ∨ n.Children = [] ∨
          ∃ l ln, n.Children.getLast? = some l ∧ p.heap[l]? = some ln ∧
            ln.Typ ≠ DocoptNodeType.Usage_long_option ∧ ln.Typ ≠ DocoptNodeType.Option_long ∧
            ln.Typ ≠ DocoptNodeType.Option_short)) ∧
      (r ≠ none → p' = p) := by
  by_cases ha : arg.Typ = TokKind.ARGUMENT
  · cases hl : n.Children.getLast? with
    | none =>
      have hnil : n.Children = [] := List.getLast?_eq_none_iff.mp hl
      exact ⟨_, _, Consume_assign_no_child p arg c n hc hn ha hnil, by simp [hnil], fun _ => rfl⟩
    | some l =>
      have hne : n.Children ≠ [] := fun h => by simp [h] at hl
      obtain ⟨ln, hln⟩ := hvalid l hl
      by_cases hk : ln.Typ = DocoptNodeType.Usage_long_option ∨ ln.Typ = DocoptNodeType.Option_long ∨
          ln.Typ = DocoptNodeType.Option_short
      · refine ⟨_, _, Consume_assign_ok p arg c l n ln hc hn ha hl hln hk, ?_, fun h => absurd rfl h⟩
        simp only [ne_eq, not_true_eq_false, false_iff, not_or, not_exists, not_and]
        refine ⟨fun h => h ha, hne, ?_⟩
        intro l' ln' hl' hln' h1 h2 h3
        cases hl'
        rw [hln] at hln'
        cases hln'
        rcases hk with h | h | h
        · exact h1 h
        · exact h2 h
        · exact h3 h
      · have h1 : ln.Typ ≠ DocoptNodeType.Usage_long_option := fun h => hk (Or.inl h)
        have h2 : ln.Typ ≠ DocoptNodeType.Option_long := fun h => hk (Or.inr (Or.inl h))
        have h3 : ln.Typ ≠ DocoptNodeType.Option_short := fun h => hk (Or.inr (Or.inr h))
        refine ⟨_, _, Consume_assign_wrong_node p arg c l n ln hc hn ha hl hln h1 h2 h3, ?_,
          fun _ => rfl⟩
        simp only [ne_eq, reduceCtorEq, not_false_eq_true, true_iff]
        exact Or.inr (Or.inr ⟨l, ln, rfl, hln, h1, h2, h3⟩)
  · exact ⟨_, _, Consume_assign_not_ARGUMENT p arg c n hc hn ha, by simp [ha], fun _ => rfl⟩

/-- C9: when `Consume_assign` succeeds, the arena gains exactly one node, carrying the
argument token, childless, whose parent is the last child `l` of the current node; its
kind is `Usage_argument` after a `Usage_long_option` and `Option_argument` after an
`Option_long` or `Option_short`; it is appended at the end of the children of `l`; the
current node and every node other than `l` are unchanged. -/
theorem Consume_assign_attaches_argument (p : DocoptParser σ) (arg : Token) (c l : Nat) (n ln : DocoptAst)
    (ha : arg.Typ = TokKind.ARGUMENT)
    (hc : p.current_node = some c) (hn : p.heap[c]? = some n)
    (hl : n.Children.getLast? = some l) (hln : p.heap[l]? = some ln)
    (hk : ln.Typ = DocoptNodeType.Usage_long_option ∨ ln.Typ = DocoptNodeType.Option_long ∨
      ln.Typ = DocoptNodeType.Option_short)
    (hlc : l ≠ c) :
    ∃ h', Consume_assign (some arg) p = Res.ok none { p with heap := h' } ∧
      h'.length = p.heap.length + 1 ∧
      h'[p.heap.length]? = some
        { Typ := if ln.Typ = DocoptNodeType.Usage_long_option then DocoptNodeType.Usage_argument
                 else DocoptNodeType.Option_argument,
          Token := some arg, Children := [], Parent := some l, Repeat := false } ∧
      h'[l]? = some { ln with Children := ln.Children ++ [p.heap.length] } ∧
      h'[c]? = some n ∧
      ∀ j, j < p.heap.length → j ≠ l → h'[j]? = p.heap[j]? := by
  have hllt : l < p.heap.length := (List.getElem?_eq_some_iff.mp hln).1
  have hclt : c < p.heap.length := (List.getElem?_eq_some_iff.mp hn).1
  refine ⟨_, Consume_assign_ok p arg c l n ln hc hn ha hl hln hk, by simp, ?_, ?_, ?_, ?_⟩
  · exact getElem?_AddNode_new _ _ _ _ hllt
  · exact getElem?_AddNode_parent _ _ _ _ _ hln
  · rw [getElem?_AddNode_of_ne _ _ _ _ _ hclt (Ne.symm hlc)]; exact hn
  · intro j hj hjl; exact getElem?_AddNode_of_ne _ _ _ _ _ hj hjl

theorem Consume_Usage_Expr_alt (L : StateLexer σ) (fuel : Nat) (p : DocoptParser σ) (tok : Token)
    (c u c0 : Nat) (cs : List Nat) (cn un : DocoptAst)
    (ht : p.current_token = some tok) (hty : tok.Typ = TokKind.PUNCT) (hv : tok.Value = "|")
    (hc : p.current_node = some c) (hcn : p.heap[c]? = some cn)
    (hce : cn.Typ = DocoptNodeType.Usage_Expr) (hpar : cn.Parent = some u)
    (hun : p.heap[u]? = some un) (hul : un.Typ = DocoptNodeType.Usage_line)
    (hch : un.Children = c0 :: cs) :
    Consume_Usage_Expr L fuel p = Res.ok (Reason.Continue, none)
      { p with heap := altHeap p.heap (some tok) u c0 cs,
               current_node := some (p.heap.length + 1) } := by
  simp [Consume_Usage_Expr, has_reach_EOF, has_reach_two_NEWLINE, has_reach_PROG_NAME, ht, hty,
      hv, hc, readNode_ok p c cn hcn, hce, hpar, readNode_ok p u un hun, hul, usage_line_alternative,
      hch, Consume_Usage_Expr_token, Consume_Usage_Expr_alternative]

/-- C4: on a `|` token, the current node being a `Usage_Expr` whose parent `u` is a
`Usage_line` with children `c0 :: cs`, `Consume_Usage_Expr` continues without error; two
nodes are allocated, `G` and `E`; the usage line has exactly the children `[c0, G]`; `G`
is a `Group_alternative` carrying the `|` token, with parent `u` and children
`cs ++ [E]`; `E` is a childless `Usage_Expr` with parent `G` and is the current node; the
parent of every node of `cs` is `G`; and `c0`, when it is not among `cs`, is untouched. -/
theorem Consume_Usage_Expr_toplevel_alternative (L : StateLexer σ) (fuel : Nat) (p : DocoptParser σ) (tok : Token)
    (c u c0 : Nat) (cs : List Nat) (cn un : DocoptAst)
    (ht : p.current_token = some tok) (hty : tok.Typ = TokKind.PUNCT) (hv : tok.Value = "|")
    (hc : p.current_node = some c) (hcn : p.heap[c]? = some cn)
    (hce : cn.Typ = DocoptNodeType.Usage_Expr) (hpar : cn.Parent = some u)
    (hun : p.heap[u]? = some un) (hul : un.Typ = DocoptNodeType.Usage_line)
    (hch : un.Children = c0 :: cs) (hcs : ∀ x ∈ cs, x < p.heap.length) :
    ∃ h', Consume_Usage_Expr L fuel p = Res.ok (Reason.Continue, none)
        { p with heap := h', current_node := some (p.heap.length + 1) } ∧
      h'.length = p.heap.length + 2 ∧
      (∃ un', h'[u]? = some un' ∧ un'.Typ = DocoptNodeType.Usage_line ∧
        un'.Children = [c0, p.heap.length]) ∧
      h'[p.heap.length]? = some
        { Typ := DocoptNodeType.Group_alternative, Token := some tok,
          Children := cs ++ [p.heap.length + 1], Parent := some u, Repeat := false } ∧
      h'[p.heap.length + 1]? = some
        { Typ := DocoptNodeType.Usage_Expr, Token := none, Children := [],
          Parent := some p.heap.length, Repeat := false } ∧
      (∀ x ∈ cs, ∃ xn, h'[x]? = some xn ∧ xn.Parent = some p.heap.length) ∧
      (c0 < p.heap.length → c0 ∉ cs → c0 ≠ u → h'[c0]? = p.heap[c0]?) := by
  have hult : u < p.heap.length := (List.getElem?_eq_some_iff.mp hun).1
  have hne : p.heap.length ≠ u := by omega
  have hnotin : p.heap.length ∉ cs := fun hm => by have := hcs _ hm; omega
  have hg : ((setParents (p.heap ++ [altGroup (some tok) u cs]) cs p.heap.length).update u
      (fun x => { x with Children := [c0, p.heap.length] }))[p.heap.length]? =
      some (altGroup (some tok) u cs) := by
    rw [Heap.getElem?_update, getElem?_setParents]
    simp [hne, hnotin]
  have hlow : ∀ j, j < p.heap.length →
      (altHeap p.heap (some tok) u c0 cs)[j]? =
        if j = u then
          ((if j ∈ cs then (p.heap[j]?).map (fun x => { x with Parent := some p.heap.length })
            else p.heap[j]?)).map (fun x => { x with Children := [c0, p.heap.length] })
        else if j ∈ cs then (p.heap[j]?).map (fun x => { x with Parent := some p.heap.length })
        else p.heap[j]? := by
    intro j hj
    unfold altHeap
    rw [getElem?_AddNode_of_ne _ _ _ _ _ (by simp; omega) (by omega), Heap.getElem?_update,
      getElem?_setParents, List.getElem?_append_left hj]
  refine ⟨altHeap p.heap (some tok) u c0 cs,
    Consume_Usage_Expr_alt L fuel p tok c u c0 cs cn un ht hty hv hc hcn hce hpar hun hul hch,
    by simp [altHeap], ?_, ?_, ?_, ?_, ?_⟩
  · rw [hlow u hult]
    by_cases hm : u ∈ cs
    · simp [hm, hun, hul]
    · simp [hm, hun, hul]
  · unfold altHeap
    rw [getElem?_AddNode_parent _ _ _ _ _ hg]
    simp [altGroup]
  · unfold altHeap
    have := getElem?_AddNode_new ((setParents (p.heap ++ [altGroup (some tok) u cs]) cs
      p.heap.length).update u (fun x => { x with Children := [c0, p.heap.length] })) p.heap.length
      DocoptNodeType.Usage_Expr none (by simp)
    simpa using this
  · intro x hx
    have hxlt := hcs x hx
    obtain ⟨xn, hxn⟩ : ∃ xn, p.heap[x]? = some xn := ⟨_, List.getElem?_eq_getElem hxlt⟩
    rw [hlow x hxlt]
    by_cases hxu : x = u
    · subst hxu; simp [hx, hxn]
    · simp [hxu, hx, hxn]
  · intro h0 hn0 hu0
    rw [hlow c0 h0]
    simp [hn0, hu0]

/-- Witness of `Consume_assign_error_iff`: `prog --opt = <x>`. -/
theorem Consume_assign_error_iff_witness :
    ∃ r p', Consume_assign (some ⟨TokKind.ARGUMENT, "<x>", 3⟩) assignState = Res.ok r p' ∧
      (r ≠ none ↔
        ((⟨TokKind.ARGUMENT, "<x>", 3⟩ : Token).Typ ≠ TokKind.ARGUMENT ∨
          (mkNode DocoptNodeType.Usage_Expr none [4] (some 1)).Children = [] ∨
          ∃ l ln, (mkNode DocoptNodeType.Usage_Expr none [4] (some 1)).Children.getLast? = some l ∧
            assignState.heap[l]? = some ln ∧
            ln.Typ ≠ DocoptNodeType.Usage_long_option ∧ ln.Typ ≠ DocoptNodeType.Option_long ∧
            ln.Typ ≠ DocoptNodeType.Option_short)) ∧
      (r ≠ none → p' = assignState) :=
  Consume_assign_error_iff assignState ⟨TokKind.ARGUMENT, "<x>", 3⟩ 3
    (mkNode DocoptNodeType.Usage_Expr none [4] (some 1)) (by decide) (by decide)
    (fun l hl => ⟨mkNode DocoptNodeType.Usage_long_option (some ⟨TokKind.LONG, "--opt", 1⟩) []
      (some 3), by cases hl; decide⟩)

/-- Witness of `Consume_assign_attaches_argument`: `prog --opt = <x>`. -/
theorem Consume_assign_attaches_argument_witness :
    ∃ h', Consume_assign (some ⟨TokKind.ARGUMENT, "<x>", 3⟩) assignState
        = Res.ok none { assignState with heap := h' } ∧
      h'.length = assignState.heap.length + 1 ∧
      h'[assignState.heap.length]? = some
        { Typ := if (mkNode DocoptNodeType.Usage_long_option (some ⟨TokKind.LONG, "--opt", 1⟩) []
                      (some 3)).Typ = DocoptNodeType.Usage_long_option
                 then DocoptNodeType.Usage_argument else DocoptNodeType.Option_argument,
          Token := some ⟨TokKind.ARGUMENT, "<x>", 3⟩, Children := [], Parent := some 4,
          Repeat := false } ∧
      h'[4]? = some
        { mkNode DocoptNodeType.Usage_long_option (some ⟨TokKind.LONG, "--opt", 1⟩) [] (some 3) with
          Children := (mkNode DocoptNodeType.Usage_long_option (some ⟨TokKind.LONG, "--opt", 1⟩) []
            (some 3)).Children ++ [assignState.heap.length] } ∧
      h'[3]? = some (mkNode DocoptNodeType.Usage_Expr none [4] (some 1)) ∧
      ∀ j, j < assignState.heap.length → j ≠ 4 → h'[j]? = assignState.heap[j]? :=
  Consume_assign_attaches_argument assignState ⟨TokKind.ARGUMENT, "<x>", 3⟩ 3 4
    (mkNode DocoptNodeType.Usage_Expr none [4] (some 1))
    (mkNode DocoptNodeType.Usage_long_option (some ⟨TokKind.LONG, "--opt", 1⟩) [] (some 3))
    (by decide) (by decide) (by decide) (by decide) (by decide) (by decide) (by decide)

/-- Witness of `Consume_Usage_Expr_toplevel_alternative`: `prog a |`. -/
theorem Consume_Usage_Expr_toplevel_alternative_witness :
    ∃ h', Consume_Usage_Expr listLexer 3 barState = Res.ok (Reason.Continue, none)
        { barState with heap := h', current_node := some (barState.heap.length + 1) } ∧
      h'.length = barState.heap.length + 2 ∧
      (∃ un', h'[1]? = some un' ∧ un'.Typ = DocoptNodeType.Usage_line ∧
        un'.Children = [2, barState.heap.length]) ∧
      h'[barState.heap.length]? = some
        { Typ := DocoptNodeType.Group_alternative, Token := some ⟨TokKind.PUNCT, "|", 2⟩,
          Children := [3] ++ [barState.heap.length + 1], Parent := some 1, Repeat := false } ∧
      h'[barState.heap.length + 1]? = some
        { Typ := DocoptNodeType.Usage_Expr, Token := none, Children := [],
          Parent := some barState.heap.length, Repeat := false } ∧
      (∀ x ∈ [3], ∃ xn, h'[x]? = some xn ∧ xn.Parent = some barState.heap.length) ∧
      (2 < barState.heap.length → 2 ∉ [3] → 2 ≠ 1 → h'[2]? = barState.heap[2]?) :=
  Consume_Usage_Expr_toplevel_alternative listLexer 3 barState ⟨TokKind.PUNCT, "|", 2⟩ 3 1 2 [3]
    (mkNode DocoptNodeType.Usage_Expr none [4] (some 1))
    (mkNode DocoptNodeType.Usage_line none [2, 3] (some 0))
    (by decide) (by decide) (by decide) (by decide) (by decide) (by decide) (by decide)
    (by decide) (by decide) (by decide) (by decide)

end

/-! ## Theorems: program name -/

section
variable {σ : Type}

theorem forRun_succ {γ β : Type} (body : γ → M σ (Ctl γ β)) (k : Nat) (c : γ)
    (p : DocoptParser σ) (hrun : p.run = true) :
    forRun body (k + 1) c p =
      match body c p with
      | Res.ok (Ctl.next c1) p1 => forRun body k c1 p1
      | Res.ok (Ctl.brk b) p1 => Res.ok (some b) p1
      | Res.panic p1 => Res.panic p1
      | Res.timeout p1 => Res.timeout p1 := by
  simp [forRun, hrun]

/-- C2: a `PROG_NAME` token whose value differs from `Prog_name` is an error wherever the
usage section meets it, and no node is created for it.  (1) `Consume_Usage_Expr`, when
that token is current, returns the `Error` reason with a non-nil error and only records
the error.  (2) From the head of the loop of `Consume_Usage_line`, when the next
`NextToken` makes that token current, the routine returns the program-name-mismatch
error in the state `NextToken` produced, whose arena is the one at the loop head.
(3) From the head of the loop of `Consume_group`, when the next `NextToken` makes a
`PROG_NAME` token current, the routine returns a non-nil error and the arena is the one
at the loop head. -/
theorem PROG_NAME_mismatch_is_error (L : StateLexer σ) (fuel k : Nat) (tok : Token)
    (hty : tok.Typ = TokKind.PROG_NAME) :
    (∀ p : DocoptParser σ, p.current_token = some tok → tok.Value ≠ p.Prog_name →
      Consume_Usage_Expr L fuel p =
        Res.ok (Reason.Error, some (Err.usage_expr_unmatched_token tok))
          { p with Errors := p.Errors ++ [Err.usage_expr_unmatched_token tok],
                   Error_count := p.Error_count + 1 }) ∧
    (∀ (q q1 : DocoptParser σ) (us : Option Nat), q.run = true → NextToken L q = Res.ok () q1 →
      q1.current_token = some tok → tok.Value ≠ q1.Prog_name →
      (forRun (fun (_ : Unit) => Consume_Usage_line_body L fuel us) (k + 1) () >>=
          fun r => loopResult r Err.usage_line_parser_stoped) q =
        Res.ok (some (Err.usage_line_PROG_NAME_distinct q1.Prog_name tok)) q1 ∧
      q1.heap = q.heap) ∧
    (∀ (q q1 : DocoptParser σ) (recurse : DocoptNodeType → M σ (Option Err))
        (saved : Option Nat) (c : Nat) (n : DocoptAst),
      q.run = true → NextToken L q = Res.ok () q1 → q1.current_token = some tok →
      q1.current_node = some c → q1.heap[c]? = some n →
      ∃ e q', (forRun (fun (_ : Unit) => Consume_group_body L recurse) (k + 1) () >>=
          Consume_group_finish saved) q = Res.ok (some e) q' ∧ q'.heap = q.heap) := by
  refine ⟨?_, ?_, ?_⟩
  · intro p ht hne
    have hne' : ¬ (tok.Typ = TokKind.PROG_NAME ∧ tok.Value = p.Prog_name) := fun h => hne h.2
    simp [Consume_Usage_Expr, has_reach_EOF, has_reach_two_NEWLINE, has_reach_PROG_NAME, ht, hty,
      hne, Consume_Usage_Expr_token, DocoptParser.AddError]
  · intro q q1 us hrun hnt ht hne
    refine ⟨?_, (NextToken_sameTree L q q1 hnt).1⟩
    have hne' : ¬ q1.Prog_name = tok.Value := fun h => hne h.symm
    simp [forRun_succ _ _ _ _ hrun, Consume_Usage_line_body, hnt, has_reach_EOF, ht, hty,
      Consume_Usage_line_token, hne', loopResult]
  · intro q q1 recurse saved c n hrun hnt ht hc hn
    have hbody : forRun (fun (_ : Unit) => Consume_group_body L recurse) (k + 1) () q =
        Res.ok (some (some (Err.group_missing_closing n.Typ TokKind.PROG_NAME))) q1 := by
      simp [forRun_succ _ _ _ _ hrun, Consume_group_body, hnt, ht, hty, Consume_group_token,
        groupError, hc, readNode_ok q1 c n hn]
    have hheap := (NextToken_sameTree L q q1 hnt).1
    by_cases hr : q1.run = true
    · refine ⟨Err.group_missing_closing n.Typ TokKind.PROG_NAME,
        { q1 with current_node := saved }, ?_, hheap⟩
      simp [hbody, Consume_group_finish, hr]
    · refine ⟨Err.group_parser_stoped n.Typ, q1, ?_, hheap⟩
      simp [hbody, Consume_group_finish, hr, hc, readNode_ok q1 c n hn]

/-- Witness of `PROG_NAME_mismatch_is_error`: a second usage line starting with `other`
in the usage section of `prog`. -/
theorem PROG_NAME_mismatch_is_error_witness :
    Consume_Usage_Expr listLexer 3 otherNameState1 =
        Res.ok (Reason.Error, some (Err.usage_expr_unmatched_token ⟨TokKind.PROG_NAME, "other", 4⟩))
          { otherNameState1 with
            Errors := otherNameState1.Errors ++
              [Err.usage_expr_unmatched_token ⟨TokKind.PROG_NAME, "other", 4⟩],
            Error_count := otherNameState1.Error_count + 1 } ∧
    ((forRun (fun (_ : Unit) => Consume_Usage_line_body listLexer 3 (some 0)) (0 + 1) () >>=
          fun r => loopResult r Err.usage_line_parser_stoped) otherNameState =
        Res.ok (some (Err.usage_line_PROG_NAME_distinct otherNameState1.Prog_name
          ⟨TokKind.PROG_NAME, "other", 4⟩)) otherNameState1 ∧
      otherNameState1.heap = otherNameState.heap) :=
  ⟨(PROG_NAME_mismatch_is_error listLexer 3 0 ⟨TokKind.PROG_NAME, "other", 4⟩ (by decide)).1
      otherNameState1 (by decide) (by decide),
   (PROG_NAME_mismatch_is_error listLexer 3 0 ⟨TokKind.PROG_NAME, "other", 4⟩ (by decide)).2.1
      otherNameState otherNameState1 (some 0) (by decide) (by decide) (by decide) (by decide)⟩

end

/-! ## Theorems: groups on concrete inputs -/

set_option maxRecDepth 100000 in
/-- C5 (what the code does on the witness `( a | b )`): `Consume_group` returns nil and
the required group holds one `Group_alternative` whose children are the two
`Usage_command` leaves themselves; no `Usage_Expr` node is created for an alternative. -/
theorem Consume_group_alternatives_are_flat :
    Consume_group listLexer 8 DocoptNodeType.Usage_required_group altState = Res.ok none
      { altState with
        heap := altHeapAfter,
        current_token := some ⟨TokKind.PUNCT, ")", 4⟩, next_token := some ⟨TokKind.EOF, "", 5⟩,
        tokens := [some ⟨TokKind.PUNCT, "(", 0⟩, some ⟨TokKind.IDENT, "a", 1⟩,
                   some ⟨TokKind.PUNCT, "|", 2⟩, some ⟨TokKind.IDENT, "b", 3⟩,
                   some ⟨TokKind.PUNCT, ")", 4⟩],
        s := { State_name := "state_Usage_Line", input := inputAlt, pos := 5 } } := by
  decide

set_option maxRecDepth 100000 in
/-- C10 (what the code does on `[ ( a ] ]`): called for the required group opened inside
the optional group, `Consume_group(Usage_required_group)` is ended by the token `]` and
returns a nil error, the parent of the group being a `Usage_optional_group`. -/
theorem Consume_group_required_closed_by_bracket :
    Consume_group listLexer 8 DocoptNodeType.Usage_required_group mixedState = Res.ok none
      { mixedState with
        heap := mixedHeapAfter,
        current_token := some ⟨TokKind.PUNCT, "]", 3⟩,
        next_token := some ⟨TokKind.PUNCT, "]", 4⟩,
        tokens := [some ⟨TokKind.PUNCT, "[", 0⟩, some ⟨TokKind.PUNCT, "(", 1⟩,
                   some ⟨TokKind.IDENT, "a", 2⟩, some ⟨TokKind.PUNCT, "]", 3⟩],
        s := { State_name := "state_Usage_Line", input := inputMixed, pos := 5 } } := by
  decide

/-! ## Theorems: how the tree grows -/

section
variable {σ : Type}

theorem Ext.ext_refl (h : Heap) : Ext h h :=
  fun _ n hn => ⟨n, hn, rfl, rfl, fun _ _ rest hc => ⟨rest, hc⟩⟩

theorem Ext.ext_trans {h h1 h2 : Heap} (a : Ext h h1) (b : Ext h1 h2) : Ext h h2 := by
  intro i n hn
  obtain ⟨n1, hn1, ht1, hk1, hc1⟩ := a i n hn
  obtain ⟨n2, hn2, ht2, hk2, hc2⟩ := b i n1 hn1
  refine ⟨n2, hn2, ht2.trans ht1, hk2.trans hk1, ?_⟩
  intro hul c rest hch
  obtain ⟨rest1, hr1⟩ := hc1 hul c rest hch
  exact hc2 (ht1.trans hul) c rest1 hr1

theorem goodLine_of_Ext {h h1 : Heap} {name : String} {n n1 : DocoptAst} (e : Ext h h1)
    (g : goodLine h name n) (hch : ∀ c rest, n.Children = c :: rest → ∃ rest1, n1.Children = c :: rest1) :
    goodLine h1 name n1 := by
  obtain ⟨c, rest, cn, tok, hc, hcn, hty, htok, hv⟩ := g
  obtain ⟨rest1, hr1⟩ := hch c rest hc
  obtain ⟨cn1, hcn1, ht1, hk1, _⟩ := e c cn hcn
  exact ⟨c, rest1, cn1, tok, hr1, hcn1, ht1.trans hty, hk1.trans htok, hv⟩

theorem GrowsN.growsN_refl (h : Heap) : GrowsN h h :=
  ⟨Ext.ext_refl h, fun i n1 h0 h1 => by rw [h0] at h1; cases h1⟩

theorem GrowsN.growsN_trans {h h1 h2 : Heap} (a : GrowsN h h1) (b : GrowsN h1 h2) : GrowsN h h2 := by
  refine ⟨a.1.ext_trans b.1, ?_⟩
  intro i n2 h0 hn2 hul
  cases hi1 : h1[i]? with
  | none => exact b.2 i n2 hi1 hn2 hul
  | some n1 =>
    obtain ⟨n2', hn2', ht, _, _⟩ := b.1 i n1 hi1
    rw [hn2] at hn2'
    cases hn2'
    exact a.2 i n1 h0 hi1 (ht.symm.trans hul)

theorem GrowsN.toGrows {h h1 : Heap} (name : String) (a : GrowsN h h1) : Grows name h h1 :=
  ⟨a.1, fun i n1 h0 hn1 hul => absurd hul (a.2 i n1 h0 hn1)⟩

theorem Grows.grows_refl (name : String) (h : Heap) : Grows name h h :=
  (GrowsN.growsN_refl h).toGrows name

theorem Grows.grows_trans {name : String} {h h1 h2 : Heap} (a : Grows name h h1)
    (b : Grows name h1 h2) : Grows name h h2 := by
  refine ⟨a.1.ext_trans b.1, ?_⟩
  intro i n2 h0 hn2 hul
  cases hi1 : h1[i]? with
  | none => exact b.2 i n2 hi1 hn2 hul
  | some n1 =>
    obtain ⟨n2', hn2', ht, _, hc⟩ := b.1 i n1 hi1
    rw [hn2] at hn2'
    cases hn2'
    have hul1 : n1.Typ = DocoptNodeType.Usage_line := ht.symm.trans hul
    exact goodLine_of_Ext b.1 (a.2 i n1 h0 hi1 hul1) (hc hul1)

theorem Step.step_refl (p : DocoptParser σ) : Step p p := ⟨GrowsN.growsN_refl _, rfl⟩

theorem Step.step_trans {p q r : DocoptParser σ} (a : Step p q) (b : Step q r) : Step p r :=
  ⟨a.1.growsN_trans b.1, b.2.trans a.2⟩

theorem StepC.stepC_refl (p : DocoptParser σ) : StepC p p := ⟨Step.step_refl p, rfl⟩

theorem StepC.stepC_trans {p q r : DocoptParser σ} (a : StepC p q) (b : StepC q r) : StepC p r :=
  ⟨a.1.step_trans b.1, b.2.trans a.2⟩

theorem StepL.stepL_refl (p : DocoptParser σ) : StepL p p := ⟨Grows.grows_refl _ _, rfl⟩

theorem StepL.stepL_trans {p q r : DocoptParser σ} (a : StepL p q) (b : StepL q r) : StepL p r := by
  refine ⟨a.1.grows_trans ?_, b.2.trans a.2⟩
  have := b.1
  rw [a.2] at this
  exact this

theorem Step.toStepL {p q : DocoptParser σ} (a : Step p q) : StepL p q :=
  ⟨a.1.toGrows _, a.2⟩

theorem StepC_trans (p q r : DocoptParser σ) (a : StepC p q) (b : StepC q r) : StepC p r :=
  a.stepC_trans b

theorem Step_trans (p q r : DocoptParser σ) (a : Step p q) (b : Step q r) : Step p r :=
  a.step_trans b

theorem StepL_trans (p q r : DocoptParser σ) (a : StepL p q) (b : StepL q r) : StepL p r :=
  a.stepL_trans b

theorem UsageLinesOK_of_StepL {p q : DocoptParser σ} (hp : UsageLinesOK p) (s : StepL p q) :
    UsageLinesOK q := by
  intro i n1 hn1 hul
  rw [s.2]
  cases hi : p.heap[i]? with
  | none => exact s.1.2 i n1 hi hn1 hul
  | some n =>
    obtain ⟨n1', hn1', ht, _, hc⟩ := s.1.1 i n hi
    rw [hn1] at hn1'
    cases hn1'
    have hul0 : n.Typ = DocoptNodeType.Usage_line := ht.symm.trans hul
    exact goodLine_of_Ext s.1.1 (hp i n hi hul0) (hc hul0)

theorem UsageLinesOK_of_NoLine {p : DocoptParser σ} (hp : NoLine p) : UsageLinesOK p :=
  fun i n hn hul => absurd hul (hp i n hn)

theorem NoLine_of_Step {p q : DocoptParser σ} (hp : NoLine p) (s : Step p q) : NoLine q := by
  intro i n1 hn1 hul
  cases hi : p.heap[i]? with
  | none => exact s.1.2 i n1 hi hn1 hul
  | some n =>
    obtain ⟨n1', hn1', ht, _, _⟩ := s.1.1 i n hi
    rw [hn1] at hn1'
    cases hn1'
    exact hp i n hi (ht.symm.trans hul)

theorem CurNotLine_of_Step {p q : DocoptParser σ} (hp : CurNotLine p) (s : Step p q)
    (hc : q.current_node = p.current_node) : CurNotLine q := by
  obtain ⟨c, n, hcur, hn, hne⟩ := hp
  obtain ⟨n1, hn1, ht, _, _⟩ := s.1.1 c n hn
  exact ⟨c, n1, hc.trans hcur, hn1, fun h => hne (ht.symm.trans h)⟩

theorem Step_of_eq {p q : DocoptParser σ} (h1 : q.heap = p.heap)
    (h2 : q.Prog_name = p.Prog_name) : Step p q := by
  refine ⟨?_, h2⟩
  rw [h1]
  exact GrowsN.growsN_refl _

theorem StepC_of_eq {p q : DocoptParser σ} (h1 : q.heap = p.heap)
    (h2 : q.Prog_name = p.Prog_name) (h3 : q.current_node = p.current_node) : StepC p q :=
  ⟨Step_of_eq h1 h2, h3⟩

theorem SameTree.stepC {p q : DocoptParser σ} (h : SameTree p q) : StepC p q :=
  StepC_of_eq h.1 h.2.1 h.2.2.1

end

section
variable {σ : Type}

theorem Ext_AddNode (h : Heap) (i : Nat) (k : DocoptNodeType) (t : Option Token) :
    Ext h (AddNode h i k t).1 := by
  intro j n hn
  have hj : j < h.length := (List.getElem?_eq_some_iff.mp hn).1
  rw [getElem?_AddNode, List.getElem?_append_left hj, hn]
  by_cases hji : j = i
  · simp only [hji, if_true, Option.map_some']
    exact ⟨_, rfl, rfl, rfl, fun _ c rest hc => ⟨rest ++ [h.length], by simp [hc]⟩⟩
  · simp only [hji, if_false]
    exact ⟨n, rfl, rfl, rfl, fun _ c rest hc => ⟨rest, hc⟩⟩

theorem GrowsN_AddNode (h : Heap) (i : Nat) (k : DocoptNodeType)
    (t : Option Token) (hk : k ≠ DocoptNodeType.Usage_line) :
    GrowsN h (AddNode h i k t).1 := by
  refine ⟨Ext_AddNode h i k t, ?_⟩
  intro j n1 h0 h1 hul
  have hj : h.length ≤ j := List.getElem?_eq_none_iff.mp h0
  have hj1 : j < (AddNode h i k t).1.length := (List.getElem?_eq_some_iff.mp h1).1
  rw [length_AddNode] at hj1
  have hje : j = h.length := by omega
  subst hje
  rw [getElem?_AddNode] at h1
  by_cases hi : h.length = i
  · simp [hi] at h1
    subst hi
    rw [← h1] at hul
    exact absurd hul hk
  · simp [hi] at h1
    rw [← h1] at hul
    exact absurd hul hk

theorem GrowsN_update (h : Heap) (i : Nat) (f : DocoptAst → DocoptAst)
    (hf : ∀ x, (f x).Typ = x.Typ ∧ (f x).Token = x.Token ∧ (f x).Children = x.Children) :
    GrowsN h (h.update i f) := by
  refine ⟨?_, ?_⟩
  · intro j n hn
    rw [Heap.getElem?_update, hn]
    by_cases hji : j = i
    · simp only [hji, if_true, Option.map_some']
      exact ⟨_, rfl, (hf n).1, (hf n).2.1, fun _ c rest hc => ⟨rest, by rw [(hf n).2.2, hc]⟩⟩
    · simp only [hji, if_false]
      exact ⟨n, rfl, rfl, rfl, fun _ c rest hc => ⟨rest, hc⟩⟩
  · intro j n1 h0 h1 _
    have hj : h.length ≤ j := List.getElem?_eq_none_iff.mp h0
    have hj1 : j < (h.update i f).length := (List.getElem?_eq_some_iff.mp h1).1
    rw [Heap.length_update] at hj1
    omega

theorem length_RCWG (h : Heap) (i : Nat) (g : DocoptNodeType) :
    (Replace_children_with_group h i g).1.length ≤ h.length + 1 := by
  unfold Replace_children_with_group
  cases h[i]? <;> simp

theorem GrowsN_RCWG (h : Heap) (i : Nat) (g : DocoptNodeType)
    (hi : ∀ n, h[i]? = some n → n.Typ ≠ DocoptNodeType.Usage_line)
    (hg : g ≠ DocoptNodeType.Usage_line) :
    GrowsN h (Replace_children_with_group h i g).1 := by
  cases hnode : h[i]? with
  | none =>
    have e : (Replace_children_with_group h i g).1 = h := by
      simp [Replace_children_with_group, hnode]
    rw [e]
    exact GrowsN.growsN_refl _
  | some node =>
    have hilt : i < h.length := (List.getElem?_eq_some_iff.mp hnode).1
    refine ⟨?_, ?_⟩
    · intro j n hn
      have hj : j < h.length := (List.getElem?_eq_some_iff.mp hn).1
      rw [getElem?_RCWG h i g node _ hnode rfl, List.getElem?_append_left hj, hn]
      by_cases hji : j = i
      · subst hji
        have hnn : n = node := by rw [hn] at hnode; cases hnode; rfl
        subst hnn
        have hne := hi n hn
        by_cases hm : j ∈ n.Children
        · simp only [if_true, hm, Option.map_some']
          exact ⟨_, rfl, rfl, rfl, fun hul => absurd hul hne⟩
        · simp only [if_true, hm, if_false, Option.map_some']
          exact ⟨_, rfl, rfl, rfl, fun hul => absurd hul hne⟩
      · by_cases hm : j ∈ node.Children
        · simp only [hji, if_false, hm, if_true, Option.map_some']
          exact ⟨_, rfl, rfl, rfl, fun _ c rest hc => ⟨rest, hc⟩⟩
        · simp only [hji, if_false, hm]
          exact ⟨n, rfl, rfl, rfl, fun _ c rest hc => ⟨rest, hc⟩⟩
    · intro j n1 h0 h1 hul
      have hj : h.length ≤ j := List.getElem?_eq_none_iff.mp h0
      have hj1 : j < (Replace_children_with_group h i g).1.length :=
        (List.getElem?_eq_some_iff.mp h1).1
      have := length_RCWG h i g
      have hje : j = h.length := by omega
      subst hje
      rw [getElem?_RCWG h i g node _ hnode rfl] at h1
      have hne : h.length ≠ i := by omega
      by_cases hm : h.length ∈ node.Children
      · simp [hne, hm] at h1
        rw [← h1] at hul
        exact absurd hul hg
      · simp [hne, hm] at h1
        rw [← h1] at hul
        exact absurd hul hg

theorem GrowsN_append (h : Heap) (x : DocoptAst)
    (hx : x.Typ ≠ DocoptNodeType.Usage_line) : GrowsN h (h ++ [x]) := by
  refine ⟨?_, ?_⟩
  · intro j n hn
    have hj : j < h.length := (List.getElem?_eq_some_iff.mp hn).1
    rw [List.getElem?_append_left hj, hn]
    exact ⟨n, rfl, rfl, rfl, fun _ c rest hc => ⟨rest, hc⟩⟩
  · intro j n1 h0 h1 hul
    have hj : h.length ≤ j := List.getElem?_eq_none_iff.mp h0
    have hj1 : j < (h ++ [x]).length := (List.getElem?_eq_some_iff.mp h1).1
    simp at hj1
    have hje : j = h.length := by omega
    subst hje
    simp at h1
    rw [← h1] at hul
    exact absurd hul hx

theorem GrowsN_setParents (cs : List Nat) (g : Nat) (h : Heap) :
    GrowsN h (setParents h cs g) := by
  induction cs generalizing h with
  | nil => exact GrowsN.growsN_refl _
  | cons c cs ih =>
    have e : setParents h (c :: cs) g
        = setParents (h.update c (fun x => { x with Parent := some g })) cs g := rfl
    rw [e]
    exact (GrowsN_update h c (fun x => { x with Parent := some g })
      (fun _ => ⟨rfl, rfl, rfl⟩)).growsN_trans (ih _)

theorem GrowsN_update_children (h : Heap) (i c0 : Nat) (l : List Nat)
    (hx : ∀ x, h[i]? = some x → ∃ rest, x.Children = c0 :: rest) :
    GrowsN h (h.update i (fun x => { x with Children := c0 :: l })) := by
  refine ⟨?_, ?_⟩
  · intro j n hn
    rw [Heap.getElem?_update, hn]
    by_cases hji : j = i
    · subst hji
      simp only [if_true, Option.map_some']
      refine ⟨_, rfl, rfl, rfl, fun _ c rest hc => ⟨l, ?_⟩⟩
      obtain ⟨rest', hr⟩ := hx n hn
      rw [hr] at hc
      cases hc
      rfl
    · simp only [hji, if_false]
      exact ⟨n, rfl, rfl, rfl, fun _ c rest hc => ⟨rest, hc⟩⟩
  · intro j n1 h0 h1 _
    have hj : h.length ≤ j := List.getElem?_eq_none_iff.mp h0
    have hj1 := (List.getElem?_eq_some_iff.mp h1).1
    rw [Heap.length_update] at hj1
    omega

theorem GrowsN_altHeap (h : Heap) (tok : Option Token) (u c0 : Nat)
    (cs : List Nat) (un : DocoptAst) (hun : h[u]? = some un) (hch : un.Children = c0 :: cs) :
    GrowsN h (altHeap h tok u c0 cs) := by
  have hult : u < h.length := (List.getElem?_eq_some_iff.mp hun).1
  have e1 : GrowsN h (h ++ [altGroup tok u cs]) :=
    GrowsN_append h _ (by simp [altGroup])
  have e2 := GrowsN_setParents cs h.length (h ++ [altGroup tok u cs])
  have e3 : GrowsN (setParents (h ++ [altGroup tok u cs]) cs h.length)
      ((setParents (h ++ [altGroup tok u cs]) cs h.length).update u
        (fun x => { x with Children := [c0, h.length] })) := by
    apply GrowsN_update_children
    intro x hx
    rw [getElem?_setParents, List.getElem?_append_left hult, hun] at hx
    by_cases hm : u ∈ cs
    · simp only [hm, if_true, Option.map_some', Option.some.injEq] at hx
      rw [← hx]
      exact ⟨cs, hch⟩
    · simp only [hm, if_false, Option.some.injEq] at hx
      rw [← hx]
      exact ⟨cs, hch⟩
  unfold altHeap
  exact ((e1.growsN_trans e2).growsN_trans e3).growsN_trans (GrowsN_AddNode _ _ _ _ (by decide))

/-- A new usage line: a `Usage_line` node and, under it, a `Prog_name` node whose token
carries the program name. -/
theorem Grows_newLine (h : Heap) (us : Nat) (tok : Token) (hus : us < h.length) :
    Grows tok.Value h
      (AddNode (AddNode h us DocoptNodeType.Usage_line none).1 h.length
        DocoptNodeType.Prog_name (some tok)).1 := by
  refine ⟨(Ext_AddNode _ _ _ _).ext_trans (Ext_AddNode _ _ _ _), ?_⟩
  intro j n1 h0 h1 hul
  have hj : h.length ≤ j := List.getElem?_eq_none_iff.mp h0
  have hj1 := (List.getElem?_eq_some_iff.mp h1).1
  simp only [length_AddNode] at hj1
  have hlen1 : (AddNode h us DocoptNodeType.Usage_line none).1.length = h.length + 1 := by simp
  have hline : (AddNode h us DocoptNodeType.Usage_line none).1[h.length]? =
      some { Typ := DocoptNodeType.Usage_line, Token := none, Children := [],
             Parent := some us, Repeat := false } := getElem?_AddNode_new _ _ _ _ hus
  have hline2 := getElem?_AddNode_parent _ _ DocoptNodeType.Prog_name (some tok) _ hline
  have hname := getElem?_AddNode_new (AddNode h us DocoptNodeType.Usage_line none).1 h.length
    DocoptNodeType.Prog_name (some tok) (by rw [hlen1]; omega)
  rw [hlen1] at hline2 hname
  by_cases hje : j = h.length
  · subst hje
    rw [hline2] at h1
    cases h1
    exact ⟨h.length + 1, [], _, tok, rfl, hname, rfl, rfl, rfl⟩
  · have hje2 : j = h.length + 1 := by omega
    subst hje2
    rw [hname] at h1
    cases h1
    cases hul

end

/-! ## Theorems: what the routines keep -/

section
variable {σ : Type} {R : DocoptParser σ → DocoptParser σ → Prop}

theorem Keeps_pure {α : Type} (hr : ∀ p, R p p) (a : α) : Keeps R (pure a : M σ α) :=
  fun p => hr p

theorem Keeps_bind {α β : Type} (ht : ∀ p q r, R p q → R q r → R p r) {m : M σ α}
    {f : α → M σ β} (hm : Keeps R m) (hf : ∀ a, Keeps R (f a)) : Keeps R (m >>= f) := by
  intro p
  rw [sat_bind]
  refine sat_mono (hm p) (fun a q hq => ?_) (fun q hq => hq)
  exact sat_mono (hf a q) (fun _ r hr => ht p q r hq hr) (fun r hr => ht p q r hq hr)

theorem Keeps_ite {α : Type} (c : Prop) [Decidable c] {m1 m2 : M σ α} (h1 : Keeps R m1)
    (h2 : Keeps R m2) : Keeps R (if c then m1 else m2) := by
  by_cases h : c <;> simp [h, h1, h2]

theorem Keeps_whenM (hr : ∀ p, R p p) (c : Prop) [Decidable c] {m : M σ Unit}
    (hm : Keeps R m) : Keeps R (whenM c m) := by
  unfold whenM
  exact Keeps_ite c hm (Keeps_pure hr ())

theorem Keeps_getP (hr : ∀ p, R p p) : Keeps R (getP : M σ _) := fun p => hr p

theorem Keeps_panicM {α : Type} (hr : ∀ p, R p p) : Keeps R (panicM : M σ α) := fun p => hr p

theorem Keeps_timeoutM {α : Type} (hr : ∀ p, R p p) : Keeps R (timeoutM : M σ α) := fun p => hr p

theorem Keeps_deref {α : Type} (hr : ∀ p, R p p) (o : Option α) : Keeps R (deref o : M σ α) := by
  cases o
  · exact fun p => hr p
  · exact fun p => hr p

theorem Keeps_modifyP {f : DocoptParser σ → DocoptParser σ} (h : ∀ q, R q (f q)) :
    Keeps R (modifyP f) := fun p => h p

theorem Keeps_readNode (hr : ∀ p, R p p) (n : Option Nat) : Keeps R (readNode n : M σ _) := by
  intro p
  rw [sat_readNode]
  exact ⟨fun _ _ _ _ => hr p, fun _ => hr p⟩

theorem Keeps_addNode (hr : ∀ p, R p p) (n : Option Nat) (k : DocoptNodeType) (t : Option Token)
    (h : ∀ (p : DocoptParser σ) i, R p { p with heap := (AddNode p.heap i k t).1 }) :
    Keeps R (addNode n k t : M σ _) := by
  intro p
  rw [sat_addNode]
  exact ⟨fun i _ _ _ => h p i, fun _ => hr p⟩

theorem Keeps_NextToken (h : ∀ p q : DocoptParser σ, SameTree p q → R p q) (L : StateLexer σ) :
    Keeps R (NextToken L) :=
  fun p => sat_NextToken L p _ _ (h p) (h p)

theorem Keeps_forRun {γ β : Type} (hr : ∀ p, R p p) (ht : ∀ p q r, R p q → R q r → R p r)
    {body : γ → M σ (Ctl γ β)} (hb : ∀ c, Keeps R (body c)) (k : Nat) (c : γ) :
    Keeps R (forRun body k c) := by
  induction k generalizing c with
  | zero =>
    intro p
    by_cases h : p.run = true <;> simp [forRun, h, hr p]
  | succ k ih =>
    intro p
    by_cases h : p.run = true
    · rw [forRun_succ _ _ _ _ h]
      have hb' := hb c p
      cases hbody : body c p with
      | ok ctl q =>
        rw [hbody] at hb'
        cases ctl with
        | next c1 =>
          exact sat_mono (ih c1 q) (fun _ r hr' => ht p q r hb' hr') (fun r hr' => ht p q r hb' hr')
        | brk b => exact hb'
      | panic q => rw [hbody] at hb'; exact hb'
      | timeout q => rw [hbody] at hb'; exact hb'
    · simp [forRun, h, hr p]

theorem Keeps_mono {α : Type} {R1 : DocoptParser σ → DocoptParser σ → Prop} {m : M σ α}
    (h : ∀ p q, R p q → R1 p q) (hm : Keeps R m) : Keeps R1 m :=
  fun p => sat_mono (hm p) (fun _ q hq => h p q hq) (fun q hq => h p q hq)

end

section
variable {σ : Type}

theorem StepC_AddNode (k : DocoptNodeType) (t : Option Token)
    (hk : k ≠ DocoptNodeType.Usage_line) (p : DocoptParser σ) (i : Nat) :
    StepC p { p with heap := (AddNode p.heap i k t).1 } :=
  ⟨⟨GrowsN_AddNode _ _ _ _ hk, rfl⟩, rfl⟩

theorem C_addNode (n : Option Nat) (k : DocoptNodeType) (t : Option Token)
    (hk : k ≠ DocoptNodeType.Usage_line) : Keeps StepC (addNode n k t : M σ _) :=
  Keeps_addNode StepC.stepC_refl n k t (StepC_AddNode k t hk)

theorem C_NextToken (L : StateLexer σ) : Keeps StepC (NextToken L) :=
  Keeps_NextToken (fun _ _ h => h.stepC) L

theorem C_addLeaf (k : DocoptNodeType) (hk : k ≠ DocoptNodeType.Usage_line) :
    Keeps StepC (addLeaf k : M σ _) := by
  unfold addLeaf
  repeat' (first
    | exact Keeps_pure StepC.stepC_refl _
    | exact Keeps_getP StepC.stepC_refl
    | exact C_addNode _ _ _ hk
    | apply Keeps_bind StepC_trans
    | intro _)

end

section
variable {σ : Type}

theorem S_of_C {α : Type} {m : M σ α} (h : Keeps StepC m) : Keeps Step m :=
  Keeps_mono (fun _ _ h => h.1) h

theorem L_of_S {α : Type} {m : M σ α} (h : Keeps Step m) : Keeps StepL m :=
  Keeps_mono (fun _ _ h => h.toStepL) h

theorem C_removeBack : Keeps StepC (removeBack : M σ Unit) := by
  unfold removeBack
  repeat' (first
    | exact Keeps_getP StepC.stepC_refl
    | exact Keeps_panicM StepC.stepC_refl
    | exact Keeps_modifyP (fun _ => StepC_of_eq rfl rfl rfl)
    | apply Keeps_ite
    | apply Keeps_bind StepC_trans
    | intro _)

theorem C_reject_current_token (L : StateLexer σ) : Keeps StepC (reject_current_token L) := by
  unfold reject_current_token
  repeat' (first
    | exact Keeps_getP StepC.stepC_refl
    | exact Keeps_deref StepC.stepC_refl _
    | exact C_removeBack
    | exact Keeps_modifyP (fun _ => StepC_of_eq rfl rfl rfl)
    | apply Keeps_bind StepC_trans
    | intro _)

theorem C_Change_lexer_state (L : StateLexer σ) (s : String) :
    Keeps StepC (Change_lexer_state L s) :=
  Keeps_modifyP (fun _ => StepC_of_eq rfl rfl rfl)

theorem C_FatalError : Keeps StepC (FatalError : M σ Unit) :=
  Keeps_modifyP (fun _ => StepC_of_eq rfl rfl rfl)

theorem C_AddError (e : Err) : Keeps StepC (AddError e : M σ Err) :=
  fun _ => StepC_of_eq rfl rfl rfl

theorem C_has_reach_EOF (r : Reason) : Keeps StepC (has_reach_EOF r : M σ _) := by
  unfold has_reach_EOF
  repeat' (first
    | exact Keeps_pure StepC.stepC_refl _
    | exact Keeps_getP StepC.stepC_refl
    | exact Keeps_deref StepC.stepC_refl _
    | apply Keeps_ite
    | apply Keeps_bind StepC_trans
    | intro _)

theorem C_has_reach_two_NEWLINE (L : StateLexer σ) (r : Reason) (b : Bool) :
    Keeps StepC (has_reach_two_NEWLINE L r b) := by
  unfold has_reach_two_NEWLINE
  repeat' (first
    | exact Keeps_pure StepC.stepC_refl _
    | exact Keeps_getP StepC.stepC_refl
    | exact Keeps_deref StepC.stepC_refl _
    | exact C_NextToken _
    | apply Keeps_whenM StepC.stepC_refl
    | apply Keeps_ite
    | apply Keeps_bind StepC_trans
    | intro _)

theorem C_has_reach_PROG_NAME (r : Reason) : Keeps StepC (has_reach_PROG_NAME r : M σ _) := by
  unfold has_reach_PROG_NAME
  repeat' (first
    | exact Keeps_pure StepC.stepC_refl _
    | exact Keeps_getP StepC.stepC_refl
    | exact Keeps_deref StepC.stepC_refl _
    | apply Keeps_ite
    | apply Keeps_bind StepC_trans
    | intro _)

theorem C_Consume_ellipsis : Keeps StepC (Consume_ellipsis : M σ _) := by
  unfold Consume_ellipsis
  repeat' (first
    | exact Keeps_pure StepC.stepC_refl _
    | exact Keeps_getP StepC.stepC_refl
    | exact Keeps_deref StepC.stepC_refl _
    | exact Keeps_readNode StepC.stepC_refl _
    | exact Keeps_modifyP
        (fun _ => ⟨⟨GrowsN_update _ _ _ (fun _ => ⟨rfl, rfl, rfl⟩), rfl⟩, rfl⟩)
    | apply Keeps_ite
    | apply Keeps_bind StepC_trans
    | intro _)

theorem C_Consume_assign (a : Option Token) : Keeps StepC (Consume_assign a : M σ _) := by
  unfold Consume_assign
  repeat' (first
    | exact Keeps_pure StepC.stepC_refl _
    | exact Keeps_getP StepC.stepC_refl
    | exact Keeps_deref StepC.stepC_refl _
    | exact Keeps_readNode StepC.stepC_refl _
    | exact C_addNode _ _ _ (by decide)
    | apply Keeps_ite
    | apply Keeps_bind StepC_trans
    | intro _)

theorem C_addLeafNext {β : Type} (k : DocoptNodeType) (hk : k ≠ DocoptNodeType.Usage_line) :
    Keeps StepC (addLeafNext k : M σ (Ctl Unit β)) := by
  unfold addLeafNext
  repeat' (first
    | exact Keeps_pure StepC.stepC_refl _
    | exact C_addLeaf _ hk
    | apply Keeps_bind StepC_trans
    | intro _)

theorem C_groupError (err : DocoptNodeType → Err) : Keeps StepC (groupError err : M σ _) := by
  unfold groupError
  repeat' (first
    | exact Keeps_pure StepC.stepC_refl _
    | exact Keeps_getP StepC.stepC_refl
    | exact Keeps_readNode StepC.stepC_refl _
    | apply Keeps_bind StepC_trans
    | intro _)

theorem Keeps_breakOnError {R : DocoptParser σ → DocoptParser σ → Prop} (hr : ∀ p, R p p)
    (ht : ∀ p q r, R p q → R q r → R p r) {m : M σ (Option Err)} (hm : Keeps R m) :
    Keeps R (breakOnError m) := by
  unfold breakOnError
  repeat' (first
    | exact Keeps_pure hr _
    | exact hm
    | apply Keeps_ite
    | apply Keeps_bind ht
    | intro _)

theorem C_Consume_group_assign (L : StateLexer σ) : Keeps StepC (Consume_group_assign L) := by
  unfold Consume_group_assign
  repeat' (first
    | exact Keeps_pure StepC.stepC_refl _
    | exact Keeps_getP StepC.stepC_refl
    | exact C_Consume_assign _
    | exact C_NextToken _
    | apply Keeps_ite
    | apply Keeps_bind StepC_trans
    | intro _)

theorem C_loopResult (r : Option (Option Err)) (err : DocoptNodeType → Err) :
    Keeps StepC (loopResult r err : M σ _) := by
  unfold loopResult
  repeat' (first
    | exact Keeps_pure StepC.stepC_refl _
    | exact Keeps_getP StepC.stepC_refl
    | exact Keeps_readNode StepC.stepC_refl _
    | apply Keeps_ite
    | apply Keeps_bind StepC_trans
    | intro _)

theorem S_setCurrentNode (n : Option Nat) : Keeps Step (setCurrentNode n : M σ Unit) :=
  Keeps_modifyP (fun _ => Step_of_eq rfl rfl)

theorem S_addNode (n : Option Nat) (k : DocoptNodeType) (t : Option Token)
    (hk : k ≠ DocoptNodeType.Usage_line) : Keeps Step (addNode n k t : M σ _) :=
  S_of_C (C_addNode n k t hk)

theorem S_ensure_node (k : DocoptNodeType) (hk : k ≠ DocoptNodeType.Usage_line) :
    Keeps Step (ensure_node k : M σ Unit) := by
  unfold ensure_node
  repeat' (first
    | exact Keeps_pure Step.step_refl _
    | exact Keeps_getP Step.step_refl
    | exact Keeps_readNode Step.step_refl _
    | exact S_setCurrentNode _
    | exact S_addNode _ _ _ hk
    | apply Keeps_ite
    | apply Keeps_bind Step_trans
    | intro _)

theorem S_Consume_group_close (g : DocoptNodeType) (err : DocoptNodeType → Err) :
    Keeps Step (Consume_group_close g err : M σ _) := by
  unfold Consume_group_close
  repeat' (first
    | exact Keeps_pure Step.step_refl _
    | exact Keeps_getP Step.step_refl
    | exact Keeps_readNode Step.step_refl _
    | exact S_setCurrentNode _
    | apply Keeps_whenM Step.step_refl
    | apply Keeps_ite
    | apply Keeps_bind Step_trans
    | intro _)

end

/-! ## Theorems: `Consume_group` keeps the usage lines -/

section
variable {σ : Type}

theorem sat_and {α : Type} {r : Res σ α} {Q1 Q2 : α → DocoptParser σ → Prop}
    {I1 I2 : DocoptParser σ → Prop} (h1 : r.sat Q1 I1) (h2 : r.sat Q2 I2) :
    r.sat (fun a q => Q1 a q ∧ Q2 a q) (fun q => I1 q ∧ I2 q) := by
  cases r with
  | ok a p => exact ⟨h1, h2⟩
  | panic p => exact ⟨h1, h2⟩
  | timeout p => exact ⟨h1, h2⟩

theorem Returns_pure {α : Type} {S : α → Prop} {a : α} (h : S a) :
    Returns S (pure a : M σ α) := fun _ => h

theorem Returns_bind {α β : Type} {S : β → Prop} {m : M σ α} {f : α → M σ β}
    (hf : ∀ a, Returns S (f a)) : Returns S (m >>= f) := by
  intro p
  rw [sat_bind]
  cases h : m p with
  | ok a q => exact hf a q
  | panic q => trivial
  | timeout q => trivial

theorem Returns_ite {α : Type} {S : α → Prop} (c : Prop) [Decidable c] {m1 m2 : M σ α}
    (h1 : Returns S m1) (h2 : Returns S m2) : Returns S (if c then m1 else m2) := by
  by_cases h : c <;> simp [h, h1, h2]

/-- The loop rule: an invariant of the iterations gives the result of the loop. -/
theorem sat_forRun {γ β : Type} (body : γ → M σ (Ctl γ β)) (Inv : γ → DocoptParser σ → Prop)
    (Q : Option β → DocoptParser σ → Prop) (I : DocoptParser σ → Prop)
    (hb : ∀ c q, Inv c q → q.run = true →
      (body c q).sat (fun ctl q1 => (∀ c1, ctl = Ctl.next c1 → Inv c1 q1) ∧
        (∀ b, ctl = Ctl.brk b → Q (some b) q1)) I)
    (hexit : ∀ c q, Inv c q → Q none q) (htime : ∀ c q, Inv c q → I q) :
    ∀ k c q, Inv c q → (forRun body k c q).sat Q I := by
  intro k
  induction k with
  | zero =>
    intro c q hq
    by_cases h : q.run = true
    · simp [forRun, h, htime c q hq]
    · simp [forRun, h, hexit c q hq]
  | succ k ih =>
    intro c q hq
    by_cases h : q.run = true
    · rw [forRun_succ _ _ _ _ h]
      have hb1 := hb c q hq h
      cases hbody : body c q with
      | ok ctl q1 =>
        rw [hbody] at hb1
        cases ctl with
        | next c1 => exact ih c1 q1 (hb1.1 c1 rfl)
        | brk b => exact hb1.2 b rfl
      | panic q1 => rw [hbody] at hb1; exact hb1
      | timeout q1 => rw [hbody] at hb1; exact hb1
    · simp [forRun, h, hexit c q hq]

theorem BodyOK_of_C {γ β : Type} {m : M σ (Ctl γ β)} (h : Keeps StepC m) : BodyOK m :=
  fun p hp => sat_mono (h p)
    (fun _ _ hq => ⟨hq.1, fun _ _ => CurNotLine_of_Step hp hq.1 hq.2⟩) (fun _ hq => hq.1)

theorem BodyOK_of_S_brk {γ β : Type} {m : M σ (Ctl γ β)} (h : Keeps Step m)
    (hr : Returns (fun ctl => ∀ c, ctl ≠ Ctl.next c) m) : BodyOK m :=
  fun p _ => sat_mono (sat_and (h p) (hr p))
    (fun _ _ hq => ⟨hq.1, fun c hc => absurd hc (hq.2 c)⟩) (fun _ hq => hq.1)

theorem BodyOK_ite {γ β : Type} (c : Prop) [Decidable c] {m1 m2 : M σ (Ctl γ β)}
    (h1 : BodyOK m1) (h2 : BodyOK m2) : BodyOK (if c then m1 else m2) := by
  by_cases h : c <;> simp [h, h1, h2]

theorem BodyOK_bind_C {α γ β : Type} {m : M σ α} {f : α → M σ (Ctl γ β)}
    (hm : Keeps StepC m) (hf : ∀ a, BodyOK (f a)) : BodyOK (m >>= f) := by
  intro p hp
  rw [sat_bind]
  refine sat_mono (hm p) (fun a q hq => ?_) (fun q hq => hq.1)
  exact sat_mono (hf a q (CurNotLine_of_Step hp hq.1 hq.2))
    (fun _ r hr => ⟨hq.1.step_trans hr.1, hr.2⟩) (fun r hr => hq.1.step_trans hr)

/-- A loop whose iterations are `BodyOK`, started with a current node that is not a
`Usage_line`, makes a `Step`. -/
theorem forRun_BodyOK {γ β : Type} {body : γ → M σ (Ctl γ β)} (hb : ∀ c, BodyOK (body c))
    (k : Nat) (c : γ) (p : DocoptParser σ) (hp : CurNotLine p) :
    (forRun body k c p).sat (fun _ q => Step p q) (fun q => Step p q) := by
  refine sat_forRun body (fun _ q => Step p q ∧ CurNotLine q) _ _ ?_ (fun _ _ h => h.1)
    (fun _ _ h => h.1) k c p ⟨Step.step_refl p, hp⟩
  intro c q hq _
  refine sat_mono (hb c q hq.2) (fun ctl q1 h1 => ?_) (fun q1 h1 => hq.1.step_trans h1)
  exact ⟨fun c1 hc1 => ⟨hq.1.step_trans h1.1, h1.2 c1 hc1⟩, fun _ _ => hq.1.step_trans h1.1⟩

theorem RCWG_new_node (h : Heap) (i : Nat) (g : DocoptNodeType) (node : DocoptAst)
    (hn : h[i]? = some node) :
    ∃ x, (Replace_children_with_group h i g).1[h.length]? = some x ∧ x.Typ = g := by
  have hilt : i < h.length := (List.getElem?_eq_some_iff.mp hn).1
  have h1 : h.length ≠ i := by omega
  rw [getElem?_RCWG h i g node _ hn rfl]
  by_cases hm : h.length ∈ node.Children
  · simp only [h1, if_false, hm, if_true, List.getElem?_concat_length, Option.map_some']
    exact ⟨_, rfl, rfl⟩
  · simp only [h1, if_false, hm, List.getElem?_concat_length]
    exact ⟨_, rfl, rfl⟩

theorem Consume_group_alternative_spec (p : DocoptParser σ) (hp : CurNotLine p) :
    (Consume_group_alternative p).sat (fun _ q => Step p q ∧ CurNotLine q)
      (fun q => Step p q) := by
  obtain ⟨c, n, hc, hn, hne⟩ := hp
  by_cases hk : n.Typ = DocoptNodeType.Group_alternative
  · simp only [Consume_group_alternative, bind_apply, getP_apply, hc, readNode_ok p c n hn, hk,
      ne_eq, not_true_eq_false, if_false, pure_apply, sat_ok]
    exact ⟨Step.step_refl p, c, n, hc, hn, hne⟩
  · simp only [Consume_group_alternative, bind_apply, getP_apply, hc, readNode_ok p c n hn, hk,
      ne_eq, not_false_eq_true, if_true, deref_some, modifyP_apply, sat_ok]
    refine ⟨⟨GrowsN_RCWG p.heap c _ ?_ (by decide), rfl⟩, ?_⟩
    · intro n' hn'
      rw [hn] at hn'
      cases hn'
      exact hne
    · obtain ⟨x, hx, hxt⟩ := RCWG_new_node p.heap c DocoptNodeType.Group_alternative n hn
      refine ⟨p.heap.length, x, ?_, hx, ?_⟩
      · simp only [RCWG_snd]
      · rw [hxt]
        decide

end

section
variable {σ : Type}

theorem BodyOK_breakOnError_rec {m : M σ (Option Err)} (hm : GroupSpec m) :
    BodyOK (breakOnError m) := by
  intro p hp
  unfold breakOnError
  rw [sat_bind]
  refine sat_mono (hm p) (fun e q hq => ?_) (fun q hq => hq)
  by_cases he : e = none
  · simp only [he, ne_eq, not_true_eq_false, if_false, pure_apply, sat_ok]
    exact ⟨hq.1, fun _ _ => CurNotLine_of_Step hp hq.1 (hq.2 he)⟩
  · simp only [he, ne_eq, not_false_eq_true, if_true, pure_apply, sat_ok]
    exact ⟨hq.1, fun c hc => by cases hc⟩

theorem Returns_Consume_group_close (g : DocoptNodeType) (err : DocoptNodeType → Err) :
    Returns (fun ctl => ∀ c, ctl ≠ Ctl.next c) (Consume_group_close g err : M σ _) := by
  unfold Consume_group_close
  repeat' (first
    | exact Returns_pure (fun c hc => by cases hc)
    | apply Returns_ite
    | apply Returns_bind
    | intro _)

theorem BodyOK_alternative :
    BodyOK (do Consume_group_alternative; pure (Ctl.next ()) : M σ (Ctl Unit (Option Err))) := by
  intro p hp
  rw [sat_bind]
  refine sat_mono (Consume_group_alternative_spec p hp) (fun _ q hq => ?_) (fun q hq => hq)
  exact ⟨hq.1, fun _ _ => hq.2⟩

theorem BodyOK_Consume_group_punct (L : StateLexer σ)
    (recurse : DocoptNodeType → M σ (Option Err))
    (hrec : ∀ k, k ≠ DocoptNodeType.Usage_line → GroupSpec (recurse k)) (tok : Token) :
    BodyOK (Consume_group_punct L recurse tok) := by
  unfold Consume_group_punct
  repeat' (first
    | exact BodyOK_breakOnError_rec (hrec _ (by decide))
    | exact BodyOK_alternative
    | exact BodyOK_of_S_brk (S_Consume_group_close _ _) (Returns_Consume_group_close _ _)
    | exact BodyOK_of_C (C_Consume_group_assign L)
    | exact BodyOK_of_C (Keeps_breakOnError StepC.stepC_refl StepC_trans C_Consume_ellipsis)
    | exact BodyOK_of_C (C_addLeafNext _ (by decide))
    | apply BodyOK_ite)

theorem BodyOK_Consume_group_token (L : StateLexer σ)
    (recurse : DocoptNodeType → M σ (Option Err))
    (hrec : ∀ k, k ≠ DocoptNodeType.Usage_line → GroupSpec (recurse k)) (tok : Token) :
    BodyOK (Consume_group_token L recurse tok) := by
  unfold Consume_group_token
  repeat' (first
    | exact BodyOK_Consume_group_punct L recurse hrec tok
    | exact BodyOK_of_C (C_groupError _)
    | exact BodyOK_of_C (C_addLeafNext _ (by decide))
    | exact BodyOK_of_C (Keeps_pure StepC.stepC_refl _)
    | exact Keeps_getP StepC.stepC_refl
    | exact Keeps_deref StepC.stepC_refl _
    | apply BodyOK_ite
    | apply BodyOK_bind_C
    | intro _)

theorem BodyOK_Consume_group_body (L : StateLexer σ)
    (recurse : DocoptNodeType → M σ (Option Err))
    (hrec : ∀ k, k ≠ DocoptNodeType.Usage_line → GroupSpec (recurse k)) :
    BodyOK (Consume_group_body L recurse) := by
  unfold Consume_group_body
  repeat' (first
    | exact BodyOK_Consume_group_token L recurse hrec _
    | exact C_NextToken L
    | exact Keeps_getP StepC.stepC_refl
    | exact Keeps_deref StepC.stepC_refl _
    | apply BodyOK_bind_C
    | intro _)

theorem Consume_group_finish_spec (saved : Option Nat) (r : Option (Option Err))
    (p : DocoptParser σ) :
    (Consume_group_finish saved r p).sat
      (fun e q => Step p q ∧ (e = none → q.current_node = saved)) (fun q => Step p q) := by
  unfold Consume_group_finish
  simp only [sat_bind, getP_apply, sat_ok, sat_ite, setCurrentNode_apply, pure_apply,
    sat_readNode]
  refine ⟨fun _ => ⟨Step_of_eq rfl rfl, fun _ => trivial⟩,
    fun _ => ⟨fun _ _ _ _ => ?_, fun _ => Step.step_refl p⟩⟩
  exact ⟨Step.step_refl p, fun h => by cases h⟩

theorem Consume_group_spec (L : StateLexer σ) (fuel : Nat) :
    ∀ k, k ≠ DocoptNodeType.Usage_line → GroupSpec (Consume_group L fuel k) := by
  induction fuel with
  | zero =>
    intro k _ p
    exact Step.step_refl p
  | succ fuel ih =>
    intro k hk p
    simp only [Consume_group, sat_bind, getP_apply, sat_ok, sat_addNode, setCurrentNode_apply]
    refine ⟨fun i nd hi hnd => ?_, fun _ => Step.step_refl p⟩
    have hilt : i < p.heap.length := (List.getElem?_eq_some_iff.mp hnd).1
    have hs1 : Step p
        { p with heap := (AddNode p.heap i k none).1, current_node := some p.heap.length } :=
      ⟨GrowsN_AddNode _ _ _ _ hk, rfl⟩
    have hcur : CurNotLine
        ({ p with heap := (AddNode p.heap i k none).1, current_node := some p.heap.length } :
          DocoptParser σ) :=
      ⟨p.heap.length, _, rfl, getElem?_AddNode_new _ _ _ _ hilt, hk⟩
    refine sat_mono (forRun_BodyOK (fun _ => BodyOK_Consume_group_body L _ ih) fuel () _ hcur)
      (fun r q hq => ?_) (fun q hq => hs1.step_trans hq)
    exact sat_mono (Consume_group_finish_spec p.current_node r q)
      (fun e q1 h1 => ⟨(hs1.step_trans hq).step_trans h1.1, h1.2⟩) (fun q1 h1 => (hs1.step_trans hq).step_trans h1)

theorem S_Consume_group (L : StateLexer σ) (fuel : Nat) (k : DocoptNodeType)
    (hk : k ≠ DocoptNodeType.Usage_line) : Keeps Step (Consume_group L fuel k) :=
  fun p => sat_mono (Consume_group_spec L fuel k hk p) (fun _ _ h => h.1) (fun _ h => h)

end

/-! ## Theorems: `Consume_Usage_Expr` and `Consume_loop` -/

section
variable {σ : Type}

theorem S_usage_line_alternative (parent : Nat) :
    Keeps Step (usage_line_alternative parent : M σ Unit) := by
  intro p
  unfold usage_line_alternative
  rw [sat_bind, sat_readNode]
  refine ⟨fun i nd hi hnd => ?_, fun _ => Step.step_refl p⟩
  cases hi
  by_cases hl : nd.Children.length = 0
  · simp only [hl, if_true, panicM_apply]
    exact Step.step_refl p
  · simp only [hl, if_false]
    rw [sat_bind, sat_deref]
    refine ⟨fun c0 hc0 => ?_, fun _ => Step.step_refl p⟩
    simp only [modifyP_apply]
    refine ⟨GrowsN_altHeap p.heap _ parent c0 nd.Children.tail nd hnd ?_, rfl⟩
    cases hch : nd.Children with
    | nil => rw [hch] at hc0; cases hc0
    | cons a l =>
      rw [hch] at hc0
      cases hc0
      rfl

theorem S_Consume_Usage_Expr_alternative :
    Keeps Step (Consume_Usage_Expr_alternative : M σ _) := by
  unfold Consume_Usage_Expr_alternative
  repeat' (first
    | exact Keeps_pure Step.step_refl _
    | exact Keeps_getP Step.step_refl
    | exact Keeps_deref Step.step_refl _
    | exact Keeps_readNode Step.step_refl _
    | exact S_usage_line_alternative _
    | exact S_setCurrentNode _
    | exact S_addNode _ _ _ (by decide)
    | apply Keeps_ite
    | apply Keeps_bind Step_trans
    | intro _)

theorem S_Consume_Usage_Expr_leaf (r : Reason) (n : DocoptNodeType)
    (hn : n ≠ DocoptNodeType.Usage_line) :
    Keeps Step (Consume_Usage_Expr_leaf r n : M σ _) := by
  unfold Consume_Usage_Expr_leaf
  repeat' (first
    | exact Keeps_pure Step.step_refl _
    | exact S_ensure_node _ (by decide)
    | exact S_of_C (C_addLeaf _ hn)
    | apply Keeps_bind Step_trans
    | intro _)

theorem S_Consume_Usage_Expr_group (L : StateLexer σ) (fuel : Nat) (n : DocoptNodeType)
    (hn : n ≠ DocoptNodeType.Usage_line) :
    Keeps Step (Consume_Usage_Expr_group L fuel n) := by
  unfold Consume_Usage_Expr_group
  repeat' (first
    | exact Keeps_pure Step.step_refl _
    | exact Keeps_getP Step.step_refl
    | exact Keeps_readNode Step.step_refl _
    | exact S_ensure_node _ (by decide)
    | exact S_Consume_group L fuel n hn
    | exact S_of_C C_FatalError
    | apply Keeps_whenM Step.step_refl
    | apply Keeps_ite
    | apply Keeps_bind Step_trans
    | intro _)

theorem S_Consume_Usage_Expr_ellipsis : Keeps Step (Consume_Usage_Expr_ellipsis : M σ _) := by
  unfold Consume_Usage_Expr_ellipsis
  repeat' (first
    | exact Keeps_pure Step.step_refl _
    | exact S_ensure_node _ (by decide)
    | exact S_of_C C_Consume_ellipsis
    | apply Keeps_ite
    | apply Keeps_bind Step_trans
    | intro _)

theorem S_Consume_Usage_Expr_assign (L : StateLexer σ) :
    Keeps Step (Consume_Usage_Expr_assign L) := by
  unfold Consume_Usage_Expr_assign
  repeat' (first
    | exact Keeps_pure Step.step_refl _
    | exact Keeps_getP Step.step_refl
    | exact S_ensure_node _ (by decide)
    | exact S_of_C (C_Consume_assign _)
    | exact S_of_C (C_NextToken L)
    | apply Keeps_ite
    | apply Keeps_bind Step_trans
    | intro _)

theorem S_Consume_Usage_Expr_token (L : StateLexer σ) (fuel : Nat) (r : Reason) (tok : Token) :
    Keeps Step (Consume_Usage_Expr_token L fuel r tok) := by
  unfold Consume_Usage_Expr_token
  repeat' (first
    | exact Keeps_pure Step.step_refl _
    | exact S_Consume_Usage_Expr_leaf _ _ (by decide)
    | exact S_Consume_Usage_Expr_group L fuel _ (by decide)
    | exact S_Consume_Usage_Expr_ellipsis
    | exact S_Consume_Usage_Expr_assign L
    | exact S_Consume_Usage_Expr_alternative
    | exact S_of_C (C_AddError _)
    | apply Keeps_ite)

theorem S_Consume_Usage_Expr (L : StateLexer σ) (fuel : Nat) :
    Keeps Step (Consume_Usage_Expr L fuel) := by
  unfold Consume_Usage_Expr
  repeat' (first
    | exact Keeps_pure Step.step_refl _
    | exact Keeps_getP Step.step_refl
    | exact Keeps_deref Step.step_refl _
    | exact S_of_C (C_has_reach_EOF _)
    | exact S_of_C (C_has_reach_two_NEWLINE L _ _)
    | exact S_of_C (C_has_reach_PROG_NAME _)
    | exact S_Consume_Usage_Expr_token L fuel _ _
    | apply Keeps_ite
    | apply Keeps_bind Step_trans
    | intro _)

/-! The reason returned by `Consume_Usage_Expr`. -/

theorem Returns_Consume_Usage_Expr_token (L : StateLexer σ) (fuel : Nat) (r : Reason)
    (tok : Token) (hr : r ≠ Reason.PROG_NAME_sequence) :
    Returns (fun x : Reason × Option Err => x.1 ≠ Reason.PROG_NAME_sequence)
      (Consume_Usage_Expr_token L fuel r tok) := by
  unfold Consume_Usage_Expr_token Consume_Usage_Expr_leaf Consume_Usage_Expr_group
    Consume_Usage_Expr_ellipsis Consume_Usage_Expr_assign Consume_Usage_Expr_alternative
  repeat' (first
    | exact Returns_pure hr
    | exact Returns_pure (S := fun x : Reason × Option Err => x.1 ≠ Reason.PROG_NAME_sequence)
        (show Reason.Error ≠ Reason.PROG_NAME_sequence by decide)
    | exact Returns_pure (S := fun x : Reason × Option Err => x.1 ≠ Reason.PROG_NAME_sequence)
        (show Reason.Continue ≠ Reason.PROG_NAME_sequence by decide)
    | apply Returns_ite
    | apply Returns_bind
    | intro _)

theorem has_reach_EOF_spec (r : Reason) (p : DocoptParser σ) :
    (has_reach_EOF r p).sat
      (fun x q => q = p ∧ (x.1 = true → x.2 = Reason.EOF_reached) ∧ (x.1 = false → x.2 = r))
      (fun _ => True) := by
  unfold has_reach_EOF
  rw [sat_bind]
  simp only [getP_apply, sat_ok]
  rw [sat_bind, sat_deref]
  refine ⟨fun t _ => ?_, fun _ => trivial⟩
  by_cases h : t.Typ = TokKind.EOF <;> simp [h]

theorem has_reach_two_NEWLINE_spec (L : StateLexer σ) (r : Reason) (b : Bool)
    (p : DocoptParser σ) :
    (has_reach_two_NEWLINE L r b p).sat
      (fun x q => (x.1 = true → x.2 = Reason.TWO_NEWLINE) ∧ (x.1 = false → x.2 = r ∧ q = p))
      (fun _ => True) := by
  unfold has_reach_two_NEWLINE
  rw [sat_bind]
  simp only [getP_apply, sat_ok]
  rw [sat_bind, sat_deref]
  refine ⟨fun t _ => ?_, fun _ => trivial⟩
  by_cases h : t.Typ = TokKind.NEWLINE
  · simp only [h, if_true]
    rw [sat_bind, sat_deref]
    refine ⟨fun nt _ => ?_, fun _ => trivial⟩
    by_cases h2 : nt.Typ = TokKind.NEWLINE
    · simp only [h2, if_true]
      rw [sat_bind]
      refine sat_mono (Keeps_whenM (R := fun _ _ => True) (fun _ => trivial) _
        (Keeps_NextToken (fun _ _ _ => trivial) L) p) (fun _ q _ => ?_) (fun _ _ => trivial)
      simp
    · simp [h2]
  · simp [h]

theorem has_reach_PROG_NAME_spec (r : Reason) (p : DocoptParser σ) :
    (has_reach_PROG_NAME r p).sat
      (fun x q => q = p ∧
        (x.1 = true → x.2 = Reason.PROG_NAME_sequence ∧
          ∃ t, p.current_token = some t ∧ t.Value = p.Prog_name) ∧
        (x.1 = false → x.2 = r))
      (fun _ => True) := by
  unfold has_reach_PROG_NAME
  rw [sat_bind]
  simp only [getP_apply, sat_ok]
  by_cases h0 : p.current_token ≠ none
  · rw [if_pos h0, sat_bind, sat_deref]
    refine ⟨fun t ht => ?_, fun _ => trivial⟩
    by_cases h1 : t.Typ = TokKind.PROG_NAME ∧ t.Value = p.Prog_name
    · rw [if_pos h1]
      by_cases h2 : p.tokens.length > 3
      · rw [if_pos h2, sat_bind, sat_deref]
        refine ⟨fun ta _ => ?_, fun _ => trivial⟩
        by_cases h3 : ta.Typ = TokKind.NEWLINE
        · rw [if_pos h3, sat_bind, sat_deref]
          refine ⟨fun tb _ => ?_, fun _ => trivial⟩
          by_cases h4 : tb.Typ = TokKind.LONG_BLANK
          · rw [if_pos h4]
            rw [pure_apply]
            exact ⟨rfl, fun _ => ⟨rfl, t, ht, h1.2⟩, fun h => by cases h⟩
          · rw [if_neg h4]
            simp
        · rw [if_neg h3]
          simp
      · rw [if_neg h2]
        simp
    · rw [if_neg h1]
      simp
  · rw [if_neg h0]
    simp

theorem SeqOK_Consume_Usage_Expr (L : StateLexer σ) (fuel : Nat) (p : DocoptParser σ) :
    (Consume_Usage_Expr L fuel p).sat (fun r q => SeqOK r q) (fun _ => True) := by
  unfold Consume_Usage_Expr
  rw [sat_bind]
  refine sat_mono (has_reach_EOF_spec Reason.zero p) (fun r1 q1 h1 => ?_) (fun _ _ => trivial)
  obtain ⟨hq1, h1t, h1f⟩ := h1
  subst hq1
  by_cases hb1 : r1.1 = true
  · rw [if_pos hb1]
    simp only [pure_apply, sat_ok]
    intro h
    rw [h1t hb1] at h
    exact absurd h (by decide)
  · rw [if_neg hb1]
    have hr1 : r1.2 = Reason.zero := h1f (by simpa using hb1)
    rw [sat_bind]
    refine sat_mono (has_reach_two_NEWLINE_spec L r1.2 true q1) (fun r2 q2 h2 => ?_)
      (fun _ _ => trivial)
    by_cases hb2 : r2.1 = true
    · rw [if_pos hb2]
      simp only [pure_apply, sat_ok]
      intro h
      rw [h2.1 hb2] at h
      exact absurd h (by decide)
    · rw [if_neg hb2]
      have h2' := h2.2 (by simpa using hb2)
      obtain ⟨hr2, hq2⟩ := h2'
      subst hq2
      rw [sat_bind]
      refine sat_mono (has_reach_PROG_NAME_spec r2.2 q2) (fun r3 q3 h3 => ?_)
        (fun _ _ => trivial)
      obtain ⟨hq3, h3t, h3f⟩ := h3
      subst hq3
      by_cases hb3 : r3.1 = true
      · rw [if_pos hb3]
        simp only [pure_apply, sat_ok]
        intro _
        exact (h3t hb3).2
      · rw [if_neg hb3, sat_bind]
        simp only [getP_apply, sat_ok]
        rw [sat_bind, sat_deref]
        have hr3 : r3.2 = Reason.zero := by
          rw [h3f (by simpa using hb3), hr2, hr1]
        refine ⟨fun tok _ => ?_, fun _ => trivial⟩
        refine sat_mono (Returns_Consume_Usage_Expr_token L fuel r3.2 tok
          (by rw [hr3]; decide) q3) (fun r q hr h => absurd h hr) (fun _ _ => trivial)

end

section
variable {σ : Type}

/-! ### `Consume_loop` over `Consume_Usage_Expr` -/

theorem Consume_loop_body_spec (L : StateLexer σ) (fuel : Nat) (p : DocoptParser σ) :
    (Consume_loop_body L (consume_Expr L fuel) p).sat
      (fun ctl q => Step p q ∧ ∀ r, ctl = Ctl.brk r → SeqOK r q) (fun q => Step p q) := by
  unfold Consume_loop_body
  rw [sat_bind]
  refine sat_mono (S_of_C (C_NextToken L) p) (fun _ q1 h1 => ?_) (fun _ h => h)
  rw [sat_bind]
  refine sat_mono (sat_and (S_Consume_Usage_Expr L fuel q1) (SeqOK_Consume_Usage_Expr L fuel q1))
    (fun r q2 h2 => ?_) (fun q2 h2 => h1.step_trans h2.1)
  by_cases hc : r.2 ≠ none ∨ r.1.Leaving = true
  · rw [if_pos hc, pure_apply]
    refine ⟨h1.step_trans h2.1, fun r1 hr1 => ?_⟩
    cases hr1
    exact h2.2
  · rw [if_neg hc, pure_apply]
    exact ⟨h1.step_trans h2.1, fun r1 hr1 => by cases hr1⟩

theorem Consume_loop_finish_spec (c : Consumer_Definition σ) (saved : Option Nat)
    (r : Option (Reason × Option Err)) (p : DocoptParser σ)
    (h : ∀ x, r = some x → SeqOK x p) :
    (Consume_loop_finish c saved r p).sat (fun x q => Step p q ∧ SeqOK x q)
      (fun q => Step p q) := by
  unfold Consume_loop_finish
  rw [sat_bind, getP_apply]
  simp only [sat_ok]
  by_cases hrun : p.run = true
  · rw [if_pos hrun, sat_bind]
    have hx : SeqOK (r.getD (Reason.zero, none)) p := by
      cases r with
      | none => intro h0; exact absurd h0 (by decide)
      | some x => exact h x rfl
    by_cases hs : c.save_current_node = true
    · rw [whenM_true _ _ hs, setCurrentNode_apply]
      simp only [sat_ok, pure_apply]
      exact ⟨Step_of_eq rfl rfl, hx⟩
    · rw [whenM_false _ _ hs, pure_apply]
      simp only [sat_ok, pure_apply]
      exact ⟨Step.step_refl p, hx⟩
  · rw [if_neg hrun, sat_bind, sat_readNode]
    refine ⟨fun i nd _ _ => ?_, fun _ => Step.step_refl p⟩
    rw [pure_apply]
    exact ⟨Step.step_refl p, fun h0 =>
      absurd (show Reason.Error = Reason.PROG_NAME_sequence from h0) (by decide)⟩

theorem Consume_loop_spec (L : StateLexer σ) (fuel : Nat) (p : DocoptParser σ) :
    (Consume_loop L (consume_Expr L fuel) fuel p).sat
      (fun r q => Step p q ∧ SeqOK r q) (fun q => Step p q) := by
  unfold Consume_loop
  have hcn : ¬ ((consume_Expr L fuel).create_node = true) := by simp [consume_Expr]
  have hrj : (consume_Expr L fuel).reject_first_token = true := rfl
  rw [whenM_false _ _ hcn, whenM_true _ _ hrj, sat_bind, pure_apply]
  simp only [sat_ok]
  rw [sat_bind, getP_apply]
  simp only [sat_ok]
  rw [sat_bind]
  refine sat_mono (S_of_C (C_reject_current_token L) p) (fun _ q1 h1 => ?_) (fun _ h => h)
  rw [sat_bind]
  have hloop := sat_forRun (fun (_ : Unit) => Consume_loop_body L (consume_Expr L fuel))
    (fun _ q => Step q1 q)
    (fun (r : Option (Reason × Option Err)) q => Step q1 q ∧ ∀ x, r = some x → SeqOK x q)
    (fun q => Step q1 q)
    (fun _ q hq _ => sat_mono (Consume_loop_body_spec L fuel q)
      (fun ctl q2 h2 => ⟨fun _ _ => hq.step_trans h2.1,
        fun b hb => ⟨hq.step_trans h2.1, fun x hx => by cases hx; exact h2.2 b hb⟩⟩)
      (fun q2 h2 => hq.step_trans h2))
    (fun _ q hq => ⟨hq, fun x hx => by cases hx⟩)
    (fun _ q hq => hq) fuel () q1 (Step.step_refl q1)
  refine sat_mono hloop (fun r q2 h2 => ?_) (fun q2 h2 => h1.step_trans h2)
  refine sat_mono (Consume_loop_finish_spec _ _ r q2 h2.2)
    (fun x q3 h3 => ⟨(h1.step_trans h2.1).step_trans h3.1, h3.2⟩) (fun q3 h3 => (h1.step_trans h2.1).step_trans h3)

/-! ### `Consume_Usage_line` -/

theorem Consume_Usage_line_new_spec (us : Option Nat) (p : DocoptParser σ)
    (hp : ∃ t, p.current_token = some t ∧ t.Value = p.Prog_name) :
    (Consume_Usage_line_new us p).sat (fun _ q => StepL p q) (fun q => StepL p q) := by
  obtain ⟨t, ht, htv⟩ := hp
  unfold Consume_Usage_line_new
  rw [sat_bind, sat_addNode]
  refine ⟨fun i nd hi hnd => ?_, fun _ => StepL.stepL_refl p⟩
  have hlt : i < p.heap.length := (List.getElem?_eq_some_iff.mp hnd).1
  rw [sat_bind, getP_apply]
  simp only [sat_ok]
  rw [sat_bind, sat_addNode]
  have hg := Grows_newLine p.heap i t hlt
  rw [htv] at hg
  refine ⟨fun j nd1 hj _ => ?_, fun hbad => ?_⟩
  · cases hj
    have hmid : StepL p { p with heap := (AddNode (AddNode p.heap i DocoptNodeType.Usage_line
        none).1 p.heap.length DocoptNodeType.Prog_name (some t)).1 } := ⟨hg, rfl⟩
    simp only [ht]
    refine sat_mono (Keeps_bind StepL_trans (L_of_S (S_addNode (some p.heap.length)
      DocoptNodeType.Usage_Expr none (by decide)))
      (fun e => Keeps_bind StepL_trans (L_of_S (S_setCurrentNode (some e)))
        (fun _ => Keeps_pure StepL.stepL_refl (Ctl.next ()))) _)
      (fun _ q hq => hmid.stepL_trans hq) (fun q hq => hmid.stepL_trans hq)
  · exact absurd (getElem?_AddNode_new p.heap i DocoptNodeType.Usage_line none hlt)
      (hbad _ _ rfl)

end

/-! ## Theorems: the usage lines -/

section
variable {σ : Type}

theorem L_Consume_Usage_line_expr (L : StateLexer σ) (fuel : Nat) (us : Option Nat) :
    Keeps StepL (Consume_Usage_line_expr L fuel us) := by
  intro p
  unfold Consume_Usage_line_expr
  rw [sat_bind]
  refine sat_mono (Consume_loop_spec L fuel p) (fun r q h => ?_) (fun q h => h.toStepL)
  by_cases h1 : r.2 ≠ none
  · rw [if_pos h1, pure_apply]
    exact h.1.toStepL
  · rw [if_neg h1]
    by_cases h2 : r.1 = Reason.TWO_NEWLINE ∨ r.1 = Reason.EOF_reached
    · rw [if_pos h2, pure_apply]
      exact h.1.toStepL
    · rw [if_neg h2]
      by_cases h3 : r.1 = Reason.PROG_NAME_sequence
      · rw [if_pos h3]
        exact sat_mono (Consume_Usage_line_new_spec us q (h.2 h3))
          (fun _ q1 hq => h.1.toStepL.stepL_trans hq) (fun q1 hq => h.1.toStepL.stepL_trans hq)
      · rw [if_neg h3]
        exact sat_mono (Keeps_bind StepL_trans (L_of_S (S_of_C C_FatalError))
          (fun _ => Keeps_pure StepL.stepL_refl (Ctl.next ())) q)
          (fun _ q1 hq => h.1.toStepL.stepL_trans hq) (fun q1 hq => h.1.toStepL.stepL_trans hq)

theorem L_Consume_Usage_line_token (L : StateLexer σ) (fuel : Nat) (us : Option Nat)
    (tok : Token) : Keeps StepL (Consume_Usage_line_token L fuel us tok) := by
  unfold Consume_Usage_line_token
  repeat' (first
    | exact Keeps_pure StepL.stepL_refl _
    | exact Keeps_getP StepL.stepL_refl
    | exact L_Consume_Usage_line_expr L fuel us
    | apply Keeps_ite
    | apply Keeps_bind StepL_trans
    | intro _)

theorem L_Consume_Usage_line_body (L : StateLexer σ) (fuel : Nat) (us : Option Nat) :
    Keeps StepL (Consume_Usage_line_body L fuel us) := by
  unfold Consume_Usage_line_body
  repeat' (first
    | exact Keeps_pure StepL.stepL_refl _
    | exact Keeps_getP StepL.stepL_refl
    | exact Keeps_deref StepL.stepL_refl _
    | exact L_of_S (S_of_C (C_NextToken L))
    | exact L_of_S (S_of_C (C_has_reach_EOF _))
    | exact L_Consume_Usage_line_token L fuel us _
    | apply Keeps_ite
    | apply Keeps_bind StepL_trans
    | intro _)

theorem L_Consume_Usage_line (L : StateLexer σ) (fuel : Nat) :
    Keeps StepL (Consume_Usage_line L fuel) := by
  unfold Consume_Usage_line
  repeat' (first
    | exact Keeps_pure StepL.stepL_refl _
    | exact Keeps_getP StepL.stepL_refl
    | exact Keeps_readNode StepL.stepL_refl _
    | exact L_of_S (S_of_C (C_Change_lexer_state L _))
    | exact L_of_S (S_of_C (C_loopResult _ _))
    | exact Keeps_forRun StepL.stepL_refl StepL_trans (fun _ => L_Consume_Usage_line_body L fuel _) _ _
    | apply Keeps_ite
    | apply Keeps_bind StepL_trans
    | intro _)

/-! ### `Consume_First_Program_Usage` -/

theorem UsageLinesOK_of_Grows {p q : DocoptParser σ} (hp : NoLine p)
    (g : Grows q.Prog_name p.heap q.heap) : UsageLinesOK q := by
  intro i n hn hul
  cases hi : p.heap[i]? with
  | none => exact g.2 i n hi hn hul
  | some n0 =>
    obtain ⟨n1, h1, hty, _, _⟩ := g.1 i n0 hi
    rw [hn] at h1
    cases h1
    rw [hty] at hul
    exact absurd hul (hp i n0 hi)

theorem NoLine_of_SameTree {p q : DocoptParser σ} (hp : NoLine p) (s : SameTree p q) :
    NoLine q :=
  NoLine_of_Step hp (SameTree.stepC s).1

theorem Consume_First_Program_Usage_found_spec (L : StateLexer σ) (tok : Token)
    (p : DocoptParser σ) (hp : NoLine p) (ht : p.current_token = some tok) :
    (Consume_First_Program_Usage_found L tok p).sat
      (fun ctl q => ctl = Ctl.brk none ∧ UsageLinesOK q ∧ q.Prog_name = tok.Value)
      (fun q => UsageLinesOK q ∧ q.Prog_name = tok.Value) := by
  unfold Consume_First_Program_Usage_found
  rw [sat_bind, modifyP_apply]
  simp only [sat_ok]
  rw [sat_bind, getP_apply]
  simp only [sat_ok]
  rw [sat_bind, sat_addNode]
  refine ⟨fun i nd _ hnd => ?_, fun _ => ⟨UsageLinesOK_of_NoLine hp, rfl⟩⟩
  have hlt : i < p.heap.length := (List.getElem?_eq_some_iff.mp hnd).1
  rw [sat_bind, sat_addNode]
  refine ⟨fun j nd1 hj _ => ?_, fun hbad => ?_⟩
  · cases hj
    simp only [ht]
    rw [sat_bind, setCurrentNode_apply]
    exact ⟨rfl, UsageLinesOK_of_Grows (p := p) hp (Grows_newLine p.heap i tok hlt), rfl⟩
  · exact absurd (getElem?_AddNode_new p.heap i DocoptNodeType.Usage_line none hlt)
      (hbad _ _ rfl)

end

section
variable {σ : Type}

theorem SameTree_NextToken (L : StateLexer σ) (p : DocoptParser σ) :
    (NextToken L p).sat (fun _ q => SameTree p q) (fun q => SameTree p q) :=
  Keeps_NextToken (R := fun p q => SameTree p q) (fun _ _ h => h) L p

theorem Consume_First_Program_Usage_body_spec (L : StateLexer σ) (p : DocoptParser σ)
    (hp : NoLine p) :
    (Consume_First_Program_Usage_body L p).sat
      (fun ctl q => (∀ c, ctl = Ctl.next c → NoLine q) ∧ (∀ b, ctl = Ctl.brk b → UsageLinesOK q))
      UsageLinesOK := by
  unfold Consume_First_Program_Usage_body
  rw [sat_bind]
  refine sat_mono (SameTree_NextToken L p) (fun _ q1 h1 => ?_)
    (fun q h => UsageLinesOK_of_NoLine (NoLine_of_SameTree hp h))
  have hq1 : NoLine q1 := NoLine_of_SameTree hp h1
  have hnext : ∀ q : DocoptParser σ, NoLine q →
      (∀ c : Unit, (Ctl.next () : Ctl Unit (Option Err)) = Ctl.next c → NoLine q) ∧
      (∀ b, (Ctl.next () : Ctl Unit (Option Err)) = Ctl.brk b → UsageLinesOK q) :=
    fun q hq => ⟨fun _ _ => hq, fun b hb => by cases hb⟩
  have hbrk : ∀ (e : Option Err) (q : DocoptParser σ), NoLine q →
      (∀ c : Unit, (Ctl.brk e : Ctl Unit (Option Err)) = Ctl.next c → NoLine q) ∧
      (∀ b, (Ctl.brk e : Ctl Unit (Option Err)) = Ctl.brk b → UsageLinesOK q) :=
    fun e q hq => ⟨fun c hc => (by cases hc), fun _ _ => UsageLinesOK_of_NoLine hq⟩
  rw [sat_bind, getP_apply]
  simp only [sat_ok]
  rw [sat_bind, sat_deref]
  refine ⟨fun tok htok => ?_, fun _ => UsageLinesOK_of_NoLine hq1⟩
  by_cases c1 : tok.Typ = TokKind.PROG_NAME
  · rw [if_pos c1]
    exact sat_mono (Consume_First_Program_Usage_found_spec L tok q1 hq1 htok)
      (fun ctl q h => ⟨fun c hc => (by rw [h.1] at hc; cases hc), fun _ _ => h.2.1⟩)
      (fun q h => h.1)
  · rw [if_neg c1]
    by_cases c2 : tok.Typ = TokKind.BLANK
    · rw [if_pos c2, pure_apply]
      exact hnext q1 hq1
    · rw [if_neg c2]
      by_cases c3 : tok.Typ = TokKind.NEWLINE
      · rw [if_pos c3, sat_bind, sat_deref]
        refine ⟨fun nt _ => ?_, fun _ => UsageLinesOK_of_NoLine hq1⟩
        by_cases c4 : nt.Typ = TokKind.NEWLINE
        · rw [if_pos c4]
          by_cases c5 : q1.Prog_name = ""
          · rw [if_pos c5, pure_apply]
            exact hbrk _ q1 hq1
          · rw [if_neg c5, sat_bind]
            refine sat_mono (SameTree_NextToken L q1) (fun _ q2 h2 => ?_)
              (fun q h => UsageLinesOK_of_NoLine (NoLine_of_SameTree hq1 h))
            rw [pure_apply]
            exact hbrk _ q2 (NoLine_of_SameTree hq1 h2)
        · rw [if_neg c4, pure_apply]
          exact hnext q1 hq1
      · rw [if_neg c3, pure_apply]
        exact hbrk _ q1 hq1

end

/-! ## Theorems: the sections around the usage -/

section
variable {σ : Type}

/-! ### The sections around the usage -/

theorem S_CreateNode (k : DocoptNodeType) (t : Option Token)
    (hk : k ≠ DocoptNodeType.Usage_line) : Keeps Step (CreateNode k t : M σ Unit) := by
  unfold CreateNode CreateNode_alloc
  with_reducible repeat' (first
    | exact Keeps_pure Step.step_refl _
    | exact Keeps_getP Step.step_refl
    | exact S_setCurrentNode _
    | exact S_addNode _ _ _ hk
    | apply Keeps_whenM Step.step_refl
    | apply Keeps_ite
    | apply Keeps_bind Step_trans
    | intro _
    | with_unfolding_all exact Keeps_modifyP (fun _ => Step_of_eq rfl rfl)
    | with_unfolding_all exact Keeps_modifyP (fun q => ⟨GrowsN_append q.heap _ hk, rfl⟩))

theorem S_Consume_Prologue_body (L : StateLexer σ) : Keeps Step (Consume_Prologue_body L) := by
  unfold Consume_Prologue_body
  with_reducible repeat' (first
    | exact Keeps_pure Step.step_refl _
    | exact Keeps_getP Step.step_refl
    | exact Keeps_deref Step.step_refl _
    | exact S_setCurrentNode _
    | exact S_addNode _ _ _ (by decide)
    | exact S_of_C (C_NextToken L)
    | exact S_of_C (C_addLeaf _ (by decide))
    | apply Keeps_ite
    | apply Keeps_bind Step_trans
    | intro _)

theorem S_Consume_Prologue (L : StateLexer σ) (fuel : Nat) :
    Keeps Step (Consume_Prologue L fuel) := by
  unfold Consume_Prologue
  with_reducible repeat' (first
    | exact S_CreateNode _ _ (by decide)
    | exact S_of_C (C_loopResult _ _)
    | exact Keeps_forRun Step.step_refl Step_trans (fun _ => S_Consume_Prologue_body L) _ _
    | apply Keeps_bind Step_trans
    | intro _)

theorem S_Consume_Free_section_heading (recurse : M σ (Option Err)) (hr : Keeps Step recurse)
    (tok : Token) : Keeps Step (Consume_Free_section_heading recurse tok) := by
  unfold Consume_Free_section_heading
  with_reducible repeat' (first
    | exact Keeps_pure Step.step_refl _
    | exact Keeps_getP Step.step_refl
    | exact Keeps_readNode Step.step_refl _
    | exact hr
    | exact S_of_C (C_groupError _)
    | exact S_of_C (C_addLeafNext _ (by decide))
    | apply Keeps_ite
    | apply Keeps_bind Step_trans
    | intro _)

theorem S_Consume_Free_section_body (L : StateLexer σ) (recurse : M σ (Option Err))
    (hr : Keeps Step recurse) : Keeps Step (Consume_Free_section_body L recurse) := by
  unfold Consume_Free_section_body
  with_reducible repeat' (first
    | exact Keeps_pure Step.step_refl _
    | exact Keeps_getP Step.step_refl
    | exact Keeps_deref Step.step_refl _
    | exact S_Consume_Free_section_heading recurse hr _
    | exact S_of_C (C_NextToken L)
    | exact S_of_C (C_addLeafNext _ (by decide))
    | apply Keeps_ite
    | apply Keeps_bind Step_trans
    | intro _)

theorem S_Consume_Free_section (L : StateLexer σ) (fuel : Nat) :
    Keeps Step (Consume_Free_section L fuel) := by
  induction fuel with
  | zero => exact Keeps_timeoutM Step.step_refl
  | succ fuel ih =>
    unfold Consume_Free_section
    with_reducible repeat' (first
      | exact Keeps_pure Step.step_refl _
      | exact Keeps_getP Step.step_refl
      | exact Keeps_deref Step.step_refl _
      | exact S_setCurrentNode _
      | exact S_addNode _ _ _ (by decide)
      | exact S_of_C (C_Change_lexer_state L _)
      | exact S_of_C (C_addLeaf _ (by decide))
      | exact S_of_C (C_loopResult _ _)
      | exact Keeps_forRun Step.step_refl Step_trans
          (fun _ => S_Consume_Free_section_body L _ ih) _ _
      | apply Keeps_whenM Step.step_refl
      | apply Keeps_ite
      | apply Keeps_bind Step_trans
      | intro _)

theorem S_collect_description (d c : Nat) : Keeps Step (collect_description d c : M σ _) := by
  unfold collect_description
  with_reducible repeat' (first
    | exact Keeps_pure Step.step_refl _
    | exact Keeps_getP Step.step_refl
    | exact S_addNode _ _ _ (by decide)
    | apply Keeps_bind Step_trans
    | intro _)

theorem S_Consume_option_description_body (L : StateLexer σ) (d c : Nat) :
    Keeps Step (Consume_option_description_body L d c) := by
  unfold Consume_option_description_body Consume_option_default
  with_reducible repeat' (first
    | exact Keeps_pure Step.step_refl _
    | exact Keeps_getP Step.step_refl
    | exact Keeps_deref Step.step_refl _
    | exact S_addNode _ _ _ (by decide)
    | exact S_collect_description _ _
    | exact S_of_C (C_NextToken L)
    | exact S_of_C (C_reject_current_token L)
    | apply Keeps_ite
    | apply Keeps_bind Step_trans
    | intro _)

theorem S_Consume_option_description (L : StateLexer σ) (fuel : Nat) :
    Keeps Step (Consume_option_description L fuel) := by
  unfold Consume_option_description
  with_reducible repeat' (first
    | exact Keeps_getP Step.step_refl
    | exact S_addNode _ _ _ (by decide)
    | exact S_of_C (C_loopResult _ _)
    | exact Keeps_forRun Step.step_refl Step_trans
        (fun c => S_Consume_option_description_body L _ c) _ _
    | apply Keeps_bind Step_trans
    | intro _)

theorem S_Consume_option_line_body (L : StateLexer σ) (fuel : Nat) :
    Keeps Step (Consume_option_line_body L fuel) := by
  unfold Consume_option_line_body Consume_option_line_end Consume_option_line_assign
  with_reducible repeat' (first
    | exact Keeps_pure Step.step_refl _
    | exact Keeps_getP Step.step_refl
    | exact Keeps_deref Step.step_refl _
    | exact Keeps_readNode Step.step_refl _
    | exact S_Consume_option_description L fuel
    | exact S_of_C (C_NextToken L)
    | exact S_of_C (C_Consume_assign _)
    | exact S_of_C (C_groupError _)
    | exact S_of_C (C_addLeafNext _ (by decide))
    | exact Keeps_breakOnError Step.step_refl Step_trans (S_of_C (C_Consume_assign _))
    | apply Keeps_ite
    | apply Keeps_bind Step_trans
    | intro _)

theorem S_Consume_option_line (L : StateLexer σ) (fuel : Nat) :
    Keeps Step (Consume_option_line L fuel) := by
  unfold Consume_option_line Consume_option_line_finish
  with_reducible repeat' (first
    | exact Keeps_pure Step.step_refl _
    | exact Keeps_getP Step.step_refl
    | exact Keeps_readNode Step.step_refl _
    | exact S_setCurrentNode _
    | exact S_addNode _ _ _ (by decide)
    | exact Keeps_forRun Step.step_refl Step_trans (fun _ => S_Consume_option_line_body L fuel) _ _
    | apply Keeps_ite
    | apply Keeps_bind Step_trans
    | intro _)

theorem S_Consume_Options_token (L : StateLexer σ) (fuel : Nat) (tok : Token) :
    Keeps Step (Consume_Options_token L fuel tok) := by
  unfold Consume_Options_token
  with_reducible repeat' (first
    | exact Keeps_pure Step.step_refl _
    | exact Keeps_getP Step.step_refl
    | exact Keeps_deref Step.step_refl _
    | exact S_of_C (C_addLeafNext _ (by decide))
    | exact Keeps_breakOnError Step.step_refl Step_trans (S_Consume_option_line L fuel)
    | apply Keeps_ite
    | apply Keeps_bind Step_trans
    | intro _)

theorem S_Consume_Options_body (L : StateLexer σ) (fuel : Nat) :
    Keeps Step (Consume_Options_body L fuel) := by
  unfold Consume_Options_body
  with_reducible repeat' (first
    | exact Keeps_pure Step.step_refl _
    | exact Keeps_getP Step.step_refl
    | exact Keeps_deref Step.step_refl _
    | exact S_of_C (C_NextToken L)
    | exact S_Consume_Options_token L fuel _
    | apply Keeps_ite
    | apply Keeps_bind Step_trans
    | intro _)

theorem S_Consume_Options (L : StateLexer σ) (fuel : Nat) :
    Keeps Step (Consume_Options L fuel) := by
  unfold Consume_Options
  with_reducible repeat' (first
    | exact Keeps_pure Step.step_refl _
    | exact Keeps_getP Step.step_refl
    | exact Keeps_deref Step.step_refl _
    | exact S_setCurrentNode _
    | exact S_addNode _ _ _ (by decide)
    | exact S_of_C (C_Change_lexer_state L _)
    | exact S_of_C (C_loopResult _ _)
    | exact Keeps_forRun Step.step_refl Step_trans (fun _ => S_Consume_Options_body L fuel) _ _
    | apply Keeps_ite
    | apply Keeps_bind Step_trans
    | intro _
    | with_unfolding_all exact Keeps_modifyP (fun _ => Step_of_eq rfl rfl))

theorem Keeps_parse_step {R : DocoptParser σ → DocoptParser σ → Prop} (hr : ∀ p, R p p)
    (ht : ∀ p q r, R p q → R q r → R p r)
    (hm : ∀ q : DocoptParser σ, R q { q with Error_count := q.Error_count + 1 })
    {step : M σ (Option Err)} (hs : Keeps R step) : Keeps R (parse_step step) := by
  unfold parse_step
  exact Keeps_bind ht hs (fun _ => Keeps_whenM hr _ (Keeps_modifyP hm))

end

/-! ## Theorems: `Parse` -/

section
variable {σ : Type}

theorem Consume_First_Program_Usage_spec (L : StateLexer σ) (fuel : Nat) (p : DocoptParser σ)
    (hp : NoLine p) :
    (Consume_First_Program_Usage L fuel p).sat (fun _ q => UsageLinesOK q) UsageLinesOK := by
  unfold Consume_First_Program_Usage
  rw [sat_bind]
  refine sat_mono (C_Change_lexer_state L _ p) (fun _ q1 h1 => ?_)
    (fun q h => UsageLinesOK_of_NoLine (NoLine_of_Step hp h.1))
  rw [sat_bind]
  have hloop := sat_forRun (fun (_ : Unit) => Consume_First_Program_Usage_body L)
    (fun _ q => NoLine q) (fun (_ : Option (Option Err)) q => UsageLinesOK q) UsageLinesOK
    (fun _ q hq _ => sat_mono (Consume_First_Program_Usage_body_spec L q hq)
      (fun ctl q2 h2 => ⟨fun c hc => h2.1 c hc, fun b hb => h2.2 b hb⟩) (fun _ h => h))
    (fun _ q hq => UsageLinesOK_of_NoLine hq)
    (fun _ q hq => UsageLinesOK_of_NoLine hq) fuel () q1 (NoLine_of_Step hp h1.1)
  refine sat_mono hloop (fun r q2 h2 => ?_) (fun _ h => h)
  exact sat_mono (C_loopResult r _ q2)
    (fun _ q3 h3 => UsageLinesOK_of_StepL h2 h3.1.toStepL)
    (fun q3 h3 => UsageLinesOK_of_StepL h2 h3.1.toStepL)

theorem Consume_Usage_spec (L : StateLexer σ) (fuel : Nat) (p : DocoptParser σ)
    (hp : NoLine p) :
    (Consume_Usage L fuel p).sat (fun _ q => UsageLinesOK q) UsageLinesOK := by
  unfold Consume_Usage
  rw [sat_bind]
  refine sat_mono (Consume_First_Program_Usage_spec L fuel p hp) (fun e q1 h1 => ?_)
    (fun _ h => h)
  by_cases he : e ≠ none
  · rw [if_pos he, pure_apply]
    exact h1
  · rw [if_neg he, sat_bind]
    refine sat_mono (L_Consume_Usage_line L fuel q1) (fun e1 q2 h2 => ?_)
      (fun q2 h2 => UsageLinesOK_of_StepL h1 h2)
    by_cases he1 : e1 ≠ none
    · rw [if_pos he1, pure_apply]
      exact UsageLinesOK_of_StepL h1 h2
    · rw [if_neg he1, pure_apply]
      exact UsageLinesOK_of_StepL h1 h2

theorem sat_parse_step {P : DocoptParser σ → Prop}
    (hP : ∀ q : DocoptParser σ, P q → P { q with Error_count := q.Error_count + 1 })
    (step : M σ (Option Err)) (p : DocoptParser σ) (h : (step p).sat (fun _ q => P q) P) :
    (parse_step step p).sat (fun _ q => P q) P := by
  unfold parse_step
  rw [sat_bind]
  refine sat_mono h (fun e q hq => ?_) (fun _ h => h)
  by_cases he : e ≠ none
  · rw [whenM_true _ _ he, modifyP_apply]
    exact hP q hq
  · rw [whenM_false _ _ he, pure_apply]
    exact hq

theorem NoLine_ParserInit (s0 : σ) : NoLine (ParserInit s0) := by
  intro i n hn
  simp [ParserInit] at hn

theorem L_parse_step {step : M σ (Option Err)} (hs : Keeps Step step) :
    Keeps StepL (parse_step step) :=
  L_of_S (Keeps_parse_step Step.step_refl Step_trans (fun _ => Step_of_eq rfl rfl) hs)

theorem Parse_spec (L : StateLexer σ) (s0 : σ) (fuel : Nat) :
    (Parse L fuel (ParserInit s0)).sat (fun _ q => UsageLinesOK q) UsageLinesOK := by
  unfold Parse
  rw [sat_bind]
  refine sat_mono (S_CreateNode DocoptNodeType.Root none (by decide) (ParserInit s0))
    (fun _ q1 h1 => ?_) (fun q h => UsageLinesOK_of_NoLine (NoLine_of_Step (NoLine_ParserInit s0) h))
  have n1 : NoLine q1 := NoLine_of_Step (NoLine_ParserInit s0) h1
  rw [sat_bind]
  refine sat_mono (Keeps_parse_step Step.step_refl Step_trans (fun _ => Step_of_eq rfl rfl)
    (S_Consume_Prologue L fuel) q1)
    (fun _ q2 h2 => ?_) (fun q h => UsageLinesOK_of_NoLine (NoLine_of_Step n1 h))
  have n2 : NoLine q2 := NoLine_of_Step n1 h2
  rw [sat_bind]
  refine sat_mono (sat_parse_step (P := UsageLinesOK) (fun _ h => h) _ q2
    (Consume_Usage_spec L fuel q2 n2)) (fun _ q3 h3 => ?_) (fun _ h => h)
  have htail : Keeps StepL (do
      parse_step (Consume_Free_section L fuel)
      parse_step (Consume_Options L fuel)
      parse_step (Consume_Free_section L fuel)
      let p ← getP
      pure p.ast : M σ (Option Nat)) :=
    Keeps_bind StepL_trans (L_parse_step (S_Consume_Free_section L fuel)) (fun _ =>
      Keeps_bind StepL_trans (L_parse_step (S_Consume_Options L fuel)) (fun _ =>
        Keeps_bind StepL_trans (L_parse_step (S_Consume_Free_section L fuel)) (fun _ =>
          Keeps_bind StepL_trans (Keeps_getP StepL.stepL_refl) (fun _ => Keeps_pure StepL.stepL_refl _))))
  exact sat_mono (htail q3) (fun _ q4 h4 => UsageLinesOK_of_StepL h3 h4)
    (fun q4 h4 => UsageLinesOK_of_StepL h3 h4)

/-! ### The program name is the first `PROG_NAME` token -/

theorem Consume_First_Program_Usage_found_name (L : StateLexer σ) (tok : Token)
    (p : DocoptParser σ) :
    (Consume_First_Program_Usage_found L tok p).sat
      (fun ctl q => ctl = Ctl.brk none ∧ q.Prog_name = tok.Value) (fun _ => True) := by
  unfold Consume_First_Program_Usage_found
  rw [sat_bind, modifyP_apply]
  simp only [sat_ok]
  rw [sat_bind, getP_apply]
  simp only [sat_ok]
  rw [sat_bind, sat_addNode]
  refine ⟨fun i nd _ _ => ?_, fun _ => trivial⟩
  rw [sat_bind, sat_addNode]
  refine ⟨fun j nd1 _ _ => ?_, fun _ => trivial⟩
  rw [sat_bind, setCurrentNode_apply]
  exact ⟨rfl, rfl⟩

theorem Consume_First_Program_Usage_body_name (L : StateLexer σ) (p : DocoptParser σ) :
    (Consume_First_Program_Usage_body L p).sat
      (fun ctl q => ∃ t,
        (NextToken L p).sat (fun _ p1 => p1.current_token = some t) (fun _ => False) ∧
        (t.Typ = TokKind.PROG_NAME → ctl = Ctl.brk none ∧ q.Prog_name = t.Value) ∧
        (t.Typ ≠ TokKind.PROG_NAME → q.Prog_name = p.Prog_name))
      (fun _ => True) := by
  unfold Consume_First_Program_Usage_body
  rw [sat_bind]
  have hN := C_NextToken L p
  cases hr : NextToken L p with
  | panic q => trivial
  | timeout q => trivial
  | ok u p1 =>
    rw [hr] at hN
    have hname : p1.Prog_name = p.Prog_name := hN.1.2
    simp only [sat_ok]
    rw [sat_bind, getP_apply]
    simp only [sat_ok]
    rw [sat_bind, sat_deref]
    refine ⟨fun tok htok => ?_, fun _ => trivial⟩
    by_cases c1 : tok.Typ = TokKind.PROG_NAME
    · rw [if_pos c1]
      exact sat_mono (Consume_First_Program_Usage_found_name L tok p1)
        (fun ctl q h => ⟨tok, htok, fun _ => h, fun hne => absurd c1 hne⟩) (fun _ h => h)
    · rw [if_neg c1]
      have hfin : ∀ (ctl : Ctl Unit (Option Err)) (q : DocoptParser σ),
          q.Prog_name = p1.Prog_name → ∃ t,
            (Res.ok u p1 : Res σ Unit).sat (fun _ p1 => p1.current_token = some t)
              (fun _ => False) ∧
            (t.Typ = TokKind.PROG_NAME → ctl = Ctl.brk none ∧ q.Prog_name = t.Value) ∧
            (t.Typ ≠ TokKind.PROG_NAME → q.Prog_name = p.Prog_name) :=
        fun ctl q hq => ⟨tok, htok, fun h => absurd h c1, fun _ => hq.trans hname⟩
      by_cases c2 : tok.Typ = TokKind.BLANK
      · rw [if_pos c2, pure_apply]
        exact hfin _ p1 rfl
      · rw [if_neg c2]
        by_cases c3 : tok.Typ = TokKind.NEWLINE
        · rw [if_pos c3, sat_bind, sat_deref]
          refine ⟨fun nt _ => ?_, fun _ => trivial⟩
          by_cases c4 : nt.Typ = TokKind.NEWLINE
          · rw [if_pos c4]
            by_cases c5 : p1.Prog_name = ""
            · rw [if_pos c5, pure_apply]
              exact hfin _ p1 rfl
            · rw [if_neg c5, sat_bind]
              refine sat_mono (C_NextToken L p1) (fun _ q2 h2 => ?_) (fun _ _ => trivial)
              rw [pure_apply]
              exact hfin _ q2 h2.1.2
          · rw [if_neg c4, pure_apply]
            exact hfin _ p1 rfl
        · rw [if_neg c3, pure_apply]
          exact hfin _ p1 rfl

theorem Res.sat_state {α : Type} {r : Res σ α} {P : DocoptParser σ → Prop} {B : Prop}
    (h : r.sat (fun _ q => P q) P ∧ B) : P r.state := by
  cases r with
  | ok a p => exact h.1
  | panic p => exact h.1
  | timeout p => exact h.1

/-- C1: whatever state a run of `Parse` on a fresh parser ends in (returned, stopped by a
nil dereference or an index out of range, or cut off when a loop has used up its
iteration bound), every `Usage_line` node of the tree has as first child a `Prog_name`
node whose token value is the parser's `Prog_name`.  `Prog_name` is the value of the first
`PROG_NAME` token `Consume_First_Program_Usage` reads: an iteration of its loop that reads
a `PROG_NAME` token `t` ends the loop with `Prog_name = t.Value`, an iteration that reads
another token leaves `Prog_name` as it was.  `Consume_Usage_line` keeps `Prog_name`, and
each `Usage_line` it opens (on a `PROG_NAME_sequence`) starts with such a child; the
restructuring for a top-level `|` adds no `Usage_line` and keeps the first child of the
line it rewrites. -/
theorem Usage_line_first_child_is_Prog_name (L : StateLexer σ) (s0 : σ) (fuel : Nat) :
    (Parse L fuel (ParserInit s0)).sat (fun _ q => UsageLinesOK q) UsageLinesOK ∧
    (∀ p, (Consume_First_Program_Usage_body L p).sat
      (fun ctl q => ∃ t,
        (NextToken L p).sat (fun _ p1 => p1.current_token = some t) (fun _ => False) ∧
        (t.Typ = TokKind.PROG_NAME → ctl = Ctl.brk none ∧ q.Prog_name = t.Value) ∧
        (t.Typ ≠ TokKind.PROG_NAME → q.Prog_name = p.Prog_name))
      (fun _ => True)) ∧
    Keeps StepL (Consume_Usage_line L fuel) ∧
    (∀ parent, Keeps Step (usage_line_alternative parent : M σ Unit)) :=
  ⟨Parse_spec L s0 fuel, Consume_First_Program_Usage_body_name L, L_Consume_Usage_line L fuel,
    S_usage_line_alternative⟩

set_option maxRecDepth 1000000 in
/-- C1 on two inputs: on `Usage:`, `prog cmd1`, `prog cmd2` the run of `Parse` returns and
the tree has two usage lines, both starting with the program name `prog`; on
`Usage: prog a | b` it returns and the one usage line still starts with `prog` after the
top-level `|` was restructured. -/
theorem Usage_line_first_child_is_Prog_name_witness :
    UsageLinesOK twoLinesRun.state ∧
    twoLinesRun.returned = true ∧
    usageLineNames twoLinesRun.state.heap = [some "prog", some "prog"] ∧
    topAlternativeRun.returned = true ∧
    usageLineNames topAlternativeRun.state.heap = [some "prog"] :=
  ⟨Res.sat_state (Usage_line_first_child_is_Prog_name listLexer
      (ListLexerState.mk "state_Prologue" twoLines 0) 12),
    by decide!, by decide!, by decide!, by decide!⟩

end
/-! ## Theorems: tokens of a usage expression -/

section
variable {σ : Type}

theorem ensure_node_same (p : DocoptParser σ) (c : Nat) (n : DocoptAst) (k : DocoptNodeType)
    (hc : p.current_node = some c) (hn : p.heap[c]? = some n) (hk : n.Typ = k) :
    ensure_node k p = Res.ok () p := by
  simp [ensure_node, hc, readNode_ok p c n hn, hk]

theorem ensure_node_other (p : DocoptParser σ) (c : Nat) (n : DocoptAst) (k : DocoptNodeType)
    (hc : p.current_node = some c) (hn : p.heap[c]? = some n) (hk : n.Typ ≠ k) :
    ensure_node k p = Res.ok ()
      { p with heap := (AddNode p.heap c k none).1, current_node := some p.heap.length } := by
  simp [ensure_node, hc, readNode_ok p c n hn, hk, addNode_ok p c n hn]

theorem addLeaf_ok (p : DocoptParser σ) (c : Nat) (n : DocoptAst) (k : DocoptNodeType)
    (hc : p.current_node = some c) (hn : p.heap[c]? = some n) :
    addLeaf k p = Res.ok () { p with heap := (AddNode p.heap c k p.current_token).1 } := by
  simp [addLeaf, hc, addNode_ok p c n hn]

theorem Consume_Usage_Expr_leaf_same (r : Reason) (p : DocoptParser σ) (c : Nat) (n : DocoptAst)
    (k : DocoptNodeType) (hc : p.current_node = some c) (hn : p.heap[c]? = some n)
    (hk : n.Typ = DocoptNodeType.Usage_Expr) :
    Consume_Usage_Expr_leaf r k p =
      Res.ok (r, none) { p with heap := (AddNode p.heap c k p.current_token).1 } := by
  simp [Consume_Usage_Expr_leaf, ensure_node_same p c n _ hc hn hk, addLeaf_ok p c n k hc hn]

theorem Consume_Usage_Expr_leaf_other (r : Reason) (p : DocoptParser σ) (c : Nat) (n : DocoptAst)
    (k : DocoptNodeType) (hc : p.current_node = some c) (hn : p.heap[c]? = some n)
    (hk : n.Typ ≠ DocoptNodeType.Usage_Expr) :
    Consume_Usage_Expr_leaf r k p =
      Res.ok (r, none)
        { p with heap := (AddNode (AddNode p.heap c DocoptNodeType.Usage_Expr none).1 p.heap.length
                   k p.current_token).1,
                 current_node := some p.heap.length } := by
  have hlt : c < p.heap.length := (List.getElem?_eq_some_iff.mp hn).1
  have hnew := getElem?_AddNode_new p.heap c DocoptNodeType.Usage_Expr none hlt
  simp only [Consume_Usage_Expr_leaf, bind_apply, ensure_node_other p c n _ hc hn hk]
  rw [addLeaf_ok _ p.heap.length _ k rfl hnew]
  simp

theorem Consume_Usage_Expr_to_token (L : StateLexer σ) (fuel : Nat) (p : DocoptParser σ)
    (tok : Token) (htok : p.current_token = some tok) (h1 : tok.Typ ≠ TokKind.EOF)
    (h2 : tok.Typ ≠ TokKind.NEWLINE) (h3 : tok.Typ ≠ TokKind.PROG_NAME) :
    Consume_Usage_Expr L fuel p = Consume_Usage_Expr_token L fuel Reason.zero tok p := by
  simp [Consume_Usage_Expr, has_reach_EOF, has_reach_two_NEWLINE, has_reach_PROG_NAME, htok, h1,
    h2, h3]

/-- C11: with `tok` the current token.  (1) When `tok` is a `SHORT`, `LONG`, `ARGUMENT` or
`IDENT` token and `k` the matching kind (`Usage_short_option`, `Usage_long_option`,
`Usage_argument`, `Usage_command`), `Consume_Usage_Expr` returns the reason it never
assigned, which is not a leaving one, and a nil error; afterwards the current node is a
`Usage_Expr` node `e`: the node that was current when that was a `Usage_Expr` (one node
is allocated then), otherwise a new childless `Usage_Expr` appended to the children of the
node that was current (two nodes are allocated then); the last allocated node is the leaf,
of kind `k`, carrying `tok`, childless, with parent `e`, and it is appended at the end of
the children of `e`; every other node and the token cursor are unchanged.  (2) When `tok`
is a `LONG_BLANK`, or a `NEWLINE` whose lookahead is not a `NEWLINE`, the routine returns
`Continue` with a nil error and the state is unchanged. -/
theorem Consume_Usage_Expr_attaches_leaf (L : StateLexer σ) (fuel : Nat) (p : DocoptParser σ)
    (tok : Token) (htok : p.current_token = some tok) :
    (∀ (c : Nat) (n : DocoptAst) (k : DocoptNodeType),
      p.current_node = some c → p.heap[c]? = some n →
      ((tok.Typ = TokKind.SHORT ∧ k = DocoptNodeType.Usage_short_option) ∨
       (tok.Typ = TokKind.LONG ∧ k = DocoptNodeType.Usage_long_option) ∨
       (tok.Typ = TokKind.ARGUMENT ∧ k = DocoptNodeType.Usage_argument) ∨
       (tok.Typ = TokKind.IDENT ∧ k = DocoptNodeType.Usage_command)) →
      ∃ (h' : Heap) (e : Nat) (ne : DocoptAst),
        Consume_Usage_Expr L fuel p =
          Res.ok (Reason.zero, none) { p with heap := h', current_node := some e } ∧
        Reason.zero.Leaving = false ∧
        ne.Typ = DocoptNodeType.Usage_Expr ∧
        (n.Typ = DocoptNodeType.Usage_Expr →
          e = c ∧ ne = n ∧ h'.length = p.heap.length + 1) ∧
        (n.Typ ≠ DocoptNodeType.Usage_Expr →
          e = p.heap.length ∧
          ne = { Typ := DocoptNodeType.Usage_Expr, Token := none, Children := [],
                 Parent := some c, Repeat := false } ∧
          h'.length = p.heap.length + 2 ∧
          h'[c]? = some { n with Children := n.Children ++ [e] }) ∧
        h'[h'.length - 1]? = some
          { Typ := k, Token := some tok, Children := [], Parent := some e, Repeat := false } ∧
        h'[e]? = some { ne with Children := ne.Children ++ [h'.length - 1] } ∧
        ∀ j, j < p.heap.length → j ≠ c → h'[j]? = p.heap[j]?) ∧
    ((tok.Typ = TokKind.LONG_BLANK ∨
        (tok.Typ = TokKind.NEWLINE ∧ ∃ nt, p.next_token = some nt ∧ nt.Typ ≠ TokKind.NEWLINE)) →
      Consume_Usage_Expr L fuel p = Res.ok (Reason.Continue, none) p) := by
  refine ⟨?_, ?_⟩
  · intro c n k hc hn hk
    have hlt : c < p.heap.length := (List.getElem?_eq_some_iff.mp hn).1
    have hrun : Consume_Usage_Expr L fuel p = Consume_Usage_Expr_leaf Reason.zero k p := by
      rcases hk with ⟨ht, rfl⟩ | ⟨ht, rfl⟩ | ⟨ht, rfl⟩ | ⟨ht, rfl⟩ <;>
        · rw [Consume_Usage_Expr_to_token L fuel p tok htok (by simp [ht]) (by simp [ht])
            (by simp [ht])]
          simp [Consume_Usage_Expr_token, ht]
    by_cases hty : n.Typ = DocoptNodeType.Usage_Expr
    · refine ⟨(AddNode p.heap c k (some tok)).1, c, n, ?_, rfl, hty, fun _ => ⟨rfl, rfl, by simp⟩,
        fun h => absurd hty h, ?_, ?_, ?_⟩
      · rw [hrun, Consume_Usage_Expr_leaf_same _ p c n k hc hn hty, htok, ← hc]
      · simpa using getElem?_AddNode_new p.heap c k (some tok) hlt
      · simpa using getElem?_AddNode_parent p.heap c k (some tok) n hn
      · intro j hj hjc
        exact getElem?_AddNode_of_ne _ _ _ _ _ hj hjc
    · have hnew := getElem?_AddNode_new p.heap c DocoptNodeType.Usage_Expr none hlt
      have hlen : (AddNode p.heap c DocoptNodeType.Usage_Expr none).1.length = p.heap.length + 1 := by
        simp
      refine ⟨(AddNode (AddNode p.heap c DocoptNodeType.Usage_Expr none).1 p.heap.length k
          (some tok)).1, p.heap.length, _, ?_, rfl, rfl, fun h => absurd h hty,
        fun _ => ⟨rfl, rfl, by simp, ?_⟩, ?_, ?_, ?_⟩
      · rw [hrun, Consume_Usage_Expr_leaf_other _ p c n k hc hn hty, htok]
      · rw [getElem?_AddNode_of_ne _ _ _ _ _ (by rw [hlen]; omega) (by omega)]
        exact getElem?_AddNode_parent _ _ _ _ _ hn
      · have := getElem?_AddNode_new (AddNode p.heap c DocoptNodeType.Usage_Expr none).1
          p.heap.length k (some tok) (by rw [hlen]; omega)
        simpa using this
      · have := getElem?_AddNode_parent (AddNode p.heap c DocoptNodeType.Usage_Expr none).1
          p.heap.length k (some tok) _ hnew
        simpa using this
      · intro j hj hjc
        rw [getElem?_AddNode_of_ne _ _ _ _ _ (by rw [hlen]; omega) (by omega)]
        exact getElem?_AddNode_of_ne _ _ _ _ _ hj hjc
  · rintro (ht | ⟨ht, nt, hnt, hne⟩)
    · rw [Consume_Usage_Expr_to_token L fuel p tok htok (by simp [ht]) (by simp [ht])
        (by simp [ht])]
      simp [Consume_Usage_Expr_token, ht]
    · simp [Consume_Usage_Expr, has_reach_EOF, has_reach_two_NEWLINE, has_reach_PROG_NAME, htok,
        ht, hnt, hne, Consume_Usage_Expr_token]

end

section

/-- Witness of `Consume_Usage_Expr_attaches_leaf`: `-h` right after the program name (a
`Usage_Expr` is created under the usage line), `FILE` when the current node is a
`Usage_Expr`, and a `LONG_BLANK` token, which is skipped. -/
theorem Consume_Usage_Expr_attaches_leaf_witness :
    (∃ (h' : Heap) (e : Nat),
        Consume_Usage_Expr listLexer 3 shortFirstState =
          Res.ok (Reason.zero, none) { shortFirstState with heap := h', current_node := some e } ∧
        e = 3 ∧ h'.length = 5 ∧
        h'[1]? = some (mkNode DocoptNodeType.Usage_line none [2, 3] (some 0)) ∧
        h'[4]? = some (mkNode DocoptNodeType.Usage_short_option (some ⟨TokKind.SHORT, "-h", 1⟩)
          [] (some 3)) ∧
        h'[3]? = some (mkNode DocoptNodeType.Usage_Expr none [4] (some 1))) ∧
    (∃ (h' : Heap) (e : Nat),
        Consume_Usage_Expr listLexer 3 argumentState =
          Res.ok (Reason.zero, none) { argumentState with heap := h', current_node := some e } ∧
        e = 3 ∧ h'.length = 6 ∧
        h'[5]? = some (mkNode DocoptNodeType.Usage_argument
          (some ⟨TokKind.ARGUMENT, "FILE", 2⟩) [] (some 3)) ∧
        h'[3]? = some (mkNode DocoptNodeType.Usage_Expr none [4, 5] (some 1))) ∧
    Consume_Usage_Expr listLexer 3 otherNameState = Res.ok (Reason.Continue, none) otherNameState := by
  refine ⟨?_, ?_, ?_⟩
  · obtain ⟨h', e, ne, hrun, _, _, _, h2, h3, h4, _⟩ :=
      (Consume_Usage_Expr_attaches_leaf listLexer 3 shortFirstState ⟨TokKind.SHORT, "-h", 1⟩
        (by decide)).1 1 (mkNode DocoptNodeType.Usage_line none [2] (some 0))
        DocoptNodeType.Usage_short_option (by decide) (by decide) (Or.inl ⟨rfl, rfl⟩)
    obtain ⟨he, hne, hlen, hc⟩ := h2 (by decide)
    subst he hne
    rw [hlen] at h3 h4
    exact ⟨h', _, hrun, rfl, hlen, hc, h3, h4⟩
  · obtain ⟨h', e, ne, hrun, _, _, h1, _, h3, h4, _⟩ :=
      (Consume_Usage_Expr_attaches_leaf listLexer 3 argumentState ⟨TokKind.ARGUMENT, "FILE", 2⟩
        (by decide)).1 3 (mkNode DocoptNodeType.Usage_Expr none [4] (some 1))
        DocoptNodeType.Usage_argument (by decide) (by decide) (Or.inr (Or.inr (Or.inl ⟨rfl, rfl⟩)))
    obtain ⟨he, hne, hlen⟩ := h1 (by decide)
    subst he hne
    rw [hlen] at h3 h4
    exact ⟨h', _, hrun, rfl, hlen, h3, h4⟩
  · exact (Consume_Usage_Expr_attaches_leaf listLexer 3 otherNameState
      ⟨TokKind.LONG_BLANK, "  ", 3⟩ (by decide)).2 (Or.inl rfl)

end

section
variable {σ : Type}

/-- C12 as amended: with `tok` a `PUNCT` token.  (1) At the top level of a usage line,
when `tok` is current and its value is none of `[`, `(`, `...`, `=`, `|`,
`Consume_Usage_Expr` returns the `Error` reason with the unmatched-punctuation error and
the state, the tree included, is unchanged.  (2) Inside a group, an iteration of the loop
of `Consume_group` whose `NextToken` makes `tok` current, its value being none of `[`,
`(`, `|`, `]`, `)`, `=`, `...`, goes on without error, and the only change it makes to the
state `NextToken` produced is one new leaf of kind `Usage_unmatched_punct` carrying `tok`,
appended to the children of the current node. -/
theorem unmatched_PUNCT_top_level_error_group_leaf (L : StateLexer σ) (fuel : Nat) (tok : Token)
    (hty : tok.Typ = TokKind.PUNCT)
    (h1 : tok.Value ≠ "[") (h2 : tok.Value ≠ "(") (h3 : tok.Value ≠ "...")
    (h4 : tok.Value ≠ "=") (h5 : tok.Value ≠ "|") :
    (∀ p : DocoptParser σ, p.current_token = some tok →
      Consume_Usage_Expr L fuel p =
        Res.ok (Reason.Error, some (Err.usage_expr_unmatched_PUNC tok)) p) ∧
    (∀ (q p : DocoptParser σ) (recurse : DocoptNodeType → M σ (Option Err)) (c : Nat)
        (n : DocoptAst),
      tok.Value ≠ "]" → tok.Value ≠ ")" →
      NextToken L q = Res.ok () p → p.current_token = some tok →
      p.current_node = some c → p.heap[c]? = some n →
      ∃ h', Consume_group_body L recurse q = Res.ok (Ctl.next ()) { p with heap := h' } ∧
        h'.length = p.heap.length + 1 ∧
        h'[p.heap.length]? = some
          { Typ := DocoptNodeType.Usage_unmatched_punct, Token := some tok, Children := [],
            Parent := some c, Repeat := false } ∧
        h'[c]? = some { n with Children := n.Children ++ [p.heap.length] } ∧
        ∀ j, j < p.heap.length → j ≠ c → h'[j]? = p.heap[j]?) := by
  refine ⟨?_, ?_⟩
  · intro p htok
    rw [Consume_Usage_Expr_to_token L fuel p tok htok (by simp [hty]) (by simp [hty])
      (by simp [hty])]
    simp [Consume_Usage_Expr_token, hty, h1, h2, h3, h4, h5]
  · intro q p recurse c n h6 h7 hnt htok hc hn
    have hlt : c < p.heap.length := (List.getElem?_eq_some_iff.mp hn).1
    refine ⟨(AddNode p.heap c DocoptNodeType.Usage_unmatched_punct (some tok)).1, ?_, by simp,
      getElem?_AddNode_new _ _ _ _ hlt, getElem?_AddNode_parent _ _ _ _ _ hn,
      fun j hj hjc => getElem?_AddNode_of_ne _ _ _ _ _ hj hjc⟩
    simp [Consume_group_body, hnt, htok, Consume_group_token, hty, Consume_group_punct, h1, h2,
      h3, h4, h5, h6, h7, addLeafNext, addLeaf_ok p c n _ hc hn]

/-- Witness of `unmatched_PUNCT_top_level_error_group_leaf`: a `,` after `prog a`. -/
theorem unmatched_PUNCT_top_level_error_group_leaf_witness :
    Consume_Usage_Expr listLexer 3 commaTopState =
      Res.ok (Reason.Error, some (Err.usage_expr_unmatched_PUNC ⟨TokKind.PUNCT, ",", 2⟩))
        commaTopState :=
  (unmatched_PUNCT_top_level_error_group_leaf listLexer 3 ⟨TokKind.PUNCT, ",", 2⟩ (by decide)
    (by decide) (by decide) (by decide) (by decide) (by decide)).1 commaTopState (by decide)

set_option maxRecDepth 100000 in
/-- C12 fails inside a group: on `( , )` `Consume_group` returns a nil error and the `,`
is attached to the group as a `Usage_unmatched_punct` leaf. -/
theorem Consume_group_attaches_unmatched_PUNCT :
    Consume_group listLexer 8 DocoptNodeType.Usage_required_group commaState = Res.ok none
      { commaState with
        heap := commaHeapAfter,
        current_token := some ⟨TokKind.PUNCT, ")", 2⟩,
        next_token := some ⟨TokKind.EOF, "", 3⟩,
        tokens := [some ⟨TokKind.PUNCT, "(", 0⟩, some ⟨TokKind.PUNCT, ",", 1⟩,
          some ⟨TokKind.PUNCT, ")", 2⟩],
        s := { State_name := "state_Usage_Line", input := inputComma, pos := 3 } } := by
  decide

end

section

set_option maxRecDepth 1000000 in
/-- C13 fails on a history of exactly three tokens: with `prog` current, equal to
`Prog_name`, and the history `NEWLINE`, `LONG_BLANK`, `prog`, `has_reach_PROG_NAME` returns
false (`p.tokens.Len() > 3` asks for a fourth token) and `Consume_Usage_Expr` rejects the
token as unmatched; with one more token in the history it returns true with the reason
`PROG_NAME_sequence`.  On `Usage: prog`, newline, `  prog cmd` the run of `Parse` returns
with the first usage line only and that error recorded. -/
theorem has_reach_PROG_NAME_three_tokens :
    has_reach_PROG_NAME Reason.zero threeTokenState =
      Res.ok (false, Reason.zero) threeTokenState ∧
    Consume_Usage_Expr listLexer 3 threeTokenState =
      Res.ok (Reason.Error, some (Err.usage_expr_unmatched_token ⟨TokKind.PROG_NAME, "prog", 3⟩))
        { threeTokenState with
          Errors := [Err.usage_expr_unmatched_token ⟨TokKind.PROG_NAME, "prog", 3⟩],
          Error_count := 1 } ∧
    has_reach_PROG_NAME Reason.zero fourTokenState =
      Res.ok (true, Reason.PROG_NAME_sequence) fourTokenState ∧
    nameOnlyLineRun.returned = true ∧
    usageLineNames nameOnlyLineRun.state.heap = [some "prog"] ∧
    nameOnlyLineRun.state.Errors =
      [Err.usage_expr_unmatched_token ⟨TokKind.PROG_NAME, "prog", 4⟩] :=
  ⟨by decide, by decide, by decide, by decide!, by decide!, by decide!⟩

end

/-! ## Theorems: the first usage line -/

section
variable {σ : Type}

theorem forRun_next {γ β : Type} (body : γ → M σ (Ctl γ β)) (k : Nat) (c c1 : γ)
    (p p1 : DocoptParser σ) (hrun : p.run = true) (hb : body c p = Res.ok (Ctl.next c1) p1) :
    forRun body (k + 1) c p = forRun body k c1 p1 := by
  rw [forRun_succ _ _ _ _ hrun, hb]

theorem forRun_brk {γ β : Type} (body : γ → M σ (Ctl γ β)) (k : Nat) (c : γ) (b : β)
    (p p1 : DocoptParser σ) (hrun : p.run = true) (hb : body c p = Res.ok (Ctl.brk b) p1) :
    forRun body (k + 1) c p = Res.ok (some b) p1 := by
  rw [forRun_succ _ _ _ _ hrun, hb]

/-- An iteration of the loop of `Consume_First_Program_Usage` on a skipped token. -/
theorem Consume_First_Program_Usage_body_skip (L : StateLexer σ) (p p1 : DocoptParser σ)
    (tok : Token) (hnt : NextToken L p = Res.ok () p1) (ht : p1.current_token = some tok)
    (hs : tok.Typ = TokKind.BLANK ∨
      (tok.Typ = TokKind.NEWLINE ∧ ∃ nt, p1.next_token = some nt ∧ nt.Typ ≠ TokKind.NEWLINE)) :
    Consume_First_Program_Usage_body L p = Res.ok (Ctl.next ()) p1 := by
  rcases hs with hb | ⟨hn, nt, hnx, hne⟩
  · simp [Consume_First_Program_Usage_body, hnt, ht, hb]
  · simp [Consume_First_Program_Usage_body, hnt, ht, hn, hnx, hne]

/-- The skipped tokens cost one iteration each and change nothing but the token cursor. -/
theorem forRun_SkipsBlank (L : StateLexer σ) :
    ∀ (n : Nat) (p q : DocoptParser σ), SkipsBlank L n p q → p.run = true →
      q.run = true ∧ SameTree p q ∧
      ∀ k, forRun (fun (_ : Unit) => Consume_First_Program_Usage_body L) (n + k) () p =
        forRun (fun (_ : Unit) => Consume_First_Program_Usage_body L) k () q := by
  intro n
  induction n with
  | zero =>
    intro p q h hrun
    cases h
    exact ⟨hrun, SameTree.sameTree_refl p, fun k => by rw [Nat.zero_add]⟩
  | succ n ih =>
    intro p q h hrun
    obtain ⟨p1, tok, hnt, hrun1, ht, hs, hrest⟩ := h
    obtain ⟨hq, hst, hk⟩ := ih p1 q hrest hrun1
    refine ⟨hq, (NextToken_sameTree L p p1 hnt).sameTree_trans hst, fun k => ?_⟩
    rw [show n + 1 + k = (n + k) + 1 by omega,
      forRun_next _ _ _ _ _ _ hrun (Consume_First_Program_Usage_body_skip L p p1 tok hnt ht hs)]
    exact hk k

theorem Consume_First_Program_Usage_unfold (L : StateLexer σ) (fuel : Nat)
    (p : DocoptParser σ) :
    Consume_First_Program_Usage L fuel p =
      (forRun (fun (_ : Unit) => Consume_First_Program_Usage_body L) fuel () >>=
        fun r => loopResult r Err.first_usage_parser_stoped)
        { p with lexer_state_changed := true,
                 s := L.ChangeState "state_First_Program_Usage" p.s } := by
  simp [Consume_First_Program_Usage, Change_lexer_state]

/-- C14: started with an empty `Prog_name` on a running parser, when the tokens
`Consume_First_Program_Usage` reads are `n` skipped ones (`BLANK`, or `NEWLINE` before a
token that is not a `NEWLINE`), so that no `PROG_NAME` token has been read, and then a
`NEWLINE` whose lookahead is a `NEWLINE`, the routine returns the non-nil error "PROG_NAME
not defined" in the state the last `NextToken` produced; the tree is the one it was called
with (no `Usage_line` is created) and `Prog_name` is still empty. -/
theorem two_NEWLINE_before_PROG_NAME_is_error (L : StateLexer σ) (fuel n : Nat)
    (p q q1 : DocoptParser σ) (tok nt : Token)
    (hname : p.Prog_name = "") (hrun : p.run = true)
    (hskip : SkipsBlank L n
      { p with lexer_state_changed := true,
               s := L.ChangeState "state_First_Program_Usage" p.s } q)
    (hnt : NextToken L q = Res.ok () q1)
    (ht : q1.current_token = some tok) (hty : tok.Typ = TokKind.NEWLINE)
    (hnx : q1.next_token = some nt) (hnty : nt.Typ = TokKind.NEWLINE)
    (hfuel : n < fuel) :
    Consume_First_Program_Usage L fuel p =
      Res.ok (some (Err.first_usage_no_PROG_NAME tok)) q1 ∧
    q1.heap = p.heap ∧ q1.current_node = p.current_node ∧ q1.Prog_name = "" := by
  obtain ⟨hq, hst, hk⟩ := forRun_SkipsBlank L n _ q hskip hrun
  have hst1 := NextToken_sameTree L q q1 hnt
  have hname1 : q1.Prog_name = "" := by rw [hst1.2.1, hst.2.1]; exact hname
  refine ⟨?_, by rw [hst1.1, hst.1], by rw [hst1.2.2.1, hst.2.2.1], hname1⟩
  obtain ⟨k, rfl⟩ : ∃ k, fuel = n + (k + 1) := ⟨fuel - n - 1, by omega⟩
  have hb : Consume_First_Program_Usage_body L q =
      Res.ok (Ctl.brk (some (Err.first_usage_no_PROG_NAME tok))) q1 := by
    simp [Consume_First_Program_Usage_body, hnt, ht, hty, hnx, hnty, hname1]
  rw [Consume_First_Program_Usage_unfold, bind_apply, hk (k + 1), forRun_brk _ _ _ _ _ _ hq hb]
  simp [loopResult]

end

section

set_option maxRecDepth 100000 in
/-- Witness of `two_NEWLINE_before_PROG_NAME_is_error`: a blank, then two `NEWLINE`
tokens. -/
theorem two_NEWLINE_before_PROG_NAME_is_error_witness :
    Consume_First_Program_Usage listLexer 8 (firstUsageState blankTwoNewlines) =
      Res.ok (some (Err.first_usage_no_PROG_NAME ⟨TokKind.NEWLINE, "\n", 1⟩))
        (afterTokens listLexer 2 (firstUsageStart blankTwoNewlines)) ∧
    (afterTokens listLexer 2 (firstUsageStart blankTwoNewlines)).heap =
      (firstUsageState blankTwoNewlines).heap ∧
    (afterTokens listLexer 2 (firstUsageStart blankTwoNewlines)).current_node =
      (firstUsageState blankTwoNewlines).current_node ∧
    (afterTokens listLexer 2 (firstUsageStart blankTwoNewlines)).Prog_name = "" :=
  two_NEWLINE_before_PROG_NAME_is_error listLexer 8 1 (firstUsageState blankTwoNewlines)
    (afterTokens listLexer 1 (firstUsageStart blankTwoNewlines))
    (afterTokens listLexer 2 (firstUsageStart blankTwoNewlines))
    ⟨TokKind.NEWLINE, "\n", 1⟩ ⟨TokKind.NEWLINE, "\n", 2⟩ (by decide) (by decide)
    ⟨afterTokens listLexer 1 (firstUsageStart blankTwoNewlines), ⟨TokKind.BLANK, " ", 0⟩,
      by decide, by decide, by decide, Or.inl (by decide), rfl⟩
    (by decide) (by decide) (by decide) (by decide) (by decide) (by decide)

end

/-! ## Theorems: the tokenizer does not read the tree -/

section
variable {σ : Type}

/-! ### The token cursor does not depend on the tree -/

theorem try_get_NextToken_aux_withTree (L : StateLexer σ) (slot : Slot) (h : Heap)
    (c : Option Nat) :
    ∀ (k : Nat) (p : DocoptParser σ),
      try_get_NextToken_aux L slot k (p.withTree h c) =
        ((try_get_NextToken_aux L slot k p).1, (try_get_NextToken_aux L slot k p).2.withTree h c) := by
  intro k
  induction k with
  | zero => intro p; rfl
  | succ k ih =>
    intro p
    unfold try_get_NextToken_aux
    by_cases h1 : p.Error_count ≥ p.max_error
    · have h1' : (p.withTree h c).Error_count ≥ (p.withTree h c).max_error := h1
      rw [if_pos h1, if_pos h1']
    · have h1' : ¬ (p.withTree h c).Error_count ≥ (p.withTree h c).max_error := h1
      rw [if_neg h1, if_neg h1']
      have hs : (p.withTree h c).s = p.s := rfl
      rw [hs]
      cases hN : L.Next p.s with
      | mk r s1 =>
        cases r with
        | ok t =>
          simp only []
          cases slot <;> rfl
        | error e =>
          simp only []
          by_cases h2 : (({ p with s := s1 } : DocoptParser σ).AddError (Err.lexical e)).Error_count ≥
              (({ p with s := s1 } : DocoptParser σ).AddError (Err.lexical e)).max_error
          · have h2' : (({ p.withTree h c with s := s1 } : DocoptParser σ).AddError
                (Err.lexical e)).Error_count ≥
                (({ p.withTree h c with s := s1 } : DocoptParser σ).AddError
                  (Err.lexical e)).max_error := h2
            rw [if_pos h2, if_pos h2']
            rfl
          · have h2' : ¬ (({ p.withTree h c with s := s1 } : DocoptParser σ).AddError
                (Err.lexical e)).Error_count ≥
                (({ p.withTree h c with s := s1 } : DocoptParser σ).AddError
                  (Err.lexical e)).max_error := h2
            rw [if_neg h2, if_neg h2']
            exact ih { (({ p with s := s1 } : DocoptParser σ).AddError (Err.lexical e)) with
              s := L.Discard 1 (({ p with s := s1 } : DocoptParser σ).AddError (Err.lexical e)).s }

theorem frame_bind {α β : Type} (m : M σ α) (f : α → M σ β) (h : Heap) (c : Option Nat)
    (p : DocoptParser σ)
    (hm : m (p.withTree h c) = (m p).mapState (fun q => q.withTree h c))
    (hf : ∀ a q, f a (q.withTree h c) = (f a q).mapState (fun q => q.withTree h c)) :
    (m >>= f) (p.withTree h c) = ((m >>= f) p).mapState (fun q => q.withTree h c) := by
  rw [bind_apply, bind_apply, hm]
  cases m p with
  | ok a q => exact hf a q
  | panic q => rfl
  | timeout q => rfl

theorem try_get_NextToken_withTree (L : StateLexer σ) (slot : Slot) (h : Heap) (c : Option Nat)
    (p : DocoptParser σ) :
    try_get_NextToken L slot (p.withTree h c) =
      (try_get_NextToken L slot p).mapState (fun q => q.withTree h c) := by
  unfold try_get_NextToken
  have e : (p.withTree h c).max_error - (p.withTree h c).Error_count =
      p.max_error - p.Error_count := rfl
  simp only [e, try_get_NextToken_aux_withTree, Res.mapState]

theorem removeBack_withTree (h : Heap) (c : Option Nat) (p : DocoptParser σ) :
    (removeBack : M σ Unit) (p.withTree h c) =
      ((removeBack : M σ Unit) p).mapState (fun q => q.withTree h c) := by
  unfold removeBack
  simp only [bind_apply, getP_apply]
  have e : (p.withTree h c).tokens = p.tokens := rfl
  rw [e]
  by_cases ht : p.tokens.isEmpty = true
  · simp only [ht, if_true]; rfl
  · simp only [ht]; rfl

theorem NextToken_relex_withTree (L : StateLexer σ) (h : Heap) (c : Option Nat)
    (p : DocoptParser σ) :
    NextToken_relex L (p.withTree h c) =
      (NextToken_relex L p).mapState (fun q => q.withTree h c) := by
  unfold NextToken_relex
  simp only [bind_apply, getP_apply]
  have e1 : (p.withTree h c).next_token = p.next_token := rfl
  have e2 : (p.withTree h c).lexer_state_changed = p.lexer_state_changed := rfl
  rw [e1, e2]
  by_cases hc : p.next_token ≠ none ∧ p.lexer_state_changed = true
  · rw [if_pos hc]
    cases hn : p.next_token with
    | none => exact absurd hn hc.1
    | some nt =>
      rw [bind_apply, bind_apply, deref_some, deref_some]
      simp only [bind_apply, modifyP_apply]
      exact removeBack_withTree h c
        { p with s := L.Reject nt p.s, lexer_state_changed := false, next_token := none }
  · rw [if_neg hc]; rfl

theorem NextToken_current_withTree (L : StateLexer σ) (h : Heap) (c : Option Nat)
    (p : DocoptParser σ) :
    NextToken_current L (p.withTree h c) =
      (NextToken_current L p).mapState (fun q => q.withTree h c) := by
  unfold NextToken_current
  simp only [bind_apply, getP_apply]
  have e1 : (p.withTree h c).next_token = p.next_token := rfl
  rw [e1]
  by_cases hc : p.next_token ≠ none
  · rw [if_pos hc]; rfl
  · rw [if_neg hc]; simp only [bind_apply, try_get_NextToken_withTree]
    cases try_get_NextToken L Slot.current p <;> rfl

/-- `NextToken` neither reads nor writes the tree: on a parser with another tree it does
the same to the token cursor. -/
theorem NextToken_withTree (L : StateLexer σ) (h : Heap) (c : Option Nat)
    (p : DocoptParser σ) :
    NextToken L (p.withTree h c) = (NextToken L p).mapState (fun q => q.withTree h c) := by
  unfold NextToken
  refine frame_bind _ _ h c p (NextToken_relex_withTree L h c p) (fun _ q => ?_)
  refine frame_bind _ _ h c q (NextToken_current_withTree L h c q) (fun _ q => ?_)
  refine frame_bind _ _ h c q (try_get_NextToken_withTree L _ h c q) (fun _ q => ?_)
  simp only [bind_apply, getP_apply]
  have e1 : (q.withTree h c).Error_count = q.Error_count := rfl
  have e2 : (q.withTree h c).max_error = q.max_error := rfl
  rw [e1, e2]
  by_cases he : q.Error_count ≥ q.max_error
  · rw [whenM_true _ _ he]; rfl
  · rw [whenM_false _ _ he]; rfl

theorem NextToken_withTree_ok (L : StateLexer σ) (h : Heap) (c : Option Nat)
    (p p1 : DocoptParser σ) (hnt : NextToken L p = Res.ok () p1) :
    NextToken L (p.withTree h c) = Res.ok () (p1.withTree h c) := by
  rw [NextToken_withTree, hnt]; rfl

end

section

/-! ### Leaves added one after the other -/

theorem addLeaves_cons (h : Heap) (par : Nat) (k : DocoptNodeType) (t : Token) (ts : List Token) :
    addLeaves h par k (t :: ts) = addLeaves (AddNode h par k (some t)).1 par k ts := rfl

@[simp] theorem length_addLeaves (par : Nat) (k : DocoptNodeType) (ts : List Token) :
    ∀ h : Heap, (addLeaves h par k ts).length = h.length + ts.length := by
  induction ts with
  | nil => intro h; rfl
  | cons t ts ih =>
    intro h
    rw [addLeaves_cons, ih]
    simp
    omega

theorem getElem?_addLeaves_of_ne (par : Nat) (k : DocoptNodeType) (ts : List Token) :
    ∀ (h : Heap) (j : Nat), j < h.length → j ≠ par → (addLeaves h par k ts)[j]? = h[j]? := by
  induction ts with
  | nil => intro h j _ _; rfl
  | cons t ts ih =>
    intro h j hj hjp
    rw [addLeaves_cons, ih _ j (by simp; omega) hjp]
    exact getElem?_AddNode_of_ne _ _ _ _ _ hj hjp

theorem getElem?_addLeaves_parent (par : Nat) (k : DocoptNodeType) (ts : List Token) :
    ∀ (h : Heap) (n : DocoptAst), h[par]? = some n →
      (addLeaves h par k ts)[par]? =
        some { n with Children := n.Children ++ List.range' h.length ts.length } := by
  induction ts with
  | nil => intro h n hn; simpa [addLeaves] using hn
  | cons t ts ih =>
    intro h n hn
    rw [addLeaves_cons, ih _ _ (getElem?_AddNode_parent h par k (some t) n hn)]
    simp [List.range'_succ]

theorem getElem?_addLeaves_new (par : Nat) (k : DocoptNodeType) (ts : List Token) :
    ∀ (h : Heap) (i : Nat) (hi : i < ts.length), par < h.length →
      (addLeaves h par k ts)[h.length + i]? =
        some { Typ := k, Token := some (ts.get ⟨i, hi⟩), Children := [], Parent := some par,
               Repeat := false } := by
  induction ts with
  | nil => intro h i hi; exact absurd hi (Nat.not_lt_zero _)
  | cons t ts ih =>
    intro h i hi hp
    rw [addLeaves_cons]
    cases i with
    | zero =>
      rw [getElem?_addLeaves_of_ne _ _ _ _ _ (by simp) (by simp; omega)]
      exact getElem?_AddNode_new h par k (some t) hp
    | succ i =>
      have := ih (AddNode h par k (some t)).1 i (by simpa using hi) (by simp; omega)
      simp only [length_AddNode] at this
      rw [show h.length + (i + 1) = h.length + 1 + i by omega, this]
      rfl

end

/-! ## Theorems: the prologue -/

section
variable {σ : Type}

theorem Feeds_sameTree (L : StateLexer σ) :
    ∀ (ts : List Token) (p q : DocoptParser σ), Feeds L ts p q → SameTree p q := by
  intro ts
  induction ts with
  | nil => intro p q h; cases h; exact SameTree.sameTree_refl p
  | cons t ts ih =>
    intro p q h
    obtain ⟨p1, hnt, _, _, hrest⟩ := h
    exact (NextToken_sameTree L p p1 hnt).sameTree_trans (ih p1 q hrest)

/-- An iteration of the loop of `Consume_Prologue` on a token that is neither `USAGE` nor
`EOF`: the token becomes a `Prologue_node` leaf of the current node. -/
theorem Consume_Prologue_body_collect (L : StateLexer σ) (p p1 : DocoptParser σ) (t : Token)
    (h : Heap) (c : Nat) (hnt : NextToken L p = Res.ok () p1) (ht : p1.current_token = some t)
    (h1 : t.Typ ≠ TokKind.USAGE) (h2 : t.Typ ≠ TokKind.EOF) (hc : c < h.length) :
    Consume_Prologue_body L (p.withTree h (some c)) =
      Res.ok (Ctl.next ()) (p1.withTree (AddNode h c DocoptNodeType.Prologue_node (some t)).1 (some c)) := by
  obtain ⟨n, hn⟩ : ∃ n, h[c]? = some n := ⟨h[c], List.getElem?_eq_getElem hc⟩
  have ht' : (p1.withTree h (some c)).current_token = some t := ht
  simp only [Consume_Prologue_body, bind_apply, NextToken_withTree_ok L h (some c) p p1 hnt,
    getP_apply, ht', deref_some, h1, if_false]
  rw [addLeaf_ok (p1.withTree h (some c)) c n _ rfl hn]
  simp [h2, ht, DocoptParser.withTree]

theorem forRun_Feeds_Prologue (L : StateLexer σ) (c : Nat) :
    ∀ (ts : List Token) (p q : DocoptParser σ) (h : Heap), Feeds L ts p q →
      (∀ t ∈ ts, t.Typ ≠ TokKind.USAGE ∧ t.Typ ≠ TokKind.EOF) → p.run = true → c < h.length →
      q.run = true ∧
      ∀ k, forRun (fun (_ : Unit) => Consume_Prologue_body L) (ts.length + k) ()
            (p.withTree h (some c)) =
          forRun (fun (_ : Unit) => Consume_Prologue_body L) k ()
            (q.withTree (addLeaves h c DocoptNodeType.Prologue_node ts) (some c)) := by
  intro ts
  induction ts with
  | nil =>
    intro p q h hf _ hrun _
    cases hf
    exact ⟨hrun, fun k => by simp [addLeaves]⟩
  | cons t ts ih =>
    intro p q h hf hts hrun hc
    obtain ⟨p1, hnt, hrun1, ht, hrest⟩ := hf
    have ht12 := hts t (List.mem_cons_self t ts)
    obtain ⟨hq, hk⟩ := ih p1 q (AddNode h c DocoptNodeType.Prologue_node (some t)).1 hrest
      (fun t' ht' => hts t' (List.mem_cons_of_mem t ht')) hrun1 (by simp; omega)
    refine ⟨hq, fun k => ?_⟩
    rw [show (t :: ts).length + k = (ts.length + k) + 1 by simp; omega,
      forRun_next _ _ _ _ _ _ (show (p.withTree h (some c)).run = true from hrun)
        (Consume_Prologue_body_collect L p p1 t h c hnt ht ht12.1 ht12.2 hc)]
    exact hk k

end

section
variable {σ : Type}

theorem CreateNode_child (p : DocoptParser σ) (k : DocoptNodeType) (t : Option Token)
    (r : Nat) (rn : DocoptAst) (hc : p.current_node = some r) (hast : p.ast ≠ none)
    (hrn : p.heap[r]? = some rn) :
    CreateNode k t p = Res.ok () (p.withTree (AddNode p.heap r k t).1 (some p.heap.length)) := by
  simp [CreateNode, CreateNode_alloc, hc, addNode_ok p r rn hrn, hast, DocoptParser.withTree]

theorem Consume_Prologue_body_USAGE (L : StateLexer σ) (p p1 : DocoptParser σ) (u : Token)
    (h : Heap) (c : Option Nat) (r : Nat) (rn : DocoptAst)
    (hnt : NextToken L p = Res.ok () p1) (hu : p1.current_token = some u)
    (huty : u.Typ = TokKind.USAGE) (hast : p1.ast = some r) (hr : h[r]? = some rn) :
    Consume_Prologue_body L (p.withTree h c) =
      Res.ok (Ctl.brk none)
        (p1.withTree (AddNode (AddNode h r DocoptNodeType.Usage_section none).1 h.length
          DocoptNodeType.Usage (some u)).1 (some h.length)) := by
  have hlt : r < h.length := (List.getElem?_eq_some_iff.mp hr).1
  have hnew := getElem?_AddNode_new h r DocoptNodeType.Usage_section none hlt
  simp only [Consume_Prologue_body, bind_apply, NextToken_withTree_ok L h c p p1 hnt]
  simp [DocoptParser.withTree, hu, huty, hast, addNode, readNode, hr, hnew]

theorem Consume_Prologue_body_EOF (L : StateLexer σ) (p p1 : DocoptParser σ) (u : Token)
    (h : Heap) (c : Nat) (hnt : NextToken L p = Res.ok () p1) (hu : p1.current_token = some u)
    (huty : u.Typ = TokKind.EOF) (hc : c < h.length) :
    Consume_Prologue_body L (p.withTree h (some c)) =
      Res.ok (Ctl.brk (some Err.prologue_EOF))
        (p1.withTree (AddNode h c DocoptNodeType.Prologue_node (some u)).1 (some c)) := by
  obtain ⟨n, hn⟩ : ∃ n, h[c]? = some n := ⟨h[c], List.getElem?_eq_getElem hc⟩
  simp only [Consume_Prologue_body, bind_apply, NextToken_withTree_ok L h (some c) p p1 hnt]
  simp [DocoptParser.withTree, hu, huty, addLeaf, addNode, readNode, hn]

/-- C16: `Consume_Prologue` called on a running parser whose current node is the root `r`
(`p.ast`), when the tokens `NextToken` delivers are `ts`, none of them `USAGE` or `EOF`,
and then `u`.  (1) If `u` is a `USAGE` token the routine returns nil; `ts.length + 3`
nodes are allocated: the `Prologue` node, appended to the children of the root, whose
children are exactly the `ts.length` nodes allocated after it, in order, the `i`-th being
a childless `Prologue_node` carrying the `i`-th token; then a `Usage_section` node,
appended to the children of the root, whose only child is the `Usage` node allocated
last, which carries `u`; the current node is the `Usage_section`; every other node is
unchanged.  (2) If `u` is an `EOF` token the routine returns a non-nil error. -/
theorem Consume_Prologue_collects (L : StateLexer σ) (fuel : Nat) (ts : List Token) (u : Token)
    (p q q1 : DocoptParser σ) (r : Nat) (rn : DocoptAst)
    (hrun : p.run = true) (hc : p.current_node = some r) (hast : p.ast = some r)
    (hrn : p.heap[r]? = some rn)
    (hfeed : Feeds L ts p q)
    (hts : ∀ t ∈ ts, t.Typ ≠ TokKind.USAGE ∧ t.Typ ≠ TokKind.EOF)
    (hnt : NextToken L q = Res.ok () q1) (hu : q1.current_token = some u)
    (hfuel : ts.length < fuel) :
    (u.Typ = TokKind.USAGE →
      ∃ h', Consume_Prologue L fuel p =
          Res.ok none (q1.withTree h' (some (p.heap.length + 1 + ts.length))) ∧
        h'.length = p.heap.length + ts.length + 3 ∧
        h'[p.heap.length]? = some
          { Typ := DocoptNodeType.Prologue, Token := none,
            Children := List.range' (p.heap.length + 1) ts.length, Parent := some r,
            Repeat := false } ∧
        (∀ (i : Nat) (hi : i < ts.length), h'[p.heap.length + 1 + i]? = some
          { Typ := DocoptNodeType.Prologue_node, Token := some (ts.get ⟨i, hi⟩), Children := [],
            Parent := some p.heap.length, Repeat := false }) ∧
        h'[p.heap.length + 1 + ts.length]? = some
          { Typ := DocoptNodeType.Usage_section, Token := none,
            Children := [p.heap.length + 2 + ts.length], Parent := some r, Repeat := false } ∧
        h'[p.heap.length + 2 + ts.length]? = some
          { Typ := DocoptNodeType.Usage, Token := some u, Children := [],
            Parent := some (p.heap.length + 1 + ts.length), Repeat := false } ∧
        h'[r]? = some
          { rn with Children := rn.Children ++ [p.heap.length, p.heap.length + 1 + ts.length] } ∧
        ∀ j, j < p.heap.length → j ≠ r → h'[j]? = p.heap[j]?) ∧
    (u.Typ = TokKind.EOF →
      ∃ h', Consume_Prologue L fuel p =
        Res.ok (some Err.prologue_EOF) (q1.withTree h' (some p.heap.length))) := by
  have hrlt : r < p.heap.length := (List.getElem?_eq_some_iff.mp hrn).1
  have hast' : p.ast ≠ none := by rw [hast]; simp
  obtain ⟨k, rfl⟩ : ∃ k, fuel = ts.length + (k + 1) := ⟨fuel - ts.length - 1, by omega⟩
  have hlen1 : (AddNode p.heap r DocoptNodeType.Prologue none).1.length = p.heap.length + 1 := by
    simp
  obtain ⟨hq, hk⟩ := forRun_Feeds_Prologue L p.heap.length ts p q
    (AddNode p.heap r DocoptNodeType.Prologue none).1 hfeed hts hrun (by rw [hlen1]; omega)
  have hstart : Consume_Prologue L (ts.length + (k + 1)) p =
      (forRun (fun (_ : Unit) => Consume_Prologue_body L) (k + 1) () >>=
        fun x => loopResult x Err.prologue_parser_stoped)
        (q.withTree (addLeaves (AddNode p.heap r DocoptNodeType.Prologue none).1 p.heap.length
          DocoptNodeType.Prologue_node ts) (some p.heap.length)) := by
    simp only [Consume_Prologue, bind_apply, CreateNode_child p _ _ r rn hc hast' hrn, hk (k + 1)]
  have hq1ast : q1.ast = some r := by
    rw [(NextToken_sameTree L q q1 hnt).2.2.2, (Feeds_sameTree L ts p q hfeed).2.2.2]
    exact hast
  have hpro := getElem?_AddNode_new p.heap r DocoptNodeType.Prologue none hrlt
  have hroot1 := getElem?_AddNode_parent p.heap r DocoptNodeType.Prologue none rn hrn
  have hlen2 : (addLeaves (AddNode p.heap r DocoptNodeType.Prologue none).1 p.heap.length
      DocoptNodeType.Prologue_node ts).length = p.heap.length + 1 + ts.length := by
    rw [length_addLeaves, hlen1]
  have hroot2 : (addLeaves (AddNode p.heap r DocoptNodeType.Prologue none).1 p.heap.length
      DocoptNodeType.Prologue_node ts)[r]? = _ :=
    (getElem?_addLeaves_of_ne p.heap.length DocoptNodeType.Prologue_node ts _ r
      (by rw [hlen1]; omega) (by omega)).trans hroot1
  refine ⟨fun huty => ?_, fun huty => ?_⟩
  · have hqrun : (q.withTree (addLeaves (AddNode p.heap r DocoptNodeType.Prologue none).1
        p.heap.length DocoptNodeType.Prologue_node ts) (some p.heap.length)).run = true := hq
    have hb := Consume_Prologue_body_USAGE L q q1 u _ (some p.heap.length) r _ hnt hu huty hq1ast
      hroot2
    have hrun' := hstart
    rw [bind_apply, forRun_brk _ _ _ _ _ _ hqrun hb, hlen2] at hrun'
    -- the four arenas
    have hpro2 := getElem?_addLeaves_parent p.heap.length DocoptNodeType.Prologue_node ts _ _ hpro
    have hleaf2 := fun (i : Nat) (hi : i < ts.length) =>
      getElem?_addLeaves_new p.heap.length DocoptNodeType.Prologue_node ts
        (AddNode p.heap r DocoptNodeType.Prologue none).1 i hi (by rw [hlen1]; omega)
    have hother2 := fun (j : Nat) (hj : j < p.heap.length) =>
      getElem?_addLeaves_of_ne p.heap.length DocoptNodeType.Prologue_node ts
        (AddNode p.heap r DocoptNodeType.Prologue none).1 j (by rw [hlen1]; omega) (by omega)
    rw [hlen1] at hpro2 hleaf2
    generalize addLeaves (AddNode p.heap r DocoptNodeType.Prologue none).1 p.heap.length
      DocoptNodeType.Prologue_node ts = h2 at *
    have hlen3 : (AddNode h2 r DocoptNodeType.Usage_section none).1.length =
        p.heap.length + 2 + ts.length := by simp [hlen2]; omega
    have hsec3 := getElem?_AddNode_new h2 r DocoptNodeType.Usage_section none
      (by rw [hlen2]; omega)
    have hroot3 := getElem?_AddNode_parent h2 r DocoptNodeType.Usage_section none _ hroot2
    have hother3 := fun (j : Nat) (hj : j < h2.length) (hjr : j ≠ r) =>
      getElem?_AddNode_of_ne h2 r DocoptNodeType.Usage_section none j hj hjr
    rw [hlen2] at hsec3 hroot3
    generalize hh3 : (AddNode h2 r DocoptNodeType.Usage_section none).1 = h3 at *
    have husage4 := getElem?_AddNode_new h3 (p.heap.length + 1 + ts.length) DocoptNodeType.Usage
      (some u) (by rw [hlen3]; omega)
    have hsec4 := getElem?_AddNode_parent h3 (p.heap.length + 1 + ts.length) DocoptNodeType.Usage
      (some u) _ hsec3
    have hother4 := fun (j : Nat) (hj : j < h3.length) (hjr : j ≠ p.heap.length + 1 + ts.length) =>
      getElem?_AddNode_of_ne h3 (p.heap.length + 1 + ts.length) DocoptNodeType.Usage (some u) j
        hj hjr
    rw [hlen3] at husage4 hsec4
    refine ⟨(AddNode h3 (p.heap.length + 1 + ts.length) DocoptNodeType.Usage (some u)).1,
      hrun'.trans (by simp [loopResult]), by simp [hlen3]; omega, ?_, ?_, ?_, ?_, ?_, ?_⟩
    · rw [hother4 _ (by rw [hlen3]; omega) (by omega),
        hother3 _ (by rw [hlen2]; omega) (by omega)]
      exact hpro2
    · intro i hi
      rw [hother4 _ (by rw [hlen3]; omega) (by omega),
        hother3 _ (by rw [hlen2]; omega) (by omega)]
      exact hleaf2 i hi
    · simpa using hsec4
    · exact husage4
    · rw [hother4 _ (by rw [hlen3]; omega) (by omega)]
      simpa using hroot3
    · intro j hj hjr
      rw [hother4 _ (by rw [hlen3]; omega) (by omega),
        hother3 _ (by rw [hlen2]; omega) hjr, hother2 j hj]
      exact getElem?_AddNode_of_ne _ _ _ _ _ hj hjr
  · have hqrun : (q.withTree (addLeaves (AddNode p.heap r DocoptNodeType.Prologue none).1
        p.heap.length DocoptNodeType.Prologue_node ts) (some p.heap.length)).run = true := hq
    have hb := Consume_Prologue_body_EOF L q q1 u _ p.heap.length hnt hu huty
      (by rw [hlen2]; omega)
    exact ⟨(AddNode (addLeaves (AddNode p.heap r DocoptNodeType.Prologue none).1 p.heap.length
        DocoptNodeType.Prologue_node ts) p.heap.length DocoptNodeType.Prologue_node (some u)).1,
      by rw [hstart, bind_apply, forRun_brk _ _ _ _ _ _ hqrun hb]; simp [loopResult]⟩

end

section

set_option maxRecDepth 100000 in
/-- Witness of `Consume_Prologue_collects`: on `My tool Usage:` the prologue holds the two
words and the usage section the heading; on `My` alone the end of the input is an error. -/
theorem Consume_Prologue_collects_witness :
    (∃ h', Consume_Prologue listLexer 8 (prologueState wordsThenUsage) =
        Res.ok none ((afterTokens listLexer 3 (prologueState wordsThenUsage)).withTree h'
          (some 4)) ∧
      h'.length = 6 ∧
      h'[1]? = some (mkNode DocoptNodeType.Prologue none [2, 3] (some 0)) ∧
      h'[2]? = some (mkNode DocoptNodeType.Prologue_node (some ⟨TokKind.IDENT, "My", 0⟩) []
        (some 1)) ∧
      h'[3]? = some (mkNode DocoptNodeType.Prologue_node (some ⟨TokKind.IDENT, "tool", 1⟩) []
        (some 1)) ∧
      h'[4]? = some (mkNode DocoptNodeType.Usage_section none [5] (some 0)) ∧
      h'[5]? = some (mkNode DocoptNodeType.Usage (some ⟨TokKind.USAGE, "Usage:", 2⟩) []
        (some 4)) ∧
      h'[0]? = some (mkNode DocoptNodeType.Root none [1, 4] none)) ∧
    (∃ h', Consume_Prologue listLexer 8 (prologueState wordThenEnd) =
      Res.ok (some Err.prologue_EOF)
        ((afterTokens listLexer 2 (prologueState wordThenEnd)).withTree h' (some 1))) := by
  refine ⟨?_, ?_⟩
  · obtain ⟨h', hrun, hlen, h1, hi, h4, h5, h0, _⟩ :=
      (Consume_Prologue_collects listLexer 8
        [⟨TokKind.IDENT, "My", 0⟩, ⟨TokKind.IDENT, "tool", 1⟩] ⟨TokKind.USAGE, "Usage:", 2⟩
        (prologueState wordsThenUsage)
        (afterTokens listLexer 2 (prologueState wordsThenUsage))
        (afterTokens listLexer 3 (prologueState wordsThenUsage))
        0 (mkNode DocoptNodeType.Root none [] none)
        (by decide) (by decide) (by decide) (by decide)
        ⟨afterTokens listLexer 1 (prologueState wordsThenUsage), by decide, by decide,
          by decide, afterTokens listLexer 2 (prologueState wordsThenUsage), by decide,
          by decide, by decide, rfl⟩
        (by decide) (by decide) (by decide) (by decide)).1 (by decide)
    exact ⟨h', hrun, hlen, h1, hi 0 (by decide), hi 1 (by decide), h4, h5, h0⟩
  · exact (Consume_Prologue_collects listLexer 8 [⟨TokKind.IDENT, "My", 0⟩]
      ⟨TokKind.EOF, "", 1⟩ (prologueState wordThenEnd)
      (afterTokens listLexer 1 (prologueState wordThenEnd))
      (afterTokens listLexer 2 (prologueState wordThenEnd))
      0 (mkNode DocoptNodeType.Root none [] none)
      (by decide) (by decide) (by decide) (by decide)
      ⟨afterTokens listLexer 1 (prologueState wordThenEnd), by decide, by decide,
        by decide, rfl⟩
      (by decide) (by decide) (by decide) (by decide)).2 (by decide)

end

/-! ## Theorems: free sections -/

section
variable {σ : Type}

/-- The loop rule when the loop can end because the parser stopped. -/
theorem sat_forRun_stopped {γ β : Type} (body : γ → M σ (Ctl γ β))
    (Inv : γ → DocoptParser σ → Prop) (Q : Option β → DocoptParser σ → Prop)
    (I : DocoptParser σ → Prop)
    (hb : ∀ c q, Inv c q → q.run = true →
      (body c q).sat (fun ctl q1 => (∀ c1, ctl = Ctl.next c1 → Inv c1 q1) ∧
        (∀ b, ctl = Ctl.brk b → Q (some b) q1)) I)
    (hexit : ∀ c q, Inv c q → q.run = false → Q none q)
    (htime : ∀ c q, Inv c q → I q) :
    ∀ k c q, Inv c q → (forRun body k c q).sat Q I := by
  intro k
  induction k with
  | zero =>
    intro c q hq
    by_cases h : q.run = true
    · simp [forRun, h, htime c q hq]
    · simp [forRun, h, hexit c q hq (by simpa using h)]
  | succ k ih =>
    intro c q hq
    by_cases h : q.run = true
    · rw [forRun_succ _ _ _ _ h]
      have hb1 := hb c q hq h
      cases hbody : body c q with
      | ok ctl q1 =>
        rw [hbody] at hb1
        cases ctl with
        | next c1 => exact ih c1 q1 (hb1.1 c1 rfl)
        | brk b => exact hb1.2 b rfl
      | panic q1 => rw [hbody] at hb1; exact hb1
      | timeout q1 => rw [hbody] at hb1; exact hb1
    · simp [forRun, h, hexit c q hq (by simpa using h)]

/-- With nothing asked of the states a run stops in, a postcondition of the continuation
is one of the sequence. -/
theorem sat_bind_any {α β : Type} (m : M σ α) (f : α → M σ β) (p : DocoptParser σ)
    (Q : β → DocoptParser σ → Prop) (hf : ∀ a q, (f a q).sat Q (fun _ => True)) :
    ((m >>= f) p).sat Q (fun _ => True) := by
  rw [sat_bind]
  cases m p with
  | ok a q => exact hf a q
  | panic q => trivial
  | timeout q => trivial

theorem Res.sat_value_state {α : Type} {r : Res σ α} {Q : α → DocoptParser σ → Prop}
    {I : DocoptParser σ → Prop} {B : Prop} {a : α} (h : r.sat Q I ∧ B)
    (hv : r.value? = some a) : Q a r.state := by
  cases r with
  | ok a1 p => cases hv; exact h.1
  | panic p => cases hv
  | timeout p => cases hv

end

/-! ## Theorems: the options section -/

section
variable {σ : Type}

/-- C18 as amended: when the current token is not an `options:` heading, `Consume_Options`
returns nil and leaves the current node and the token cursor as they are; it has allocated
one node, a childless `Options_section` appended to the children of the root, which
`options_node` points to; every other node is unchanged. -/
theorem Consume_Options_without_heading (L : StateLexer σ) (fuel : Nat) (p : DocoptParser σ)
    (tok : Token) (r : Nat) (rn : DocoptAst)
    (htok : p.current_token = some tok) (hast : p.ast = some r) (hrn : p.heap[r]? = some rn)
    (hno : ¬ tok.isOptionsHeading) :
    ∃ h', Consume_Options L fuel p =
        Res.ok none { p with heap := h', options_node := some p.heap.length } ∧
      h'.length = p.heap.length + 1 ∧
      h'[p.heap.length]? = some
        { Typ := DocoptNodeType.Options_section, Token := none, Children := [],
          Parent := some r, Repeat := false } ∧
      h'[r]? = some { rn with Children := rn.Children ++ [p.heap.length] } ∧
      ∀ j, j < p.heap.length → j ≠ r → h'[j]? = p.heap[j]? := by
  have hlt : r < p.heap.length := (List.getElem?_eq_some_iff.mp hrn).1
  refine ⟨(AddNode p.heap r DocoptNodeType.Options_section none).1, ?_, by simp,
    getElem?_AddNode_new _ _ _ _ hlt, getElem?_AddNode_parent _ _ _ _ _ hrn,
    fun j hj hjr => getElem?_AddNode_of_ne _ _ _ _ _ hj hjr⟩
  have hc : tok.Typ ≠ TokKind.SECTION ∨ EqualFold tok.Value "options:" = false := by
    by_cases h1 : tok.Typ = TokKind.SECTION
    · right
      cases h2 : EqualFold tok.Value "options:" with
      | false => rfl
      | true => exact absurd ⟨h1, h2⟩ hno
    · exact Or.inl h1
  simp only [Consume_Options, bind_apply, getP_apply, hast, addNode_ok p r rn hrn, modifyP_apply,
    htok, deref_some, if_pos hc, pure_apply]

set_option maxRecDepth 1000000 in
/-- Witness of `Consume_Options_without_heading`: the free section ended on `EOF`.  The
heading `Optionſ:`, written with the long s U+017F, is an `options:` heading: on it
`Consume_Options` reads the section, whose name is the node 4. -/
theorem Consume_Options_without_heading_witness :
    (∃ h', Consume_Options listLexer 8 noOptionsState =
        Res.ok none { noOptionsState with heap := h', options_node := some 3 } ∧
      h'.length = 4 ∧
      h'[3]? = some (mkNode DocoptNodeType.Options_section none [] (some 0)) ∧
      h'[0]? = some (mkNode DocoptNodeType.Root none [1, 2, 3] none)) ∧
    Token.isOptionsHeading ⟨TokKind.SECTION, "Optionſ:", 0⟩ ∧
    (Consume_Options listLexer 8 longSHeadingState).value? = some none ∧
    (Consume_Options listLexer 8 longSHeadingState).state.heap[3]? =
      some (mkNode DocoptNodeType.Options_section none [4, 5, 10] (some 0)) ∧
    (Consume_Options listLexer 8 longSHeadingState).state.heap[4]? =
      some (mkNode DocoptNodeType.Section_name (some ⟨TokKind.SECTION, "Optionſ:", 0⟩) []
        (some 3)) := by
  refine ⟨?_, ⟨rfl, by decide!⟩, by decide!, by decide!, by decide!⟩
  obtain ⟨h', hrun, hlen, h3, h0, _⟩ := Consume_Options_without_heading listLexer 8
    noOptionsState ⟨TokKind.EOF, "", 0⟩ 0 (mkNode DocoptNodeType.Root none [1, 2] none)
    (by decide) (by decide) (by decide) (fun h => absurd h.1 (by decide))
  exact ⟨h', hrun, hlen, h3, h0⟩

set_option maxRecDepth 100000 in
/-- C18 fails on the tree: called with `EOF` as current token, `Consume_Options` returns
nil, the current node and the cursor are unchanged, but the root has gained an
`Options_section` child. -/
theorem Consume_Options_adds_section_node :
    Consume_Options listLexer 8 noOptionsState = Res.ok none
      { noOptionsState with
        heap := [mkNode DocoptNodeType.Root none [1, 2, 3] none,
                 mkNode DocoptNodeType.Usage_section none [] (some 0),
                 mkNode DocoptNodeType.Free_section none [] (some 0),
                 mkNode DocoptNodeType.Options_section none [] (some 0)],
        options_node := some 3 } := by
  decide

set_option maxRecDepth 100000 in
/-- C19 (what the code does on `-h, --help  Show`): `Consume_option_line` returns nil and
the `Option_line` node holds the `Option_short` and `Option_long` nodes directly, followed
by the `Option_description`; the `,` is skipped and no `Option_alternative_group` is
created. -/
theorem Consume_option_line_names_are_direct_children :
    Consume_option_line listLexer 8 (optionLineState helpLine ⟨TokKind.SHORT, "-h", 1⟩) =
      Res.ok none
        { optionLineState helpLine ⟨TokKind.SHORT, "-h", 1⟩ with
          heap := helpLineHeapAfter,
          current_token := some ⟨TokKind.NEWLINE, "\n", 7⟩,
          next_token := some ⟨TokKind.EOF, "", 8⟩,
          tokens := [some ⟨TokKind.LONG_BLANK, "  ", 0⟩, some ⟨TokKind.SHORT, "-h", 1⟩,
            some ⟨TokKind.PUNCT, ",", 2⟩, some ⟨TokKind.LONG, "--help", 3⟩,
            some ⟨TokKind.LONG_BLANK, "  ", 4⟩, some ⟨TokKind.IDENT, "Show", 5⟩,
            some ⟨TokKind.NEWLINE, "\n", 6⟩, some ⟨TokKind.NEWLINE, "\n", 7⟩],
          s := { State_name := "state_Options", input := helpLine, pos := 8 } } := by
  decide!

set_option maxRecDepth 100000 in
/-- C20 (what the code does): when the assignment rule rejects a `=`, on `-h = x` (the
token after `=` is not an `ARGUMENT`) and on `= <x>` (no option name precedes),
`Consume_option_line` leaves its loop and returns nil; when the rule rejects the bare
argument of `<x>` it returns the error of `Consume_assign`. The `=` case never ends the
loop with an error. -/
theorem Consume_option_line_drops_assign_error :
    (Consume_option_line listLexer 8
      (optionLineState assignWordLine ⟨TokKind.SHORT, "-h", 1⟩)).value? = some none ∧
    (Consume_option_line listLexer 8
      (optionLineState assignFirstLine ⟨TokKind.PUNCT, "=", 1⟩)).value? = some none ∧
    (Consume_option_line listLexer 8
      (optionLineState argumentFirstLine ⟨TokKind.ARGUMENT, "<x>", 1⟩)).value? =
        some (some Err.assign_no_child) ∧
    (∀ (p q : DocoptParser ListLexerState) (e : Err),
      Consume_option_line_assign listLexer p ≠ Res.ok (Ctl.brk (some e)) q) := by
  refine ⟨by decide!, by decide!, by decide!, ?_⟩
  intro p q e h
  simp only [Consume_option_line_assign, bind_apply, getP_apply] at h
  cases ha : Consume_assign p.next_token p with
  | ok v p1 =>
    rw [ha] at h
    by_cases hv : v ≠ none
    · simp [hv, pure_apply] at h
    · simp only [if_neg hv, bind_apply] at h
      cases hn : NextToken listLexer p1 with
      | ok u p2 => rw [hn] at h; simp [pure_apply] at h
      | panic p2 => rw [hn] at h; simp at h
      | timeout p2 => rw [hn] at h; simp at h
  | panic p1 => rw [ha] at h; simp at h
  | timeout p1 => rw [ha] at h; simp at h

end

/-! ## Theorems: the token cursor -/

section
variable {σ : Type}

theorem try_get_NextToken_aux_next_current (L : StateLexer σ) (k : Nat) (p : DocoptParser σ) :
    (try_get_NextToken_aux L Slot.next k p).2.current_token = p.current_token := by
  induction k generalizing p with
  | zero => rfl
  | succ k ih =>
    unfold try_get_NextToken_aux
    split
    · rfl
    · split
      · rfl
      · dsimp only
        split
        · rfl
        · exact ih _

/-- With a lookahead and no pending change of lexer state, whatever the tokenizer does,
a call of `NextToken` that returns makes the lookahead the current token. -/
theorem NextToken_current_of_lookahead (L : StateLexer σ) (p q : DocoptParser σ) (nt : Token)
    (hnt : p.next_token = some nt) (hch : p.lexer_state_changed = false)
    (h : NextToken L p = Res.ok () q) : q.current_token = some nt := by
  have e1 : NextToken_relex L p = Res.ok () p := by
    simp [NextToken_relex, hch]
  have e2 : NextToken_current L p = Res.ok () { p with current_token := some nt } := by
    simp [NextToken_current, hnt]
  simp only [NextToken, bind_apply, e1, e2, try_get_NextToken, getP_apply, whenM] at h
  have hcur := try_get_NextToken_aux_next_current L (p.max_error - p.Error_count)
    { p with current_token := some nt }
  generalize (try_get_NextToken_aux L Slot.next (p.max_error - p.Error_count)
    { p with current_token := some nt }).2 = q3 at h hcur
  by_cases hc : q3.Error_count ≥ q3.max_error
  · simp [hc] at h
    rw [← h]
    exact hcur
  · simp [hc] at h
    rw [← h]
    exact hcur

end

/-! ## Theorems: too many errors -/

section
variable {σ : Type}

/-- A loop entered when the parser is stopped does nothing. -/
theorem forRun_stopped {γ β : Type} (body : γ → M σ (Ctl γ β)) (k : Nat) (c : γ)
    (p : DocoptParser σ) (h : p.run = false) : forRun body k c p = Res.ok none p := by
  cases k <;> simp [forRun, h]

theorem try_get_NextToken_aux_run (L : StateLexer σ) (slot : Slot) (k : Nat)
    (p : DocoptParser σ) :
    (try_get_NextToken_aux L slot k p).2.run = p.run ∧
      (try_get_NextToken_aux L slot k p).2.max_error = p.max_error := by
  induction k generalizing p with
  | zero => exact ⟨rfl, rfl⟩
  | succ k ih =>
    unfold try_get_NextToken_aux
    split
    · exact ⟨rfl, rfl⟩
    · split
      · cases slot <;> exact ⟨rfl, rfl⟩
      · dsimp only
        split
        · exact ⟨rfl, rfl⟩
        · exact ⟨(ih _).1, (ih _).2⟩

theorem Keeps_try_get_NextToken_run (L : StateLexer σ) (slot : Slot) :
    Keeps (fun p q => q.run = p.run ∧ q.max_error = p.max_error) (try_get_NextToken L slot) :=
  fun p => try_get_NextToken_aux_run L slot _ p

/-- What `NextToken` does to `run`: the steps before its test leave `run` and `max_error`
as they are, the test sets `run` to false exactly when the error count has reached the
maximum. -/
theorem sat_NextToken_run (L : StateLexer σ) (p : DocoptParser σ) :
    (NextToken L p).sat
      (fun _ q => q.max_error = p.max_error ∧ (q.max_error ≤ q.Error_count → q.run = false) ∧
        (q.Error_count < q.max_error → q.run = p.run))
      (fun _ => True) := by
  have hr : ∀ q : DocoptParser σ, q.run = q.run ∧ q.max_error = q.max_error :=
    fun _ => ⟨rfl, rfl⟩
  have ht : ∀ a b c : DocoptParser σ, b.run = a.run ∧ b.max_error = a.max_error →
      c.run = b.run ∧ c.max_error = b.max_error → c.run = a.run ∧ c.max_error = a.max_error :=
    fun _ _ _ h1 h2 => ⟨h2.1.trans h1.1, h2.2.trans h1.2⟩
  have hrelex : Keeps (fun p q : DocoptParser σ => q.run = p.run ∧ q.max_error = p.max_error)
      (NextToken_relex L) := by
    unfold NextToken_relex removeBack
    with_reducible repeat' (first
      | exact Keeps_pure hr _
      | exact Keeps_getP hr
      | exact Keeps_panicM hr
      | exact Keeps_deref hr _
      | apply Keeps_ite
      | apply Keeps_bind ht
      | intro _
      | with_unfolding_all exact Keeps_modifyP (fun _ => ⟨rfl, rfl⟩))
  have hcur : Keeps (fun p q : DocoptParser σ => q.run = p.run ∧ q.max_error = p.max_error)
      (NextToken_current L) := by
    unfold NextToken_current
    with_reducible repeat' (first
      | exact Keeps_pure hr _
      | exact Keeps_getP hr
      | exact Keeps_try_get_NextToken_run L _
      | apply Keeps_ite
      | apply Keeps_bind ht
      | intro _
      | with_unfolding_all exact Keeps_modifyP (fun _ => ⟨rfl, rfl⟩))
  unfold NextToken
  rw [sat_bind]
  refine sat_mono (hrelex p) (fun _ q1 h1 => ?_) (fun _ _ => trivial)
  rw [sat_bind]
  refine sat_mono (hcur q1) (fun _ q2 h2 => ?_) (fun _ _ => trivial)
  rw [sat_bind]
  refine sat_mono (Keeps_try_get_NextToken_run L Slot.next q2) (fun _ q3 h3 => ?_)
    (fun _ _ => trivial)
  have hq := ht _ _ _ (ht _ _ _ h1 h2) h3
  simp only [sat_bind, getP_apply, sat_ok, sat_whenM, FatalError_apply, modifyP_apply]
  exact ⟨fun hge => ⟨hq.2, by simp, fun hlt => absurd hge (Nat.not_le.mpr hlt)⟩,
    fun hlt => ⟨hq.2, fun hge => absurd hge hlt, fun _ => hq.1⟩⟩

/-- `NextToken` returns unless it has to drop the back of an empty history. -/
theorem NextToken_returns (L : StateLexer σ) (p : DocoptParser σ)
    (h : p.tokens ≠ [] ∨ p.next_token = none ∨ p.lexer_state_changed = false) :
    ∃ q, NextToken L p = Res.ok () q := by
  have hrelex : ∃ q1, NextToken_relex L p = Res.ok () q1 := by
    unfold NextToken_relex
    by_cases hc : p.next_token ≠ none ∧ p.lexer_state_changed = true
    · have hne : p.tokens ≠ [] := by
        rcases h with h | h | h
        · exact h
        · exact absurd h hc.1
        · rw [hc.2] at h; cases h
      obtain ⟨nt, hnt⟩ := Option.ne_none_iff_exists'.mp hc.1
      simp [hc, hnt, removeBack, hne]
    · simp [hc]
  obtain ⟨q1, h1⟩ := hrelex
  have hcur : ∃ q2, NextToken_current L q1 = Res.ok () q2 := by
    unfold NextToken_current
    by_cases hc : q1.next_token = none
    · simp [hc, try_get_NextToken]
    · simp [hc]
  obtain ⟨q2, h2⟩ := hcur
  simp only [NextToken, bind_apply, h1, h2, try_get_NextToken, getP_apply, whenM]
  by_cases hc : (try_get_NextToken_aux L Slot.next (q2.max_error - q2.Error_count) q2).2.Error_count ≥
      (try_get_NextToken_aux L Slot.next (q2.max_error - q2.Error_count) q2).2.max_error
  · simp [hc]
  · simp [hc]

theorem sat_Consume_loop_finish_stopped (c : Consumer_Definition σ) (saved : Option Nat)
    (r : Option (Reason × Option Err)) (p : DocoptParser σ) :
    (Consume_loop_finish c saved r p).sat
      (fun x q => q.run = false → x.1 = Reason.Error ∧ x.2 ≠ none) (fun _ => True) := by
  unfold Consume_loop_finish
  rw [sat_bind, getP_apply]
  simp only [sat_ok]
  by_cases hrun : p.run = true
  · rw [if_pos hrun, sat_bind, sat_whenM]
    refine ⟨fun _ => ?_, fun _ => ?_⟩
    · rw [setCurrentNode_apply, sat_ok, pure_apply, sat_ok]
      intro h
      rw [hrun] at h
      cases h
    · rw [pure_apply, sat_ok]
      intro h
      rw [hrun] at h
      cases h
  · rw [if_neg hrun, sat_bind, sat_readNode]
    refine ⟨fun i nd _ _ => ?_, fun _ => trivial⟩
    rw [pure_apply, sat_ok]
    intro _
    exact ⟨rfl, by simp⟩

/-- Whenever `Consume_loop` returns with the parser stopped, it returns the `Error`
reason and a non-nil error. -/
theorem sat_Consume_loop_stopped (L : StateLexer σ) (c : Consumer_Definition σ) (fuel : Nat)
    (p : DocoptParser σ) :
    (Consume_loop L c fuel p).sat
      (fun x q => q.run = false → x.1 = Reason.Error ∧ x.2 ≠ none) (fun _ => True) := by
  unfold Consume_loop
  apply sat_bind_any
  intro _ q1
  apply sat_bind_any
  intro q2 q3
  apply sat_bind_any
  intro _ q4
  apply sat_bind_any
  intro r q5
  exact sat_Consume_loop_finish_stopped c _ r q5

/-- `Consume_loop` entered with the parser stopped: the loop is skipped and the last branch
returns `Error` with the error "parser stoped". -/
theorem Consume_loop_entered_stopped (L : StateLexer σ) (c : Consumer_Definition σ) (fuel : Nat)
    (p : DocoptParser σ) (i : Nat) (n : DocoptAst) (hrun : p.run = false)
    (hc : p.current_node = some i) (hn : p.heap[i]? = some n)
    (hrej : c.reject_first_token = true → p.current_token ≠ none ∧ p.tokens ≠ []) :
    ∃ q, Consume_loop L c fuel p = Res.ok (Reason.Error, some (Err.loop_parser_stoped n.Typ)) q ∧
      q.run = false := by
  have hlt : i < p.heap.length := (List.getElem?_eq_some_iff.mp hn).1
  -- the optional creation of the toplevel node
  obtain ⟨h1, hh1, hlen1⟩ : ∃ h1 : Heap, (∃ n1, h1[i]? = some n1 ∧ n1.Typ = n.Typ) ∧
      (whenM (c.create_node = true) (do
        let p ← getP
        let _ ← addNode p.current_node c.toplevel_node none
        pure ()) : M σ Unit) p = Res.ok () { p with heap := h1 } := by
    by_cases hcn : c.create_node = true
    · refine ⟨(AddNode p.heap i c.toplevel_node none).1,
        ⟨_, getElem?_AddNode_parent _ _ _ _ _ hn, rfl⟩, ?_⟩
      simp [whenM, hcn, hc, addNode_ok p i n hn]
    · refine ⟨p.heap, ⟨n, hn, rfl⟩, ?_⟩
      simp [whenM, hcn]
  obtain ⟨n1, hn1, hty⟩ := hh1
  -- the optional rejection of the first token
  obtain ⟨q, hq, hqrun, hqc, hqh⟩ : ∃ q : DocoptParser σ,
      (whenM (c.reject_first_token = true) (reject_current_token L) : M σ Unit)
        { p with heap := h1 } = Res.ok () q ∧ q.run = false ∧ q.current_node = some i ∧
        q.heap = h1 := by
    by_cases hr : c.reject_first_token = true
    · obtain ⟨htok, hne⟩ := hrej hr
      obtain ⟨t, ht⟩ := Option.ne_none_iff_exists'.mp htok
      refine ⟨{ p with heap := h1, s := L.Reject t p.s, next_token := none,
                       current_token := none, tokens := p.tokens.dropLast }, ?_, hrun, hc, rfl⟩
      simp [whenM, hr, reject_current_token, ht, removeBack, hne]
    · refine ⟨{ p with heap := h1 }, ?_, hrun, hc, rfl⟩
      simp [whenM, hr]
  refine ⟨q, ?_, hqrun⟩
  have hn1' : q.heap[i]? = some n1 := by rw [hqh]; exact hn1
  simp only [Consume_loop, bind_apply, hlen1, getP_apply, hq, forRun_stopped _ _ _ _ hqrun,
    Consume_loop_finish, hqrun, hqc, pure_apply]
  simp [readNode_ok q i n1 hn1', hty]

/-- C25: (1) a parser created by `ParserInit` has `max_error = 10` and `run = true`.
(2) `NextToken` returns (unless it has to drop the back of an empty history), and in the
state it returns in `max_error` is unchanged, `run` is false when `Error_count` has reached
`max_error` and is what it was before the call otherwise.  (3) Whenever `Consume_loop`
returns with `run` false it returns the `Error` reason with a non-nil error; entered with
`run` false, a valid current node and, when the first token is to be rejected, a current
token and a history to reject it from, it does return, in a state with `run` still
false. -/
theorem run_false_when_too_many_errors (L : StateLexer σ) :
    (∀ s : σ, (ParserInit s).max_error = 10 ∧ (ParserInit s).run = true) ∧
    (∀ p : DocoptParser σ,
      (NextToken L p).sat
        (fun _ q => q.max_error = p.max_error ∧ (q.max_error ≤ q.Error_count → q.run = false) ∧
          (q.Error_count < q.max_error → q.run = p.run))
        (fun _ => True)) ∧
    (∀ p : DocoptParser σ,
      p.tokens ≠ [] ∨ p.next_token = none ∨ p.lexer_state_changed = false →
      ∃ q, NextToken L p = Res.ok () q) ∧
    (∀ (c : Consumer_Definition σ) (fuel : Nat) (p : DocoptParser σ),
      (Consume_loop L c fuel p).sat
        (fun x q => q.run = false → x.1 = Reason.Error ∧ x.2 ≠ none) (fun _ => True)) ∧
    (∀ (c : Consumer_Definition σ) (fuel : Nat) (p : DocoptParser σ) (i : Nat) (n : DocoptAst),
      p.run = false → p.current_node = some i → p.heap[i]? = some n →
      (c.reject_first_token = true → p.current_token ≠ none ∧ p.tokens ≠ []) →
      ∃ q, Consume_loop L c fuel p =
          Res.ok (Reason.Error, some (Err.loop_parser_stoped n.Typ)) q ∧ q.run = false) :=
  ⟨fun _ => ⟨rfl, rfl⟩, sat_NextToken_run L, NextToken_returns L, sat_Consume_loop_stopped L,
    fun c fuel p i n hrun hc hn hrej => Consume_loop_entered_stopped L c fuel p i n hrun hc hn hrej⟩

set_option maxRecDepth 100000 in
/-- C25 on concrete runs: on ten pieces of unmatched text the first `NextToken` returns with
ten errors counted and `run` false; `Consume_loop` entered on a stopped parser returns
`Error` with the error "parser stoped". -/
theorem run_false_when_too_many_errors_witness :
    tenBadRun.returned = true ∧ tenBadRun.state.Error_count = 10 ∧
    tenBadRun.state.run = false ∧
    (∃ q, Consume_loop listLexer (consume_Expr listLexer 8) 8 stoppedUsageState =
        Res.ok (Reason.Error, some (Err.loop_parser_stoped DocoptNodeType.Usage_Expr)) q ∧
      q.run = false) :=
  ⟨by decide, by decide,
    (Res.sat_value_state (r := tenBadRun)
      (Q := fun _ q => q.max_error = 10 ∧ (q.max_error ≤ q.Error_count → q.run = false) ∧
        (q.Error_count < q.max_error → q.run = true))
      ⟨(run_false_when_too_many_errors listLexer).2.1 _, trivial⟩
      (by decide : tenBadRun.value? = some ())).2.1 (by decide),
    (run_false_when_too_many_errors listLexer).2.2.2.2 (consume_Expr listLexer 8) 8
      stoppedUsageState 3 (mkNode DocoptNodeType.Usage_Expr none [4] (some 1)) (by decide)
      (by decide) (by decide) (fun _ => ⟨by decide, by decide⟩)⟩

end

/-! ## Theorems: the token history after a lexer state change -/

section
variable {σ : Type}

theorem try_get_NextToken_aux_tokens (L : StateLexer σ) (slot : Slot) (k : Nat)
    (p : DocoptParser σ) : (try_get_NextToken_aux L slot k p).2.tokens = p.tokens := by
  induction k generalizing p with
  | zero => rfl
  | succ k ih =>
    unfold try_get_NextToken_aux
    split
    · rfl
    · split
      · cases slot <;> rfl
      · dsimp only
        split
        · rfl
        · exact ih _

/-- The history after a call of `NextToken` that finds a lookahead and a pending change of
lexer state: the back of the history, `x`, is gone, and the new current token is
appended. -/
theorem NextToken_relex_history (L : StateLexer σ) (p : DocoptParser σ) (nt : Token)
    (hist : List (Option Token)) (x : Option Token)
    (hnt : p.next_token = some nt) (hch : p.lexer_state_changed = true)
    (hh : p.tokens = hist ++ [x]) :
    ∃ q, NextToken L p = Res.ok () q ∧ q.tokens = hist ++ [q.current_token] := by
  have e1 : NextToken_relex L p = Res.ok ()
      { p with s := L.Reject nt p.s, lexer_state_changed := false, next_token := none,
               tokens := hist } := by
    simp [NextToken_relex, hnt, hch, removeBack, hh]
  have e2 : NextToken_current L
      { p with s := L.Reject nt p.s, lexer_state_changed := false, next_token := none,
               tokens := hist } = Res.ok ()
      (try_get_NextToken_aux L Slot.current (p.max_error - p.Error_count)
        { p with s := L.Reject nt p.s, lexer_state_changed := false, next_token := none,
                 tokens := hist }).2 := by
    simp [NextToken_current, try_get_NextToken]
  generalize hq2 : (try_get_NextToken_aux L Slot.current (p.max_error - p.Error_count)
        { p with s := L.Reject nt p.s, lexer_state_changed := false, next_token := none,
                 tokens := hist }).2 = q2 at e2
  have ht2 : q2.tokens = hist := by
    rw [← hq2, try_get_NextToken_aux_tokens]
  have e3 : try_get_NextToken L Slot.next q2 = Res.ok
      (try_get_NextToken_aux L Slot.next (q2.max_error - q2.Error_count) q2).1
      (try_get_NextToken_aux L Slot.next (q2.max_error - q2.Error_count) q2).2 := rfl
  generalize hq3 : (try_get_NextToken_aux L Slot.next (q2.max_error - q2.Error_count) q2).2 = q3
    at e3
  have ht3 : q3.tokens = hist := by
    rw [← hq3, try_get_NextToken_aux_tokens, ht2]
  simp only [NextToken, bind_apply, e1, e2, e3, getP_apply, whenM]
  by_cases hc : q3.Error_count ≥ q3.max_error
  · refine ⟨{ q3 with tokens := q3.tokens ++ [q3.current_token], run := false }, ?_, ?_⟩
    · simp [hc]
    · simp [ht3]
  · refine ⟨{ q3 with tokens := q3.tokens ++ [q3.current_token] }, ?_, ?_⟩
    · simp [hc]
    · simp [ht3]

end

section

set_option maxRecDepth 100000 in
/-- C24 fails after a change of lexer state.  From the state `Consume_Prologue` returns
in on `Usage: prog a`, in which `Usage:` is current,
`prog` is the lookahead and the history is `[Usage:]`: a plain `NextToken` gives the
history `[Usage:, prog]`, but `Change_lexer_state` followed by `NextToken`, as
`Consume_First_Program_Usage` does, gives the history `[prog]`: the entry of `Usage:`, which
became current and was never rejected, is removed (the token given back to the tokenizer
is the lookahead, which has no entry).  For every tokenizer, a call of `NextToken` with a
lookahead and a pending change of lexer state removes the back of the history. -/
theorem NextToken_after_state_change_drops_history :
    Consume_Prologue listLexer 8 (prologueState usageProgA) = Res.ok none headingState ∧
    NextToken listLexer headingState = Res.ok ()
      { headingState with
        s := { State_name := "state_Prologue", input := usageProgA, pos := 3 },
        current_token := some ⟨TokKind.PROG_NAME, "prog", 1⟩,
        next_token := some ⟨TokKind.IDENT, "a", 2⟩,
        tokens := [some ⟨TokKind.USAGE, "Usage:", 0⟩, some ⟨TokKind.PROG_NAME, "prog", 1⟩] } ∧
    (do Change_lexer_state listLexer "state_First_Program_Usage"
        NextToken listLexer) headingState = Res.ok ()
      { headingState with
        s := { State_name := "state_First_Program_Usage", input := usageProgA, pos := 3 },
        current_token := some ⟨TokKind.PROG_NAME, "prog", 1⟩,
        next_token := some ⟨TokKind.IDENT, "a", 2⟩,
        tokens := [some ⟨TokKind.PROG_NAME, "prog", 1⟩] } ∧
    (∀ (σ : Type) (L : StateLexer σ) (p : DocoptParser σ) (nt : Token)
        (hist : List (Option Token)) (x : Option Token),
      p.next_token = some nt → p.lexer_state_changed = true → p.tokens = hist ++ [x] →
      ∃ q, NextToken L p = Res.ok () q ∧ q.tokens = hist ++ [q.current_token]) :=
  ⟨by decide, by decide, by decide,
    fun _ L p nt hist x hnt hch hh => NextToken_relex_history L p nt hist x hnt hch hh⟩

end

/-! ## Theorems: errors counted by parse -/

section

set_option maxRecDepth 1000000 in
/-- C29 fails: an error returned by a parsing step is counted by `Parse` but not appended
to `Errors`.  For every step that returns an error, `parse_step` only adds one to
`Error_count`.  On the text `My`, without `Usage:` heading, `Parse` starts
`Consume_Prologue` in the state `prologueState`, which returns the error "EOF encountered";
the run of `Parse` returns with `Error_count = 2` and an empty `Errors`.  On `Usage: prog`,
newline, `  prog cmd`, the error "Unmatched token" is recorded once, by the `AddError` of
`Consume_Usage_Expr`, and counted twice. -/
theorem Parse_counts_errors_without_recording :
    (∀ (σ : Type) (step : M σ (Option Err)) (p q : DocoptParser σ) (e : Err),
      step p = Res.ok (some e) q →
      parse_step step p = Res.ok () { q with Error_count := q.Error_count + 1 } ∧
      ({ q with Error_count := q.Error_count + 1 } : DocoptParser σ).Errors = q.Errors) ∧
    CreateNode DocoptNodeType.Root none (ParserInit ⟨"state_Prologue", wordThenEnd, 0⟩) =
      Res.ok () (prologueState wordThenEnd) ∧
    (Consume_Prologue listLexer 12 (prologueState wordThenEnd)).value? =
      some (some Err.prologue_EOF) ∧
    noUsageRun.returned = true ∧ noUsageRun.state.Errors = [] ∧
    noUsageRun.state.Error_count = 2 ∧
    nameOnlyLineRun.state.Errors.length = 1 ∧ nameOnlyLineRun.state.Error_count = 2 := by
  refine ⟨?_, by decide, by decide, by decide!, by decide!, by decide!, by decide!, by decide!⟩
  intro σ step p q e h
  refine ⟨?_, rfl⟩
  simp [parse_step, h, whenM]

end

/-! ## Theorems: option descriptions -/

section
variable {σ : Type}

/-- C21 as amended: (1) an iteration of the loop of `Consume_option_description` that reads
a `NEWLINE` followed by a `NEWLINE` attaches the first to the description as a
`Description_node`, calls `NextToken` once more, which consumes the second (it is the
current token afterwards when no change of lexer state is pending), and leaves the loop
with a nil error.  (2) The Options section does not end there: when
`Consume_option_line`, called by the loop of `Consume_Options` on a `LONG_BLANK` followed by
a `SHORT` or `LONG`, returns nil, the iteration ends with `continue`.  (3) An iteration of
the loop of `Consume_Options` that reads a token which is not an `EOF`, a `NEWLINE`, a
`SECTION` or a `LONG_BLANK` attaches it to the current node as an `Options_node` and goes
on. -/
theorem description_two_NEWLINE_ends_description_only (L : StateLexer σ) (fuel : Nat) :
    (∀ (description current_line : Nat) (p p1 p2 : DocoptParser σ) (tok nt : Token)
        (dn : DocoptAst),
      NextToken L p = Res.ok () p1 → p1.current_token = some tok →
      tok.Typ = TokKind.NEWLINE → p1.next_token = some nt → nt.Typ = TokKind.NEWLINE →
      p1.heap[description]? = some dn →
      NextToken L { p1 with heap := (AddNode p1.heap description
        DocoptNodeType.Description_node (some tok)).1 } = Res.ok () p2 →
      Consume_option_description_body L description current_line p =
          Res.ok (Ctl.brk none) p2 ∧
        (p1.lexer_state_changed = false → p2.current_token = some nt)) ∧
    (∀ (p p1 q : DocoptParser σ) (tok nt : Token),
      NextToken L p = Res.ok () p1 → p1.current_token = some tok →
      tok.Typ = TokKind.LONG_BLANK → p1.next_token = some nt →
      nt.Typ = TokKind.SHORT ∨ nt.Typ = TokKind.LONG →
      Consume_option_line L fuel p1 = Res.ok none q →
      Consume_Options_body L fuel p = Res.ok (Ctl.next ()) q) ∧
    (∀ (p p1 : DocoptParser σ) (tok : Token) (c : Nat) (n : DocoptAst),
      NextToken L p = Res.ok () p1 → p1.current_token = some tok →
      tok.Typ ≠ TokKind.EOF → tok.Typ ≠ TokKind.NEWLINE → tok.Typ ≠ TokKind.SECTION →
      tok.Typ ≠ TokKind.LONG_BLANK →
      p1.current_node = some c → p1.heap[c]? = some n →
      Consume_Options_body L fuel p = Res.ok (Ctl.next ())
        { p1 with heap := (AddNode p1.heap c DocoptNodeType.Options_node (some tok)).1 }) := by
  refine ⟨?_, ?_, ?_⟩
  · intro d line p p1 p2 tok nt dn hnt htok hty hnx hnty hd hnt2
    refine ⟨?_, fun hch => NextToken_current_of_lookahead L
      { p1 with heap := (AddNode p1.heap d DocoptNodeType.Description_node (some tok)).1 }
      p2 nt hnx hch hnt2⟩
    simp only [htok, hnx] at hnt2
    simp [Consume_option_description_body, hnt, htok, hty, hnx, hnty, addNode_ok p1 d dn hd,
      hnt2]
  · intro p p1 q tok nt hnt htok hty hnx hnty hline
    have h1 : tok.Typ ≠ TokKind.EOF := by rw [hty]; decide
    have h2 : tok.Typ ≠ TokKind.NEWLINE := by rw [hty]; decide
    have h3 : tok.Typ ≠ TokKind.SECTION := by rw [hty]; decide
    simp [Consume_Options_body, hnt, htok, h1, h2, Consume_Options_token, h3, hty, hnx, hnty,
      breakOnError, hline]
  · intro p p1 tok c n hnt htok h1 h2 h3 h4 hc hn
    simp [Consume_Options_body, hnt, htok, h1, h2, Consume_Options_token, h3, h4, addLeafNext,
      addLeaf_ok p1 c n _ hc hn]

end

section

set_option maxRecDepth 1000000 in
/-- Part (1) of `description_two_NEWLINE_ends_description_only` on `-h  Show`, a blank
line, `more`: from the cursor on `Show`, the iteration that reads the first `NEWLINE` ends
the description, the second `NEWLINE` being the current token. -/
theorem description_two_NEWLINE_ends_description_only_witness :
    Consume_option_description_body listLexer 4 0 (afterTokens listLexer 1 describedState) =
      Res.ok (Ctl.brk none)
        (afterTokens listLexer 1
          { afterTokens listLexer 2 describedState with
            heap := (AddNode (afterTokens listLexer 2 describedState).heap 4
              DocoptNodeType.Description_node (some ⟨TokKind.NEWLINE, "\n", 3⟩)).1 }) ∧
    (afterTokens listLexer 1
      { afterTokens listLexer 2 describedState with
        heap := (AddNode (afterTokens listLexer 2 describedState).heap 4
          DocoptNodeType.Description_node (some ⟨TokKind.NEWLINE, "\n", 3⟩)).1 }).current_token =
      some ⟨TokKind.NEWLINE, "\n", 4⟩ :=
  have h := (description_two_NEWLINE_ends_description_only listLexer 8).1 4 0
    (afterTokens listLexer 1 describedState) (afterTokens listLexer 2 describedState)
    (afterTokens listLexer 1
      { afterTokens listLexer 2 describedState with
        heap := (AddNode (afterTokens listLexer 2 describedState).heap 4
          DocoptNodeType.Description_node (some ⟨TokKind.NEWLINE, "\n", 3⟩)).1 })
    ⟨TokKind.NEWLINE, "\n", 3⟩ ⟨TokKind.NEWLINE, "\n", 4⟩
    (mkNode DocoptNodeType.Option_description none [] (some 2))
    (by decide) (by decide) (by decide) (by decide) (by decide) (by decide) (by decide)
  ⟨h.1, h.2 (by decide)⟩

set_option maxRecDepth 1000000 in
/-- C21 fails on `Options:`, newline, `  -h  Show`, a blank line, `more`: the description
of `-h` ends on the two `NEWLINE` tokens, and `Consume_Options` goes on: it reads `more`,
attaches it to the `Options_section` as an `Options_node`, reads the `EOF` and only then
returns nil. -/
theorem Consume_Options_continues_after_description :
    Consume_Options listLexer 8
        (optionsHeadingState blankLineThenWord ⟨TokKind.NEWLINE, "\n", 1⟩) =
      Res.ok none
        { optionsHeadingState blankLineThenWord ⟨TokKind.NEWLINE, "\n", 1⟩ with
          heap := blankLineThenWordHeap,
          current_node := some 3, options_node := some 3,
          current_token := some ⟨TokKind.EOF, "", 9⟩,
          next_token := some ⟨TokKind.EOF, "", 9⟩,
          tokens := [some ⟨TokKind.NEWLINE, "\n", 1⟩, some ⟨TokKind.LONG_BLANK, "  ", 2⟩,
            some ⟨TokKind.SHORT, "-h", 3⟩, some ⟨TokKind.LONG_BLANK, "  ", 4⟩,
            some ⟨TokKind.IDENT, "Show", 5⟩, some ⟨TokKind.NEWLINE, "\n", 6⟩,
            some ⟨TokKind.NEWLINE, "\n", 7⟩, some ⟨TokKind.IDENT, "more", 8⟩,
            some ⟨TokKind.EOF, "", 9⟩],
          s := { State_name := "state_Options", input := blankLineThenWord, pos := 9 } } := by
  decide!

set_option maxRecDepth 1000000 in
/-- C22 (what the code does): on the description `a`, newline, `b  -x` the blank before
`-x` follows the word `b`, not a `NEWLINE`, yet `Consume_option_description` ends on it:
the description holds `a`, the newline and `b`, the blank is given back to the tokenizer
(position 5) and the current token is nil; the test is `current_line > 0`, true once any
`NEWLINE` was read.  On `a  -x` followed by a blank line, with no `NEWLINE` read before,
the same blank and `-x` are attached to the description. -/
theorem Consume_option_description_ends_inside_line :
    Consume_option_description listLexer 8
        (descriptionState blankInsideLine ⟨TokKind.IDENT, "a", 2⟩) =
      Res.ok none
        { descriptionState blankInsideLine ⟨TokKind.IDENT, "a", 2⟩ with
          heap :=
            [mkNode DocoptNodeType.Root none [1] none,
             mkNode DocoptNodeType.Options_section none [2] (some 0),
             mkNode DocoptNodeType.Option_line none [3, 4] (some 1),
             mkNode DocoptNodeType.Option_short (some ⟨TokKind.SHORT, "-h", 0⟩) [] (some 2),
             mkNode DocoptNodeType.Option_description none [5, 6, 7] (some 2),
             mkNode DocoptNodeType.Description_node (some ⟨TokKind.IDENT, "a", 2⟩) [] (some 4),
             mkNode DocoptNodeType.Description_node (some ⟨TokKind.NEWLINE, "\n", 3⟩) []
               (some 4),
             mkNode DocoptNodeType.Description_node (some ⟨TokKind.IDENT, "b", 4⟩) [] (some 4)],
          current_token := none, next_token := none,
          tokens := [some ⟨TokKind.SHORT, "-h", 0⟩, some ⟨TokKind.LONG_BLANK, "  ", 1⟩,
            some ⟨TokKind.IDENT, "a", 2⟩, some ⟨TokKind.NEWLINE, "\n", 3⟩,
            some ⟨TokKind.IDENT, "b", 4⟩],
          s := { State_name := "state_Options", input := blankInsideLine, pos := 5 } } ∧
    (Consume_option_description listLexer 8
        (descriptionState blankFirstLine ⟨TokKind.IDENT, "a", 2⟩)).state.heap =
      [mkNode DocoptNodeType.Root none [1] none,
       mkNode DocoptNodeType.Options_section none [2] (some 0),
       mkNode DocoptNodeType.Option_line none [3, 4] (some 1),
       mkNode DocoptNodeType.Option_short (some ⟨TokKind.SHORT, "-h", 0⟩) [] (some 2),
       mkNode DocoptNodeType.Option_description none [5, 6, 7, 8] (some 2),
       mkNode DocoptNodeType.Description_node (some ⟨TokKind.IDENT, "a", 2⟩) [] (some 4),
       mkNode DocoptNodeType.Description_node (some ⟨TokKind.LONG_BLANK, "  ", 3⟩) [] (some 4),
       mkNode DocoptNodeType.Description_node (some ⟨TokKind.SHORT, "-x", 4⟩) [] (some 4),
       mkNode DocoptNodeType.Description_node (some ⟨TokKind.NEWLINE, "\n", 5⟩) [] (some 4)] :=
  ⟨by decide!, by decide!⟩

end

/-! ## Theorems: entry points on a stopped parser -/

section
variable {σ : Type}

theorem loopResult_stopped (err : DocoptNodeType → Err) (q : DocoptParser σ) (i : Nat)
    (n : DocoptAst) (hc : q.current_node = some i) (hn : q.heap[i]? = some n) :
    loopResult none err q = Res.ok (some (err n.Typ)) q := by
  simp [loopResult, hc, readNode_ok q i n hn]

theorem Consume_Prologue_stopped (L : StateLexer σ) (fuel : Nat) (p : DocoptParser σ)
    (c r : Nat) (cn : DocoptAst) (hrun : p.run = false) (hc : p.current_node = some c)
    (hcn : p.heap[c]? = some cn) (hast : p.ast = some r) :
    Consume_Prologue L fuel p =
      Res.ok (some (Err.prologue_parser_stoped DocoptNodeType.Prologue))
        { p with heap := (AddNode p.heap c DocoptNodeType.Prologue none).1,
                 current_node := some p.heap.length } := by
  have hclt : c < p.heap.length := (List.getElem?_eq_some_iff.mp hcn).1
  have e1 : CreateNode DocoptNodeType.Prologue none p = Res.ok ()
      { p with heap := (AddNode p.heap c DocoptNodeType.Prologue none).1,
               current_node := some p.heap.length } := by
    simp [CreateNode, CreateNode_alloc, hc, addNode_ok p c cn hcn, whenM, hast]
  rw [Consume_Prologue, bind_apply, e1]
  simp only [bind_apply]
  rw [forRun_stopped]
  · exact loopResult_stopped _
      { p with heap := (AddNode p.heap c DocoptNodeType.Prologue none).1,
               current_node := some p.heap.length } p.heap.length _ rfl
      (getElem?_AddNode_new p.heap c DocoptNodeType.Prologue none hclt)
  · exact hrun

theorem Consume_First_Program_Usage_stopped (L : StateLexer σ) (fuel : Nat)
    (p : DocoptParser σ) (c : Nat) (cn : DocoptAst) (hrun : p.run = false)
    (hc : p.current_node = some c) (hcn : p.heap[c]? = some cn) :
    Consume_First_Program_Usage L fuel p =
      Res.ok (some (Err.first_usage_parser_stoped cn.Typ))
        { p with lexer_state_changed := true,
                 s := L.ChangeState "state_First_Program_Usage" p.s } := by
  rw [Consume_First_Program_Usage, bind_apply, Change_lexer_state, modifyP_apply]
  simp only [bind_apply]
  rw [forRun_stopped]
  · exact loopResult_stopped _
      { p with lexer_state_changed := true,
               s := L.ChangeState "state_First_Program_Usage" p.s } c cn hc hcn
  · exact hrun

theorem Consume_Free_section_stopped (L : StateLexer σ) (fuel : Nat) (p : DocoptParser σ)
    (r : Nat) (rn : DocoptAst) (tok : Token) (hrun : p.run = false) (hast : p.ast = some r)
    (hrn : p.heap[r]? = some rn) (htok : p.current_token = some tok) :
    ∃ q, Consume_Free_section L (fuel + 1) p =
      Res.ok (some (Err.free_section_parser_stoped DocoptNodeType.Free_section)) q ∧
      q.run = false := by
  have hrlt : r < p.heap.length := (List.getElem?_eq_some_iff.mp hrn).1
  -- the state after the optional change of lexer state
  obtain ⟨q0, hq0, hq0run, hq0heap, hq0tok⟩ : ∃ q0 : DocoptParser σ,
      whenM (L.State_name p.s ≠ "state_Free") (Change_lexer_state L "state_Free") p =
        Res.ok () q0 ∧ q0.run = false ∧ q0.heap = p.heap ∧ q0.current_token = some tok := by
    by_cases hs : L.State_name p.s ≠ "state_Free"
    · refine ⟨{ p with lexer_state_changed := true, s := L.ChangeState "state_Free" p.s },
        ?_, hrun, rfl, htok⟩
      rw [whenM_true _ _ hs]
      rfl
    · refine ⟨p, ?_, hrun, rfl, htok⟩
      rw [whenM_false _ _ hs]
      rfl
  have hrn0 : q0.heap[r]? = some rn := by rw [hq0heap]; exact hrn
  have hrlt0 : r < q0.heap.length := by rw [hq0heap]; exact hrlt
  have hnew := getElem?_AddNode_new q0.heap r DocoptNodeType.Free_section none hrlt0
  -- the state after the optional section name
  obtain ⟨q1, hq1, hq1run, hq1c, n1, hn1, hty⟩ : ∃ q1 : DocoptParser σ,
      whenM (tok.Typ = TokKind.SECTION) (addLeaf DocoptNodeType.Section_name)
        { q0 with heap := (AddNode q0.heap r DocoptNodeType.Free_section none).1,
                  current_node := some q0.heap.length } = Res.ok () q1 ∧ q1.run = false ∧
        q1.current_node = some q0.heap.length ∧
        ∃ n1, q1.heap[q0.heap.length]? = some n1 ∧ n1.Typ = DocoptNodeType.Free_section := by
    by_cases hsec : tok.Typ = TokKind.SECTION
    · refine ⟨{ q0 with
          heap := (AddNode (AddNode q0.heap r DocoptNodeType.Free_section none).1 q0.heap.length
            DocoptNodeType.Section_name q0.current_token).1,
          current_node := some q0.heap.length }, ?_, hq0run, rfl, _,
        getElem?_AddNode_parent _ _ _ _ _ hnew, rfl⟩
      rw [whenM_true _ _ hsec]
      simp [addLeaf, addNode, readNode, hnew]
    · refine ⟨{ q0 with
          heap := (AddNode q0.heap r DocoptNodeType.Free_section none).1,
          current_node := some q0.heap.length }, ?_, hq0run, rfl, _, hnew, rfl⟩
      rw [whenM_false _ _ hsec]
      rfl
  refine ⟨q1, ?_, hq1run⟩
  have hq0' : (do
      whenM (L.State_name p.s ≠ "state_Free") (Change_lexer_state L "state_Free")
      let n ← addNode p.ast DocoptNodeType.Free_section none
      setCurrentNode (some n)
      let p1 ← getP
      let tok ← deref p1.current_token
      whenM (tok.Typ = TokKind.SECTION) (addLeaf DocoptNodeType.Section_name) : M σ Unit) p =
      Res.ok () q1 := by
    simp only [bind_apply, hq0, hast, addNode_ok q0 r rn hrn0, setCurrentNode_apply, getP_apply,
      hq0tok, deref_some]
    simp only [hq0tok] at hq1
    exact hq1
  have e : Consume_Free_section L (fuel + 1) p = (match (do
      whenM (L.State_name p.s ≠ "state_Free") (Change_lexer_state L "state_Free")
      let n ← addNode p.ast DocoptNodeType.Free_section none
      setCurrentNode (some n)
      let p1 ← getP
      let tok ← deref p1.current_token
      whenM (tok.Typ = TokKind.SECTION) (addLeaf DocoptNodeType.Section_name) : M σ Unit) p with
    | Res.ok _ q => (do
        let r ← forRun (fun (_ : Unit) =>
          Consume_Free_section_body L (Consume_Free_section L fuel)) fuel ()
        loopResult r Err.free_section_parser_stoped) q
    | Res.panic q => Res.panic q
    | Res.timeout q => Res.timeout q) := by
    simp only [Consume_Free_section, bind_apply, getP_apply]
    cases whenM (L.State_name p.s ≠ "state_Free") (Change_lexer_state L "state_Free") p with
    | ok a q =>
      simp only []
      cases addNode p.ast DocoptNodeType.Free_section none q with
      | ok b q' =>
        simp only [setCurrentNode_apply]
        cases deref ({ q' with current_node := some b } : DocoptParser σ).current_token
            { q' with current_node := some b } with
        | ok t q'' =>
          simp only []
          cases whenM (t.Typ = TokKind.SECTION) (addLeaf DocoptNodeType.Section_name) q'' <;> rfl
        | panic q'' => rfl
        | timeout q'' => rfl
      | panic q' => rfl
      | timeout q' => rfl
    | panic q => rfl
    | timeout q => rfl
  rw [e, hq0']
  simp only [bind_apply]
  rw [forRun_stopped]
  · simp only [loopResult_stopped _ q1 q0.heap.length n1 hq1c hn1, hty]
  · exact hq1run

/-- C26 as amended: on a stopped parser (`run` false) with a valid current node `c`, a valid
root `r` and a current token `tok`, `Consume_Prologue`, `Consume_Usage` and
`Consume_Free_section` return their error "parser stoped", and so does `Consume_Options`
when `tok` is an `options:` heading; when it is not, `Consume_Options` returns nil.  In each
case the parser is still stopped. -/
theorem stopped_entry_points (L : StateLexer σ) (fuel : Nat) (p : DocoptParser σ)
    (c r : Nat) (cn rn : DocoptAst) (tok : Token)
    (hrun : p.run = false) (hc : p.current_node = some c) (hcn : p.heap[c]? = some cn)
    (hast : p.ast = some r) (hrn : p.heap[r]? = some rn) (htok : p.current_token = some tok) :
    (∃ q, Consume_Prologue L fuel p =
        Res.ok (some (Err.prologue_parser_stoped DocoptNodeType.Prologue)) q ∧ q.run = false) ∧
    (∃ q, Consume_Usage L fuel p =
        Res.ok (some (Err.first_usage_parser_stoped cn.Typ)) q ∧ q.run = false) ∧
    (∃ q, Consume_Free_section L (fuel + 1) p =
        Res.ok (some (Err.free_section_parser_stoped DocoptNodeType.Free_section)) q ∧
        q.run = false) ∧
    (tok.isOptionsHeading →
      ∃ q, Consume_Options L fuel p =
        Res.ok (some (Err.options_parser_stoped DocoptNodeType.Options_section)) q ∧
        q.run = false) ∧
    (¬ tok.isOptionsHeading →
      Consume_Options L fuel p = Res.ok none
        { p with heap := (AddNode p.heap r DocoptNodeType.Options_section none).1,
                 options_node := some p.heap.length }) := by
  have hrlt : r < p.heap.length := (List.getElem?_eq_some_iff.mp hrn).1
  refine ⟨⟨_, Consume_Prologue_stopped L fuel p c r cn hrun hc hcn hast, hrun⟩, ?_,
    Consume_Free_section_stopped L fuel p r rn tok hrun hast hrn htok, ?_, ?_⟩
  · refine ⟨{ p with
        lexer_state_changed := true,
        s := L.ChangeState "state_First_Program_Usage" p.s }, ?_, hrun⟩
    simp [Consume_Usage, Consume_First_Program_Usage_stopped L fuel p c cn hrun hc hcn]
  · intro ho
    have hc1 : ¬ (tok.Typ ≠ TokKind.SECTION ∨ EqualFold tok.Value "options:" = false) := by
      rw [not_or]
      exact ⟨by simp [ho.1], by simp [ho.2]⟩
    refine ⟨{ p with
        heap := (AddNode (AddNode p.heap r DocoptNodeType.Options_section none).1 p.heap.length
          DocoptNodeType.Section_name p.current_token).1,
        options_node := some p.heap.length, lexer_state_changed := true,
        s := L.ChangeState "state_Options" p.s, current_node := some p.heap.length }, ?_, hrun⟩
    have hnew := getElem?_AddNode_new p.heap r DocoptNodeType.Options_section none hrlt
    simp only [Consume_Options, bind_apply, getP_apply, hast, addNode_ok p r rn hrn,
      modifyP_apply, htok, deref_some, if_neg hc1, Change_lexer_state]
    rw [addNode_ok _ p.heap.length _ hnew]
    simp only [setCurrentNode_apply, bind_apply]
    rw [forRun_stopped]
    · have hpar := getElem?_AddNode_parent
        (AddNode p.heap r DocoptNodeType.Options_section none).1 p.heap.length
        DocoptNodeType.Section_name (some tok) _ hnew
      simp [loopResult, readNode, hpar]
    · exact hrun
  · intro ho
    have hc1 : tok.Typ ≠ TokKind.SECTION ∨ EqualFold tok.Value "options:" = false := by
      by_cases h1 : tok.Typ = TokKind.SECTION
      · right
        cases h2 : EqualFold tok.Value "options:" with
        | false => rfl
        | true => exact absurd ⟨h1, h2⟩ ho
      · exact Or.inl h1
    simp only [Consume_Options, bind_apply, getP_apply, hast, addNode_ok p r rn hrn,
      modifyP_apply, htok, deref_some, if_pos hc1, pure_apply]

end

section

set_option maxRecDepth 100000 in
/-- Witness of `stopped_entry_points`: the stopped parser whose current token is the
heading `Options:`, and for `Consume_Options` also the one whose current token is the
heading `Optionſ:`, written with the long s U+017F. -/
theorem stopped_entry_points_witness :
    (∃ q, Consume_Prologue listLexer 8 stoppedHeadingState =
        Res.ok (some (Err.prologue_parser_stoped DocoptNodeType.Prologue)) q ∧ q.run = false) ∧
    (∃ q, Consume_Usage listLexer 8 stoppedHeadingState =
        Res.ok (some (Err.first_usage_parser_stoped DocoptNodeType.Free_section)) q ∧
        q.run = false) ∧
    (∃ q, Consume_Free_section listLexer 9 stoppedHeadingState =
        Res.ok (some (Err.free_section_parser_stoped DocoptNodeType.Free_section)) q ∧
        q.run = false) ∧
    (∃ q, Consume_Options listLexer 8 stoppedHeadingState =
        Res.ok (some (Err.options_parser_stoped DocoptNodeType.Options_section)) q ∧
        q.run = false) ∧
    (∃ q, Consume_Options listLexer 8 stoppedLongSState =
        Res.ok (some (Err.options_parser_stoped DocoptNodeType.Options_section)) q ∧
        q.run = false) :=
  have h := stopped_entry_points listLexer 8 stoppedHeadingState 2 0
    (mkNode DocoptNodeType.Free_section none [] (some 0))
    (mkNode DocoptNodeType.Root none [1, 2] none) ⟨TokKind.SECTION, "Options:", 0⟩
    (by decide) (by decide) (by decide) (by decide) (by decide) (by decide)
  have h1 := stopped_entry_points listLexer 8 stoppedLongSState 2 0
    (mkNode DocoptNodeType.Free_section none [] (some 0))
    (mkNode DocoptNodeType.Root none [1, 2] none) ⟨TokKind.SECTION, "Optionſ:", 0⟩
    (by decide) (by decide) (by decide) (by decide) (by decide) (by decide)
  ⟨h.1, h.2.1, h.2.2.1, h.2.2.2.1 ⟨rfl, by decide!⟩, h1.2.2.2.1 ⟨rfl, by decide!⟩⟩

set_option maxRecDepth 100000 in
/-- C26 fails for `Consume_Options`: on a stopped parser whose current token is not an
`options:` heading (here `EOF`), it returns nil, after adding its `Options_section`
node. -/
theorem Consume_Options_stopped_returns_nil :
    stoppedState.run = false ∧
    Consume_Options listLexer 8 stoppedState = Res.ok none
      { stoppedState with
        heap := [mkNode DocoptNodeType.Root none [1, 2, 3] none,
                 mkNode DocoptNodeType.Usage_section none [] (some 0),
                 mkNode DocoptNodeType.Free_section none [] (some 0),
                 mkNode DocoptNodeType.Options_section none [] (some 0)],
        options_node := some 3 } :=
  ⟨by decide, by decide⟩

end

/-! ## Theorems: retries of try_get_nexttoken -/

section
variable {σ : Type}

/-- The bound of `try_get_NextToken_aux` is never what stops it: any bound of at least
`max_error - Error_count` gives the same result. -/
theorem try_get_NextToken_aux_bound (L : StateLexer σ) (slot : Slot) (k : Nat) :
    ∀ (j : Nat) (p : DocoptParser σ), p.max_error - p.Error_count ≤ k →
      p.max_error - p.Error_count ≤ j →
      try_get_NextToken_aux L slot k p = try_get_NextToken_aux L slot j p := by
  induction k with
  | zero =>
    intro j p hk _
    have hge : p.Error_count ≥ p.max_error := by omega
    cases j with
    | zero => rfl
    | succ j => simp [try_get_NextToken_aux, hge]
  | succ k ih =>
    intro j p hk hj
    by_cases hge : p.Error_count ≥ p.max_error
    · cases j with
      | zero => simp [try_get_NextToken_aux, hge]
      | succ j => simp [try_get_NextToken_aux, hge]
    · cases j with
      | zero => omega
      | succ j =>
        unfold try_get_NextToken_aux
        rw [if_neg hge, if_neg hge]
        split
        · rfl
        · dsimp only
          split
          · rfl
          · apply ih
            · simp only [DocoptParser.AddError]; omega
            · simp only [DocoptParser.AddError]; omega

theorem try_get_NextToken_aux_trace (L : StateLexer σ) (slot : Slot) (k : Nat) :
    ∀ p : DocoptParser (σ × List LexCall), p.max_error - p.Error_count ≤ k →
      ∃ tr : List LexCall,
        (try_get_NextToken_aux (traced L) slot k p).2.s.2 = p.s.2 ++ tr ∧
        isRetryTrace p.max_error p.Error_count tr = true ∧
        (tr.filter LexCall.isNext).length ≤ p.max_error - p.Error_count ∧
        (try_get_NextToken_aux (traced L) slot k p).2.Errors =
          p.Errors ++ (failedMessages tr).map Err.lexical ∧
        (try_get_NextToken_aux (traced L) slot k p).2.Error_count =
          p.Error_count + (failedMessages tr).length ∧
        (try_get_NextToken_aux (traced L) slot k p).2.max_error = p.max_error := by
  induction k with
  | zero =>
    intro p hk
    have hge : p.max_error ≤ p.Error_count := by omega
    exact ⟨[], by simp [try_get_NextToken_aux], by simp [isRetryTrace, hge], by simp,
      by simp [try_get_NextToken_aux, failedMessages],
      by simp [try_get_NextToken_aux, failedMessages], rfl⟩
  | succ k ih =>
    intro p hk
    by_cases hge : p.Error_count ≥ p.max_error
    · exact ⟨[], by simp [try_get_NextToken_aux, hge], by simp [isRetryTrace, hge], by simp,
        by simp [try_get_NextToken_aux, hge, failedMessages],
        by simp [try_get_NextToken_aux, hge, failedMessages],
        by simp [try_get_NextToken_aux, hge]⟩
    · have hlt : p.Error_count < p.max_error := Nat.lt_of_not_ge hge
      cases hn : L.Next p.s.1 with
      | mk res s1 =>
        cases res with
        | ok t =>
          have hN : (traced L).Next p.s = (Except.ok t, (s1, p.s.2 ++ [LexCall.next_ok t])) := by
            simp [traced, hn]
          refine ⟨[LexCall.next_ok t], ?_, by simp [isRetryTrace, hlt], ?_, ?_, ?_, ?_⟩
          · simp [try_get_NextToken_aux, hge, hN]; cases slot <;> rfl
          · simp [LexCall.isNext]; omega
          · simp [try_get_NextToken_aux, hge, hN, failedMessages]; cases slot <;> rfl
          · simp [try_get_NextToken_aux, hge, hN, failedMessages]; cases slot <;> rfl
          · simp [try_get_NextToken_aux, hge, hN]; cases slot <;> rfl
        | error msg =>
          have hN : (traced L).Next p.s =
              (Except.error msg, (s1, p.s.2 ++ [LexCall.next_failed msg])) := by
            simp [traced, hn]
          by_cases hmax : p.Error_count + 1 ≥ p.max_error
          · have heq : p.Error_count + 1 = p.max_error := by omega
            refine ⟨[LexCall.next_failed msg], ?_, by simp [isRetryTrace, heq], ?_, ?_, ?_, ?_⟩
            · simp [try_get_NextToken_aux, hge, hN, DocoptParser.AddError, hmax]
            · simp [LexCall.isNext]; omega
            · simp [try_get_NextToken_aux, hge, hN, DocoptParser.AddError, hmax, failedMessages]
            · simp [try_get_NextToken_aux, hge, hN, DocoptParser.AddError, hmax, failedMessages]
            · simp [try_get_NextToken_aux, hge, hN, DocoptParser.AddError, hmax]
          · have hlt1 : p.Error_count + 1 < p.max_error := Nat.lt_of_not_ge hmax
            obtain ⟨tr, h1, h2, h3, h4, h5, h6⟩ := ih
              { p with s := (traced L).Discard 1 (s1, p.s.2 ++ [LexCall.next_failed msg]),
                       Errors := p.Errors ++ [Err.lexical msg],
                       Error_count := p.Error_count + 1 }
              (by simp only; omega)
            have hstep : try_get_NextToken_aux (traced L) slot (k + 1) p =
                try_get_NextToken_aux (traced L) slot k
                  { p with s := (traced L).Discard 1 (s1, p.s.2 ++ [LexCall.next_failed msg]),
                           Errors := p.Errors ++ [Err.lexical msg],
                           Error_count := p.Error_count + 1 } := by
              rw [try_get_NextToken_aux]
              simp [hge, hN, DocoptParser.AddError, hmax]
            rw [hstep]
            refine ⟨LexCall.next_failed msg :: LexCall.discard 1 :: tr, ?_, ?_, ?_, ?_, ?_, h6⟩
            · rw [h1]; simp [traced]
            · simp only [isRetryTrace]
              simp [hlt1]
              exact h2
            · simp only [List.filter, LexCall.isNext] at h3 ⊢
              simp only [List.length_cons]
              have : (List.filter LexCall.isNext tr).length ≤ p.max_error - (p.Error_count + 1) := h3
              omega
            · rw [h4]; simp [failedMessages]
            · rw [h5]; simp [failedMessages]; omega

/-- Recording the calls does not change what `try_get_NextToken` does. -/
theorem try_get_NextToken_aux_traced (L : StateLexer σ) (slot : Slot) (k : Nat) :
    ∀ p : DocoptParser (σ × List LexCall),
      (try_get_NextToken_aux (traced L) slot k p).1 =
        (try_get_NextToken_aux L slot k (p.withLexer p.s.1)).1 ∧
      (try_get_NextToken_aux (traced L) slot k p).2.withLexer
          (try_get_NextToken_aux (traced L) slot k p).2.s.1 =
        (try_get_NextToken_aux L slot k (p.withLexer p.s.1)).2 := by
  induction k with
  | zero => intro p; exact ⟨rfl, rfl⟩
  | succ k ih =>
    intro p
    by_cases hge : p.Error_count ≥ p.max_error
    · simp [try_get_NextToken_aux, hge, DocoptParser.withLexer]
    · cases hn : L.Next p.s.1 with
      | mk res s1 =>
        cases res with
        | ok t =>
          have hN : (traced L).Next p.s = (Except.ok t, (s1, p.s.2 ++ [LexCall.next_ok t])) := by
            simp [traced, hn]
          simp [try_get_NextToken_aux, hge, hN, hn, DocoptParser.withLexer]
          cases slot <;> rfl
        | error msg =>
          have hN : (traced L).Next p.s =
              (Except.error msg, (s1, p.s.2 ++ [LexCall.next_failed msg])) := by
            simp [traced, hn]
          by_cases hmax : p.Error_count + 1 ≥ p.max_error
          · simp [try_get_NextToken_aux, hge, hN, hn, DocoptParser.withLexer,
              DocoptParser.AddError, hmax]
          · have h := ih
              { p with s := (traced L).Discard 1 (s1, p.s.2 ++ [LexCall.next_failed msg]),
                       Errors := p.Errors ++ [Err.lexical msg],
                       Error_count := p.Error_count + 1 }
            simp only [try_get_NextToken_aux, DocoptParser.withLexer, hN, hn,
              DocoptParser.AddError, if_neg hge, if_neg hmax]
            exact h

/-- C28: (1) `try_get_NextToken` terminates whatever the tokenizer does: its recursion is
bounded by `max_error - Error_count`, and the bound is never what stops it (any larger
bound gives the same result).  (2) Over the tokenizer `L` with its calls recorded, entered
with `e` errors counted, it returns, and the calls `tr` it made have the shape
`isRetryTrace max_error e`: none when `e ≥ max_error`, otherwise calls of `Next`, each
failed one followed by exactly one `Discard(1)` unless it brought the count to
`max_error`; there are at most `max_error - e` calls of `Next`; each failed call appended
its error to `Errors` and added one to `Error_count`.  (3) Recording is transparent: the
result and the state, read without the log, are those of the run over `L` itself. -/
theorem try_get_NextToken_terminates_and_retries (L : StateLexer σ) (slot : Slot) :
    (∀ (p : DocoptParser σ) (k : Nat), p.max_error - p.Error_count ≤ k →
      try_get_NextToken_aux L slot k p =
        try_get_NextToken_aux L slot (p.max_error - p.Error_count) p) ∧
    (∀ p : DocoptParser (σ × List LexCall), ∃ (e : Option Err) (q : DocoptParser (σ × List LexCall))
        (tr : List LexCall),
      try_get_NextToken (traced L) slot p = Res.ok e q ∧
      q.s.2 = p.s.2 ++ tr ∧ isRetryTrace p.max_error p.Error_count tr = true ∧
      (tr.filter LexCall.isNext).length ≤ p.max_error - p.Error_count ∧
      (p.max_error ≤ p.Error_count → tr = []) ∧
      q.Errors = p.Errors ++ (failedMessages tr).map Err.lexical ∧
      q.Error_count = p.Error_count + (failedMessages tr).length ∧
      q.max_error = p.max_error) ∧
    (∀ (p : DocoptParser (σ × List LexCall)) (e : Option Err)
        (q : DocoptParser (σ × List LexCall)),
      try_get_NextToken (traced L) slot p = Res.ok e q →
      try_get_NextToken L slot (p.withLexer p.s.1) = Res.ok e (q.withLexer q.s.1)) := by
  refine ⟨fun p k hk => try_get_NextToken_aux_bound L slot k _ p hk (le_refl _), ?_, ?_⟩
  · intro p
    obtain ⟨tr, h1, h2, h3, h4, h5, h6⟩ :=
      try_get_NextToken_aux_trace L slot (p.max_error - p.Error_count) p (le_refl _)
    refine ⟨_, _, tr, rfl, h1, h2, h3, ?_, h4, h5, h6⟩
    intro hge
    have h0 : p.max_error - p.Error_count = 0 := by omega
    rw [h0] at h1
    simpa [try_get_NextToken_aux] using h1
  · intro p e q h
    have ht := try_get_NextToken_aux_traced L slot (p.max_error - p.Error_count) p
    simp only [try_get_NextToken, Res.ok.injEq] at h
    obtain ⟨he, hq⟩ := h
    simp only [try_get_NextToken, DocoptParser.withLexer, Res.ok.injEq]
    rw [← he, ← hq]
    exact ⟨ht.1.symm, ht.2.symm⟩

end

section

set_option maxRecDepth 100000 in
/-- C28 on two failures followed by a word: two failed calls of `Next`, each followed by
`Discard(1)`, then the call that returns the word; two errors are recorded.  On ten
failures: ten calls of `Next`, nine of `Discard(1)`, and the count is at the maximum. -/
theorem try_get_NextToken_terminates_and_retries_witness :
    (∃ (e : Option Err) (q : DocoptParser (ListLexerState × List LexCall)) (tr : List LexCall),
      try_get_NextToken (traced listLexer) Slot.current (tracedInit twoBad) = Res.ok e q ∧
      q.s.2 = tr ∧ isRetryTrace 10 0 tr = true ∧
      (tr.filter LexCall.isNext).length ≤ 10 ∧
      q.Errors = (failedMessages tr).map Err.lexical ∧
      q.Error_count = (failedMessages tr).length) ∧
    (try_get_NextToken (traced listLexer) Slot.current (tracedInit twoBad)).state.s.2 =
      [LexCall.next_failed "no match", LexCall.discard 1, LexCall.next_failed "no match",
       LexCall.discard 1, LexCall.next_ok ⟨TokKind.IDENT, "a", 2⟩] ∧
    ((try_get_NextToken (traced listLexer) Slot.current (tracedInit tenBad)).state.s.2.filter
      LexCall.isNext).length = 10 ∧
    ((try_get_NextToken (traced listLexer) Slot.current (tracedInit tenBad)).state.s.2.filter
      (fun c => c = LexCall.discard 1)).length = 9 ∧
    (try_get_NextToken (traced listLexer) Slot.current (tracedInit tenBad)).state.Error_count =
      10 := by
  refine ⟨?_, by decide, by decide, by decide, by decide⟩
  obtain ⟨e, q, tr, h, h1, h2, h3, _, h4, h5, _⟩ :=
    (try_get_NextToken_terminates_and_retries listLexer Slot.current).2.1 (tracedInit twoBad)
  exact ⟨e, q, tr, h, by simpa [tracedInit, ParserInit] using h1, h2, h3,
    by simpa [tracedInit, ParserInit] using h4, by simpa [tracedInit, ParserInit] using h5⟩

end

/-! ## Theorems: parent and child references -/

/-- A child of an allocated node is allocated. -/
theorem TreeOK.child_lt {h : Heap} {root : Option Nat} (ok : TreeOK h root) {x c : Nat}
    {n : DocoptAst} (hx : h[x]? = some n) (hc : c ∈ n.Children) : c < h.length := by
  obtain ⟨cn, hcn, _⟩ := ok.parent x c n hx hc
  exact (List.getElem?_eq_some_iff.mp hcn).1

/-- No node is in the child lists of two nodes. -/
theorem TreeOK.one_parent {h : Heap} {root : Option Nat} (ok : TreeOK h root) {x y c : Nat}
    {nx ny : DocoptAst} (hx : h[x]? = some nx) (hy : h[y]? = some ny) (hcx : c ∈ nx.Children)
    (hcy : c ∈ ny.Children) : x = y := by
  obtain ⟨cn, hcn, hp⟩ := ok.parent x c nx hx hcx
  obtain ⟨cn', hcn', hp'⟩ := ok.parent y c ny hy hcy
  rw [hcn] at hcn'
  cases hcn'
  rw [hp] at hp'
  exact Option.some.inj hp'

theorem TreeOK_nil : TreeOK [] none :=
  ⟨fun x c n hx _ => by simp at hx, fun x n hx => by simp at hx, fun r hr => by cases hr⟩

/-- Appending a node without children keeps the consistency, whatever its parent. -/
theorem TreeOK_append (h : Heap) (root : Option Nat) (ok : TreeOK h root) (new : DocoptAst)
    (hnew : new.Children = []) : TreeOK (h ++ [new]) root := by
  have hget : ∀ (j : Nat) (nj : DocoptAst), (h ++ [new])[j]? = some nj → h[j]? = some nj ∨ (j = h.length ∧ nj = new) := by
    intro j nj hj
    by_cases hlt : j < h.length
    · rw [List.getElem?_append_left hlt] at hj
      exact Or.inl hj
    · have hjl : j < (h ++ [new]).length := (List.getElem?_eq_some_iff.mp hj).1
      simp at hjl
      have : j = h.length := by omega
      subst this
      simp at hj
      exact Or.inr ⟨rfl, hj.symm⟩
  have hkeep : ∀ (j : Nat) (nj : DocoptAst), h[j]? = some nj → (h ++ [new])[j]? = some nj := by
    intro j nj hj
    rw [List.getElem?_append_left (List.getElem?_eq_some_iff.mp hj).1]
    exact hj
  refine ⟨?_, ?_, ?_⟩
  · intro x c n hx hc
    rcases hget x n hx with h1 | ⟨_, h1⟩
    · obtain ⟨cn, hcn, hp⟩ := ok.parent x c n h1 hc
      exact ⟨cn, hkeep c cn hcn, hp⟩
    · subst h1
      rw [hnew] at hc
      cases hc
  · intro x n hx
    rcases hget x n hx with h1 | ⟨_, h1⟩
    · exact ok.nodup x n h1
    · subst h1
      rw [hnew]
      exact List.nodup_nil
  · intro r hr
    obtain ⟨rn, hrn, hp⟩ := ok.root r hr
    exact ⟨rn, hkeep r rn hrn, hp⟩

/-- Appending the node `c` to the children of `x` keeps the consistency when `c` is an
allocated node with parent `x` that is not yet a child of `x`. -/
theorem TreeOK_update_children (h : Heap) (root : Option Nat) (ok : TreeOK h root) (x c : Nat)
    (n cn : DocoptAst) (hx : h[x]? = some n) (hc : h[c]? = some cn)
    (hp : cn.Parent = some x) (hnot : c ∉ n.Children) :
    TreeOK (h.update x (fun y => { y with Children := y.Children ++ [c] })) root := by
  have hpar : ∀ (j : Nat) (oj : DocoptAst), h[j]? = some oj →
      ∃ nj : DocoptAst, (h.update x (fun y => { y with Children := y.Children ++ [c] }))[j]? = some nj ∧
        nj.Parent = oj.Parent := by
    intro j oj hj
    rw [Heap.getElem?_update]
    by_cases hjx : j = x
    · subst hjx
      simp [hj]
    · simp [hjx, hj]
  refine ⟨?_, ?_, ?_⟩
  · intro y d ny hy hd
    rw [Heap.getElem?_update] at hy
    by_cases hyx : y = x
    · subst hyx
      simp only [if_true, hx, Option.map_some', Option.some.injEq] at hy
      subst hy
      simp only [List.mem_append, List.mem_singleton] at hd
      rcases hd with hd | hd
      · obtain ⟨dn, hdn, hdp⟩ := ok.parent y d n hx hd
        obtain ⟨nd, hnd, hndp⟩ := hpar d dn hdn
        exact ⟨nd, hnd, hndp.trans hdp⟩
      · subst hd
        obtain ⟨nd, hnd, hndp⟩ := hpar d cn hc
        exact ⟨nd, hnd, hndp.trans hp⟩
    · simp only [hyx, if_false] at hy
      obtain ⟨dn, hdn, hdp⟩ := ok.parent y d ny hy hd
      obtain ⟨nd, hnd, hndp⟩ := hpar d dn hdn
      exact ⟨nd, hnd, hndp.trans hdp⟩
  · intro y ny hy
    rw [Heap.getElem?_update] at hy
    by_cases hyx : y = x
    · subst hyx
      simp only [if_true, hx, Option.map_some', Option.some.injEq] at hy
      subst hy
      simp only
      rw [List.nodup_append]
      refine ⟨ok.nodup y n hx, List.nodup_singleton c, ?_⟩
      intro a ha hb
      simp only [List.mem_singleton] at hb
      subst hb
      exact hnot ha
    · simp only [hyx, if_false] at hy
      exact ok.nodup y ny hy
  · intro r hr
    obtain ⟨rn, hrn, hrp⟩ := ok.root r hr
    obtain ⟨nr, hnr, hnrp⟩ := hpar r rn hrn
    exact ⟨nr, hnr, hnrp.trans hrp⟩

/-- `AddNode` on an allocated node keeps the consistency. -/
theorem TreeOK_AddNode (h : Heap) (root : Option Nat) (ok : TreeOK h root) (n : Nat)
    (node : DocoptAst) (hn : h[n]? = some node) (k : DocoptNodeType) (t : Option Token) :
    TreeOK (AddNode h n k t).1 root := by
  have hlt : n < h.length := (List.getElem?_eq_some_iff.mp hn).1
  have ok1 := TreeOK_append h root ok
    { Typ := k, Token := t, Children := [], Parent := some n, Repeat := false } rfl
  have hn1 : (h ++ [({ Typ := k, Token := t, Children := [], Parent := some n, Repeat := false }
      : DocoptAst)])[n]? = some node := by
    rw [List.getElem?_append_left hlt]
    exact hn
  have hnot : h.length ∉ node.Children := by
    intro hmem
    exact absurd (ok.child_lt hn hmem) (Nat.lt_irrefl _)
  exact TreeOK_update_children _ root ok1 n h.length node
    { Typ := k, Token := t, Children := [], Parent := some n, Repeat := false } hn1 (by simp)
    rfl hnot

/-- The arena of the top-level `|` restructuring before its `Usage_Expr` is added. -/
theorem TreeOK_restructure (h : Heap) (root : Option Nat) (ok : TreeOK h root)
    (tok : Option Token) (u c0 : Nat) (cs : List Nat) (un : DocoptAst)
    (hun : h[u]? = some un) (hch : un.Children = c0 :: cs) :
    TreeOK ((setParents (h ++ [altGroup tok u cs]) cs h.length).update u
      (fun x => { x with Children := [c0, h.length] })) root ∧
    ((setParents (h ++ [altGroup tok u cs]) cs h.length).update u
      (fun x => { x with Children := [c0, h.length] }))[h.length]? =
        some (altGroup tok u cs) := by
  have hult : u < h.length := (List.getElem?_eq_some_iff.mp hun).1
  have hnd : (c0 :: cs).Nodup := hch ▸ ok.nodup u un hun
  have hc0cs : c0 ∉ cs := (List.nodup_cons.mp hnd).1
  have hcsnd : cs.Nodup := (List.nodup_cons.mp hnd).2
  have hmem : ∀ c, c ∈ cs → c ∈ un.Children := fun c hc => by
    rw [hch]; exact List.mem_cons_of_mem _ hc
  have hcslt : ∀ c, c ∈ cs → c < h.length := fun c hc => ok.child_lt hun (hmem c hc)
  have hc0lt : c0 < h.length := ok.child_lt hun (by rw [hch]; exact List.mem_cons_self _ _)
  have hgcs : h.length ∉ cs := fun hm => absurd (hcslt _ hm) (Nat.lt_irrefl _)
  have hgu : h.length ≠ u := by omega
  -- the nodes of the new arena
  have hold : ∀ (j : Nat) (oj : DocoptAst), h[j]? = some oj →
      ((setParents (h ++ [altGroup tok u cs]) cs h.length).update u
        (fun x => { x with Children := [c0, h.length] }))[j]? =
        some { oj with Parent := if j ∈ cs then some h.length else oj.Parent,
                       Children := if j = u then [c0, h.length] else oj.Children } := by
    intro j oj hj
    have hjlt : j < h.length := (List.getElem?_eq_some_iff.mp hj).1
    rw [Heap.getElem?_update, getElem?_setParents, List.getElem?_append_left hjlt, hj]
    by_cases h1 : j = u
    · subst h1
      by_cases h2 : j ∈ cs <;> simp [h2]
    · by_cases h2 : j ∈ cs <;> simp [h1, h2]
  have hnew : ((setParents (h ++ [altGroup tok u cs]) cs h.length).update u
        (fun x => { x with Children := [c0, h.length] }))[h.length]? =
        some (altGroup tok u cs) := by
    rw [Heap.getElem?_update, getElem?_setParents]
    simp [hgu, hgcs]
  have hinv : ∀ (j : Nat) (nj : DocoptAst),
      ((setParents (h ++ [altGroup tok u cs]) cs h.length).update u
        (fun x => { x with Children := [c0, h.length] }))[j]? = some nj →
      (∃ oj, h[j]? = some oj) ∨ j = h.length := by
    intro j nj hj
    have hjl := (List.getElem?_eq_some_iff.mp hj).1
    simp only [Heap.length_update, length_setParents, List.length_append, List.length_singleton]
      at hjl
    by_cases hlt : j < h.length
    · exact Or.inl ⟨h[j], List.getElem?_eq_getElem hlt⟩
    · exact Or.inr (by omega)
  refine ⟨⟨?_, ?_, ?_⟩, hnew⟩
  · intro x c nx hx hc
    rcases hinv x nx hx with ⟨ox, hox⟩ | hxg
    · rw [hold x ox hox] at hx
      cases hx
      simp only at hc
      by_cases hxu : x = u
      · subst hxu
        simp only [if_true, List.mem_cons, List.mem_singleton, List.not_mem_nil, or_false] at hc
        rcases hc with hc | hc
        · subst hc
          obtain ⟨oc, hoc, hp⟩ := ok.parent x c ox hox
            (by rw [hun] at hox; cases hox; rw [hch]; exact List.mem_cons_self _ _)
          refine ⟨_, hold c oc hoc, ?_⟩
          simp [hc0cs, hp]
        · subst hc
          exact ⟨_, hnew, rfl⟩
      · simp only [hxu, if_false] at hc
        obtain ⟨oc, hoc, hp⟩ := ok.parent x c ox hox hc
        refine ⟨_, hold c oc hoc, ?_⟩
        have hccs : c ∉ cs := by
          intro hm
          exact hxu (ok.one_parent hox hun hc (hmem c hm))
        simp [hccs, hp]
    · subst hxg
      rw [hnew] at hx
      cases hx
      simp only [altGroup] at hc
      obtain ⟨oc, hoc, _⟩ := ok.parent u c un hun (hmem c hc)
      refine ⟨_, hold c oc hoc, ?_⟩
      simp [hc]
  · intro x nx hx
    rcases hinv x nx hx with ⟨ox, hox⟩ | hxg
    · rw [hold x ox hox] at hx
      cases hx
      simp only
      by_cases hxu : x = u
      · simp only [hxu, if_true]
        refine List.nodup_cons.mpr ⟨?_, List.nodup_singleton _⟩
        simp only [List.mem_singleton]
        omega
      · simp only [hxu, if_false]
        exact ok.nodup x ox hox
    · subst hxg
      rw [hnew] at hx
      cases hx
      exact hcsnd
  · intro r hr
    obtain ⟨rn, hrn, hp⟩ := ok.root r hr
    refine ⟨_, hold r rn hrn, ?_⟩
    have hrcs : r ∉ cs := by
      intro hm
      obtain ⟨rn', hrn', hp'⟩ := ok.parent u r un hun (hmem r hm)
      rw [hrn] at hrn'
      cases hrn'
      rw [hp] at hp'
      cases hp'
    simp [hrcs, hp]

/-- The top-level `|` restructuring keeps the consistency. -/
theorem TreeOK_altHeap (h : Heap) (root : Option Nat) (ok : TreeOK h root)
    (tok : Option Token) (u c0 : Nat) (cs : List Nat) (un : DocoptAst)
    (hun : h[u]? = some un) (hch : un.Children = c0 :: cs) :
    TreeOK (altHeap h tok u c0 cs) root := by
  obtain ⟨ok3, hg⟩ := TreeOK_restructure h root ok tok u c0 cs un hun hch
  have hlen : ((setParents (h ++ [altGroup tok u cs]) cs h.length).update u
      (fun x => { x with Children := [c0, h.length] })).length = h.length + 1 := by simp
  have := TreeOK_AddNode _ root ok3 h.length _ hg DocoptNodeType.Usage_Expr none
  exact this

section
variable {σ : Type}

theorem sat_TreeInv_addNode (n : Option Nat) (k : DocoptNodeType) (t : Option Token)
    (p : DocoptParser σ) (hp : TreeInv p) :
    (addNode n k t p).sat (fun _ q => TreeInv q) (fun _ => True) := by
  rw [sat_addNode]
  refine ⟨fun i nd _ hnd => ⟨TreeOK_AddNode p.heap p.ast hp.1 i nd hnd k t, fun hast => ?_⟩,
    fun _ => trivial⟩
  have := hp.2 hast
  rw [this] at hnd
  simp at hnd

theorem sat_TreeInv_CreateNode (k : DocoptNodeType) (t : Option Token) (p : DocoptParser σ)
    (hp : TreeInv p) : (CreateNode k t p).sat (fun _ q => TreeInv q) (fun _ => True) := by
  unfold CreateNode CreateNode_alloc
  by_cases hc : p.current_node = none
  · simp only [bind_apply, getP_apply, hc, if_true, modifyP_apply, sat_whenM, sat_ok]
    have ok1 := TreeOK_append p.heap p.ast hp.1 (rootNode k t) rfl
    refine ⟨fun hast => ⟨⟨ok1.parent, ok1.nodup, fun r hr => ?_⟩, fun h0 => by cases h0⟩,
      fun hast => ⟨ok1, fun h0 => absurd h0 hast⟩⟩
    cases hr
    exact ⟨rootNode k t, by simp, rfl⟩
  · simp only [bind_apply, getP_apply, hc, if_false]
    have h1 := sat_TreeInv_addNode p.current_node k t p hp
    cases hadd : addNode p.current_node k t p with
    | ok i q =>
      rw [hadd] at h1
      simp only [setCurrentNode_apply, sat_whenM, modifyP_apply, sat_ok]
      have hq : TreeInv q := h1
      refine ⟨fun hast => ?_, fun _ => hq⟩
      -- the tree is not empty after `AddNode`, so there is a root
      have hne : q.heap ≠ [] := by
        have h2 := (sat_addNode p.current_node k t p (fun _ q => q.heap ≠ []) (fun _ => True)).mpr
          ⟨fun j nd _ _ => by
            intro h0
            have := congrArg List.length h0
            simp at this, fun _ => trivial⟩
        rw [hadd] at h2
        exact h2
      exact absurd (hq.2 hast) hne
    | panic q => trivial
    | timeout q => trivial

theorem sat_TreeInv_alternative (p : DocoptParser σ) (hp : TreeInv p) :
    (Consume_Usage_Expr_alternative p).sat (fun _ q => TreeInv q) (fun _ => True) := by
  unfold Consume_Usage_Expr_alternative
  rw [sat_bind, getP_apply]
  simp only [sat_ok]
  rw [sat_bind, sat_readNode]
  refine ⟨fun c cn _ _ => ?_, fun _ => trivial⟩
  by_cases hty : cn.Typ ≠ DocoptNodeType.Usage_Expr
  · rw [if_pos hty, pure_apply, sat_ok]
    exact hp
  · rw [if_neg hty, sat_bind, sat_readNode]
    refine ⟨fun u un hu hun => ?_, fun _ => trivial⟩
    by_cases hline : un.Typ = DocoptNodeType.Usage_line
    · rw [if_pos hline, sat_bind, hu, deref_some, sat_ok, sat_bind]
      unfold usage_line_alternative
      rw [sat_bind, sat_readNode]
      refine ⟨fun u' un' hu' hun' => ?_, fun _ => trivial⟩
      cases hu'
      rw [hun] at hun'
      cases hun'
      by_cases hlen : un.Children.length = 0
      · rw [if_pos hlen]
        trivial
      · rw [if_neg hlen, sat_bind, sat_deref]
        refine ⟨fun c0 hc0 => ?_, fun _ => trivial⟩
        rw [modifyP_apply, sat_ok, pure_apply, sat_ok]
        have hch : un.Children = c0 :: un.Children.tail := by
          cases hcs : un.Children with
          | nil => rw [hcs] at hc0; cases hc0
          | cons a l => rw [hcs] at hc0; cases hc0; rfl
        refine ⟨TreeOK_altHeap p.heap p.ast hp.1 p.current_token u c0 _ un hun hch,
          fun hast => ?_⟩
        have := hp.2 hast
        rw [this] at hun
        simp at hun
    · rw [if_neg hline, sat_bind]
      refine sat_mono (sat_TreeInv_addNode cn.Parent DocoptNodeType.Usage_Expr none p hp)
        (fun e q hq => ?_) (fun _ _ => trivial)
      rw [sat_bind, setCurrentNode_apply, sat_ok, pure_apply, sat_ok]
      exact hq

/-- Every tree built by `CreateNode`, `AddNode` and the top-level `|` restructuring is
consistent. -/
theorem TreeInv_of_Built (p : DocoptParser σ) (hb : Built p) : TreeInv p := by
  induction hb with
  | empty p h0 hast =>
    refine ⟨?_, fun _ => h0⟩
    rw [h0, hast]
    exact TreeOK_nil
  | frame p q _ hh hast ih =>
    refine ⟨?_, fun h0 => ?_⟩
    · rw [hh, hast]; exact ih.1
    · rw [hh]; exact ih.2 (hast ▸ h0)
  | createNode p q k t _ hrun ih =>
    have := sat_TreeInv_CreateNode k t p ih
    rw [hrun] at this
    exact this
  | addNode p q n k t i _ hrun ih =>
    have := sat_TreeInv_addNode n k t p ih
    rw [hrun] at this
    exact this
  | alternative p q r _ hrun ih =>
    have := sat_TreeInv_alternative p ih
    rw [hrun] at this
    exact this

/-- C30: (1) `AddNode(kind, token)` on an allocated node `n` allocates exactly one node, a
childless node of that kind and token whose parent is `n`, returns it, and appends it to
the children of `n`, whose earlier children, kind, token and parent are unchanged; every
other node is unchanged.  (2) In every state whose tree was built from nothing by
`CreateNode`, `AddNode` and the top-level `|` case of `Consume_Usage_Expr`: each node listed
in the children of a node `x` is allocated and has `x` as parent; the root is allocated and
has no parent; no node is in the child lists of two nodes, nor twice in one. -/
theorem AST_parent_child_consistent :
    (∀ (h : Heap) (n : Nat) (node : DocoptAst) (k : DocoptNodeType) (t : Option Token),
      h[n]? = some node →
      (AddNode h n k t).2 = h.length ∧ (AddNode h n k t).1.length = h.length + 1 ∧
      (AddNode h n k t).1[h.length]? = some
        { Typ := k, Token := t, Children := [], Parent := some n, Repeat := false } ∧
      (AddNode h n k t).1[n]? = some { node with Children := node.Children ++ [h.length] } ∧
      ∀ j, j < h.length → j ≠ n → (AddNode h n k t).1[j]? = h[j]?) ∧
    (∀ (p : DocoptParser σ), Built p →
      (∀ (x c : Nat) (nx : DocoptAst), p.heap[x]? = some nx → c ∈ nx.Children →
        ∃ cn : DocoptAst, p.heap[c]? = some cn ∧ cn.Parent = some x) ∧
      (∀ r : Nat, p.ast = some r → ∃ rn : DocoptAst, p.heap[r]? = some rn ∧ rn.Parent = none) ∧
      (∀ (x y c : Nat) (nx ny : DocoptAst), p.heap[x]? = some nx → p.heap[y]? = some ny →
        c ∈ nx.Children → c ∈ ny.Children → x = y) ∧
      (∀ (x : Nat) (nx : DocoptAst), p.heap[x]? = some nx → nx.Children.Nodup)) := by
  refine ⟨fun h n node k t hn => ?_, fun p hb => ?_⟩
  · have hlt : n < h.length := (List.getElem?_eq_some_iff.mp hn).1
    exact ⟨rfl, by simp, getElem?_AddNode_new _ _ _ _ hlt, getElem?_AddNode_parent _ _ _ _ _ hn,
      fun j hj hjn => getElem?_AddNode_of_ne _ _ _ _ _ hj hjn⟩
  · have ok := (TreeInv_of_Built p hb).1
    exact ⟨ok.parent, ok.root, fun x y c nx ny hx hy hcx hcy => ok.one_parent hx hy hcx hcy,
      ok.nodup⟩

end

section

set_option maxRecDepth 100000 in
/-- C30 on the tree of `prog a |`: built by `CreateNode` and four `AddNode`, then
restructured by the `|` case, it is `barHeapAfter`, in which the expression 3 of `a` has
the alternative group 5 as parent and is a child of no other node. -/
theorem AST_parent_child_consistent_witness :
    Consume_Usage_Expr_alternative barState = Res.ok (Reason.Continue, none)
      { barState with heap := barHeapAfter, current_node := some 6 } ∧
    (∀ (x c : Nat) (nx : DocoptAst), barHeapAfter[x]? = some nx → c ∈ nx.Children →
      ∃ cn : DocoptAst, barHeapAfter[c]? = some cn ∧ cn.Parent = some x) ∧
    (∀ (x y c : Nat) (nx ny : DocoptAst), barHeapAfter[x]? = some nx →
      barHeapAfter[y]? = some ny → c ∈ nx.Children → c ∈ ny.Children → x = y) := by
  have b0 : Built ({ treeState [] with ast := none, current_node := none } :
      DocoptParser ListLexerState) := Built.empty _ rfl rfl
  have b1 := Built.createNode _ (treeState [rootNode DocoptNodeType.Usage_section none])
    DocoptNodeType.Usage_section none b0 (by decide)
  have b2 := Built.addNode _
    (treeState (AddNode [rootNode DocoptNodeType.Usage_section none] 0
      DocoptNodeType.Usage_line none).1)
    (some 0) DocoptNodeType.Usage_line none 1 b1 (by decide)
  have b3 := Built.addNode _
    (treeState (AddNode (AddNode [rootNode DocoptNodeType.Usage_section none] 0
      DocoptNodeType.Usage_line none).1 1 DocoptNodeType.Prog_name
      (some ⟨TokKind.PROG_NAME, "prog", 0⟩)).1)
    (some 1) DocoptNodeType.Prog_name (some ⟨TokKind.PROG_NAME, "prog", 0⟩) 2 b2 (by decide)
  have b4 := Built.addNode _
    (treeState (AddNode (AddNode (AddNode [rootNode DocoptNodeType.Usage_section none] 0
      DocoptNodeType.Usage_line none).1 1 DocoptNodeType.Prog_name
      (some ⟨TokKind.PROG_NAME, "prog", 0⟩)).1 1 DocoptNodeType.Usage_Expr none).1)
    (some 1) DocoptNodeType.Usage_Expr none 3 b3 (by decide)
  have b5 := Built.addNode _ (treeState barState.heap)
    (some 3) DocoptNodeType.Usage_command (some ⟨TokKind.IDENT, "a", 1⟩) 4 b4 (by decide)
  have b6 : Built barState := Built.frame _ barState b5 rfl rfl
  have hrun : Consume_Usage_Expr_alternative barState = Res.ok (Reason.Continue, none)
      { barState with heap := barHeapAfter, current_node := some 6 } := by decide
  have b7 := Built.alternative _ _ _ b6 hrun
  have h := (@AST_parent_child_consistent ListLexerState).2 _ b7
  exact ⟨hrun, h.1, h.2.2.1⟩

end

/-! ## Theorems: stopping is permanent -/

section
variable {σ : Type} {cnt : σ → Nat}

theorem Permanent_refl (p : DocoptParser σ) : Permanent cnt p p :=
  ⟨rfl, le_refl _, fun h => h, fun h => h, fun _ => rfl⟩

theorem Permanent_trans (p q r : DocoptParser σ) (h1 : Permanent cnt p q)
    (h2 : Permanent cnt q r) : Permanent cnt p r :=
  ⟨h2.1.trans h1.1, le_trans h1.2.1 h2.2.1, fun h => h2.2.2.1 (h1.2.2.1 h),
    fun h => h2.2.2.2.1 (h1.2.2.2.1 h),
    fun h => (h2.2.2.2.2 (by rw [h1.1]; exact le_trans h h1.2.1)).trans (h1.2.2.2.2 h)⟩

/-- A step that leaves `max_error`, `Error_count`, `run` and `cnt` as they are. -/
theorem Permanent_of_frame {p q : DocoptParser σ} (h1 : q.max_error = p.max_error)
    (h2 : q.Error_count = p.Error_count) (h3 : q.run = p.run) (h4 : cnt q.s = cnt p.s) :
    Permanent cnt p q :=
  ⟨h1, le_of_eq h2.symm, fun h => h3.trans h, fun h hr => by
    rw [h1, h2]; exact h (h3 ▸ hr), fun _ => h4⟩

/-- One more error counted. -/
theorem Permanent_count {p q : DocoptParser σ} (h1 : q.max_error = p.max_error)
    (h2 : q.Error_count = p.Error_count + 1) (h3 : q.run = p.run) (h4 : cnt q.s = cnt p.s) :
    Permanent cnt p q :=
  ⟨h1, by omega, fun h => h3.trans h, fun h hr => by
    rw [h1, h2]; exact Nat.le_succ_of_le (h (h3 ▸ hr)), fun _ => h4⟩

theorem P_addNode (n : Option Nat) (k : DocoptNodeType) (t : Option Token) :
    Keeps (Permanent cnt) (addNode n k t : M σ _) :=
  Keeps_addNode Permanent_refl n k t (fun _ _ => Permanent_of_frame rfl rfl rfl rfl)

theorem P_try_get_NextToken_aux (L : StateLexer σ) (slot : Slot) (k : Nat)
    (p : DocoptParser σ) :
    Permanent cnt p (try_get_NextToken_aux L slot k p).2 ∧
      (try_get_NextToken_aux L slot k p).2.run = p.run := by
  induction k generalizing p with
  | zero => exact ⟨Permanent_refl p, rfl⟩
  | succ k ih =>
    unfold try_get_NextToken_aux
    by_cases hge : p.Error_count ≥ p.max_error
    · rw [if_pos hge]
      exact ⟨Permanent_refl p, rfl⟩
    · rw [if_neg hge]
      have hnot : ¬ (p.max_error ≤ p.Error_count) := hge
      split
      · refine ⟨⟨?_, ?_, ?_, ?_, fun h => absurd h hnot⟩, ?_⟩ <;> cases slot <;>
          first | rfl | exact le_refl _ | exact fun h => h
      · dsimp only
        split
        · exact ⟨⟨rfl, Nat.le_succ _, fun h => h, fun h hr => Nat.le_succ_of_le (h hr),
            fun h => absurd h hnot⟩, rfl⟩
        · obtain ⟨h1, h2⟩ := ih
            { (({ p with s := _ } : DocoptParser σ).AddError (Err.lexical _)) with
              s := L.Discard 1 _ }
          refine ⟨Permanent_trans _ _ _ ?_ h1, h2⟩
          exact ⟨rfl, Nat.le_succ _, fun h => h, fun h hr => Nat.le_succ_of_le (h hr),
            fun h => absurd h hnot⟩

theorem P_try_get_NextToken (L : StateLexer σ) (slot : Slot) :
    Keeps (Permanent cnt) (try_get_NextToken L slot) :=
  fun p => (P_try_get_NextToken_aux L slot _ p).1

theorem P_removeBack : Keeps (Permanent cnt) (removeBack : M σ Unit) := by
  unfold removeBack
  with_reducible repeat' (first
    | exact Keeps_getP Permanent_refl
    | exact Keeps_panicM Permanent_refl
    | apply Keeps_ite
    | apply Keeps_bind Permanent_trans
    | intro _
    | with_unfolding_all exact Keeps_modifyP (fun _ => Permanent_of_frame rfl rfl rfl rfl))

theorem P_NextToken (L : StateLexer σ) (hL : NextOnly L cnt) :
    Keeps (Permanent cnt) (NextToken L) := by
  have hrelex : Keeps (Permanent cnt) (NextToken_relex L) := by
    unfold NextToken_relex
    with_reducible repeat' (first
      | exact Keeps_pure Permanent_refl _
      | exact Keeps_getP Permanent_refl
      | exact Keeps_deref Permanent_refl _
      | exact P_removeBack
      | apply Keeps_ite
      | apply Keeps_bind Permanent_trans
      | intro _
      | with_unfolding_all
          exact Keeps_modifyP (fun _ => Permanent_of_frame rfl rfl rfl (hL.reject _ _)))
  have hcur : Keeps (Permanent cnt) (NextToken_current L) := by
    unfold NextToken_current
    with_reducible repeat' (first
      | exact Keeps_pure Permanent_refl _
      | exact Keeps_getP Permanent_refl
      | exact P_try_get_NextToken L _
      | apply Keeps_ite
      | apply Keeps_bind Permanent_trans
      | intro _
      | with_unfolding_all exact Keeps_modifyP (fun _ => Permanent_of_frame rfl rfl rfl rfl))
  intro p
  unfold NextToken
  rw [sat_bind]
  refine sat_mono (hrelex p) (fun _ q1 h1 => ?_) (fun _ h => h)
  rw [sat_bind]
  refine sat_mono (hcur q1) (fun _ q2 h2 => ?_) (fun _ h => Permanent_trans _ _ _ h1 h)
  rw [sat_bind]
  refine sat_mono (P_try_get_NextToken L Slot.next q2) (fun _ q3 h3 => ?_)
    (fun _ h => Permanent_trans _ _ _ (Permanent_trans _ _ _ h1 h2) h)
  have h13 := Permanent_trans _ _ _ (Permanent_trans _ _ _ h1 h2) h3
  simp only [sat_bind, getP_apply, sat_ok, sat_whenM, FatalError_apply, modifyP_apply]
  refine ⟨fun hge => Permanent_trans _ _ _ h13 ?_, fun _ => Permanent_trans _ _ _ h13 ?_⟩
  · exact ⟨rfl, le_refl _, fun _ => rfl, fun _ _ => hge, fun _ => rfl⟩
  · exact Permanent_of_frame rfl rfl rfl rfl

end

section
variable {σ : Type} {cnt : σ → Nat}

theorem P_AddError (e : Err) : Keeps (Permanent cnt) (AddError e : M σ Err) :=
  fun _ => Permanent_count rfl rfl rfl rfl

theorem P_Consume_group (L : StateLexer σ) (hL : NextOnly L cnt) (fuel : Nat) :
    ∀ k, Keeps (Permanent cnt) (Consume_group L fuel k) := by
  induction fuel with
  | zero =>
    intro k
    exact Keeps_timeoutM Permanent_refl
  | succ fuel ih =>
    intro k
    unfold Consume_group
    with_reducible repeat' (first
      | exact Keeps_pure Permanent_refl _
      | exact Keeps_getP Permanent_refl
      | exact Keeps_deref Permanent_refl _
      | exact Keeps_readNode Permanent_refl _
      | exact P_addNode _ _ _
      | exact P_NextToken L hL
      | exact ih _
      | apply Keeps_whenM Permanent_refl
      | apply Keeps_ite
      | apply Keeps_bind Permanent_trans
      | apply Keeps_forRun Permanent_refl Permanent_trans
      | intro _
      | unfold Consume_group_body
      | unfold Consume_group_token
      | unfold Consume_group_punct
      | unfold breakOnError
      | unfold Consume_group_alternative
      | unfold Consume_group_close
      | unfold Consume_group_assign
      | unfold Consume_ellipsis
      | unfold Consume_assign
      | unfold addLeafNext
      | unfold addLeaf
      | unfold groupError
      | unfold Consume_group_finish
      | unfold setCurrentNode
      | with_unfolding_all exact Keeps_modifyP (fun _ => Permanent_of_frame rfl rfl rfl rfl))

theorem P_ensure_node (k : DocoptNodeType) : Keeps (Permanent cnt) (ensure_node k : M σ Unit) := by
  unfold ensure_node
  with_reducible repeat' (first
    | exact Keeps_pure Permanent_refl _
    | exact Keeps_getP Permanent_refl
    | exact Keeps_readNode Permanent_refl _
    | exact P_addNode _ _ _
    | apply Keeps_ite
    | apply Keeps_bind Permanent_trans
    | intro _
    | unfold setCurrentNode
    | with_unfolding_all exact Keeps_modifyP (fun _ => Permanent_of_frame rfl rfl rfl rfl))

end

section
variable {σ : Type} {cnt : σ → Nat}

/-- After `ensure_node(k)` the current node is a node of kind `k`. -/
theorem sat_ensure_node_kind (k : DocoptNodeType) (p : DocoptParser σ) :
    (ensure_node k p).sat
      (fun _ q => ∃ (c : Nat) (n : DocoptAst), q.current_node = some c ∧ q.heap[c]? = some n ∧
        n.Typ = k)
      (fun _ => True) := by
  unfold ensure_node
  rw [sat_bind, getP_apply]
  simp only [sat_ok]
  rw [sat_bind, sat_readNode]
  refine ⟨fun c n hc hn => ?_, fun _ => trivial⟩
  have hlt : c < p.heap.length := (List.getElem?_eq_some_iff.mp hn).1
  by_cases hk : n.Typ ≠ k
  · rw [if_pos hk, hc, sat_bind, addNode_ok p c n hn]
    simp only [sat_ok, setCurrentNode_apply]
    exact ⟨p.heap.length, _, rfl, getElem?_AddNode_new _ _ _ _ hlt, rfl⟩
  · rw [if_neg hk, pure_apply, sat_ok]
    exact ⟨c, n, hc, hn, not_not.mp hk⟩

/-- The assertion of `Consume_Usage_Expr` after `Consume_group` never fails: the current
node is restored and its kind is unchanged, so `FatalError` is not called there. -/
theorem P_Consume_Usage_Expr_group (L : StateLexer σ) (hL : NextOnly L cnt) (fuel : Nat)
    (n : DocoptNodeType) (hn : n ≠ DocoptNodeType.Usage_line) :
    Keeps (Permanent cnt) (Consume_Usage_Expr_group L fuel n) := by
  intro p
  unfold Consume_Usage_Expr_group
  rw [sat_bind]
  refine sat_mono (sat_and (P_ensure_node DocoptNodeType.Usage_Expr p)
    (sat_ensure_node_kind DocoptNodeType.Usage_Expr p)) (fun _ q1 h1 => ?_) (fun _ h => h.1)
  obtain ⟨hp1, c, cn, hc, hcn, hty⟩ := h1
  rw [sat_bind]
  refine sat_mono (sat_and (P_Consume_group L hL fuel n q1) (Consume_group_spec L fuel n hn q1))
    (fun e q2 h2 => ?_) (fun _ h => Permanent_trans _ _ _ hp1 h.1)
  obtain ⟨hp2, hstep, hcur⟩ := h2
  have hp12 := Permanent_trans _ _ _ hp1 hp2
  by_cases he : e ≠ none
  · rw [if_pos he, pure_apply, sat_ok]
    exact hp12
  · rw [if_neg he, sat_bind, getP_apply]
    simp only [sat_ok]
    rw [sat_bind, sat_readNode]
    refine ⟨fun c2 cn2 hc2 hcn2 => ?_, fun _ => hp12⟩
    have hc2' : c2 = c := by
      have := hcur (not_not.mp he)
      rw [hc, hc2] at this
      exact Option.some.inj this
    subst hc2'
    obtain ⟨n1, hn1, hty1, _⟩ := hstep.1.1 c2 cn hcn
    rw [hcn2] at hn1
    cases hn1
    have hno : ¬ (cn2.Typ ≠ DocoptNodeType.Usage_Expr) := by
      rw [hty1, hty]; simp
    rw [sat_bind, whenM_false _ _ hno, pure_apply, sat_ok, pure_apply, sat_ok]
    exact hp12

theorem P_Consume_Usage_Expr (L : StateLexer σ) (hL : NextOnly L cnt) (fuel : Nat) :
    Keeps (Permanent cnt) (Consume_Usage_Expr L fuel) := by
  unfold Consume_Usage_Expr
  with_reducible repeat' (first
    | exact Keeps_pure Permanent_refl _
    | exact Keeps_getP Permanent_refl
    | exact Keeps_panicM Permanent_refl
    | exact Keeps_deref Permanent_refl _
    | exact Keeps_readNode Permanent_refl _
    | exact P_addNode _ _ _
    | exact P_NextToken L hL
    | exact P_Consume_Usage_Expr_group L hL fuel _ (by decide)
    | exact P_ensure_node _
    | exact P_AddError _
    | apply Keeps_whenM Permanent_refl
    | apply Keeps_ite
    | apply Keeps_bind Permanent_trans
    | intro _
    | unfold has_reach_EOF
    | unfold has_reach_two_NEWLINE
    | unfold has_reach_PROG_NAME
    | unfold Consume_Usage_Expr_token
    | unfold Consume_Usage_Expr_leaf
    | unfold Consume_Usage_Expr_ellipsis
    | unfold Consume_Usage_Expr_assign
    | unfold Consume_Usage_Expr_alternative
    | unfold usage_line_alternative
    | unfold addLeaf
    | unfold Consume_ellipsis
    | unfold Consume_assign
    | unfold setCurrentNode
    | with_unfolding_all exact Keeps_modifyP (fun _ => Permanent_of_frame rfl rfl rfl rfl))

theorem P_Consume_loop (L : StateLexer σ) (hL : NextOnly L cnt) (c : Consumer_Definition σ)
    (hc : Keeps (Permanent cnt) c.consume_token) (fuel : Nat) :
    Keeps (Permanent cnt) (Consume_loop L c fuel) := by
  unfold Consume_loop
  with_reducible repeat' (first
    | exact Keeps_pure Permanent_refl _
    | exact Keeps_getP Permanent_refl
    | exact Keeps_deref Permanent_refl _
    | exact Keeps_readNode Permanent_refl _
    | exact P_addNode _ _ _
    | exact P_NextToken L hL
    | exact P_removeBack
    | exact hc
    | apply Keeps_whenM Permanent_refl
    | apply Keeps_ite
    | apply Keeps_bind Permanent_trans
    | apply Keeps_forRun Permanent_refl Permanent_trans
    | intro _
    | unfold Consume_loop_body
    | unfold Consume_loop_finish
    | unfold reject_current_token
    | unfold setCurrentNode
    | with_unfolding_all exact Keeps_modifyP (fun _ => Permanent_of_frame rfl rfl rfl rfl)
    | with_unfolding_all
        exact Keeps_modifyP (fun _ => Permanent_of_frame rfl rfl rfl (hL.reject _ _)))

end

section
variable {σ : Type} {cnt : σ → Nat}

theorem Returns_bind_of {α β : Type} {S1 : α → Prop} {S : β → Prop} {m : M σ α}
    {f : α → M σ β} (hm : Returns S1 m) (hf : ∀ a, S1 a → Returns S (f a)) :
    Returns S (m >>= f) := by
  intro p
  rw [sat_bind]
  have h := hm p
  cases hmp : m p with
  | ok a q => rw [hmp] at h; exact hf a h q
  | panic q => trivial
  | timeout q => trivial

theorem Returns_ite_of {α : Type} {S : α → Prop} (c : Prop) [Decidable c] {m1 m2 : M σ α}
    (h1 : c → Returns S m1) (h2 : ¬ c → Returns S m2) : Returns S (if c then m1 else m2) := by
  by_cases h : c
  · rw [if_pos h]; exact h1 h
  · rw [if_neg h]; exact h2 h

theorem Returns_has_reach_EOF (r : Reason) (hr : r = Reason.zero ∨ r.handled) :
    Returns (fun x : Bool × Reason => x.2 = Reason.zero ∨ x.2.handled)
      (has_reach_EOF r : M σ _) := by
  unfold has_reach_EOF
  repeat' (first
    | exact Returns_pure hr
    | exact Returns_pure (S := fun x : Bool × Reason => x.2 = Reason.zero ∨ x.2.handled)
        (Or.inr (Or.inr (Or.inl rfl)))
    | apply Returns_ite
    | apply Returns_bind
    | intro _)

theorem Returns_has_reach_two_NEWLINE (L : StateLexer σ) (r : Reason) (b : Bool)
    (hr : r = Reason.zero ∨ r.handled) :
    Returns (fun x : Bool × Reason => x.2 = Reason.zero ∨ x.2.handled)
      (has_reach_two_NEWLINE L r b) := by
  unfold has_reach_two_NEWLINE
  repeat' (first
    | exact Returns_pure hr
    | exact Returns_pure (S := fun x : Bool × Reason => x.2 = Reason.zero ∨ x.2.handled)
        (Or.inr (Or.inl rfl))
    | apply Returns_ite
    | apply Returns_bind
    | intro _)

theorem Returns_has_reach_PROG_NAME (r : Reason) (hr : r = Reason.zero ∨ r.handled) :
    Returns (fun x : Bool × Reason => x.2 = Reason.zero ∨ x.2.handled)
      (has_reach_PROG_NAME r : M σ _) := by
  unfold has_reach_PROG_NAME
  repeat' (first
    | exact Returns_pure hr
    | exact Returns_pure (S := fun x : Bool × Reason => x.2 = Reason.zero ∨ x.2.handled)
        (Or.inr (Or.inr (Or.inr rfl)))
    | apply Returns_ite
    | apply Returns_bind
    | intro _)

theorem ReturnOK_of_reason {r : Reason} {e : Option Err} (hr : r = Reason.zero ∨ r.handled) :
    ReturnOK (r, e) := by
  rcases hr with h | h
  · exact Or.inr (Or.inr (Or.inl h))
  · exact Or.inr (Or.inr (Or.inr h))

/-- What `Consume_Usage_Expr` returns. -/
theorem Returns_Consume_Usage_Expr (L : StateLexer σ) (fuel : Nat) :
    Returns ReturnOK (Consume_Usage_Expr L fuel) := by
  unfold Consume_Usage_Expr
  refine Returns_bind_of (Returns_has_reach_EOF Reason.zero (Or.inl rfl)) (fun r1 h1 => ?_)
  refine Returns_ite _ (Returns_pure (ReturnOK_of_reason h1)) ?_
  refine Returns_bind_of (Returns_has_reach_two_NEWLINE L r1.2 true h1) (fun r2 h2 => ?_)
  refine Returns_ite _ (Returns_pure (ReturnOK_of_reason h2)) ?_
  refine Returns_bind_of (Returns_has_reach_PROG_NAME r2.2 h2) (fun r3 h3 => ?_)
  refine Returns_ite _ (Returns_pure (ReturnOK_of_reason h3)) ?_
  refine Returns_bind (fun p => Returns_bind (fun tok => ?_))
  unfold Consume_Usage_Expr_token Consume_Usage_Expr_leaf Consume_Usage_Expr_group
    Consume_Usage_Expr_ellipsis Consume_Usage_Expr_assign Consume_Usage_Expr_alternative
  repeat' (first
    | exact Returns_pure (ReturnOK_of_reason h3)
    | exact Returns_pure (S := ReturnOK) (Or.inr (Or.inl rfl))
    | exact Returns_pure (S := ReturnOK) (Or.inl (by assumption))
    | exact Returns_pure (S := ReturnOK) (Or.inl (Option.some_ne_none _))
    | apply Returns_ite_of
    | apply Returns_bind
    | intro _)

/-- What `Consume_loop` over `Consume_Usage_Expr` returns. -/
theorem sat_Consume_loop_LeaveOK (L : StateLexer σ) (fuel : Nat) (p : DocoptParser σ) :
    (Consume_loop L (consume_Expr L fuel) fuel p).sat (fun x _ => LeaveOK x) (fun _ => True) := by
  unfold Consume_loop
  apply sat_bind_any
  intro _ q1
  apply sat_bind_any
  intro q2 q3
  apply sat_bind_any
  intro _ q4
  rw [sat_bind]
  have hloop := sat_forRun_stopped (fun (_ : Unit) => Consume_loop_body L (consume_Expr L fuel))
    (fun _ _ => True)
    (fun (r : Option (Reason × Option Err)) (q : DocoptParser σ) =>
      (r = none → q.run = false) ∧ ∀ x, r = some x → LeaveOK x)
    (fun _ => True)
    (fun c q _ _ => by
      unfold Consume_loop_body
      apply sat_bind_any
      intro _ qa
      rw [sat_bind]
      refine sat_mono (Returns_Consume_Usage_Expr L fuel qa) (fun r qb hr => ?_)
        (fun _ _ => trivial)
      by_cases hc : r.2 ≠ none ∨ r.1.Leaving = true
      · rw [if_pos hc, pure_apply, sat_ok]
        refine ⟨fun c1 h0 => (by cases h0), fun b hb => ⟨fun h0 => (by cases h0), fun x hx => ?_⟩⟩
        cases hb
        cases hx
        rcases hc with hc | hc
        · exact Or.inl hc
        · rcases hr with h | h | h | h
          · exact Or.inl h
          · rw [h] at hc; cases hc
          · rw [h] at hc; cases hc
          · exact Or.inr h
      · rw [if_neg hc, pure_apply, sat_ok]
        exact ⟨fun _ _ => trivial, fun b hb => by cases hb⟩)
    (fun _ q _ hrun => ⟨fun _ => hrun, fun x hx => by cases hx⟩)
    (fun _ _ _ => trivial) fuel () q4 trivial
  refine sat_mono hloop (fun r q5 h5 => ?_) (fun _ _ => trivial)
  unfold Consume_loop_finish
  rw [sat_bind, getP_apply]
  simp only [sat_ok]
  by_cases hrun : q5.run = true
  · rw [if_pos hrun]
    apply sat_bind_any
    intro _ q6
    rw [pure_apply, sat_ok]
    cases r with
    | none =>
      have := h5.1 rfl
      rw [hrun] at this
      cases this
    | some x => exact h5.2 x rfl
  · rw [if_neg hrun]
    apply sat_bind_any
    intro n q6
    rw [pure_apply, sat_ok]
    exact Or.inl (by simp)

theorem P_Consume_Usage_line_new (us : Option Nat) :
    Keeps (Permanent cnt) (Consume_Usage_line_new us : M σ _) := by
  unfold Consume_Usage_line_new
  with_reducible repeat' (first
    | exact Keeps_pure Permanent_refl _
    | exact Keeps_getP Permanent_refl
    | exact P_addNode _ _ _
    | apply Keeps_bind Permanent_trans
    | intro _
    | unfold setCurrentNode
    | with_unfolding_all exact Keeps_modifyP (fun _ => Permanent_of_frame rfl rfl rfl rfl))

/-- The default case of the switch of `Consume_Usage_line` is never reached, so
`FatalError` is not called there. -/
theorem P_Consume_Usage_line_expr (L : StateLexer σ) (hL : NextOnly L cnt) (fuel : Nat)
    (us : Option Nat) : Keeps (Permanent cnt) (Consume_Usage_line_expr L fuel us) := by
  intro p
  unfold Consume_Usage_line_expr
  rw [sat_bind]
  refine sat_mono (sat_and
      (P_Consume_loop L hL (consume_Expr L fuel) (P_Consume_Usage_Expr L hL fuel) fuel p)
      (sat_Consume_loop_LeaveOK L fuel p))
    (fun r q h => ?_) (fun _ h => h.1)
  obtain ⟨hp, hleave⟩ := h
  by_cases h1 : r.2 ≠ none
  · rw [if_pos h1, pure_apply, sat_ok]
    exact hp
  · rw [if_neg h1]
    by_cases h2 : r.1 = Reason.TWO_NEWLINE ∨ r.1 = Reason.EOF_reached
    · rw [if_pos h2, pure_apply, sat_ok]
      exact hp
    · rw [if_neg h2]
      by_cases h3 : r.1 = Reason.PROG_NAME_sequence
      · rw [if_pos h3]
        exact sat_mono (P_Consume_Usage_line_new us q) (fun _ _ h => Permanent_trans _ _ _ hp h)
          (fun _ h => Permanent_trans _ _ _ hp h)
      · exfalso
        rcases hleave with h | h | h | h
        · exact h1 h
        · exact h2 (Or.inl h)
        · exact h2 (Or.inr h)
        · exact h3 h

theorem P_Consume_Usage (L : StateLexer σ) (hL : NextOnly L cnt) (fuel : Nat) :
    Keeps (Permanent cnt) (Consume_Usage L fuel) := by
  unfold Consume_Usage
  with_reducible repeat' (first
    | exact Keeps_pure Permanent_refl _
    | exact Keeps_getP Permanent_refl
    | exact Keeps_deref Permanent_refl _
    | exact Keeps_readNode Permanent_refl _
    | exact P_addNode _ _ _
    | exact P_NextToken L hL
    | exact P_Consume_Usage_line_expr L hL fuel _
    | apply Keeps_ite
    | apply Keeps_bind Permanent_trans
    | apply Keeps_forRun Permanent_refl Permanent_trans
    | intro _
    | unfold Consume_First_Program_Usage
    | unfold Consume_First_Program_Usage_body
    | unfold Consume_First_Program_Usage_found
    | unfold Consume_Usage_line
    | unfold Consume_Usage_line_body
    | unfold Consume_Usage_line_token
    | unfold has_reach_EOF
    | unfold loopResult
    | unfold Change_lexer_state
    | unfold setCurrentNode
    | with_unfolding_all exact Keeps_modifyP (fun _ => Permanent_of_frame rfl rfl rfl rfl)
    | with_unfolding_all
        exact Keeps_modifyP (fun _ => Permanent_of_frame rfl rfl rfl (hL.changeState _ _))
    | with_unfolding_all
        exact Keeps_modifyP (fun _ => Permanent_of_frame rfl rfl rfl (hL.dynamicRuleUpdate _ _ _)))

theorem P_CreateNode (k : DocoptNodeType) (t : Option Token) :
    Keeps (Permanent cnt) (CreateNode k t : M σ Unit) := by
  unfold CreateNode CreateNode_alloc
  with_reducible repeat' (first
    | exact Keeps_pure Permanent_refl _
    | exact Keeps_getP Permanent_refl
    | exact P_addNode _ _ _
    | apply Keeps_whenM Permanent_refl
    | apply Keeps_ite
    | apply Keeps_bind Permanent_trans
    | intro _
    | unfold setCurrentNode
    | with_unfolding_all exact Keeps_modifyP (fun _ => Permanent_of_frame rfl rfl rfl rfl))

theorem P_Consume_Prologue (L : StateLexer σ) (hL : NextOnly L cnt) (fuel : Nat) :
    Keeps (Permanent cnt) (Consume_Prologue L fuel) := by
  unfold Consume_Prologue
  with_reducible repeat' (first
    | exact Keeps_pure Permanent_refl _
    | exact Keeps_getP Permanent_refl
    | exact Keeps_deref Permanent_refl _
    | exact Keeps_readNode Permanent_refl _
    | exact P_addNode _ _ _
    | exact P_NextToken L hL
    | exact P_CreateNode _ _
    | apply Keeps_ite
    | apply Keeps_bind Permanent_trans
    | apply Keeps_forRun Permanent_refl Permanent_trans
    | intro _
    | unfold Consume_Prologue_body
    | unfold loopResult
    | unfold addLeaf
    | unfold setCurrentNode
    | with_unfolding_all exact Keeps_modifyP (fun _ => Permanent_of_frame rfl rfl rfl rfl))

theorem P_Consume_Free_section (L : StateLexer σ) (hL : NextOnly L cnt) (fuel : Nat) :
    Keeps (Permanent cnt) (Consume_Free_section L fuel) := by
  induction fuel with
  | zero => exact Keeps_timeoutM Permanent_refl
  | succ fuel ih =>
    unfold Consume_Free_section
    with_reducible repeat' (first
      | exact Keeps_pure Permanent_refl _
      | exact Keeps_getP Permanent_refl
      | exact Keeps_deref Permanent_refl _
      | exact Keeps_readNode Permanent_refl _
      | exact P_addNode _ _ _
      | exact P_NextToken L hL
      | exact ih
      | apply Keeps_whenM Permanent_refl
      | apply Keeps_ite
      | apply Keeps_bind Permanent_trans
      | apply Keeps_forRun Permanent_refl Permanent_trans
      | intro _
      | unfold Consume_Free_section_body
      | unfold Consume_Free_section_heading
      | unfold groupError
      | unfold loopResult
      | unfold addLeafNext
      | unfold addLeaf
      | unfold Change_lexer_state
      | unfold setCurrentNode
      | with_unfolding_all exact Keeps_modifyP (fun _ => Permanent_of_frame rfl rfl rfl rfl)
      | with_unfolding_all
          exact Keeps_modifyP (fun _ => Permanent_of_frame rfl rfl rfl (hL.changeState _ _)))

theorem P_Consume_Options (L : StateLexer σ) (hL : NextOnly L cnt) (fuel : Nat) :
    Keeps (Permanent cnt) (Consume_Options L fuel) := by
  unfold Consume_Options
  with_reducible repeat' (first
    | exact Keeps_pure Permanent_refl _
    | exact Keeps_getP Permanent_refl
    | exact Keeps_deref Permanent_refl _
    | exact Keeps_readNode Permanent_refl _
    | exact P_addNode _ _ _
    | exact P_NextToken L hL
    | exact P_removeBack
    | apply Keeps_ite
    | apply Keeps_bind Permanent_trans
    | apply Keeps_forRun Permanent_refl Permanent_trans
    | intro _
    | unfold Consume_Options_body
    | unfold Consume_Options_token
    | unfold breakOnError
    | unfold Consume_option_line
    | unfold Consume_option_line_finish
    | unfold Consume_option_line_body
    | unfold Consume_option_line_end
    | unfold Consume_option_line_assign
    | unfold Consume_option_description
    | unfold Consume_option_description_body
    | unfold Consume_option_default
    | unfold collect_description
    | unfold reject_current_token
    | unfold Change_lexer_state
    | unfold loopResult
    | unfold addLeafNext
    | unfold addLeaf
    | unfold groupError
    | unfold Consume_assign
    | unfold setCurrentNode
    | with_unfolding_all exact Keeps_modifyP (fun _ => Permanent_of_frame rfl rfl rfl rfl)
    | with_unfolding_all
        exact Keeps_modifyP (fun _ => Permanent_of_frame rfl rfl rfl (hL.reject _ _))
    | with_unfolding_all
        exact Keeps_modifyP (fun _ => Permanent_of_frame rfl rfl rfl (hL.changeState _ _)))

theorem P_reject_current_token (L : StateLexer σ) (hL : NextOnly L cnt) :
    Keeps (Permanent cnt) (reject_current_token L) := by
  unfold reject_current_token
  with_reducible repeat' (first
    | exact Keeps_getP Permanent_refl
    | exact Keeps_deref Permanent_refl _
    | exact P_removeBack
    | apply Keeps_bind Permanent_trans
    | intro _
    | with_unfolding_all exact Keeps_modifyP (fun _ => Permanent_of_frame rfl rfl rfl rfl)
    | with_unfolding_all
        exact Keeps_modifyP (fun _ => Permanent_of_frame rfl rfl rfl (hL.reject _ _)))

theorem P_Parse (L : StateLexer σ) (hL : NextOnly L cnt) (fuel : Nat) :
    Keeps (Permanent cnt) (Parse L fuel) := by
  unfold Parse parse_step
  with_reducible repeat' (first
    | exact Keeps_pure Permanent_refl _
    | exact Keeps_getP Permanent_refl
    | exact P_CreateNode _ _
    | exact P_Consume_Prologue L hL fuel
    | exact P_Consume_Usage L hL fuel
    | exact P_Consume_Free_section L hL fuel
    | exact P_Consume_Options L hL fuel
    | apply Keeps_whenM Permanent_refl
    | apply Keeps_bind Permanent_trans
    | intro _
    | with_unfolding_all exact Keeps_modifyP (fun _ => Permanent_count rfl rfl rfl rfl))

end

section
variable {σ : Type}

/-- The number of calls of `Next` in the log of the recording tokenizer is changed by
`Next` only. -/
theorem NextOnly_traced (L : StateLexer σ) :
    NextOnly (traced L) (fun s => nextCalls s.2) :=
  ⟨fun n s => by simp [traced, nextCalls, LexCall.isNext],
    fun t s => by simp [traced, nextCalls, LexCall.isNext],
    fun name s => by simp [traced, nextCalls, LexCall.isNext],
    fun rule value s => by simp [traced, nextCalls, LexCall.isNext]⟩

theorem try_get_NextToken_stopped (L : StateLexer σ) (slot : Slot) (p : DocoptParser σ)
    (h : p.max_error ≤ p.Error_count) :
    try_get_NextToken L slot p = Res.ok (some Err.try_get_already_too_many) p := by
  unfold try_get_NextToken
  rw [Nat.sub_eq_zero_of_le h]
  rfl

/-- C27: stopping is permanent. A fresh parser is not stopped, and every operation of the
parser, run over the tokenizer `L` with a log of the calls made to it, from any state `p`
to the state `q` it ends in (returned, nil dereference, or out of fuel) keeps
`Permanent`: `NextToken`, `reject_current_token`, `Consume_loop` over a consumer that
keeps it, `Consume_Usage_Expr`, the four entry points and `Parse`. So when `p` is stopped
having reached the maximum, `q` is stopped, has reached the maximum, and its log holds
the same number of calls of `Next`; and `try_get_NextToken` on a parser that has reached
the maximum returns its error and leaves the state as it is. -/
theorem stopping_is_permanent (L : StateLexer σ) (fuel : Nat) :
    (∀ s : σ × List LexCall, (ParserInit s).run = true) ∧
    (∀ (slot : Slot) (p : DocoptParser (σ × List LexCall)), p.max_error ≤ p.Error_count →
      try_get_NextToken (traced L) slot p = Res.ok (some Err.try_get_already_too_many) p) ∧
    (∀ p q : DocoptParser (σ × List LexCall),
      Permanent (fun s => nextCalls s.2) p q → p.run = false → p.max_error ≤ p.Error_count →
      q.run = false ∧ q.max_error ≤ q.Error_count ∧ nextCalls q.s.2 = nextCalls p.s.2) ∧
    (∀ p q : DocoptParser (σ × List LexCall),
      Permanent (fun s => nextCalls s.2) p q → Safe p → Safe q) ∧
    Keeps (Permanent (fun s => nextCalls s.2)) (NextToken (traced L)) ∧
    Keeps (Permanent (fun s => nextCalls s.2)) (reject_current_token (traced L)) ∧
    (∀ c : Consumer_Definition (σ × List LexCall),
      Keeps (Permanent (fun s => nextCalls s.2)) c.consume_token →
      Keeps (Permanent (fun s => nextCalls s.2)) (Consume_loop (traced L) c fuel)) ∧
    Keeps (Permanent (fun s => nextCalls s.2)) (Consume_Usage_Expr (traced L) fuel) ∧
    Keeps (Permanent (fun s => nextCalls s.2)) (Consume_Prologue (traced L) fuel) ∧
    Keeps (Permanent (fun s => nextCalls s.2)) (Consume_Usage (traced L) fuel) ∧
    Keeps (Permanent (fun s => nextCalls s.2)) (Consume_Free_section (traced L) fuel) ∧
    Keeps (Permanent (fun s => nextCalls s.2)) (Consume_Options (traced L) fuel) ∧
    Keeps (Permanent (fun s => nextCalls s.2)) (Parse (traced L) fuel) :=
  ⟨fun _ => rfl,
    fun slot p h => try_get_NextToken_stopped (traced L) slot p h,
    fun p q h hrun hmax =>
      ⟨h.2.2.1 hrun, by have h1 := h.1; have h2 := h.2.1; omega, h.2.2.2.2 hmax⟩,
    fun _ _ h => h.2.2.2.1,
    P_NextToken (traced L) (NextOnly_traced L),
    P_reject_current_token (traced L) (NextOnly_traced L),
    fun c hc => P_Consume_loop (traced L) (NextOnly_traced L) c hc fuel,
    P_Consume_Usage_Expr (traced L) (NextOnly_traced L) fuel,
    P_Consume_Prologue (traced L) (NextOnly_traced L) fuel,
    P_Consume_Usage (traced L) (NextOnly_traced L) fuel,
    P_Consume_Free_section (traced L) (NextOnly_traced L) fuel,
    P_Consume_Options (traced L) (NextOnly_traced L) fuel,
    P_Parse (traced L) (NextOnly_traced L) fuel⟩

/-- C27 on a concrete run: after the first `NextToken` on ten pieces of unmatched text the
parser is stopped with ten errors counted and ten calls of `Next` logged; running
`Consume_Options` and then `Parse` from there ends in states that are still stopped, with
the maximum reached and ten calls of `Next` logged. -/
theorem stopping_is_permanent_witness :
    tracedStopped.run = false ∧ tracedStopped.Error_count = 10 ∧
    nextCalls tracedStopped.s.2 = 10 ∧
    ((Consume_Options (traced listLexer) 8 tracedStopped).state.run = false ∧
      (Consume_Options (traced listLexer) 8 tracedStopped).state.max_error ≤
        (Consume_Options (traced listLexer) 8 tracedStopped).state.Error_count ∧
      nextCalls (Consume_Options (traced listLexer) 8 tracedStopped).state.s.2 =
        nextCalls tracedStopped.s.2) ∧
    ((Parse (traced listLexer) 8 tracedStopped).state.run = false ∧
      (Parse (traced listLexer) 8 tracedStopped).state.max_error ≤
        (Parse (traced listLexer) 8 tracedStopped).state.Error_count ∧
      nextCalls (Parse (traced listLexer) 8 tracedStopped).state.s.2 =
        nextCalls tracedStopped.s.2) :=
  have h := @stopping_is_permanent ListLexerState listLexer 8
  ⟨by decide, by decide, by decide,
    h.2.2.1 _ _
      (Res.sat_state (r := Consume_Options (traced listLexer) 8 tracedStopped)
        (P := fun q => Permanent (fun s => nextCalls s.2) tracedStopped q)
        ⟨h.2.2.2.2.2.2.2.2.2.2.2.1 tracedStopped, trivial⟩) (by decide) (by decide),
    h.2.2.1 _ _
      (Res.sat_state (r := Parse (traced listLexer) 8 tracedStopped)
        (P := fun q => Permanent (fun s => nextCalls s.2) tracedStopped q)
        ⟨h.2.2.2.2.2.2.2.2.2.2.2.2 tracedStopped, trivial⟩) (by decide) (by decide)⟩

end

/-! ## Theorems: Consume_group restores the current node -/

section
variable {σ : Type}

theorem sat_Consume_group_finish_restores (saved : Option Nat) (r : Option (Option Err))
    (p : DocoptParser σ) :
    (Consume_group_finish saved r p).sat
      (fun e q => (q.run = true → q.current_node = saved) ∧ (q.run = false → e ≠ none))
      (fun _ => True) := by
  unfold Consume_group_finish
  rw [sat_bind, getP_apply]
  simp only [sat_ok]
  by_cases hrun : p.run = true
  · rw [if_pos hrun, sat_bind, setCurrentNode_apply, sat_ok, pure_apply, sat_ok]
    exact ⟨fun _ => rfl, fun h => by simp [hrun] at h⟩
  · rw [if_neg hrun, sat_bind, sat_readNode]
    refine ⟨fun c n _ _ => ?_, fun _ => trivial⟩
    rw [pure_apply, sat_ok]
    exact ⟨fun h => absurd h hrun, fun _ => by simp⟩

/-- When `Consume_group` returns on a parser that is not stopped, the current node is the
one it was called with; when it returns on a stopped parser, it returns an error. -/
theorem sat_Consume_group_restores (L : StateLexer σ) (fuel : Nat) (k : DocoptNodeType)
    (p : DocoptParser σ) :
    (Consume_group L fuel k p).sat
      (fun e q => (q.run = true → q.current_node = p.current_node) ∧ (q.run = false → e ≠ none))
      (fun _ => True) := by
  cases fuel with
  | zero => trivial
  | succ fuel =>
    unfold Consume_group
    rw [sat_bind, getP_apply]
    simp only [sat_ok]
    apply sat_bind_any
    intro group q1
    apply sat_bind_any
    intro _ q2
    apply sat_bind_any
    intro r q3
    exact sat_Consume_group_finish_restores p.current_node r q3

/-- When `Consume_group`, called after `ensure_node(Usage_Expr)`, returns nil, the current
node is a `Usage_Expr`. -/
theorem Consume_group_leaves_Usage_Expr (L : StateLexer σ) (fuel : Nat) (n : DocoptNodeType)
    (hn : n ≠ DocoptNodeType.Usage_line) (p : DocoptParser σ) :
    ((ensure_node DocoptNodeType.Usage_Expr >>= fun _ => Consume_group L fuel n) p).sat
      (fun e q => e = none → ∃ (c : Nat) (cn : DocoptAst), q.current_node = some c ∧
        q.heap[c]? = some cn ∧ cn.Typ = DocoptNodeType.Usage_Expr)
      (fun _ => True) := by
  rw [sat_bind]
  refine sat_mono (sat_ensure_node_kind DocoptNodeType.Usage_Expr p) (fun _ q1 h1 => ?_)
    (fun _ _ => trivial)
  obtain ⟨c, cn, hc, hcn, hty⟩ := h1
  refine sat_mono (Consume_group_spec L fuel n hn q1) (fun e q2 h2 he => ?_) (fun _ _ => trivial)
  obtain ⟨hstep, hcur⟩ := h2
  obtain ⟨n1, hn1, hty1, _⟩ := hstep.1.1 c cn hcn
  exact ⟨c, n1, by rw [hcur he, hc], hn1, by rw [hty1, hty]⟩

/-- The `[` and `(` cases of `Consume_Usage_Expr` never take the branch of `FatalError`:
they run as the same code without the assertion. -/
theorem Consume_Usage_Expr_group_without_assertion (L : StateLexer σ) (fuel : Nat)
    (n : DocoptNodeType) (hn : n ≠ DocoptNodeType.Usage_line) (p : DocoptParser σ) :
    Consume_Usage_Expr_group L fuel n p =
      (do ensure_node DocoptNodeType.Usage_Expr
          let e ← Consume_group L fuel n
          if e ≠ none then pure (Reason.Error, e) else pure (Reason.Continue, none)) p := by
  have h := Consume_group_leaves_Usage_Expr L fuel n hn p
  unfold Consume_Usage_Expr_group
  simp only [bind_apply] at h ⊢
  cases h1 : ensure_node DocoptNodeType.Usage_Expr p with
  | panic q => rfl
  | timeout q => rfl
  | ok a q1 =>
    rw [h1] at h
    simp only [] at h ⊢
    cases h2 : Consume_group L fuel n q1 with
    | panic q => rfl
    | timeout q => rfl
    | ok e q2 =>
      rw [h2] at h
      simp only [] at h ⊢
      by_cases he : e ≠ none
      · rw [if_pos he, if_pos he]
      · rw [if_neg he, if_neg he]
        obtain ⟨c, cn, hc, hcn, hty⟩ := h (not_not.mp he)
        simp [getP_apply, hc, readNode_ok q2 c cn hcn, whenM, hty, pure_apply]

/-- C33: whenever `Consume_group` returns on a parser that is not stopped, with or without
an error and whatever the bound on nesting and iterations, the current node is the one it
was called with, and when it returns on a stopped parser it returns an error.  So when
`Consume_Usage_Expr`, in its `[` and `(` cases, gets nil from `Consume_group` the current
node is a `Usage_Expr`, and these cases run as the same code without the assertion: the
branch of `FatalError` is never taken. -/
theorem Consume_group_restores_current_node (L : StateLexer σ) (fuel : Nat) :
    (∀ (k : DocoptNodeType) (p q : DocoptParser σ) (e : Option Err),
      Consume_group L fuel k p = Res.ok e q → q.run = true →
      q.current_node = p.current_node) ∧
    (∀ (k : DocoptNodeType) (p q : DocoptParser σ) (e : Option Err),
      Consume_group L fuel k p = Res.ok e q → q.run = false → e ≠ none) ∧
    (∀ (n : DocoptNodeType) (p q : DocoptParser σ),
      n = DocoptNodeType.Usage_optional_group ∨ n = DocoptNodeType.Usage_required_group →
      (do ensure_node DocoptNodeType.Usage_Expr
          Consume_group L fuel n) p = Res.ok none q →
      ∃ (c : Nat) (cn : DocoptAst), q.current_node = some c ∧ q.heap[c]? = some cn ∧
        cn.Typ = DocoptNodeType.Usage_Expr) ∧
    (∀ (n : DocoptNodeType) (p : DocoptParser σ),
      n = DocoptNodeType.Usage_optional_group ∨ n = DocoptNodeType.Usage_required_group →
      Consume_Usage_Expr_group L fuel n p =
        (do ensure_node DocoptNodeType.Usage_Expr
            let e ← Consume_group L fuel n
            if e ≠ none then pure (Reason.Error, e) else pure (Reason.Continue, none)) p) := by
  have hne : ∀ n : DocoptNodeType,
      n = DocoptNodeType.Usage_optional_group ∨ n = DocoptNodeType.Usage_required_group →
      n ≠ DocoptNodeType.Usage_line := by
    intro n h
    rcases h with h | h <;> rw [h] <;> decide
  refine ⟨fun k p q e h hrun => ?_, fun k p q e h hrun => ?_, fun n p q hn h => ?_,
    fun n p hn => Consume_Usage_Expr_group_without_assertion L fuel n (hne n hn) p⟩
  · have hs := sat_Consume_group_restores L fuel k p
    rw [h] at hs
    exact hs.1 hrun
  · have hs := sat_Consume_group_restores L fuel k p
    rw [h] at hs
    exact hs.2 hrun
  · have hs := Consume_group_leaves_Usage_Expr L fuel n (hne n hn) p
    rw [h] at hs
    exact hs rfl

set_option maxRecDepth 100000 in
/-- C33 on concrete runs: on `[ a | ( b ) ]`, a group with an alternative and a nested
group, `Consume_group` returns nil with the `Usage_Expr` 0 it was called on as current
node; on `[ a`, which ends before the closing bracket, it returns an error, again with the
node 0 as current node; in both runs the parser is not stopped. -/
theorem Consume_group_restores_current_node_witness :
    (Consume_group listLexer 8 DocoptNodeType.Usage_optional_group nestedState).value? =
      some none ∧
    (Consume_group listLexer 8 DocoptNodeType.Usage_optional_group nestedState).state.run =
      true ∧
    (Consume_group listLexer 8 DocoptNodeType.Usage_optional_group nestedState).state.current_node
      = nestedState.current_node ∧
    (Consume_group listLexer 8 DocoptNodeType.Usage_optional_group unclosedState).value? =
      some (some (Err.group_missing_closing DocoptNodeType.Usage_optional_group TokKind.EOF)) ∧
    (Consume_group listLexer 8 DocoptNodeType.Usage_optional_group
      unclosedState).state.current_node = unclosedState.current_node ∧
    nestedState.current_node = some 0 :=
  ⟨by decide, by decide,
    (Consume_group_restores_current_node listLexer 8).1 DocoptNodeType.Usage_optional_group
      nestedState _ none (by decide) (by decide),
    by decide,
    (Consume_group_restores_current_node listLexer 8).1 DocoptNodeType.Usage_optional_group
      unclosedState _
      (some (Err.group_missing_closing DocoptNodeType.Usage_optional_group TokKind.EOF))
      (by decide) (by decide),
    rfl⟩

end

/-! ## Theorems: The reason switch of Consume_Usage_line -/

section
variable {σ : Type}

/-- The `switch reason` of `Consume_Usage_line` never takes its default branch: the code
runs as the same code without it. -/
theorem Consume_Usage_line_expr_without_default (L : StateLexer σ) (fuel : Nat)
    (us : Option Nat) (p : DocoptParser σ) :
    Consume_Usage_line_expr L fuel us p =
      (do let r ← Consume_loop L (consume_Expr L fuel) fuel
          if r.2 ≠ none then pure (Ctl.brk r.2)
          else if r.1 = Reason.TWO_NEWLINE ∨ r.1 = Reason.EOF_reached then pure (Ctl.brk none)
          else Consume_Usage_line_new us) p := by
  have h := sat_Consume_loop_LeaveOK L fuel p
  unfold Consume_Usage_line_expr
  simp only [bind_apply]
  cases h1 : Consume_loop L (consume_Expr L fuel) fuel p with
  | panic q => rfl
  | timeout q => rfl
  | ok r q =>
    rw [h1] at h
    simp only []
    by_cases hr : r.2 ≠ none
    · rw [if_pos hr, if_pos hr]
    · rw [if_neg hr, if_neg hr]
      by_cases h2 : r.1 = Reason.TWO_NEWLINE ∨ r.1 = Reason.EOF_reached
      · rw [if_pos h2, if_pos h2]
      · rw [if_neg h2, if_neg h2]
        have h3 : r.1 = Reason.PROG_NAME_sequence := by
          rcases h with h | h | h | h
          · exact absurd h hr
          · exact absurd (Or.inl h) h2
          · exact absurd (Or.inr h) h2
          · exact h
        rw [if_pos h3]

/-- C34: whenever `Consume_loop` over `Consume_Usage_Expr`, as `Consume_Usage_line` calls
it, returns a nil error, the returned reason is `TWO_NEWLINE`, `EOF_reached` or
`PROG_NAME_sequence`; these are three pairwise distinct values; and the call followed by
the `switch reason` runs as the same code without the default branch, which is never
taken. -/
theorem Consume_Usage_line_default_unreachable (L : StateLexer σ) (fuel : Nat) :
    (∀ (p q : DocoptParser σ) (r : Reason),
      Consume_loop L (consume_Expr L fuel) fuel p = Res.ok (r, none) q →
      r = Reason.TWO_NEWLINE ∨ r = Reason.EOF_reached ∨ r = Reason.PROG_NAME_sequence) ∧
    (Reason.TWO_NEWLINE ≠ Reason.EOF_reached ∧ Reason.TWO_NEWLINE ≠ Reason.PROG_NAME_sequence ∧
      Reason.EOF_reached ≠ Reason.PROG_NAME_sequence) ∧
    (∀ (us : Option Nat) (p : DocoptParser σ),
      Consume_Usage_line_expr L fuel us p =
        (do let r ← Consume_loop L (consume_Expr L fuel) fuel
            if r.2 ≠ none then pure (Ctl.brk r.2)
            else if r.1 = Reason.TWO_NEWLINE ∨ r.1 = Reason.EOF_reached then
              pure (Ctl.brk none)
            else Consume_Usage_line_new us) p) := by
  refine ⟨fun p q r h => ?_, ⟨by decide, by decide, by decide⟩,
    fun us p => Consume_Usage_line_expr_without_default L fuel us p⟩
  have hs := sat_Consume_loop_LeaveOK L fuel p
  rw [h] at hs
  rcases hs with hs | hs
  · exact absurd rfl hs
  · exact hs

set_option maxRecDepth 100000 in
/-- C34 on concrete runs: `Consume_loop` over `Consume_Usage_Expr` returns a nil error with
`TWO_NEWLINE` on `FILE` followed by a blank line, with `EOF_reached` on `FILE` at the end
of the text, and with `PROG_NAME_sequence` on a second usage line. -/
theorem Consume_Usage_line_default_unreachable_witness :
    (Consume_loop listLexer (consume_Expr listLexer 8) 8 twoNewlineState).value? =
      some (Reason.TWO_NEWLINE, none) ∧
    (Consume_loop listLexer (consume_Expr listLexer 8) 8 argumentState).value? =
      some (Reason.EOF_reached, none) ∧
    (Consume_loop listLexer (consume_Expr listLexer 8) 8 fourTokenState).value? =
      some (Reason.PROG_NAME_sequence, none) ∧
    (Reason.PROG_NAME_sequence = Reason.TWO_NEWLINE ∨
      Reason.PROG_NAME_sequence = Reason.EOF_reached ∨
      Reason.PROG_NAME_sequence = Reason.PROG_NAME_sequence) :=
  ⟨by decide, by decide, by decide,
    (Consume_Usage_line_default_unreachable listLexer 8).1 fourTokenState
      (Consume_loop listLexer (consume_Expr listLexer 8) 8 fourTokenState).state
      Reason.PROG_NAME_sequence (by decide)⟩

end

/-! ## Theorems: A tokenizer that stores no token -/

section
variable {σ : Type}

/-- Over a tokenizer whose `Next` always fails, `try_get_NextToken` stores no token. -/
theorem try_get_NextToken_aux_fails (L : StateLexer σ)
    (hfail : ∀ s : σ, ∃ (msg : String) (s1 : σ), L.Next s = (Except.error msg, s1))
    (slot : Slot) (k : Nat) (p : DocoptParser σ) :
    (try_get_NextToken_aux L slot k p).2.current_token = p.current_token ∧
    (try_get_NextToken_aux L slot k p).2.next_token = p.next_token := by
  induction k generalizing p with
  | zero => exact ⟨rfl, rfl⟩
  | succ k ih =>
    unfold try_get_NextToken_aux
    by_cases h : p.Error_count ≥ p.max_error
    · rw [if_pos h]
      exact ⟨rfl, rfl⟩
    · rw [if_neg h]
      obtain ⟨msg, s1, hn⟩ := hfail p.s
      rw [hn]
      simp only []
      split
      · exact ⟨rfl, rfl⟩
      · exact ih _

/-- Over a tokenizer whose `Next` always fails, `NextToken` on a parser that holds no token
returns with a nil current token. -/
theorem NextToken_fails (L : StateLexer σ)
    (hfail : ∀ s : σ, ∃ (msg : String) (s1 : σ), L.Next s = (Except.error msg, s1))
    (p : DocoptParser σ) (hc : p.current_token = none) (hn : p.next_token = none) :
    ∃ q, NextToken L p = Res.ok () q ∧ q.current_token = none := by
  have h1 := try_get_NextToken_aux_fails L hfail Slot.current (p.max_error - p.Error_count) p
  have h2 := try_get_NextToken_aux_fails L hfail Slot.next
    ((try_get_NextToken_aux L Slot.current (p.max_error - p.Error_count) p).2.max_error -
      (try_get_NextToken_aux L Slot.current (p.max_error - p.Error_count) p).2.Error_count)
    (try_get_NextToken_aux L Slot.current (p.max_error - p.Error_count) p).2
  generalize ha : try_get_NextToken_aux L Slot.current (p.max_error - p.Error_count) p = a
    at h1 h2
  generalize hb : try_get_NextToken_aux L Slot.next (a.2.max_error - a.2.Error_count) a.2 = b
    at h2
  have hbc : b.2.current_token = none := by rw [h2.1, h1.1, hc]
  have hq : NextToken L p = Res.ok ()
      (if b.2.Error_count ≥ b.2.max_error then
        { b.2 with run := false, tokens := b.2.tokens ++ [b.2.current_token] }
      else { b.2 with tokens := b.2.tokens ++ [b.2.current_token] }) := by
    simp only [NextToken, NextToken_relex, NextToken_current, bind_apply, getP_apply, hn,
      try_get_NextToken, pure_apply, whenM, ne_eq, not_true_eq_false, false_and, if_false]
    rw [ha, hb]
    by_cases hx : b.2.Error_count ≥ b.2.max_error
    · simp [hx, FatalError, modifyP_apply]
    · simp [hx, modifyP_apply]
  refine ⟨_, hq, ?_⟩
  split <;> exact hbc

/-- An iteration of the loop of `Consume_Prologue` in which `NextToken` leaves a nil
current token dereferences it. -/
theorem Consume_Prologue_body_nil_token (L : StateLexer σ) (p q : DocoptParser σ)
    (h : NextToken L p = Res.ok () q) (hc : q.current_token = none) :
    Consume_Prologue_body L p = Res.panic q := by
  simp [Consume_Prologue_body, h, hc]

/-- Over a tokenizer whose `Next` always fails, `Parse` on a fresh parser ends in a nil
dereference of the current token. -/
theorem Parse_failing_tokenizer (L : StateLexer σ)
    (hfail : ∀ s : σ, ∃ (msg : String) (s1 : σ), L.Next s = (Except.error msg, s1))
    (s : σ) (fuel : Nat) :
    ∃ q, Parse L (fuel + 1) (ParserInit s) = Res.panic q ∧ q.current_token = none := by
  have h1 : CreateNode DocoptNodeType.Root none (ParserInit s) = Res.ok ()
      { ParserInit s with
        heap := [rootNode DocoptNodeType.Root none], current_node := some 0, ast := some 0 } :=
    rfl
  have h2 : CreateNode DocoptNodeType.Prologue none
      ({ ParserInit s with
        heap := [rootNode DocoptNodeType.Root none], current_node := some 0, ast := some 0 } :
        DocoptParser σ) = Res.ok ()
      { ParserInit s with
        heap := (AddNode [rootNode DocoptNodeType.Root none] 0 DocoptNodeType.Prologue none).1,
        current_node := some 1, ast := some 0 } :=
    rfl
  obtain ⟨q, hq, hqc⟩ := NextToken_fails L hfail
    ({ ParserInit s with
      heap := (AddNode [rootNode DocoptNodeType.Root none] 0 DocoptNodeType.Prologue none).1,
      current_node := some 1, ast := some 0 } : DocoptParser σ) rfl rfl
  have h3 := Consume_Prologue_body_nil_token L _ q hq hqc
  refine ⟨q, ?_, hqc⟩
  have h4 : Consume_Prologue L (fuel + 1)
      ({ ParserInit s with
        heap := [rootNode DocoptNodeType.Root none], current_node := some 0, ast := some 0 } :
        DocoptParser σ) = Res.panic q := by
    unfold Consume_Prologue
    rw [bind_apply, h2]
    simp only []
    rw [bind_apply, forRun_succ _ _ _ _ rfl, h3]
  unfold Parse
  rw [bind_apply, h1]
  simp only []
  rw [bind_apply]
  unfold parse_step
  rw [bind_apply, h4]

set_option maxRecDepth 1000000 in
/-- C35 fails: on ten pieces of text no rule matches, `Next` fails ten times, the first
`NextToken`, called by `Consume_Prologue`, stores no token and stops the parser, and
`Consume_Prologue` then reads `p.current_token.Type`: the run of `Parse` does not return,
it ends in a nil dereference, with the current and the lookahead token nil, ten errors
counted and `run` false.  The same holds for every tokenizer whose `Next` always fails;
and in every state, an iteration of the loop of `Consume_Prologue` in which `NextToken`
leaves the current token nil dereferences it. -/
theorem Parse_dereferences_nil_token :
    tenBadParse.returned = false ∧ tenBadParse = Res.panic tenBadParse.state ∧
    tenBadParse.state.current_token = none ∧ tenBadParse.state.next_token = none ∧
    tenBadParse.state.Error_count = 10 ∧ tenBadParse.state.run = false ∧
    tenBadParse.state.heap =
      [mkNode DocoptNodeType.Root none [1] none,
       mkNode DocoptNodeType.Prologue none [] (some 0)] ∧
    (∀ (σ : Type) (L : StateLexer σ),
      (∀ s : σ, ∃ (msg : String) (s1 : σ), L.Next s = (Except.error msg, s1)) →
      ∀ (s : σ) (fuel : Nat),
        ∃ q, Parse L (fuel + 1) (ParserInit s) = Res.panic q ∧ q.current_token = none) ∧
    (∀ (σ : Type) (L : StateLexer σ) (p q : DocoptParser σ),
      NextToken L p = Res.ok () q → q.current_token = none →
      Consume_Prologue_body L p = Res.panic q) :=
  ⟨by decide!, by decide!, by decide!, by decide!, by decide!, by decide!, by decide!,
    fun _ L hfail s fuel => Parse_failing_tokenizer L hfail s fuel,
    fun _ L p q h hc => Consume_Prologue_body_nil_token L p q h hc⟩

end

/-! ## Theorems: Names and quoting for bash -/

theorem isWordChar_of_IsBashIdentifier {s : String} (h : IsBashIdentifier s = true) :
    ∀ c ∈ s.data, isWordChar c = true := by
  obtain ⟨l⟩ := s
  unfold IsBashIdentifier at h
  rcases l with _ | ⟨c1, _ | ⟨c2, rest⟩⟩
  · simp at h
  · intro c hc
    simp only [List.mem_singleton] at hc
    subst hc
    simp only [] at h
    simp [isWordChar, h]
  · simp only [Bool.and_eq_true, Bool.or_eq_true, decide_eq_true_eq, List.all_eq_true] at h
    intro c hc
    rcases List.mem_cons.mp hc with hc | hc
    · subst hc
      rcases h.1 with h1 | h1
      · simp [isWordChar, h1]
      · simp [isWordChar, h1]
    · exact h.2 c hc

theorem not_IsBashIdentifier_of_mem {s : String} {c : Char} (hc : c ∈ s.data)
    (hb : isWordChar c = false) : IsBashIdentifier s = false := by
  cases h : IsBashIdentifier s with
  | false => rfl
  | true =>
    have := isWordChar_of_IsBashIdentifier h c hc
    rw [hb] at this
    cases this

theorem isWordChar_lt {c : Char} (h : isWordChar c = true) : c.toNat < 128 := by
  simp only [isWordChar, isLetter, Bool.or_eq_true, Bool.and_eq_true, decide_eq_true_eq] at h
  rcases h with (h | h) | h
  · omega
  · omega
  · subst h
    decide

theorem Char_ofNat_large (n : Nat) (h : 128 ≤ n) :
    128 ≤ (Char.ofNat n).toNat ∨ Char.ofNat n = Char.ofNat 0 := by
  by_cases hv : n.isValidChar
  · left
    have : (Char.ofNat n).toNat = n := by
      simp only [Char.ofNat, hv, dite_true, Char.toNat, Char.ofNatAux]
      rfl
    omega
  · right
    simp only [Char.ofNat, hv, dite_false]
    rfl

theorem isWordChar_ofNat_false (n : Nat) (h : 128 ≤ n) : isWordChar (Char.ofNat n) = false := by
  rcases Char_ofNat_large n h with h1 | h1
  · cases hw : isWordChar (Char.ofNat n) with
    | false => rfl
    | true =>
      have := isWordChar_lt hw
      omega
  · rw [h1]
    decide

theorem Char_ofNat_ne_dash (n : Nat) (h : 128 ≤ n) : Char.ofNat n ≠ '-' := by
  intro heq
  rcases Char_ofNat_large n h with h1 | h1
  · rw [heq] at h1
    revert h1
    decide
  · rw [heq] at h1
    revert h1
    decide

theorem replace_dash_data (s : String) :
    (strings_Replace s '-' "_").data = s.data.map (fun c => if c = '-' then '_' else c) := by
  unfold strings_Replace
  simp only []
  induction s.data with
  | nil => rfl
  | cons c l ih =>
    rw [List.flatMap_cons, List.map_cons, ih]
    by_cases hc : c = '-'
    · rw [if_pos hc, if_pos hc]; rfl
    · rw [if_neg hc, if_neg hc]; rfl

/-! ## Theorems: `fmt.Sprintf` on the format of the keys -/

theorem FmtState.argNumber_out (s : FmtState) : s.argNumber.out = s.out := by
  unfold FmtState.argNumber
  split
  · split
    · split <;> rfl
    · rfl
  · rfl

theorem FmtState.width_out_mem (s : FmtState) (h : '%' ∈ s.out) : '%' ∈ s.width.out := by
  unfold FmtState.width
  split
  · split
    · exact List.mem_append_left _ h
    · exact h
  · exact h

theorem FmtState.precision_value_out_mem (s : FmtState) (h : '%' ∈ s.out) :
    '%' ∈ s.precision_value.out := by
  unfold FmtState.precision_value
  split
  · split
    · exact List.mem_append_left _ h
    · exact h
  · exact h

theorem FmtState.precision_out_mem (s : FmtState) (h : '%' ∈ s.out) :
    '%' ∈ s.precision.out := by
  unfold FmtState.precision
  split
  · split
    · apply FmtState.precision_value_out_mem
      rw [FmtState.argNumber_out]
      exact h
    · exact h
  · exact h

theorem FmtState.verb_out_mem (R : Rendering) (x : String) (l0 : List Char) (s s3 : FmtState)
    (hv : s.verb R x l0 = some s3) (h : '%' ∈ s.out) : '%' ∈ s3.out := by
  unfold FmtState.verb at hv
  split at hv
  · cases hv
  · split at hv
    · cases hv; exact List.mem_append_left _ h
    · split at hv
      · cases hv; exact List.mem_append_left _ h
      · split at hv
        · cases hv; exact List.mem_append_left _ h
        · cases hv; exact List.mem_append_left _ h

theorem FmtState.before_verb_out_mem (s : FmtState) (h : '%' ∈ s.out) :
    '%' ∈ s.before_verb.out := by
  have h1 : '%' ∈ s.argNumber.width.precision.out := by
    apply FmtState.precision_out_mem
    apply FmtState.width_out_mem
    rw [FmtState.argNumber_out]
    exact h
  unfold FmtState.before_verb
  split
  · exact h1
  · rw [FmtState.argNumber_out]; exact h1

theorem FmtState.noverb_out_mem (s : FmtState) : '%' ∈ s.noverb.out :=
  List.mem_append_right _ (by decide)

theorem fmt_directive_out_mem (R : Rendering) (x : String) (l0 : List Char) (s : FmtState)
    (h : '%' ∈ s.out) : '%' ∈ (fmt_directive R x l0 s).1.out := by
  unfold fmt_directive
  split
  · split
    · exact List.mem_append_left _ h
    · split
      · next s3 hv =>
        exact FmtState.verb_out_mem R x l0 _ s3 hv (FmtState.before_verb_out_mem _ h)
      · exact FmtState.noverb_out_mem _
  · exact FmtState.noverb_out_mem _

theorem FmtState.finish_mem (x : String) (s : FmtState) (h : '%' ∈ s.out) :
    '%' ∈ s.finish x := by
  unfold FmtState.finish
  split
  · exact List.mem_append_left _ h
  · exact h

/-- A `%` that has been printed stays in the result. -/
theorem fmt_doPrintf_mem_of_out (R : Rendering) (x : String) :
    ∀ (fuel : Nat) (s : FmtState), '%' ∈ s.out → '%' ∈ fmt_doPrintf R x fuel s := by
  intro fuel
  induction fuel with
  | zero => intro s h; exact FmtState.finish_mem x s h
  | succ n ih =>
    intro s h
    unfold fmt_doPrintf
    split
    · exact FmtState.finish_mem x _ (List.mem_append_left _ h)
    · next c l0 hd =>
      have h1 := fmt_directive_out_mem R x l0
        { s with out := s.out ++ s.rest.takeWhile (fun c => decide (c ≠ '%')) }
        (List.mem_append_left _ h)
      split
      · next s1 heq => rw [heq] at h1; exact ih s1 h1
      · next s1 heq => rw [heq] at h1; exact FmtState.finish_mem x s1 h1

theorem KeyTail.mono {n m : Nat} {r : List Char} (h : KeyTail n r) (hnm : n ≤ m) :
    KeyTail m r := by
  rcases h with h | ⟨b, hb, hl⟩
  · exact Or.inl h
  · exact Or.inr ⟨b, hb, le_trans hl hnm⟩

theorem fmt_skip_flags_tail (b : List Char) :
    ∃ b1 : List Char, fmt_skip_flags (b ++ ['_', '%', 's']) = b1 ++ ['_', '%', 's'] ∧
      b1.length ≤ b.length := by
  induction b with
  | nil => exact ⟨[], by decide, le_refl _⟩
  | cons c b ih =>
    by_cases hc : c = '#' ∨ c = '0' ∨ c = '+' ∨ c = '-' ∨ c = ' '
    · obtain ⟨b1, h1, h2⟩ := ih
      refine ⟨b1, ?_, Nat.le_succ_of_le h2⟩
      rw [List.cons_append, fmt_skip_flags, if_pos hc, h1]
    · refine ⟨c :: b, ?_, le_refl _⟩
      rw [List.cons_append, fmt_skip_flags, if_neg hc]

theorem fmt_parsenum_loop_tail (b : List Char) :
    ∀ (num : Nat) (isnum : Bool),
      KeyTail b.length (fmt_parsenum_loop num isnum (b ++ ['_', '%', 's'])).2.2 := by
  induction b with
  | nil =>
    intro num isnum
    rw [List.nil_append, fmt_parsenum_loop, if_neg (by decide)]
    exact Or.inr ⟨[], rfl, le_refl _⟩
  | cons c b ih =>
    intro num isnum
    rw [List.cons_append, fmt_parsenum_loop]
    split
    · split
      · exact Or.inl rfl
      · exact (ih _ _).mono (Nat.le_succ _)
    · exact Or.inr ⟨c :: b, rfl, le_refl _⟩

theorem fmt_parsenum_loop_nil (num : Nat) (isnum : Bool) :
    (fmt_parsenum_loop num isnum []).2.2 = [] := rfl

theorem fmt_parsenum_tail {n : Nat} {r : List Char} (h : KeyTail n r) :
    KeyTail n (fmt_parsenum r).2.2 := by
  rcases h with h | ⟨b, hb, hl⟩
  · rw [h]; exact Or.inl rfl
  · rw [hb]; exact (fmt_parsenum_loop_tail b 0 false).mono hl

theorem fmt_split_bracket_tail (b : List Char) :
    fmt_split_bracket (b ++ ['_', '%', 's']) = none ∨
    ∃ content b1 : List Char,
      fmt_split_bracket (b ++ ['_', '%', 's']) = some (content, b1 ++ ['_', '%', 's']) ∧
      b1.length ≤ b.length := by
  induction b with
  | nil => exact Or.inl (by decide)
  | cons c b ih =>
    rw [List.cons_append, fmt_split_bracket]
    split
    · exact Or.inr ⟨[], b, rfl, Nat.le_succ _⟩
    · rcases ih with h | ⟨content, b1, h, hl⟩
      · rw [h]; exact Or.inl rfl
      · rw [h]; exact Or.inr ⟨c :: content, b1, rfl, Nat.le_succ_of_le hl⟩

theorem fmt_parseArgNumber_tail (b : List Char) :
    ∃ b1 : List Char, (fmt_parseArgNumber (b ++ ['_', '%', 's'])).2.1 = b1 ++ ['_', '%', 's'] ∧
      b1.length ≤ b.length := by
  unfold fmt_parseArgNumber
  split
  · exact ⟨b, rfl, le_refl _⟩
  · rcases fmt_split_bracket_tail b with h | ⟨content, b1, h, hl⟩
    · rw [h]; exact ⟨b, rfl, le_refl _⟩
    · rw [h]
      refine ⟨b1, ?_, hl⟩
      dsimp only
      split <;> rfl

theorem FmtState.argNumber_tail (s : FmtState) (n : Nat) (h : KeyTail n s.rest) :
    KeyTail n s.argNumber.rest := by
  unfold FmtState.argNumber
  rcases h with h | ⟨b, hb, hl⟩
  · rw [h]; exact Or.inl rfl
  · rw [hb]
    cases b with
    | nil =>
      have : ¬ ('_' = '[') := by decide
      simp only [List.nil_append, if_neg this]
      exact Or.inr ⟨[], rfl, hl⟩
    | cons c b =>
      simp only [List.cons_append]
      obtain ⟨b1, h1, h2⟩ := fmt_parseArgNumber_tail b
      have hl1 : b1.length ≤ n := le_trans h2 (le_trans (Nat.le_succ _) hl)
      split
      · split
        · exact Or.inr ⟨b1, h1, hl1⟩
        · exact Or.inr ⟨b1, h1, hl1⟩
      · exact Or.inr ⟨c :: b, rfl, hl⟩

theorem FmtState.width_tail (s : FmtState) (n : Nat) (h : KeyTail n s.rest) :
    KeyTail n s.width.rest := by
  unfold FmtState.width
  split
  · next c tail hr =>
    split
    · rcases h with h | ⟨b, hb, hl⟩
      · rw [h] at hr; cases hr
      · cases b with
        | nil =>
          rw [hb] at hr
          injection hr with h1 h2
          subst h1
          next hc => exact absurd hc (by decide)
        | cons c1 b =>
          rw [hb] at hr
          injection hr with h1 h2
          exact Or.inr ⟨b, h2.symm, le_trans (Nat.le_succ _) hl⟩
    · exact fmt_parsenum_tail h
  · exact h

theorem FmtState.precision_value_tail (s : FmtState) (n : Nat) (h : KeyTail n s.rest) :
    KeyTail n s.precision_value.rest := by
  unfold FmtState.precision_value
  split
  · next c tail hr =>
    split
    · rcases h with h | ⟨b, hb, hl⟩
      · rw [h] at hr; cases hr
      · cases b with
        | nil =>
          rw [hb] at hr
          injection hr with h1 h2
          subst h1
          next hc => exact absurd hc (by decide)
        | cons c1 b =>
          rw [hb] at hr
          injection hr with h1 h2
          exact Or.inr ⟨b, h2.symm, le_trans (Nat.le_succ _) hl⟩
    · exact fmt_parsenum_tail h
  · exact h

theorem FmtState.precision_tail (s : FmtState) (n : Nat) (h : KeyTail n s.rest) :
    KeyTail n s.precision.rest := by
  unfold FmtState.precision
  split
  · next c tail hr =>
    split
    · apply FmtState.precision_value_tail
      apply FmtState.argNumber_tail
      rcases h with h | ⟨b, hb, hl⟩
      · rw [h] at hr; cases hr
      · cases b with
        | nil =>
          rw [hb] at hr
          injection hr with h1 h2
          subst h1
          next hc => exact absurd hc (by decide)
        | cons c1 b =>
          rw [hb] at hr
          injection hr with h1 h2
          exact Or.inr ⟨b, h2.symm, le_trans (Nat.le_succ _) hl⟩
    · exact h
  · exact h

theorem FmtState.before_verb_tail (s : FmtState) (n : Nat) (h : KeyTail n s.rest) :
    KeyTail n s.before_verb.rest := by
  have h1 : KeyTail n s.argNumber.width.precision.rest :=
    FmtState.precision_tail _ n (FmtState.width_tail _ n (FmtState.argNumber_tail _ n h))
  unfold FmtState.before_verb
  split
  · exact h1
  · exact FmtState.argNumber_tail _ n h1

/-- What a loop of `doPrintf` needs to print a `%` on a format that ends with `_%s`: a
`%` is printed already, or the operand is used up and what is left of the format is
`%s`, or ends with `_%s`, and is shorter than `m`. -/
theorem FmtState.verb_tail (R : Rendering) (x : String) (l0 : List Char) (s s3 : FmtState)
    (n : Nat) (h : KeyTail n s.rest) (hv : s.verb R x l0 = some s3) :
    '%' ∈ s3.out ∨ (1 ≤ s3.argNum ∧
      (s3.rest = ['%', 's'] ∨ ∃ b : List Char, s3.rest = b ++ ['_', '%', 's'] ∧ b.length < n)) := by
  unfold FmtState.verb at hv
  split at hv
  · cases hv
  · next c tail hr =>
    split at hv
    · cases hv; exact Or.inl (List.mem_append_right _ (by decide))
    · split at hv
      · cases hv
        exact Or.inl (List.mem_append_right _ (List.mem_append_left _ (by decide)))
      · split at hv
        · cases hv
          exact Or.inl (List.mem_append_right _ (List.mem_append_left _ (by decide)))
        · cases hv
          refine Or.inr ⟨Nat.le_add_left _ _, ?_⟩
          rcases h with h | ⟨b, hb, hl⟩
          · rw [h] at hr; cases hr
          · cases b with
            | nil =>
              rw [hb] at hr
              injection hr with h1 h2
              exact Or.inl h2.symm
            | cons c1 b =>
              rw [hb] at hr
              injection hr with h1 h2
              exact Or.inr ⟨b, h2.symm, hl⟩

theorem fmt_directive_slow_tail (R : Rendering) (x : String) (l0 : List Char) (s : FmtState)
    (n : Nat) (h : KeyTail n s.rest) :
    '%' ∈ (match s.before_verb.verb R x l0 with
      | some s3 => (s3, true)
      | none => (s.before_verb.noverb, false)).1.out ∨
    ((match s.before_verb.verb R x l0 with
      | some s3 => (s3, true)
      | none => (s.before_verb.noverb, false)).2 = true ∧
     1 ≤ (match s.before_verb.verb R x l0 with
      | some s3 => (s3, true)
      | none => (s.before_verb.noverb, false)).1.argNum ∧
     ((match s.before_verb.verb R x l0 with
      | some s3 => (s3, true)
      | none => (s.before_verb.noverb, false)).1.rest = ['%', 's'] ∨
      ∃ b1 : List Char, (match s.before_verb.verb R x l0 with
      | some s3 => (s3, true)
      | none => (s.before_verb.noverb, false)).1.rest = b1 ++ ['_', '%', 's'] ∧
        b1.length < n)) := by
  cases hv : s.before_verb.verb R x l0 with
  | none => exact Or.inl (FmtState.noverb_out_mem _)
  | some s3 =>
    rcases FmtState.verb_tail R x l0 _ s3 n (FmtState.before_verb_tail s n h) hv with h1 | h1
    · exact Or.inl h1
    · exact Or.inr ⟨rfl, h1⟩

/-- One directive of a format that ends with `_%s`, when the directive starts before the
`_`: a `%` is printed, or the loop goes on with the operand used up and with a format left
that is `%s` or ends with `_%s`. -/
theorem fmt_directive_tail (R : Rendering) (x : String) (b : List Char) (s : FmtState) :
    '%' ∈ (fmt_directive R x (b ++ ['_', '%', 's']) s).1.out ∨
    ((fmt_directive R x (b ++ ['_', '%', 's']) s).2 = true ∧
     1 ≤ (fmt_directive R x (b ++ ['_', '%', 's']) s).1.argNum ∧
     ((fmt_directive R x (b ++ ['_', '%', 's']) s).1.rest = ['%', 's'] ∨
      ∃ b1 : List Char, (fmt_directive R x (b ++ ['_', '%', 's']) s).1.rest =
          b1 ++ ['_', '%', 's'] ∧ b1.length < b.length)) := by
  obtain ⟨b0, h0, hl0⟩ := fmt_skip_flags_tail b
  unfold fmt_directive
  rw [h0]
  cases b0 with
  | nil =>
    simp only [List.nil_append]
    rw [if_neg (fun h => absurd h.1 (by decide))]
    exact fmt_directive_slow_tail R x _ _ b.length (Or.inr ⟨[], rfl, Nat.zero_le _⟩)
  | cons c b0 =>
    simp only [List.cons_append]
    split
    · exact Or.inr ⟨rfl, Nat.le_add_left _ _, Or.inr ⟨b0, rfl, hl0⟩⟩
    · exact fmt_directive_slow_tail R x _ _ b.length (Or.inr ⟨c :: b0, rfl, hl0⟩)

/-- The directive `%s` at the end of the format, when the operand is used up: `%!s(MISSING)`
is printed. -/
theorem fmt_directive_last (R : Rendering) (x : String) (s : FmtState) (h : 1 ≤ s.argNum) :
    '%' ∈ (fmt_directive R x ['s'] s).1.out := by
  have h1 : ¬ s.argNum < 1 := Nat.not_lt.mpr h
  simp [fmt_directive, fmt_skip_flags, h1, FmtState.before_verb, FmtState.argNumber,
    FmtState.width, FmtState.precision, fmt_parsenum, fmt_parsenum_loop, FmtState.verb, h]

theorem dropWhile_tail (b : List Char) :
    ('%' ∈ b → ∃ b2 : List Char,
      (b ++ ['_', '%', 's']).dropWhile (fun c => decide (c ≠ '%')) =
        '%' :: (b2 ++ ['_', '%', 's']) ∧ b2.length < b.length) ∧
    ('%' ∉ b →
      (b ++ ['_', '%', 's']).dropWhile (fun c => decide (c ≠ '%')) = ['%', 's']) := by
  induction b with
  | nil => exact ⟨fun h => absurd h (List.not_mem_nil _), fun _ => by decide⟩
  | cons c b ih =>
    by_cases hc : c = '%'
    · subst hc
      refine ⟨fun _ => ⟨b, ?_, Nat.lt_succ_self _⟩, fun h => absurd (List.mem_cons_self _ _) h⟩
      simp [List.dropWhile]
    · have h1 : (c :: b ++ ['_', '%', 's']).dropWhile (fun c => decide (c ≠ '%')) =
          (b ++ ['_', '%', 's']).dropWhile (fun c => decide (c ≠ '%')) := by
        rw [List.cons_append, List.dropWhile_cons_of_pos (by simp [hc])]
      rw [h1]
      refine ⟨fun h => ?_, fun h => ih.2 (fun hb => h (List.mem_cons_of_mem _ hb))⟩
      rcases List.mem_cons.mp h with h2 | h2
      · exact absurd h2.symm hc
      · obtain ⟨b2, h3, h4⟩ := ih.1 h2
        exact ⟨b2, h3, Nat.lt_succ_of_lt h4⟩

/-- The loop of `doPrintf` on a format that ends with `_%s`, or on its last directive
`%s`: when a `%` comes before the `_%s`, or when the operand is used up, the text
printed holds a `%`. -/
theorem fmt_doPrintf_tail (R : Rendering) (x : String) :
    ∀ (fuel : Nat) (s : FmtState), s.rest.length < fuel →
      ((∃ b : List Char, s.rest = b ++ ['_', '%', 's'] ∧ ('%' ∈ b ∨ 1 ≤ s.argNum)) ∨
        (s.rest = ['%', 's'] ∧ 1 ≤ s.argNum)) →
      '%' ∈ fmt_doPrintf R x fuel s := by
  intro fuel
  induction fuel with
  | zero => intro s h; exact absurd h (Nat.not_lt_zero _)
  | succ n ih =>
    intro s hlen h
    have key : ∀ (l0 : List Char) (s0 : FmtState),
        ('%' ∈ (fmt_directive R x l0 s0).1.out ∨
          ((fmt_directive R x l0 s0).2 = true ∧ 1 ≤ (fmt_directive R x l0 s0).1.argNum ∧
            (fmt_directive R x l0 s0).1.rest.length < n ∧
            ((fmt_directive R x l0 s0).1.rest = ['%', 's'] ∨
              ∃ b1 : List Char, (fmt_directive R x l0 s0).1.rest = b1 ++ ['_', '%', 's']))) →
        '%' ∈ (match fmt_directive R x l0 s0 with
          | (s1, true) => fmt_doPrintf R x n s1
          | (s1, false) => s1.finish x) := by
      intro l0 s0 hd
      rcases hr : fmt_directive R x l0 s0 with ⟨s1, c⟩
      rw [hr] at hd
      rcases hd with hd | ⟨hc, ha, hl, hf⟩
      · cases c with
        | true => exact fmt_doPrintf_mem_of_out R x n s1 hd
        | false => exact FmtState.finish_mem x s1 hd
      · dsimp only at hc ha hl hf
        subst hc
        refine ih s1 hl ?_
        rcases hf with hf | ⟨b1, hf⟩
        · exact Or.inr ⟨hf, ha⟩
        · exact Or.inl ⟨b1, hf, Or.inr ha⟩
    have last : ∀ s0 : FmtState, 1 ≤ s0.argNum →
        '%' ∈ (match fmt_directive R x ['s'] s0 with
          | (s1, true) => fmt_doPrintf R x n s1
          | (s1, false) => s1.finish x) :=
      fun s0 h0 => key _ _ (Or.inl (fmt_directive_last R x s0 h0))
    have mid : ∀ (b b2 : List Char) (s0 : FmtState), s.rest = b ++ ['_', '%', 's'] →
        b2.length < b.length →
        '%' ∈ (match fmt_directive R x (b2 ++ ['_', '%', 's']) s0 with
          | (s1, true) => fmt_doPrintf R x n s1
          | (s1, false) => s1.finish x) := by
      intro b b2 s0 hb hl2
      have hn : b.length + 3 ≤ n := by
        have := hlen
        rw [hb, List.length_append] at this
        exact Nat.le_of_lt_succ this
      apply key
      rcases fmt_directive_tail R x b2 s0 with hd | ⟨hc, ha, hf⟩
      · exact Or.inl hd
      · refine Or.inr ⟨hc, ha, ?_, ?_⟩
        · rcases hf with hf | ⟨b1, hf, hl1⟩
          · rw [hf]
            exact lt_of_lt_of_le (by simp) hn
          · rw [hf, List.length_append]
            exact lt_of_lt_of_le (Nat.add_lt_add_right (lt_trans hl1 hl2) 3) hn
        · rcases hf with hf | ⟨b1, hf, _⟩
          · exact Or.inl hf
          · exact Or.inr ⟨b1, hf⟩
    unfold fmt_doPrintf
    rcases h with ⟨b, hb, hor⟩ | ⟨hb, ha⟩
    · by_cases hmem : '%' ∈ b
      · obtain ⟨b2, hd, hl2⟩ := (dropWhile_tail b).1 hmem
        rw [← hb] at hd
        simp only [hd]
        exact mid b b2 _ hb hl2
      · have hd := (dropWhile_tail b).2 hmem
        have ha : 1 ≤ s.argNum := hor.resolve_left hmem
        rw [← hb] at hd
        simp only [hd]
        exact last _ ha
    · have hd : s.rest.dropWhile (fun c => decide (c ≠ '%')) = ['%', 's'] := by
        rw [hb]; decide
      simp only [hd]
      exact last _ ha

/-- With no `%` before it, the directive `%s` prints the operand after the text of the
format. -/
theorem Sprintf_plain (R : Rendering) (pre x : List Char) (h : '%' ∉ pre) :
    Sprintf R ⟨pre ++ ['%', 's']⟩ ⟨x⟩ = ⟨pre ++ x⟩ := by
  have hd : (pre ++ ['%', 's']).dropWhile (fun c => decide (c ≠ '%')) = ['%', 's'] := by
    induction pre with
    | nil => rfl
    | cons c l ih =>
      have hc : c ≠ '%' := fun hc => h (by simp [hc])
      rw [List.cons_append, List.dropWhile_cons_of_pos (by simp [hc])]
      exact ih (fun hl => h (List.mem_cons_of_mem _ hl))
  have ht : (pre ++ ['%', 's']).takeWhile (fun c => decide (c ≠ '%')) = pre := by
    clear hd
    induction pre with
    | nil => rfl
    | cons c l ih =>
      have hc : c ≠ '%' := fun hc => h (by simp [hc])
      rw [List.cons_append, List.takeWhile_cons_of_pos (by simp [hc])]
      rw [ih (fun hl => h (List.mem_cons_of_mem _ hl))]
  unfold Sprintf
  simp only [List.length_append, List.length_cons, List.length_nil]
  congr 1
  rw [show pre.length + (0 + 1 + 1) + 1 = (pre.length + 1) + 1 + 1 from rfl]
  rw [fmt_doPrintf]
  simp only [hd, ht]
  simp [fmt_directive, fmt_skip_flags, fmt_printArg, fmt_doPrintf, FmtState.finish]

/-- With a `%` before it, the text `_%s` at the end of a format leaves a `%` in what is
printed. -/
theorem Sprintf_percent (R : Rendering) (pre : List Char) (x : String) (h : '%' ∈ pre) :
    '%' ∈ (Sprintf R ⟨pre ++ ['_', '%', 's']⟩ x).data := by
  unfold Sprintf
  exact fmt_doPrintf_tail R x _ _ (Nat.lt_succ_self _) (Or.inl ⟨pre, rfl, Or.inl h⟩)

theorem fmt_skip_flags_length (l : List Char) : (fmt_skip_flags l).length ≤ l.length := by
  induction l with
  | nil => exact le_refl _
  | cons c l ih =>
    rw [fmt_skip_flags]
    split
    · exact Nat.le_succ_of_le ih
    · exact le_refl _

theorem fmt_parsenum_loop_length (l : List Char) :
    ∀ (num : Nat) (isnum : Bool), (fmt_parsenum_loop num isnum l).2.2.length ≤ l.length := by
  induction l with
  | nil => intro num isnum; exact le_refl _
  | cons c l ih =>
    intro num isnum
    rw [fmt_parsenum_loop]
    split
    · split
      · exact Nat.zero_le _
      · exact Nat.le_succ_of_le (ih _ _)
    · exact le_refl _

theorem fmt_split_bracket_length (l : List Char) :
    ∀ content after : List Char, fmt_split_bracket l = some (content, after) →
      after.length < l.length := by
  induction l with
  | nil => intro content after h; cases h
  | cons c l ih =>
    intro content after h
    rw [fmt_split_bracket] at h
    split at h
    · cases h; exact Nat.lt_succ_self _
    · cases hs : fmt_split_bracket l with
      | none => rw [hs] at h; cases h
      | some r =>
        rw [hs] at h
        cases h
        exact Nat.lt_succ_of_lt (ih r.1 r.2 hs)

theorem fmt_parseArgNumber_length (tail : List Char) :
    (fmt_parseArgNumber tail).2.1.length ≤ tail.length := by
  unfold fmt_parseArgNumber
  split
  · exact le_refl _
  · cases hs : fmt_split_bracket tail with
    | none => exact le_refl _
    | some r =>
      have h := Nat.le_of_lt (fmt_split_bracket_length tail r.1 r.2 hs)
      dsimp only
      split
      · exact h
      · exact h

theorem FmtState.argNumber_length (s : FmtState) : s.argNumber.rest.length ≤ s.rest.length := by
  unfold FmtState.argNumber
  split
  · next c tail hr =>
    rw [hr]
    split
    · split
      · exact Nat.le_succ_of_le (fmt_parseArgNumber_length tail)
      · exact Nat.le_succ_of_le (fmt_parseArgNumber_length tail)
    · exact le_refl _
  · next hr => exact le_refl _

theorem FmtState.width_length (s : FmtState) : s.width.rest.length ≤ s.rest.length := by
  unfold FmtState.width
  split
  · next c tail hr =>
    split
    · rw [hr]; exact Nat.le_succ _
    · exact fmt_parsenum_loop_length _ _ _
  · exact le_refl _

theorem FmtState.precision_value_length (s : FmtState) :
    s.precision_value.rest.length ≤ s.rest.length := by
  unfold FmtState.precision_value
  split
  · next c tail hr =>
    split
    · rw [hr]; exact Nat.le_succ _
    · exact fmt_parsenum_loop_length _ _ _
  · exact le_refl _

theorem FmtState.precision_length (s : FmtState) :
    s.precision.rest.length ≤ s.rest.length := by
  unfold FmtState.precision
  split
  · next c tail hr =>
    split
    · refine le_trans (FmtState.precision_value_length _) ?_
      refine le_trans (FmtState.argNumber_length _) ?_
      rw [hr]
      exact Nat.le_succ _
    · exact le_refl _
  · exact le_refl _

theorem FmtState.before_verb_length (s : FmtState) :
    s.before_verb.rest.length ≤ s.rest.length := by
  have h1 : s.argNumber.width.precision.rest.length ≤ s.rest.length :=
    le_trans (FmtState.precision_length _)
      (le_trans (FmtState.width_length _) (FmtState.argNumber_length _))
  unfold FmtState.before_verb
  split
  · exact h1
  · exact le_trans (FmtState.argNumber_length _) h1

theorem FmtState.verb_length (R : Rendering) (x : String) (l0 : List Char) (s s3 : FmtState)
    (hv : s.verb R x l0 = some s3) : s3.rest.length < s.rest.length := by
  unfold FmtState.verb at hv
  split at hv
  · cases hv
  · next c tail hr =>
    rw [hr]
    split at hv
    · cases hv; exact Nat.lt_succ_self _
    · split at hv
      · cases hv; exact Nat.lt_succ_self _
      · split at hv
        · cases hv; exact Nat.lt_succ_self _
        · cases hv; exact Nat.lt_succ_self _

/-- A directive passes the characters it reads: what is left of the format after it is no
longer than what came after its `%`. -/
theorem fmt_directive_length (R : Rendering) (x : String) (l0 : List Char) (s : FmtState) :
    (fmt_directive R x l0 s).1.rest.length ≤ l0.length := by
  have hf := fmt_skip_flags_length l0
  unfold fmt_directive
  split
  · next c tail hs =>
    rw [hs] at hf
    split
    · exact le_trans (Nat.le_succ _) hf
    · have hb := FmtState.before_verb_length
        { s with goodArgNum := true, rest := c :: tail }
      split
      · next s3 hv =>
        exact le_trans (Nat.le_of_lt (FmtState.verb_length R x l0 _ s3 hv)) (le_trans hb hf)
      · exact le_trans hb hf
  · next hs =>
    exact le_trans (FmtState.before_verb_length { s with goodArgNum := true, rest := [] })
      (Nat.zero_le _)

theorem dropWhile_length_le (l : List Char) :
    (l.dropWhile (fun c => decide (c ≠ '%'))).length ≤ l.length := by
  induction l with
  | nil => exact le_refl _
  | cons c l ih =>
    rw [List.dropWhile_cons]
    split
    · exact Nat.le_succ_of_le ih
    · exact le_refl _

/-- The bound on the iterations of the loop of `doPrintf` is never reached when it is
larger than the length of what is left of the format: any two such bounds give the same
text. -/
theorem fmt_doPrintf_fuel (R : Rendering) (x : String) :
    ∀ (fuel1 fuel2 : Nat) (s : FmtState), s.rest.length < fuel1 → s.rest.length < fuel2 →
      fmt_doPrintf R x fuel1 s = fmt_doPrintf R x fuel2 s := by
  intro fuel1
  induction fuel1 with
  | zero => intro fuel2 s h; exact absurd h (Nat.not_lt_zero _)
  | succ n ih =>
    intro fuel2 s h1 h2
    cases fuel2 with
    | zero => exact absurd h2 (Nat.not_lt_zero _)
    | succ m =>
      unfold fmt_doPrintf
      have hd := dropWhile_length_le s.rest
      split
      · rfl
      · next c l0 hdw =>
        rw [hdw] at hd
        have hl := fmt_directive_length R x l0
          { s with out := s.out ++ s.rest.takeWhile (fun c => decide (c ≠ '%')) }
        have hl0 : l0.length < s.rest.length := hd
        rcases hr : fmt_directive R x l0
          { s with out := s.out ++ s.rest.takeWhile (fun c => decide (c ≠ '%')) } with ⟨s1, b⟩
        rw [hr] at hl
        cases b with
        | false => rfl
        | true =>
          have hs1 : s1.rest.length < s.rest.length := lt_of_le_of_lt hl hl0
          exact ih m s1 (lt_of_lt_of_le hs1 (Nat.le_of_lt_succ h1))
            (lt_of_lt_of_le hs1 (Nat.le_of_lt_succ h2))

/-- With a prefix that holds no `%`, the formatting through `key_fmt` puts the prefix and
`_` in front of the name, or nothing when the prefix is empty. -/
theorem Sprintf_key_ok (d : Docopts) (R : Rendering) (x : String)
    (h : '%' ∉ d.Global_prefix.data) :
    Sprintf_key R d.key_fmt x =
      (if d.Global_prefix ≠ "" then d.Global_prefix ++ "_" else "") ++ x := by
  unfold Sprintf_key Docopts.key_fmt
  by_cases hp : d.Global_prefix ≠ ""
  · rw [if_pos hp, if_pos hp]
    have h1 : d.Global_prefix ++ "_%s" = ⟨(d.Global_prefix.data ++ ['_']) ++ ['%', 's']⟩ := by
      apply String.ext
      rw [String.data_append]
      show _ ++ ['_', '%', 's'] = _
      simp
    have h2 : '%' ∉ d.Global_prefix.data ++ ['_'] := by
      simp only [List.mem_append, List.mem_singleton, not_or]
      exact ⟨h, by decide⟩
    rw [h1, show x = ⟨x.data⟩ from rfl, Sprintf_plain R _ _ h2]
    apply String.ext
    simp [String.data_append]
  · rw [if_neg hp, if_neg hp]
    have h1 : ("%s" : String) = ⟨[] ++ ['%', 's']⟩ := rfl
    rw [h1, show x = ⟨x.data⟩ from rfl, Sprintf_plain R _ _ (List.not_mem_nil _)]
    apply String.ext
    simp [String.data_append]

/-- With a prefix that holds a `%`, what the formatting through `key_fmt` prints holds a
`%`. -/
theorem Sprintf_key_percent (d : Docopts) (R : Rendering) (x : String)
    (h : '%' ∈ d.Global_prefix.data) :
    '%' ∈ (Sprintf_key R d.key_fmt x).data := by
  unfold Sprintf_key Docopts.key_fmt
  have hp : d.Global_prefix ≠ "" := by
    intro h0
    rw [h0] at h
    exact absurd h (List.not_mem_nil _)
  rw [if_pos hp]
  have h1 : d.Global_prefix ++ "_%s" = ⟨d.Global_prefix.data ++ ['_', '%', 's']⟩ := by
    apply String.ext
    rw [String.data_append]
  rw [h1]
  exact Sprintf_percent R _ x h

theorem Match_angle_cons (c : Char) (rest : List Char) :
    Match_angle ⟨c :: rest⟩ =
      (decide (c = '<') && decide (rest.getLast? = some '>') &&
        rest.dropLast.all (fun x => decide (x ≠ '\n'))) := rfl

theorem Match_short_two (c1 c2 : Char) :
    Match_short ⟨[c1, c2]⟩ = (decide (c1 = '-') && decide (c2 ≠ '-')) := rfl

theorem Match_short_three (c1 c2 c3 : Char) (rest : List Char) :
    Match_short ⟨c1 :: c2 :: c3 :: rest⟩ = false := rfl

theorem Match_long_two (c1 c2 : Char) : Match_long ⟨[c1, c2]⟩ = false := rfl

theorem Match_long_three (c1 c2 c3 : Char) (rest : List Char) :
    Match_long ⟨c1 :: c2 :: c3 :: rest⟩ =
      (decide (c1 = '-') && decide (c2 = '-') &&
        (c3 :: rest).all (fun x => decide (x ≠ '\n'))) := rfl

theorem mangle_body_cons (c1 c2 : Char) (rest : List Char) :
    mangle_body ⟨c1 :: c2 :: rest⟩ =
      if c1 = '<' ∧ (c2 :: rest).getLast? = some '>' then String.mk (c2 :: rest).dropLast
      else if c1 = '-' ∧ c2 ≠ '-' ∧ rest = [] then String.mk [c2]
      else if c1 = '-' ∧ c2 = '-' ∧ rest ≠ [] then String.mk rest
      else ⟨c1 :: c2 :: rest⟩ := rfl

theorem exists_newline_of_not_all (l : List Char)
    (h : ¬ l.all (fun x => decide (x ≠ '\n')) = true) : '\n' ∈ l := by
  induction l with
  | nil => simp at h
  | cons c l ih =>
    by_cases hc : c = '\n'
    · simp [hc]
    · refine List.mem_cons_of_mem _ (ih ?_)
      intro hl
      apply h
      simp only [List.all_cons, Bool.and_eq_true, decide_eq_true_eq]
      exact ⟨hc, hl⟩

/-- The stripping done by `Name_mangle` gives the body of the specification, or else both
hold a character that is not a letter, digit, `_` or `-`. -/
theorem Name_mangle_strip_body (elem : String) :
    Name_mangle_strip elem = mangle_body elem ∨
      ((∃ c ∈ (Name_mangle_strip elem).data, isWordChar c = false ∧ c ≠ '-') ∧
        (∃ c ∈ (mangle_body elem).data, isWordChar c = false ∧ c ≠ '-')) := by
  obtain ⟨l⟩ := elem
  rcases l with _ | ⟨c1, _ | ⟨c2, rest⟩⟩
  · left
    rfl
  · left
    have h1 : Match_angle ⟨[c1]⟩ = false := by
      rw [Match_angle_cons]
      simp
    have h2 : Match_short ⟨[c1]⟩ = false := rfl
    have h3 : Match_long ⟨[c1]⟩ = false := rfl
    have hb : mangle_body ⟨[c1]⟩ = ⟨[c1]⟩ := rfl
    rw [hb]
    unfold Name_mangle_strip
    rw [h1, h2, h3]
    rfl
  · by_cases hA : c1 = '<' ∧ (c2 :: rest).getLast? = some '>'
    · obtain ⟨hA1, hA2⟩ := hA
      subst hA1
      have hb : mangle_body ⟨'<' :: c2 :: rest⟩ = ⟨(c2 :: rest).dropLast⟩ := by
        rw [mangle_body_cons, if_pos ⟨rfl, hA2⟩]
      rw [hb]
      by_cases hnl : (c2 :: rest).dropLast.all (fun x => decide (x ≠ '\n')) = true
      · left
        have h1 : Match_angle ⟨'<' :: c2 :: rest⟩ = true := by
          rw [Match_angle_cons, hnl, hA2]
          rfl
        unfold Name_mangle_strip
        rw [h1]
        rfl
      · right
        have hx := exists_newline_of_not_all _ hnl
        have h1 : Match_angle ⟨'<' :: c2 :: rest⟩ = false := by
          rw [Match_angle_cons]
          simp only [Bool.not_eq_true] at hnl
          rw [hnl]
          simp
        have h2 : Match_short ⟨'<' :: c2 :: rest⟩ = false := by
          cases rest with
          | nil => rw [Match_short_two]; rfl
          | cons c3 r3 => rfl
        have h3 : Match_long ⟨'<' :: c2 :: rest⟩ = false := by
          cases rest with
          | nil => rfl
          | cons c3 r3 => rw [Match_long_three]; rfl
        have hs : Name_mangle_strip ⟨'<' :: c2 :: rest⟩ = ⟨'<' :: c2 :: rest⟩ := by
          unfold Name_mangle_strip
          rw [h1, h2, h3]
          rfl
        rw [hs]
        exact ⟨⟨'<', List.mem_cons_self _ _, by decide, by decide⟩,
          ⟨'\n', hx, by decide, by decide⟩⟩
    · have h1 : Match_angle ⟨c1 :: c2 :: rest⟩ = false := by
        cases h : Match_angle ⟨c1 :: c2 :: rest⟩ with
        | false => rfl
        | true =>
          exfalso
          rw [Match_angle_cons] at h
          simp only [Bool.and_eq_true, decide_eq_true_eq] at h
          exact hA ⟨h.1.1, h.1.2⟩
      by_cases hB : c1 = '-' ∧ c2 ≠ '-' ∧ rest = []
      · obtain ⟨hB1, hB2, hB3⟩ := hB
        subst hB1 hB3
        have h2 : Match_short ⟨['-', c2]⟩ = true := by
          rw [Match_short_two]
          simp [hB2]
        have hs : Name_mangle_strip ⟨['-', c2]⟩ = Sprintf_c_byte1 c2 := by
          unfold Name_mangle_strip
          rw [h1, h2]
          rfl
        have hb : mangle_body ⟨['-', c2]⟩ = ⟨[c2]⟩ := by
          rw [mangle_body_cons, if_neg hA, if_pos ⟨rfl, hB2, rfl⟩]
        rw [hs, hb]
        by_cases h128 : c2.toNat < 128
        · left
          unfold Sprintf_c_byte1 utf8_first_byte
          rw [if_pos h128, Char.ofNat_toNat]
          rfl
        · right
          have hn : 128 ≤ utf8_first_byte c2 := by
            unfold utf8_first_byte
            rw [if_neg h128]
            split
            · omega
            · split <;> omega
          have hw2 : isWordChar c2 = false := by
            cases hw : isWordChar c2 with
            | false => rfl
            | true => exact absurd (isWordChar_lt hw) h128
          exact ⟨⟨Char.ofNat (utf8_first_byte c2), List.mem_singleton.mpr rfl,
            isWordChar_ofNat_false _ hn, Char_ofNat_ne_dash _ hn⟩,
            ⟨c2, List.mem_singleton.mpr rfl, hw2, hB2⟩⟩
      · have h2 : Match_short ⟨c1 :: c2 :: rest⟩ = false := by
          cases h : Match_short ⟨c1 :: c2 :: rest⟩ with
          | false => rfl
          | true =>
            exfalso
            cases rest with
            | nil =>
              rw [Match_short_two] at h
              simp only [Bool.and_eq_true, decide_eq_true_eq] at h
              exact hB ⟨h.1, h.2, rfl⟩
            | cons c3 r3 => rw [Match_short_three] at h; cases h
        by_cases hC : c1 = '-' ∧ c2 = '-' ∧ rest ≠ []
        · obtain ⟨hC1, hC2, hC3⟩ := hC
          subst hC1 hC2
          obtain ⟨c3, rest3, hrest⟩ := List.exists_cons_of_ne_nil hC3
          subst hrest
          have hb : mangle_body ⟨'-' :: '-' :: c3 :: rest3⟩ = ⟨c3 :: rest3⟩ := by
            rw [mangle_body_cons, if_neg hA, if_neg hB, if_pos ⟨rfl, rfl, hC3⟩]
          rw [hb]
          by_cases hnl : (c3 :: rest3).all (fun x => decide (x ≠ '\n')) = true
          · left
            have h3 : Match_long ⟨'-' :: '-' :: c3 :: rest3⟩ = true := by
              rw [Match_long_three, hnl]
              rfl
            unfold Name_mangle_strip
            rw [h1, h2, h3]
            rfl
          · right
            have hx := exists_newline_of_not_all _ hnl
            have h3 : Match_long ⟨'-' :: '-' :: c3 :: rest3⟩ = false := by
              rw [Match_long_three]
              simp only [Bool.not_eq_true] at hnl
              rw [hnl]
              rfl
            have hs : Name_mangle_strip ⟨'-' :: '-' :: c3 :: rest3⟩ =
                ⟨'-' :: '-' :: c3 :: rest3⟩ := by
              unfold Name_mangle_strip
              rw [h1, h2, h3]
              rfl
            rw [hs]
            exact ⟨⟨'\n', List.mem_cons_of_mem _ (List.mem_cons_of_mem _ hx), by decide,
              by decide⟩, ⟨'\n', hx, by decide, by decide⟩⟩
        · left
          have h3 : Match_long ⟨c1 :: c2 :: rest⟩ = false := by
            cases h : Match_long ⟨c1 :: c2 :: rest⟩ with
            | false => rfl
            | true =>
              exfalso
              cases rest with
              | nil => rw [Match_long_two] at h; cases h
              | cons c3 r3 =>
                rw [Match_long_three] at h
                simp only [Bool.and_eq_true, decide_eq_true_eq] at h
                exact hC ⟨h.1.1, h.1.2, List.cons_ne_nil _ _⟩
          have hb : mangle_body ⟨c1 :: c2 :: rest⟩ = ⟨c1 :: c2 :: rest⟩ := by
            rw [mangle_body_cons, if_neg hA, if_neg hB, if_neg hC]
          rw [hb]
          unfold Name_mangle_strip
          rw [h1, h2, h3]
          rfl

theorem strings_Replace_dash (s : String) :
    strings_Replace s '-' "_" = String.mk (s.data.map fun c => if c = '-' then '_' else c) :=
  String.ext (replace_dash_data s)

theorem not_IsBashIdentifier_append (p s : String) (c : Char)
    (hc : c ∈ s.data) (hw : isWordChar c = false) (hd : c ≠ '-') :
    IsBashIdentifier (p ++ String.mk (s.data.map fun c => if c = '-' then '_' else c)) = false := by
  apply not_IsBashIdentifier_of_mem (c := c) _ hw
  rw [String.data_append]
  apply List.mem_append_right
  show c ∈ s.data.map fun c => if c = '-' then '_' else c
  rw [List.mem_map]
  exact ⟨c, hc, by rw [if_neg hd]⟩

/-- The words of the specification on what `IsBashIdentifier` accepts. -/
theorem IsBashIdentifier_iff (s : String) :
    IsBashIdentifier s = true ↔
      (∃ c, s.data = [c] ∧ isLetter c = true) ∨
      (∃ c rest, s.data = c :: rest ∧ rest ≠ [] ∧ (isLetter c = true ∨ c = '_') ∧
        ∀ x ∈ rest, isWordChar x = true) := by
  obtain ⟨l⟩ := s
  unfold IsBashIdentifier
  rcases l with _ | ⟨c1, _ | ⟨c2, rest⟩⟩
  · simp
  · simp
  · simp only [Bool.and_eq_true, Bool.or_eq_true, decide_eq_true_eq, List.all_eq_true]
    constructor
    · intro h
      exact Or.inr ⟨c1, c2 :: rest, rfl, List.cons_ne_nil _ _, h.1, h.2⟩
    · intro h
      rcases h with ⟨c, hc, _⟩ | ⟨c, r, hc, _, h1, h2⟩
      · simp at hc
      · simp only [List.cons.injEq] at hc
        obtain ⟨rfl, rfl⟩ := hc
        exact ⟨h1, h2⟩

/-- What `Name_mangle` does past its first test: it returns the name of the specification
when that name passes `IsBashIdentifier`, and the error on the name it built when it does
not. -/
theorem Name_mangle_eq (d : Docopts) (R : Rendering) (elem : String)
    (hg : ¬ (d.Global_prefix = "" ∧ (elem = "-" ∨ elem = "--"))) :
    d.Name_mangle R elem =
      if IsBashIdentifier (mangled_name d elem) = false then
        Out.error (DocoptsErr.cannot_transform elem
          (Sprintf_key R d.key_fmt (strings_Replace (Name_mangle_strip elem) '-' "_")))
      else Out.ok (mangled_name d elem) := by
  unfold Docopts.Name_mangle
  rw [if_neg hg]
  by_cases hfmt : '%' ∈ d.Global_prefix.data
  · have h1 : IsBashIdentifier
        (Sprintf_key R d.key_fmt (strings_Replace (Name_mangle_strip elem) '-' "_")) = false :=
      not_IsBashIdentifier_of_mem (Sprintf_key_percent d R _ hfmt) (by decide)
    have hp : d.Global_prefix ≠ "" := by
      intro h0
      rw [h0] at hfmt
      exact absurd hfmt (List.not_mem_nil _)
    have h2 : IsBashIdentifier (mangled_name d elem) = false := by
      apply not_IsBashIdentifier_of_mem (c := '%') _ (by decide)
      unfold mangled_name
      rw [if_pos hp, String.data_append, String.data_append]
      exact List.mem_append_left _ (List.mem_append_left _ hfmt)
    rw [if_pos h1, if_pos h2]
  · rw [Sprintf_key_ok d R _ hfmt]
    rcases Name_mangle_strip_body elem with h | ⟨⟨c, hc, hw, hd⟩, ⟨c1, hc1, hw1, hd1⟩⟩
    · have hv : (if d.Global_prefix ≠ "" then d.Global_prefix ++ "_" else "") ++
          strings_Replace (Name_mangle_strip elem) '-' "_" = mangled_name d elem := by
        rw [h, strings_Replace_dash]
        rfl
      rw [hv]
    · have h1 : IsBashIdentifier ((if d.Global_prefix ≠ "" then d.Global_prefix ++ "_" else "") ++
          strings_Replace (Name_mangle_strip elem) '-' "_") = false := by
        rw [strings_Replace_dash]
        exact not_IsBashIdentifier_append _ _ c hc hw hd
      have h2 : IsBashIdentifier (mangled_name d elem) = false :=
        not_IsBashIdentifier_append _ _ c1 hc1 hw1 hd1
      rw [if_pos h1, if_pos h2]

/-- C31 as amended: with `v` the name in the words of the specification (`mangled_name`),
whatever the prefix and whatever `fmt` prints for the directives of a prefix that holds
`%`: `Name_mangle` returns an error when the prefix is empty and `elem` is `-` or `--`;
otherwise it returns `v` with no error when `v` satisfies `IsBashIdentifier` and an error
when it does not; every result it returns with no error is `v`, satisfies
`IsBashIdentifier` and holds no `-`.  `IsBashIdentifier` accepts a single ASCII letter, or
an ASCII letter or `_` followed by one or more ASCII letters, digits or `_`. -/
theorem Name_mangle_spec (d : Docopts) (R : Rendering) (elem : String) :
    (d.Global_prefix = "" ∧ (elem = "-" ∨ elem = "--") →
      d.Name_mangle R elem = Out.error (DocoptsErr.mangling_not_supported elem)) ∧
    (¬ (d.Global_prefix = "" ∧ (elem = "-" ∨ elem = "--")) →
      (IsBashIdentifier (mangled_name d elem) = true →
        d.Name_mangle R elem = Out.ok (mangled_name d elem)) ∧
      (IsBashIdentifier (mangled_name d elem) = false →
        ∃ v, d.Name_mangle R elem = Out.error (DocoptsErr.cannot_transform elem v))) ∧
    (∀ v, d.Name_mangle R elem = Out.ok v →
      v = mangled_name d elem ∧ IsBashIdentifier v = true ∧ '-' ∉ v.data) ∧
    (∀ s : String, IsBashIdentifier s = true ↔
      (∃ c, s.data = [c] ∧ isLetter c = true) ∨
      (∃ c rest, s.data = c :: rest ∧ rest ≠ [] ∧ (isLetter c = true ∨ c = '_') ∧
        ∀ x ∈ rest, isWordChar x = true)) := by
  refine ⟨fun hg => ?_, fun hg => ⟨fun hv => ?_, fun hv => ?_⟩, fun v hv => ?_,
    IsBashIdentifier_iff⟩
  · unfold Docopts.Name_mangle
    rw [if_pos hg]
  · rw [Name_mangle_eq d R elem hg, if_neg (by rw [hv]; decide)]
  · rw [Name_mangle_eq d R elem hg, if_pos hv]
    exact ⟨_, rfl⟩
  · by_cases hg : d.Global_prefix = "" ∧ (elem = "-" ∨ elem = "--")
    · unfold Docopts.Name_mangle at hv
      rw [if_pos hg] at hv
      cases hv
    · rw [Name_mangle_eq d R elem hg] at hv
      by_cases hi : IsBashIdentifier (mangled_name d elem) = false
      · rw [if_pos hi] at hv
        cases hv
      · rw [if_neg hi] at hv
        cases hv
        have hi1 : IsBashIdentifier (mangled_name d elem) = true := by
          simpa using hi
        refine ⟨rfl, hi1, fun hm => ?_⟩
        have := isWordChar_of_IsBashIdentifier hi1 _ hm
        revert this
        decide

set_option maxRecDepth 100000 in
/-- C31 on `--dry-run` with the prefix `ARGS`: the result is `ARGS_dry_run`; on `--file`
with the prefix `a%d`, neither the name of the specification nor the name the code builds
is an identifier, and the code returns its error. -/
theorem Name_mangle_spec_witness :
    prefixed.Name_mangle badVerbRendering "--dry-run" =
      Out.ok (mangled_name prefixed "--dry-run") ∧
    mangled_name prefixed "--dry-run" = "ARGS_dry_run" ∧
    unprefixed.Name_mangle badVerbRendering "-é" =
      Out.error (DocoptsErr.cannot_transform "-é" "Ã") ∧
    mangled_name percentPrefixed "--file" = "a%d_file" ∧
    (∃ v, percentPrefixed.Name_mangle badVerbRendering "--file" =
      Out.error (DocoptsErr.cannot_transform "--file" v)) ∧
    percentPrefixed.Name_mangle badVerbRendering "--file" =
      Out.error (DocoptsErr.cannot_transform "--file" "a%!d(string=file)_%!s(MISSING)") :=
  ⟨((Name_mangle_spec prefixed badVerbRendering "--dry-run").2.1 (by decide)).1 (by decide),
    by decide, by decide, by decide,
    ((Name_mangle_spec percentPrefixed badVerbRendering "--file").2.1 (by decide)).2 (by decide),
    by decide⟩

set_option maxRecDepth 100000 in
/-- C31 fails on `--`: with an empty prefix `Name_mangle` returns an error although the
name of the specification, `__`, satisfies `IsBashIdentifier`; with the prefix `ARGS` it
returns `ARGS___`: the body of `--` is `--` itself, none of the three patterns applies to
it. -/
theorem Name_mangle_refuses_double_dash :
    unprefixed.Name_mangle badVerbRendering "--" =
      Out.error (DocoptsErr.mangling_not_supported "--") ∧
    mangled_name unprefixed "--" = "__" ∧
    IsBashIdentifier (mangled_name unprefixed "--") = true ∧
    prefixed.Name_mangle badVerbRendering "--" = Out.ok "ARGS___" :=
  ⟨by decide, by decide, by decide, by decide⟩

theorem shell_decode_true_quote (rest : List Char) :
    shell_decode true ('\'' :: rest) = shell_decode false rest := by
  simp [shell_decode]

theorem shell_decode_true_other (c : Char) (rest : List Char) (h : c ≠ '\'') :
    shell_decode true (c :: rest) = (shell_decode true rest).map (fun r => c :: r) := by
  simp [shell_decode, h]

theorem shell_decode_false_quote (c : Char) (rest : List Char) :
    shell_decode false ('\'' :: c :: rest) = shell_decode true (c :: rest) := by
  simp [shell_decode]

theorem shell_decode_false_escaped (rest : List Char) :
    shell_decode false ('\\' :: '\'' :: rest) =
      (shell_decode false rest).map (fun r => '\'' :: r) := by
  simp [shell_decode]

theorem shell_decode_quoted (l : List Char) :
    shell_decode true
      ((l.flatMap fun c => if c = '\'' then ['\'', '\\', '\'', '\''] else [c]) ++ ['\'']) =
      some l := by
  induction l with
  | nil => simp [shell_decode]
  | cons c l ih =>
    by_cases hc : c = '\''
    · subst hc
      simp only [List.flatMap_cons, if_true, List.cons_append, List.nil_append]
      cases hX : (l.flatMap fun c => if c = '\'' then ['\'', '\\', '\'', '\''] else [c]) ++
          ['\''] with
      | nil => simp at hX
      | cons x X =>
        rw [hX] at ih
        rw [shell_decode_true_quote, shell_decode_false_escaped, shell_decode_false_quote, ih]
        rfl
    · simp only [List.flatMap_cons, if_neg hc, List.cons_append, List.nil_append]
      rw [shell_decode_true_other _ _ hc, ih]
      rfl

theorem Shellquote_data (s : String) :
    (Shellquote s).data =
      s.data.flatMap fun c => if c = '\'' then ['\'', '\\', '\'', '\''] else [c] := rfl

/-- Decoding the quoted form of `s` gives `s` back. -/
theorem shell_decode_Shellquote (s : String) :
    shell_decode false ("'" ++ Shellquote s ++ "'").data = some s.data := by
  rw [String.data_append, String.data_append, Shellquote_data]
  have h1 : ("'" : String).data = ['\''] := rfl
  rw [h1]
  cases hX : (s.data.flatMap fun c => if c = '\'' then ['\'', '\\', '\'', '\''] else [c]) ++
      ['\''] with
  | nil => simp at hX
  | cons x X =>
    have h := shell_decode_quoted s.data
    rw [hX] at h
    simp only [List.cons_append, List.nil_append, List.append_assoc]
    rw [hX, shell_decode_false_quote, h]

/-- C32: for a string `s`, `To_bash` returns a quote, `Shellquote(s)` and a quote;
`Shellquote` replaces every `'` of `s` by the four characters `'\''` and leaves the other
characters as they are; decoding the result of `To_bash` by the single-quoting rules of
the shell gives `s`; and `Shellquote` is injective. -/
theorem To_bash_quoting_round_trip :
    (∀ s : String, To_bash (OptValue.str s) = some ("'" ++ Shellquote s ++ "'")) ∧
    (∀ s : String, (Shellquote s).data =
      s.data.flatMap fun c => if c = '\'' then ['\'', '\\', '\'', '\''] else [c]) ∧
    (∀ s : String, ∃ t : String, To_bash (OptValue.str s) = some t ∧
      shell_decode false t.data = some s.data) ∧
    Function.Injective Shellquote := by
  refine ⟨fun _ => rfl, Shellquote_data, fun s => ⟨_, rfl, shell_decode_Shellquote s⟩, ?_⟩
  intro s t h
  have hs := shell_decode_Shellquote s
  rw [h, shell_decode_Shellquote t] at hs
  exact String.ext (Option.some.inj hs).symm

/-- C32 on the text `it's`: it is written `'it'\''s'`, which the shell reads back as
`it's`. -/
theorem To_bash_quoting_round_trip_witness :
    To_bash (OptValue.str "it's") = some "'it'\\''s'" ∧
    shell_decode false ("'it'\\''s'" : String).data = some ("it's" : String).data :=
  ⟨by decide, by
    obtain ⟨t, h1, h2⟩ := To_bash_quoting_round_trip.2.2.1 "it's"
    have h3 : To_bash (OptValue.str "it's") = some "'it'\\''s'" := by decide
    rw [h3] at h1
    rw [Option.some.inj h1]
    exact h2⟩

/-! ## Theorems: Print_bash_global -/

theorem chars_le_total : ∀ a b : List Char, chars_le a b = true ∨ chars_le b a = true
  | [], _ => Or.inl rfl
  | _ :: _, [] => Or.inr rfl
  | a :: s, b :: t => by
    simp only [chars_le, Bool.or_eq_true, Bool.and_eq_true, decide_eq_true_eq]
    rcases Nat.lt_trichotomy a.toNat b.toNat with h | h | h
    · exact Or.inl (Or.inl h)
    · rcases chars_le_total s t with h1 | h1
      · exact Or.inl (Or.inr ⟨h, h1⟩)
      · exact Or.inr (Or.inr ⟨h.symm, h1⟩)
    · exact Or.inr (Or.inl h)

theorem chars_le_trans : ∀ a b c : List Char, chars_le a b = true → chars_le b c = true →
    chars_le a c = true
  | [], _, _, _, _ => rfl
  | _ :: _, [], _, h, _ => by simp [chars_le] at h
  | _ :: _, _ :: _, [], _, h => by simp [chars_le] at h
  | a :: s, b :: t, c :: u, h1, h2 => by
    simp only [chars_le, Bool.or_eq_true, Bool.and_eq_true, decide_eq_true_eq] at h1 h2 ⊢
    rcases h1 with h1 | ⟨h1, h1'⟩
    · rcases h2 with h2 | ⟨h2, _⟩
      · exact Or.inl (by omega)
      · exact Or.inl (by omega)
    · rcases h2 with h2 | ⟨h2, h2'⟩
      · exact Or.inl (by omega)
      · exact Or.inr ⟨by omega, chars_le_trans s t u h1' h2'⟩

/-- The keys come out of `Sort_args_keys` in increasing order, and they are the keys of the
map. -/
theorem Sort_args_keys_sorted (args : List (String × OptValue)) :
    List.Sorted string_le (Sort_args_keys args) ∧
      (Sort_args_keys args).Perm (args.map Prod.fst) :=
  ⟨@List.sorted_insertionSort _ string_le _ ⟨fun a b => chars_le_total a.data b.data⟩
      ⟨fun a b c => chars_le_trans a.data b.data c.data⟩ _,
    List.perm_insertionSort _ _⟩

theorem varmap_get_cons (n k m : String) (vm : List (String × String)) :
    varmap_get ((n, k) :: vm) m = if n = m then some k else varmap_get vm m := by
  unfold varmap_get
  by_cases h : n = m
  · simp [List.find?, h]
  · simp [List.find?, h]

theorem To_bash_args_get (args : List (String × OptValue))
    (h : ∀ kv ∈ args, kv.2 ≠ OptValue.other) (key : String) :
    ∃ b, To_bash (args_get args key) = some b := by
  have hv : args_get args key ≠ OptValue.other := by
    unfold args_get
    cases hf : args.find? (fun kv => decide (kv.1 = key)) with
    | none => simp
    | some kv => exact h kv (List.mem_of_find?_eq_some hf)
  cases hx : args_get args key with
  | other => exact absurd hx hv
  | bool b => exact ⟨_, rfl⟩
  | int i => exact ⟨_, rfl⟩
  | str s => exact ⟨_, rfl⟩
  | strs arr =>
    unfold To_bash
    simp only []
    split
    · exact ⟨_, rfl⟩
    · exact ⟨_, rfl⟩
  | nil => exact ⟨_, rfl⟩

/-- The `switch` of `Print_bash_global` skips a skipped key and gives any other key its
output name. -/
theorem Print_bash_global_switch_eq (d : Docopts) (R : Rendering) (new_name key : String)
    (hn : d.Key_output ≠ Mangled → d.Key_output ≠ Verbatim → d.Key_output ≠ Docopt_sh →
      new_name = "") :
    d.Print_bash_global_switch R new_name key =
      if d.skipped key = true then Out.ok none
      else (d.output_name R key).andThen fun v => Out.ok (some v) := by
  unfold Docopts.Print_bash_global_switch Docopts.output_name Docopts.skipped
  by_cases h1 : d.Key_output = Mangled
  · by_cases h2 : key = "--" ∧ d.Global_prefix = ""
    · simp [h1, h2.1, h2.2]
    · have h3 : ¬ (d.Key_output = Mangled ∧ key = "--" ∧ d.Global_prefix = "") :=
        fun h => h2 h.2
      simp only [if_pos h1, if_neg h2, decide_eq_true_eq, if_neg h3]
  · have h3 : ¬ (d.Key_output = Mangled ∧ key = "--" ∧ d.Global_prefix = "") :=
      fun h => h1 h.1
    simp only [if_neg h1, decide_eq_true_eq, if_neg h3]
    by_cases h2 : d.Key_output = Verbatim
    · simp only [if_pos h2]
      rfl
    · simp only [if_neg h2]
      by_cases h4 : d.Key_output = Docopt_sh
      · simp only [if_pos h4]
        cases d.Replace_with_undercore key with
        | ok v => rfl
        | error e => rfl
        | panic => rfl
      · simp only [if_neg h4, hn h1 h2 h4]
        rfl

/-- One iteration of the loop of `Print_bash_global` that returns: the key is skipped and
nothing changes, or the key has an output name that is not yet in `varmap`, its value has a
bash form, and the line is appended to the buffer. -/
theorem Print_bash_global_key_ok (d : Docopts) (R : Rendering)
    (args : List (String × OptValue))
    (st st1 : PrintState) (key : String)
    (hn : d.Key_output ≠ Mangled → d.Key_output ≠ Verbatim → d.Key_output ≠ Docopt_sh →
      st.new_name = "")
    (h : d.Print_bash_global_key R args st key = Out.ok st1) :
    (d.skipped key = true ∧ st1 = st) ∨
    (d.skipped key = false ∧ ∃ n line, d.output_name R key = Out.ok n ∧
      d.output_line R args key = some line ∧ varmap_get st.varmap n = none ∧
      st1 = { new_name := n, varmap := (n, key) :: st.varmap, out_buf := st.out_buf ++ line }) := by
  unfold Docopts.Print_bash_global_key at h
  rw [Print_bash_global_switch_eq d R st.new_name key hn] at h
  by_cases hs : d.skipped key = true
  · rw [if_pos hs] at h
    left
    exact ⟨hs, by cases h; rfl⟩
  · rw [if_neg hs] at h
    right
    refine ⟨by simpa using hs, ?_⟩
    cases hname : d.output_name R key with
    | error e => rw [hname] at h; cases h
    | panic => rw [hname] at h; cases h
    | ok n =>
      rw [hname] at h
      simp only [Out.andThen] at h
      cases hv : varmap_get st.varmap n with
      | some prev => rw [hv] at h; cases h
      | none =>
        rw [hv] at h
        simp only [] at h
        cases hb : To_bash (args_get args key) with
        | none => rw [hb] at h; cases h
        | some b =>
          rw [hb] at h
          simp only [] at h
          cases h
          refine ⟨n, n ++ "=" ++ b ++ "\n", rfl, ?_, hv, rfl⟩
          unfold Docopts.output_line
          rw [hname, hb]

/-- A run of the loop of `Print_bash_global` that returns: every key that is not skipped
has an output name and a line, the names are pairwise distinct and were not in `varmap`,
and the lines were appended to the buffer in the order of the keys. -/
theorem Print_bash_global_loop_ok (d : Docopts) (R : Rendering)
    (args : List (String × OptValue)) :
    ∀ (ks : List String) (st st1 : PrintState),
      (d.Key_output ≠ Mangled → d.Key_output ≠ Verbatim → d.Key_output ≠ Docopt_sh →
        st.new_name = "") →
      d.Print_bash_global_loop R args ks st = Out.ok st1 →
      ∃ (names lines : List String),
        (ks.filter fun k => !d.skipped k).map (d.output_name R) = names.map Out.ok ∧
        (ks.filter fun k => !d.skipped k).map (d.output_line R args) = lines.map some ∧
        names.Nodup ∧ (∀ n ∈ names, varmap_get st.varmap n = none) ∧
        st1.out_buf = st.out_buf ++ lines.foldr (fun l acc => l ++ acc) "" := by
  intro ks
  induction ks with
  | nil =>
    intro st st1 _ h
    cases h
    exact ⟨[], [], rfl, rfl, List.nodup_nil, fun _ hm => (by cases hm), by simp⟩
  | cons key rest ih =>
    intro st st1 hn h
    unfold Docopts.Print_bash_global_loop at h
    cases hk : d.Print_bash_global_key R args st key with
    | error e => rw [hk] at h; cases h
    | panic => rw [hk] at h; cases h
    | ok st2 =>
      rw [hk] at h
      simp only [Out.andThen] at h
      rcases Print_bash_global_key_ok d R args st st2 key hn hk with ⟨hs, rfl⟩ |
        ⟨hs, n, line, hname, hline, hv, rfl⟩
      · obtain ⟨names, lines, h1, h2, h3, h4, h5⟩ := ih st2 st1 hn h
        refine ⟨names, lines, ?_, ?_, h3, h4, h5⟩
        · rw [List.filter_cons_of_neg (by simp [hs])]
          exact h1
        · rw [List.filter_cons_of_neg (by simp [hs])]
          exact h2
      · obtain ⟨names, lines, h1, h2, h3, h4, h5⟩ := ih _ st1 (fun a b c => by
          have := hn a b c
          unfold Docopts.output_name at hname
          rw [if_neg a, if_neg b, if_neg c] at hname
          cases hname
          rfl) h
        refine ⟨n :: names, line :: lines, ?_, ?_, ?_, ?_, ?_⟩
        · rw [List.filter_cons_of_pos (by simp [hs]), List.map_cons, hname, h1]
          rfl
        · rw [List.filter_cons_of_pos (by simp [hs]), List.map_cons, hline, h2]
          rfl
        · refine List.nodup_cons.mpr ⟨fun hmem => ?_, h3⟩
          have := h4 n hmem
          rw [varmap_get_cons, if_pos rfl] at this
          cases this
        · intro m hm
          rcases List.mem_cons.mp hm with hm | hm
          · rw [hm]; exact hv
          · have := h4 m hm
            rw [varmap_get_cons] at this
            by_cases hnm : n = m
            · rw [if_pos hnm] at this; cases this
            · rw [if_neg hnm] at this; exact this
        · rw [h5]
          simp only [List.foldr_cons]
          rw [String.append_assoc]

/-- When every value has a bash form and every key that is not skipped has an output name
or an error, the loop of `Print_bash_global` returns, with or without error. -/
theorem Print_bash_global_loop_returns (d : Docopts) (R : Rendering)
    (args : List (String × OptValue))
    (hv : ∀ kv ∈ args, kv.2 ≠ OptValue.other) :
    ∀ (ks : List String) (st : PrintState),
      (d.Key_output ≠ Mangled → d.Key_output ≠ Verbatim → d.Key_output ≠ Docopt_sh →
        st.new_name = "") →
      (∀ k ∈ ks, d.skipped k = false →
        (∃ n, d.output_name R k = Out.ok n) ∨ (∃ e, d.output_name R k = Out.error e)) →
      (∃ st1, d.Print_bash_global_loop R args ks st = Out.ok st1) ∨
        (∃ e, d.Print_bash_global_loop R args ks st = Out.error e) := by
  intro ks
  induction ks with
  | nil => intro st _ _; exact Or.inl ⟨st, rfl⟩
  | cons key rest ih =>
    intro st hn hks
    unfold Docopts.Print_bash_global_loop
    have hrest : ∀ k ∈ rest, d.skipped k = false →
        (∃ n, d.output_name R k = Out.ok n) ∨ (∃ e, d.output_name R k = Out.error e) :=
      fun k hk => hks k (List.mem_cons_of_mem _ hk)
    have hkey : d.Print_bash_global_key R args st key =
        if d.skipped key = true then Out.ok st
        else (d.output_name R key).andThen fun new_name =>
          match varmap_get st.varmap new_name with
          | some prev_key => Out.error (DocoptsErr.identical_names prev_key)
          | none =>
            match To_bash (args_get args key) with
            | none => Out.panic
            | some b =>
              Out.ok { new_name := new_name, varmap := (new_name, key) :: st.varmap,
                       out_buf := st.out_buf ++ (new_name ++ "=" ++ b ++ "\n") } := by
      unfold Docopts.Print_bash_global_key
      rw [Print_bash_global_switch_eq d R st.new_name key hn]
      by_cases hs : d.skipped key = true
      · rw [if_pos hs, if_pos hs]; rfl
      · rw [if_neg hs, if_neg hs]
        cases d.output_name R key with
        | ok v => rfl
        | error e => rfl
        | panic => rfl
    rw [hkey]
    by_cases hs : d.skipped key = true
    · rw [if_pos hs]
      exact ih st hn hrest
    · rw [if_neg hs]
      rcases hks key (List.mem_cons_self _ _) (by simpa using hs) with ⟨n, hname⟩ | ⟨e, hname⟩
      · rw [hname]
        simp only [Out.andThen]
        cases hvm : varmap_get st.varmap n with
        | some prev => exact Or.inr ⟨_, rfl⟩
        | none =>
          obtain ⟨b, hb⟩ := To_bash_args_get args hv key
          rw [hb]
          simp only []
          refine ih _ (fun a b c => ?_) hrest
          unfold Docopts.output_name at hname
          rw [if_neg a, if_neg b, if_neg c] at hname
          cases hname
          rfl
      · rw [hname]
        exact Or.inr ⟨e, rfl⟩

/-- Every key has an output name or an error. -/
theorem output_name_returns (d : Docopts) (R : Rendering) (key : String) :
    (∃ n, d.output_name R key = Out.ok n) ∨ (∃ e, d.output_name R key = Out.error e) := by
  unfold Docopts.output_name
  by_cases h1 : d.Key_output = Mangled
  · rw [if_pos h1]
    unfold Docopts.Name_mangle
    split
    · exact Or.inr ⟨_, rfl⟩
    · split
      · exact Or.inr ⟨_, rfl⟩
      · exact Or.inl ⟨_, rfl⟩
  · rw [if_neg h1]
    by_cases h2 : d.Key_output = Verbatim
    · rw [if_pos h2]
      exact Or.inl ⟨_, rfl⟩
    · rw [if_neg h2]
      by_cases h3 : d.Key_output = Docopt_sh
      · rw [if_pos h3]
        unfold Docopts.Replace_with_undercore
        split
        · exact Or.inr ⟨_, rfl⟩
        · exact Or.inl ⟨_, rfl⟩
      · rw [if_neg h3]
        exact Or.inl ⟨_, rfl⟩

/-- C36 as amended: `Print_bash_global` goes through the keys in increasing order.  When
it returns an error (or does not return) it has written nothing.  When it returns nil,
every key that is not skipped has an output name, these names are pairwise distinct, and
what it has written is the lines `name=value` of these keys, one per key, in the order of
the keys.  Whenever a key that is not skipped cannot be given a name, or two distinct keys
that are not skipped are given the same name, it does not return nil; and it returns an
error when, besides, every value has a type `To_bash` supports. -/
theorem Print_bash_global_spec (d : Docopts) (R : Rendering)
    (args : List (String × OptValue)) :
    (List.Sorted string_le (Sort_args_keys args) ∧
      (Sort_args_keys args).Perm (args.map Prod.fst)) ∧
    (∀ (r : Out Unit) (out : String), d.Print_bash_global R args = (r, out) → r ≠ Out.ok () →
      out = "") ∧
    (∀ out : String, d.Print_bash_global R args = (Out.ok (), out) →
      ∃ (names lines : List String),
        ((Sort_args_keys args).filter fun k => !d.skipped k).map (d.output_name R) =
          names.map Out.ok ∧
        names.Nodup ∧
        ((Sort_args_keys args).filter fun k => !d.skipped k).map (d.output_line R args) =
          lines.map some ∧
        out = lines.foldr (fun l acc => l ++ acc) "") ∧
    (((∃ k ∈ (Sort_args_keys args).filter fun k => !d.skipped k,
          ∃ e, d.output_name R k = Out.error e) ∨
        (∃ k1 ∈ (Sort_args_keys args).filter fun k => !d.skipped k,
          ∃ k2 ∈ (Sort_args_keys args).filter fun k => !d.skipped k,
            k1 ≠ k2 ∧ d.output_name R k1 = d.output_name R k2)) →
      (∀ out : String, d.Print_bash_global R args ≠ (Out.ok (), out)) ∧
      ((∀ kv ∈ args, kv.2 ≠ OptValue.other) →
        ∃ e, d.Print_bash_global R args = (Out.error e, ""))) := by
  have hok : ∀ out : String, d.Print_bash_global R args = (Out.ok (), out) →
      ∃ (names lines : List String),
        ((Sort_args_keys args).filter fun k => !d.skipped k).map (d.output_name R) =
          names.map Out.ok ∧
        names.Nodup ∧
        ((Sort_args_keys args).filter fun k => !d.skipped k).map (d.output_line R args) =
          lines.map some ∧
        out = lines.foldr (fun l acc => l ++ acc) "" := by
    intro out h
    unfold Docopts.Print_bash_global at h
    cases hl : d.Print_bash_global_loop R args (Sort_args_keys args) ⟨"", [], ""⟩ with
    | error e => rw [hl] at h; cases h
    | panic => rw [hl] at h; cases h
    | ok st =>
      rw [hl] at h
      cases h
      obtain ⟨names, lines, h1, h2, h3, _, h5⟩ :=
        Print_bash_global_loop_ok d R args _ _ st (fun _ _ _ => rfl) hl
      refine ⟨names, lines, h1, h3, h2, ?_⟩
      rw [h5]
      show "" ++ _ = _
      rw [String.empty_append]
  have hnot : ((∃ k ∈ (Sort_args_keys args).filter fun k => !d.skipped k,
          ∃ e, d.output_name R k = Out.error e) ∨
        (∃ k1 ∈ (Sort_args_keys args).filter fun k => !d.skipped k,
          ∃ k2 ∈ (Sort_args_keys args).filter fun k => !d.skipped k,
            k1 ≠ k2 ∧ d.output_name R k1 = d.output_name R k2)) →
      ∀ out : String, d.Print_bash_global R args ≠ (Out.ok (), out) := by
    intro hbad out hp
    obtain ⟨names, lines, h1, h2, _, _⟩ := hok _ hp
    have hname : ∀ k ∈ (Sort_args_keys args).filter fun k => !d.skipped k,
        ∃ n, n ∈ names ∧ d.output_name R k = Out.ok n := by
      intro k hk
      have hm : d.output_name R k ∈ names.map Out.ok := by
        rw [← h1]
        exact List.mem_map_of_mem _ hk
      obtain ⟨n, hn, hn1⟩ := List.mem_map.mp hm
      exact ⟨n, hn, hn1.symm⟩
    rcases hbad with ⟨k, hk, e, he⟩ | ⟨k1, hk1, k2, hk2, hne, heq⟩
    · obtain ⟨n, _, hn⟩ := hname k hk
      rw [he] at hn
      cases hn
    · have hinj : Function.Injective (Out.ok : String → Out String) :=
        fun a b hab => by cases hab; rfl
      have hnd : (((Sort_args_keys args).filter fun k => !d.skipped k).map
          (d.output_name R)).Nodup := by
        rw [h1]
        exact h2.map hinj
      exact hne (List.inj_on_of_nodup_map hnd hk1 hk2 heq)
  refine ⟨Sort_args_keys_sorted args, fun r out h hr => ?_, hok,
    fun hbad => ⟨hnot hbad, fun hv => ?_⟩⟩
  · unfold Docopts.Print_bash_global at h
    cases hl : d.Print_bash_global_loop R args (Sort_args_keys args) ⟨"", [], ""⟩ with
    | ok st => rw [hl] at h; cases h; exact absurd rfl hr
    | error e => rw [hl] at h; cases h; rfl
    | panic => rw [hl] at h; cases h; rfl
  · rcases Print_bash_global_loop_returns d R args hv (Sort_args_keys args) ⟨"", [], ""⟩
        (fun _ _ _ => rfl) (fun k _ _ => output_name_returns d R k) with ⟨st, hl⟩ | ⟨e, hl⟩
    · exfalso
      have hp : d.Print_bash_global R args = (Out.ok (), st.out_buf) := by
        unfold Docopts.Print_bash_global
        rw [hl]
      exact hnot hbad _ hp
    · refine ⟨e, ?_⟩
      unfold Docopts.Print_bash_global
      rw [hl]

set_option maxRecDepth 100000 in
/-- C36 on concrete arguments: with the settings of `main`, the keys `--dry-run`,
`<file>`, `--` and `FILE` are written as three lines in the order of the keys, `--` being
skipped; the keys `<file>` and `--file`, both given the name `file`, make
`Print_bash_global` return an error with nothing written; with the prefix `p%%` in the mode
`Docopt_sh` the names hold a `%` and are written as they are. -/
theorem Print_bash_global_spec_witness :
    Sort_args_keys sampleArgs = ["--", "--dry-run", "<file>", "FILE"] ∧
    unprefixed.Print_bash_global badVerbRendering sampleArgs =
      (Out.ok (), "dry_run=true\nfile='it'\\''s'\nFILE=('a' 'b c')\n") ∧
    unprefixed.Print_bash_global badVerbRendering clashArgs =
      (Out.error (DocoptsErr.identical_names "--file"), "") ∧
    (∃ e, unprefixed.Print_bash_global badVerbRendering clashArgs = (Out.error e, "")) ∧
    percentDocopt_sh.Print_bash_global badVerbRendering clashArgs =
      (Out.ok (), "p%___file=true\np%__a=2\np%__file_='x'\n") :=
  ⟨by decide, by decide, by decide,
    ((Print_bash_global_spec unprefixed badVerbRendering clashArgs).2.2.2
      (Or.inr ⟨"--file", by decide, "<file>", by decide, by decide, by decide⟩)).2 (by decide),
    by decide⟩

set_option maxRecDepth 100000 in
/-- C36 fails on a value of a type `To_bash` does not support: the keys `<file>` and
`--file` are both given the name `file`, and `Print_bash_global` panics on the value of
`--file`, the first key in the order of the keys, before it has met the second name. -/
theorem Print_bash_global_panics_before_clash :
    Sort_args_keys unsupportedArgs = ["--file", "-a", "<file>"] ∧
    unprefixed.skipped "--file" = false ∧ unprefixed.skipped "<file>" = false ∧
    unprefixed.output_name badVerbRendering "--file" = Out.ok "file" ∧
    unprefixed.output_name badVerbRendering "<file>" = Out.ok "file" ∧
    To_bash (args_get unsupportedArgs "--file") = none ∧
    unprefixed.Print_bash_global badVerbRendering unsupportedArgs = (Out.panic, "") :=
  ⟨by decide, by decide, by decide, by decide, by decide, by decide, by decide⟩

end DocoptLanguage
